import Mathlib

/-!
# PDBStore: a shallow embedding of `features/pdbstore/pdbstore.c`

The store keeps small named blobs in three areas (read-only, writable, staging) of one or
two banks of erase-before-program memory.  The embedding follows the C source function by
function:

* bytes and 32-bit words are natural numbers; every `uint32_t` sum of the source is taken
  modulo `2 ^ 32` (`u32`), every byte taken out of a header modulo `256`;
* the static variables of `pdbstore.c` (`bank_params`, `area_params`, `initialized`,
  `big_endian`, `free_space_offset`) together with the contents of the banks form the
  explicit state `Store`;
* a `void *` is either a caller buffer (a list of bytes) or an address inside a bank;
* the media adapters (`prog_func`, `erase_func`) are the ones of the functionality test
  (`eeprom_prog`, `eeprom_erase`), with the bank size and erase value of the bank;
* `while` loops take a fuel argument, supplied by the callers with the size of the area.
-/

namespace PDBStore

/-- Status codes of `pdbstore.h`. -/
inductive PDBSTORE_status_e where
  | PDBSTORE_SUCCESS
  | PDBSTORE_READ_ERROR
  | PDBSTORE_WRITE_ERROR
  | PDBSTORE_NOT_FOUND
  | PDBSTORE_DATA_CORRUPT
  | PDBSTORE_INVALID_ARGUMENT
  | PDBSTORE_KEY_IS_READONLY
  | PDBSTORE_MEDIA_FULL
  | PDBSTORE_INTERNAL_ERROR
  | PDBSTORE_NOT_INITIALIZED
  deriving DecidableEq, Repr

open PDBSTORE_status_e

/-- Area indices of `pdbstore_int.h`. -/
inductive area_index_e where
  | AREA_INDEX_READONLY
  | AREA_INDEX_WRITABLE
  | AREA_INDEX_STAGING
  deriving DecidableEq, Repr

open area_index_e

def PDBSTORE_MAX_BANKS : Nat := 2

def PDBSTORE_MAX_KEY_SIZE : Nat := 16

def PDBSTORE_MAX_DATA_SIZE : Nat := 1024

def PDBSTORE_RESILIENT_FLAG : Nat := 1

def INITIAL_CRC : Nat := 0xFFFFFFFF

def DELETE_FLAG : Nat := 0x80

def SUPPORTED_USER_FLAGS : Nat := PDBSTORE_RESILIENT_FLAG

def WORK_BUF_SIZE : Nat := 16

/-- The packed `record_header_t` takes `2 + 1 + 1 + 4` bytes. -/
def sizeof_header : Nat := 8

/-- Size of the `crc` field of the header. -/
def sizeof_crc : Nat := 4

/-- Offset of the `flags` field inside the packed header. -/
def offsetof_flags : Nat := 3

/-- Reduction of a sum or difference to `uint32_t`. -/
def u32 (x : Nat) : Nat := x % 4294967296

/-- The fields of `pdbstore_bank_params_t` that are plain data. The memory behind
`bank_base` is `Store.mem`; the adapters are `bank_prog` and `bank_erase`. -/
structure pdbstore_bank_params_t where
  bank_size : Nat
  start_offset : Nat
  erase_val : Nat

/-- The record `pdbstore_area_params_t`; `bank` is the index of the bank the
`bank_params` pointer refers to. -/
structure pdbstore_area_params_t where
  address : Nat
  size : Nat
  bank : Nat

/-- A pointer into the memory of a bank (`bank_base + address`). -/
structure media_ptr where
  bank : Nat
  addr : Nat
  deriving DecidableEq, Repr

/-- A `const void *` handed to the store: a caller buffer, or a pointer into a bank. -/
inductive data_buf where
  | buf (bytes : List Nat)
  | media (p : media_ptr)

/-- The static state of `pdbstore.c` and the contents of the banks. -/
structure Store where
  num_banks : Nat
  bank_params : Nat → pdbstore_bank_params_t
  area_params : area_index_e → pdbstore_area_params_t
  initialized : Bool
  big_endian : Bool
  free_space_offset : Nat
  mem : Nat → Nat → Nat
  host_big_endian : Bool

/-- Bytes `[addr, addr + n)` of a bank. -/
def mem_read (s : Store) (bank addr n : Nat) : List Nat :=
  (List.range n).map (fun i => s.mem bank (addr + i))

/-- The first `n` bytes a buffer pointer refers to, in the current state. -/
def buf_bytes (s : Store) (d : data_buf) (n : Nat) : List Nat :=
  match d with
  | data_buf.buf bytes => (List.range n).map (fun i => bytes.getD i 0)
  | data_buf.media p => mem_read s p.bank p.addr n

/-- The value of a `uint16_t` lying in memory as the bytes `b0 b1`. -/
def load16 (host_be : Bool) (b0 b1 : Nat) : Nat :=
  if host_be then (b0 % 256) * 256 + b1 % 256 else b0 % 256 + (b1 % 256) * 256

/-- The value of a `uint32_t` lying in memory as the bytes `b0 b1 b2 b3`. -/
def load32 (host_be : Bool) (b0 b1 b2 b3 : Nat) : Nat :=
  if host_be then (b0 % 256) * 16777216 + (b1 % 256) * 65536 + (b2 % 256) * 256 + b3 % 256
  else b0 % 256 + (b1 % 256) * 256 + (b2 % 256) * 65536 + (b3 % 256) * 16777216

/-- The bytes a `uint16_t` occupies in memory. -/
def store16 (host_be : Bool) (v : Nat) : List Nat :=
  if host_be then [v / 256 % 256, v % 256] else [v % 256, v / 256 % 256]

/-- The bytes a `uint32_t` occupies in memory. -/
def store32 (host_be : Bool) (v : Nat) : List Nat :=
  if host_be then [v / 16777216 % 256, v / 65536 % 256, v / 256 % 256, v % 256]
  else [v % 256, v / 256 % 256, v / 65536 % 256, v / 16777216 % 256]

def conv_ton16 (big_endian : Bool) (val : Nat) : Nat :=
  if big_endian then val
  else ((val >>> 8) ||| (val <<< 8)) % 65536

def conv_ton32 (big_endian : Bool) (val : Nat) : Nat :=
  if big_endian then val
  else (((val >>> 24) &&& 0xff) |||
        (((val <<< 8) % 4294967296) &&& 0xff0000) |||
        ((val >>> 8) &&& 0xff00) |||
        (((val <<< 24) % 4294967296) &&& 0xff000000))

/-- One round of the inner loop of `calc_crc`. -/
def crc_bit (crc : Nat) : Nat :=
  let mask := u32 (4294967296 - (crc &&& 1))
  (crc >>> 1) ^^^ (0xEDB88320 &&& mask)

/-- The body of the outer loop of `calc_crc` for one byte, which is read as a `uint8_t`. -/
def crc_byte (crc : Nat) (b : Nat) : Nat :=
  crc_bit (crc_bit (crc_bit (crc_bit (crc_bit (crc_bit (crc_bit (crc_bit (crc ^^^ (b % 256)))))))))

/-- CRC32 calculation, "rolling" through the initial value; `data_buf` and `data_size`
are given as the list of the bytes. -/
def calc_crc (init_crc : Nat) (data_buf : List Nat) : Nat :=
  data_buf.foldl crc_byte init_crc

/-- The bytes of a C string: everything before the first NUL. -/
def cstr (key : List Nat) : List Nat := key.takeWhile (fun c => c != 0)

def strlen (key : List Nat) : Nat := (cstr key).length

/-- The reject set of `strpbrk` in `is_valid_key`: the bytes of `" */?:;\"|<>\\"`. -/
def invalid_key_chars : List Nat := [32, 42, 47, 63, 58, 59, 34, 124, 60, 62, 92]

def is_valid_key (key : List Nat) : Bool :=
  if strlen key = 0 ∨ strlen key > PDBSTORE_MAX_KEY_SIZE then false
  else if (cstr key).any (fun c => invalid_key_chars.contains c) then false
  else true

def record_size (key : List Nat) (data_size : Nat) : Nat :=
  u32 (sizeof_header + strlen key + data_size)

def abs_address (s : Store) (area : area_index_e) (offset : Nat) : Nat :=
  u32 ((s.bank_params (s.area_params area).bank).start_offset + (s.area_params area).address + offset)

def area_ptr_by_offset (s : Store) (area : area_index_e) (offset : Nat) : media_ptr :=
  { bank := (s.area_params area).bank, addr := abs_address s area offset }

/-- The function `read_area`: the status and the bytes copied into `buf`. -/
def read_area (s : Store) (area : area_index_e) (offset size : Nat) : PDBSTORE_status_e × List Nat :=
  if u32 (offset + size) > (s.area_params area).size then (PDBSTORE_READ_ERROR, [])
  else
    let p := area_ptr_by_offset s area offset
    (PDBSTORE_SUCCESS, mem_read s p.bank p.addr size)

/-- The adapter `eeprom_prog` of the functionality test for a bank: `none` is the return
value `-1`, otherwise the new contents of the bank. -/
def bank_prog (bp : pdbstore_bank_params_t) (m : Nat → Nat) (buffer : List Nat) (addr size : Nat) :
    Option (Nat → Nat) :=
  if size = 0 ∨ u32 (addr + size) > bp.bank_size then none
  else if (List.range size).any (fun i => m (addr + i) != bp.erase_val) then none
  else some (fun a => if addr ≤ a ∧ a < addr + size then buffer.getD (a - addr) 0 else m a)

/-- The adapter `eeprom_erase` of the functionality test for a bank. -/
def bank_erase (bp : pdbstore_bank_params_t) (m : Nat → Nat) (addr size : Nat) : Option (Nat → Nat) :=
  if size = 0 ∨ u32 (addr + size) > bp.bank_size then none
  else some (fun a => if addr ≤ a ∧ a < addr + size then bp.erase_val else m a)

/-- Replace the contents of one bank. -/
def set_bank_mem (s : Store) (bank : Nat) (m : Nat → Nat) : Store :=
  { s with mem := fun b => if b = bank then m else s.mem b }

def write_area (s : Store) (area : area_index_e) (offset size : Nat) (buf : List Nat) :
    PDBSTORE_status_e × Store :=
  let address := abs_address s area offset
  let bank := (s.area_params area).bank
  match bank_prog (s.bank_params bank) (s.mem bank) buf address size with
  | none => (PDBSTORE_WRITE_ERROR, s)
  | some m => (PDBSTORE_SUCCESS, set_bank_mem s bank m)

def erase_area (s : Store) (area : area_index_e) (offset size : Nat) : PDBSTORE_status_e × Store :=
  let address := abs_address s area offset
  let bank := (s.area_params area).bank
  match bank_erase (s.bank_params bank) (s.mem bank) address size with
  | none => (PDBSTORE_WRITE_ERROR, s)
  | some m => (PDBSTORE_SUCCESS, set_bank_mem s bank m)

/-- The `while (read_size)` loop of `reset_area`: an error of `read_area`, or the value of
`read_size` when the loop is left. -/
def reset_area_scan (s : Store) (area : area_index_e) :
    Nat → Nat → Nat → PDBSTORE_status_e × Nat
  | 0, _, read_size => (PDBSTORE_SUCCESS, read_size)
  | fuel + 1, read_offset, read_size =>
    if read_size = 0 then (PDBSTORE_SUCCESS, 0)
    else
      let chunk_size := min read_size WORK_BUF_SIZE
      let r := read_area s area read_offset chunk_size
      if r.1 ≠ PDBSTORE_SUCCESS then (r.1, read_size)
      else if r.2.any (fun b => b != (s.bank_params (s.area_params area).bank).erase_val) then
        (PDBSTORE_SUCCESS, read_size)
      else reset_area_scan s area fuel (u32 (read_offset + chunk_size)) (read_size - chunk_size)

def reset_area (s : Store) (area : area_index_e) (offset : Nat) : PDBSTORE_status_e × Store :=
  let erase_size := u32 ((s.area_params area).size + 4294967296 - offset)
  let r := reset_area_scan s area erase_size offset erase_size
  if r.1 ≠ PDBSTORE_SUCCESS then (r.1, s)
  else if r.2 = 0 then (PDBSTORE_SUCCESS, s)
  else erase_area s area offset erase_size

/-- The output parameters of `read_record`. A field the function does not assign keeps the
value the caller's variable had before the call. -/
structure record_out where
  key : List Nat
  data_ptr : media_ptr
  actual_data_size : Nat
  totally_corrupt : Bool
  flags : Nat
  next_offset : Nat

def record_out_init : record_out :=
  { key := [], data_ptr := { bank := 0, addr := 0 }, actual_data_size := 0,
    totally_corrupt := false, flags := 0, next_offset := 0 }

/-- The function `read_record`. With `copy_key = false` the callers pass a null `key`, so
the key is taken in place from the area and the caller's buffer is left alone. -/
def read_record (s : Store) (area : area_index_e) (offset : Nat) (copy_key : Bool) (o : record_out) :
    PDBSTORE_status_e × record_out :=
  let ap := s.area_params area
  let o := { o with totally_corrupt := false }
  if u32 (offset + sizeof_header) ≥ u32 (ap.address + ap.size) then
    (PDBSTORE_DATA_CORRUPT, { o with totally_corrupt := true })
  else
    let rh := read_area s area offset sizeof_header
    if rh.1 ≠ PDBSTORE_SUCCESS then (rh.1, o)
    else
      let header := rh.2
      let offset := u32 (offset + sizeof_header)
      let key_size := header.getD 2 0 % 256
      let data_size := conv_ton16 s.big_endian (load16 s.host_big_endian (header.getD 0 0) (header.getD 1 0))
      if key_size = 0 ∨ key_size > PDBSTORE_MAX_KEY_SIZE ∨ data_size > PDBSTORE_MAX_DATA_SIZE then
        (PDBSTORE_DATA_CORRUPT, { o with totally_corrupt := true })
      else
        let o := { o with flags := header.getD 3 0 % 256 }
        let total_size := u32 (key_size + data_size)
        if u32 (offset + total_size) > u32 (ap.address + ap.size) then
          (PDBSTORE_DATA_CORRUPT, { o with totally_corrupt := true })
        else
          let crc := calc_crc INITIAL_CRC (header.take (sizeof_header - sizeof_crc))
          let rk := if copy_key then read_area s area offset key_size
            else (PDBSTORE_SUCCESS,
              mem_read s (area_ptr_by_offset s area offset).bank (area_ptr_by_offset s area offset).addr key_size)
          if rk.1 ≠ PDBSTORE_SUCCESS then (PDBSTORE_READ_ERROR, o)
          else
            let o := if copy_key then { o with key := rk.2 } else o
            let crc := calc_crc crc rk.2
            let offset := u32 (offset + key_size)
            let data_ptr := area_ptr_by_offset s area offset
            let crc := calc_crc crc (mem_read s data_ptr.bank data_ptr.addr data_size)
            let offset := u32 (offset + data_size)
            let o := { o with data_ptr := data_ptr, actual_data_size := data_size, next_offset := offset }
            if conv_ton32 s.big_endian crc ≠
                load32 s.host_big_endian (header.getD 4 0) (header.getD 5 0) (header.getD 6 0) (header.getD 7 0) then
              (PDBSTORE_DATA_CORRUPT, o)
            else (PDBSTORE_SUCCESS, o)

/-- The result of `find_record`: the status, the output parameters filled by `read_record`,
and `*area`, `*offset` (`none` for the area when the `for` loop ran past the last area). -/
structure find_out where
  ret : PDBSTORE_status_e
  out : record_out
  area : Option area_index_e
  offset : Nat

/-- The `while` loop of `find_record` in one area: `some ret` when the function returns
from inside the loop, `none` when the loop is left. Running out of fuel is reported as
`PDBSTORE_INTERNAL_ERROR`, a status the source never returns. -/
def find_record_loop (s : Store) (key : List Nat) (area : area_index_e) :
    Nat → Nat → record_out → Option PDBSTORE_status_e × record_out × Nat
  | 0, offset, o => (some PDBSTORE_INTERNAL_ERROR, o, offset)
  | fuel + 1, offset, o =>
    if ¬ (offset < (s.area_params area).size) then (none, o, offset)
    else if area = AREA_INDEX_WRITABLE ∧ offset ≥ s.free_space_offset then (none, o, offset)
    else
      let r := read_record s area offset true o
      if r.1 ≠ PDBSTORE_SUCCESS then (some r.1, r.2, offset)
      else if cstr r.2.key = cstr key then (some PDBSTORE_SUCCESS, r.2, offset)
      else find_record_loop s key area fuel r.2.next_offset r.2

def find_record (s : Store) (key : List Nat) : find_out :=
  let r0 := find_record_loop s key AREA_INDEX_READONLY
    ((s.area_params AREA_INDEX_READONLY).size + 1) 0 record_out_init
  match r0.1 with
  | some ret => { ret := ret, out := r0.2.1, area := some AREA_INDEX_READONLY, offset := r0.2.2 }
  | none =>
    let r1 := find_record_loop s key AREA_INDEX_WRITABLE
      ((s.area_params AREA_INDEX_WRITABLE).size + 1) 0 r0.2.1
    match r1.1 with
    | some ret => { ret := ret, out := r1.2.1, area := some AREA_INDEX_WRITABLE, offset := r1.2.2 }
    | none => { ret := PDBSTORE_NOT_FOUND, out := r1.2.1, area := none, offset := r1.2.2 }

/-- The function `pdbstore_write_record`; the last component is `*next_offset`, which keeps
the given value unless the function succeeds. -/
def pdbstore_write_record (s : Store) (area : area_index_e) (key : List Nat) (data : data_buf)
    (data_size flags offset next_offset : Nat) (replace_current : Bool) :
    PDBSTORE_status_e × Store × Nat :=
  if u32 (offset + record_size key data_size) > (s.area_params area).size then
    (PDBSTORE_MEDIA_FULL, s, next_offset)
  else
    let header_start_offset := if replace_current then offsetof_flags else 0
    let offset := if replace_current then u32 (offset + header_start_offset) else offset
    let re := if replace_current then
        erase_area s area offset (u32 (record_size key data_size + 4294967296 - header_start_offset))
      else (PDBSTORE_SUCCESS, s)
    if re.1 ≠ PDBSTORE_SUCCESS then (re.1, re.2, next_offset)
    else
      let s := re.2
      let key_size := strlen key % 256
      let h03 := store16 s.host_big_endian (conv_ton16 s.big_endian (data_size % 65536)) ++
        [key_size, flags % 256]
      let crc := calc_crc INITIAL_CRC h03
      let crc := calc_crc crc ((cstr key).take key_size)
      let crc := calc_crc crc (buf_bytes s data data_size)
      let crc := conv_ton32 s.big_endian crc
      let header := h03 ++ store32 s.host_big_endian crc
      let rw := write_area s area offset (sizeof_header - header_start_offset)
        (header.drop header_start_offset)
      if rw.1 ≠ PDBSTORE_SUCCESS then (rw.1, rw.2, next_offset)
      else
        let s := rw.2
        let offset := u32 (offset + (sizeof_header - header_start_offset))
        let rw := write_area s area offset key_size ((cstr key).take key_size)
        if rw.1 ≠ PDBSTORE_SUCCESS then (rw.1, rw.2, next_offset)
        else
          let s := rw.2
          let offset := u32 (offset + key_size)
          if data_size ≠ 0 then
            let rw := write_area s area offset data_size (buf_bytes s data data_size)
            (PDBSTORE_SUCCESS, rw.2, u32 (offset + data_size))
          else (PDBSTORE_SUCCESS, s, offset)

/-- The first part of `pdbstore_do_set`, from `find_record` to the resilience step: either
the status returned early, or `replace_current`, `data`, `data_size` and `offset`. -/
def do_set_target (s : Store) (key : List Nat) (data : data_buf) (data_size flags : Nat) :
    Except PDBSTORE_status_e (Bool × data_buf × Nat × Nat) :=
  let f := find_record s key
  if f.ret = PDBSTORE_SUCCESS then
    if f.area = some AREA_INDEX_READONLY then Except.error PDBSTORE_KEY_IS_READONLY
    else if flags &&& DELETE_FLAG ≠ 0 then
      Except.ok (true, data_buf.media f.out.data_ptr, f.out.actual_data_size, f.offset)
    else if data_size ≠ f.out.actual_data_size then Except.error PDBSTORE_INVALID_ARGUMENT
    else Except.ok (true, data, data_size, f.offset)
  else if f.ret = PDBSTORE_NOT_FOUND then
    if flags &&& DELETE_FLAG ≠ 0 then Except.error PDBSTORE_NOT_FOUND
    else if u32 (s.free_space_offset + record_size key data_size) >
        (s.area_params AREA_INDEX_WRITABLE).size then
      Except.error PDBSTORE_MEDIA_FULL
    else Except.ok (false, data, data_size, s.free_space_offset)
  else Except.error f.ret

/-- The second part of `pdbstore_do_set`: the record goes to the staging area first when the
resilient flag is set, then to the writable area at `offset`, and the staging area is
cleared. -/
def do_set_commit (s : Store) (key : List Nat) (data : data_buf) (data_size flags offset : Nat)
    (replace_current : Bool) : PDBSTORE_status_e × Store :=
  let r1 := if flags &&& PDBSTORE_RESILIENT_FLAG ≠ 0 then
      pdbstore_write_record s AREA_INDEX_STAGING key data data_size flags 0 0 false
    else (PDBSTORE_SUCCESS, s, 0)
  if r1.1 ≠ PDBSTORE_SUCCESS then (r1.1, r1.2.1)
  else
    let r2 := pdbstore_write_record r1.2.1 AREA_INDEX_WRITABLE key data data_size flags offset
      r1.2.2 replace_current
    if r2.1 ≠ PDBSTORE_SUCCESS then (r2.1, r2.2.1)
    else
      let s2 := if replace_current then r2.2.1
        else { r2.2.1 with free_space_offset := r2.2.2 }
      if flags &&& PDBSTORE_RESILIENT_FLAG ≠ 0 then
        let r3 := reset_area s2 AREA_INDEX_STAGING 0
        if r3.1 ≠ PDBSTORE_SUCCESS then (r3.1, r3.2) else (PDBSTORE_SUCCESS, r3.2)
      else (PDBSTORE_SUCCESS, s2)

/-- The function `pdbstore_do_set`, as `do_set_target` followed by `do_set_commit`. -/
def pdbstore_do_set (s : Store) (key : List Nat) (data : data_buf) (data_size flags : Nat) :
    PDBSTORE_status_e × Store :=
  if is_valid_key key = false ∨ data_size > PDBSTORE_MAX_DATA_SIZE then (PDBSTORE_INVALID_ARGUMENT, s)
  else if s.initialized = false then (PDBSTORE_NOT_INITIALIZED, s)
  else
    match do_set_target s key data data_size flags with
    | Except.error ret => (ret, s)
    | Except.ok (replace_current, data, data_size, offset) =>
      do_set_commit s key data data_size flags offset replace_current

/-- Assign one entry of `area_params`. -/
def set_area (s : Store) (area : area_index_e) (ap : pdbstore_area_params_t) : Store :=
  { s with area_params := fun a => if a = area then ap else s.area_params a }

def pdbstore_init_readonly_area (s : Store) (init_num_banks : Nat)
    (init_bank_params : Nat → pdbstore_bank_params_t) : PDBSTORE_status_e × Store :=
  let s := { s with big_endian := s.host_big_endian,
                    area_params := fun _ => { address := 0, size := 0, bank := 0 } }
  if init_num_banks = 0 ∨ init_num_banks > PDBSTORE_MAX_BANKS then (PDBSTORE_INVALID_ARGUMENT, s)
  else
    let s := { s with num_banks := init_num_banks,
                      bank_params := fun i => if i < init_num_banks then init_bank_params i
                        else s.bank_params i }
    (PDBSTORE_SUCCESS,
      set_area s AREA_INDEX_READONLY { address := 0, size := (s.bank_params 0).bank_size, bank := 0 })

/-- The `for` loop of `pdbstore_init` over the records that follow the master record:
`i` counts the records still to read. -/
def init_readonly_loop (s : Store) : Nat → Nat → record_out → PDBSTORE_status_e × record_out
  | 0, _, o => (PDBSTORE_SUCCESS, o)
  | i + 1, offset, o =>
    let r := read_record s AREA_INDEX_READONLY offset false o
    if r.1 ≠ PDBSTORE_SUCCESS then (r.1, r.2)
    else init_readonly_loop s i r.2.next_offset r.2

/-- The state of the scan of the writable area in `pdbstore_init`. -/
structure init_scan_out where
  ret : PDBSTORE_status_e
  s : Store
  offset : Nat
  staging_valid : Bool

/-- The `while` loop of `pdbstore_init` over the writable area. `o` holds the locals
`key`, `data_ptr`, `actual_data_size`, `totally_corrupt`, `flags`; the `next_offset`
parameter of `read_record` is `free_space_offset`. A `ret` other than success means
`goto fail`. Running out of fuel is reported as `PDBSTORE_INTERNAL_ERROR`. -/
def init_scan (staging_key : List Nat) (staging_data_ptr : media_ptr)
    (staging_data_size staging_flags : Nat) :
    Nat → Store → Nat → record_out → Bool → Nat → init_scan_out
  | 0, s, offset, _, staging_valid, _ =>
    { ret := PDBSTORE_INTERNAL_ERROR, s := s, offset := offset, staging_valid := staging_valid }
  | fuel + 1, s, offset, o, staging_valid, next_offset =>
    if ¬ (offset < (s.area_params AREA_INDEX_WRITABLE).size) then
      { ret := PDBSTORE_SUCCESS, s := s, offset := offset, staging_valid := staging_valid }
    else
      let r := read_record s AREA_INDEX_WRITABLE offset true
        { o with next_offset := s.free_space_offset }
      let s := { s with free_space_offset := r.2.next_offset }
      let o := r.2
      let replay := decide ((r.1 = PDBSTORE_SUCCESS ∨ r.1 = PDBSTORE_DATA_CORRUPT) ∧
        staging_valid = true ∧ cstr o.key = cstr staging_key ∧ o.totally_corrupt = false)
      let w := if replay then
          pdbstore_write_record s AREA_INDEX_WRITABLE o.key (data_buf.media staging_data_ptr)
            staging_data_size staging_flags offset next_offset true
        else (r.1, s, next_offset)
      if replay = true ∧ w.1 ≠ PDBSTORE_SUCCESS then
        { ret := w.1, s := w.2.1, offset := offset, staging_valid := staging_valid }
      else
        let staging_valid := if replay then false else staging_valid
        let s := w.2.1
        if w.1 = PDBSTORE_DATA_CORRUPT then
          let ra := reset_area s AREA_INDEX_WRITABLE offset
          if ra.1 ≠ PDBSTORE_SUCCESS then
            { ret := ra.1, s := ra.2, offset := offset, staging_valid := staging_valid }
          else
            { ret := PDBSTORE_SUCCESS, s := { ra.2 with free_space_offset := offset },
              offset := offset, staging_valid := staging_valid }
        else if w.1 ≠ PDBSTORE_SUCCESS then
          { ret := w.1, s := s, offset := offset, staging_valid := staging_valid }
        else
          init_scan staging_key staging_data_ptr staging_data_size staging_flags fuel s
            s.free_space_offset o staging_valid w.2.2

/-- The scan of the read-only area in `pdbstore_init`: the master record, then as many
records as its `num_keys` field says. The result holds the locals `data_ptr`,
`actual_data_size`, `totally_corrupt`, `flags`, `next_offset`. -/
def init_readonly_scan (s : Store) : PDBSTORE_status_e × record_out :=
  let rm := read_record s AREA_INDEX_READONLY 0 false record_out_init
  if rm.1 ≠ PDBSTORE_SUCCESS then (rm.1, rm.2)
  else
    let master_rec := rm.2.data_ptr
    let num_keys := conv_ton16 s.big_endian (load16 s.host_big_endian
      (s.mem master_rec.bank master_rec.addr) (s.mem master_rec.bank (master_rec.addr + 1)))
    init_readonly_loop s num_keys rm.2.next_offset rm.2

/-- The computation of the three areas in `pdbstore_init`, from
`area_params[AREA_INDEX_READONLY].size = next_offset` to the assignment of the staging
address and bank. -/
def init_areas (s : Store) (next_offset : Nat) : PDBSTORE_status_e × Store :=
  let s := set_area s AREA_INDEX_READONLY
    { s.area_params AREA_INDEX_READONLY with size := next_offset }
  let s := set_area s AREA_INDEX_STAGING
    { s.area_params AREA_INDEX_STAGING with
      size := sizeof_header + PDBSTORE_MAX_KEY_SIZE + PDBSTORE_MAX_DATA_SIZE }
  let staging_size := (s.area_params AREA_INDEX_STAGING).size
  let readonly_size := (s.area_params AREA_INDEX_READONLY).size
  let wbank := if s.num_banks = 1 then 0 else 1
  let writable_media_size :=
    u32 ((s.bank_params wbank).bank_size + 4294967296 - (s.bank_params wbank).start_offset)
  if s.num_banks = 1 ∧ writable_media_size < u32 (u32 (2 * staging_size) + readonly_size) then
    (PDBSTORE_INVALID_ARGUMENT, s)
  else if s.num_banks = 2 ∧ writable_media_size < u32 (2 * staging_size) then
    (PDBSTORE_INVALID_ARGUMENT, s)
  else if s.num_banks ≠ 1 ∧ s.num_banks ≠ 2 then (PDBSTORE_INVALID_ARGUMENT, s)
  else
    let s := set_area s AREA_INDEX_WRITABLE
      (if s.num_banks = 1 then
        { address := readonly_size,
          size := u32 (writable_media_size + 4294967296 - u32 (staging_size + readonly_size)),
          bank := 0 }
      else
        { address := 0,
          size := u32 (writable_media_size + 4294967296 - staging_size),
          bank := 1 })
    let s := set_area s AREA_INDEX_STAGING
      { s.area_params AREA_INDEX_STAGING with
        address := u32 ((s.area_params AREA_INDEX_WRITABLE).address +
          (s.area_params AREA_INDEX_WRITABLE).size),
        bank := (s.area_params AREA_INDEX_WRITABLE).bank }
    (PDBSTORE_SUCCESS, s)

/-- The first part of `pdbstore_init`, up to the computation of the three areas: the status,
the state, and the locals `data_ptr`, `actual_data_size`, `flags`, `next_offset` as the scan
of the read-only area leaves them. -/
def init_layout (s : Store) (init_num_banks : Nat)
    (init_bank_params : Nat → pdbstore_bank_params_t) : PDBSTORE_status_e × Store × record_out :=
  let r := pdbstore_init_readonly_area s init_num_banks init_bank_params
  if r.1 ≠ PDBSTORE_SUCCESS then (r.1, r.2, record_out_init)
  else
    let rl := init_readonly_scan r.2
    if rl.1 ≠ PDBSTORE_SUCCESS then (rl.1, r.2, rl.2)
    else
      let a := init_areas r.2 rl.2.next_offset
      (a.1, a.2, rl.2)

/-- The end of `pdbstore_init`, behind the `while` loop: `rs` holds the locals
`staging_key`, `staging_data_ptr`, `staging_data_size`, `staging_flags`, and `sc` is the
state in which the loop was left. A staged record that was not replayed is written behind
the last record, the staging area is cleared. -/
def init_finish (rs : record_out) (sc : init_scan_out) : PDBSTORE_status_e × Store :=
  if sc.ret ≠ PDBSTORE_SUCCESS then (sc.ret, sc.s)
  else
    let wa := if sc.staging_valid then
        pdbstore_write_record sc.s AREA_INDEX_WRITABLE rs.key (data_buf.media rs.data_ptr)
          rs.actual_data_size rs.flags sc.offset sc.s.free_space_offset false
      else (PDBSTORE_SUCCESS, sc.s, sc.s.free_space_offset)
    if wa.1 ≠ PDBSTORE_SUCCESS then (wa.1, wa.2.1)
    else
      let s := { wa.2.1 with free_space_offset := wa.2.2 }
      let rz := reset_area s AREA_INDEX_STAGING 0
      if rz.1 ≠ PDBSTORE_SUCCESS then (rz.1, rz.2)
      else (PDBSTORE_SUCCESS, { rz.2 with initialized := true })

/-- The second part of `pdbstore_init`: the staging area is checked, the writable area is
scanned (`init_scan`), and the end of the function follows (`init_finish`). `o` holds the
locals as `init_layout` leaves them. -/
def init_recover (s : Store) (o : record_out) : PDBSTORE_status_e × Store :=
  let rs := read_record s AREA_INDEX_STAGING 0 true record_out_init
  if rs.1 ≠ PDBSTORE_SUCCESS ∧ rs.1 ≠ PDBSTORE_DATA_CORRUPT then (rs.1, s)
  else
    init_finish rs.2
      (init_scan rs.2.key rs.2.data_ptr rs.2.actual_data_size rs.2.flags
        ((s.area_params AREA_INDEX_WRITABLE).size + 1) s 0
        { o with key := [], totally_corrupt := rs.2.totally_corrupt }
        (decide (rs.1 = PDBSTORE_SUCCESS)) rs.2.next_offset)

/-- The function `pdbstore_init`, as `init_layout` followed by `init_recover`. -/
def pdbstore_init (s : Store) (init_num_banks : Nat)
    (init_bank_params : Nat → pdbstore_bank_params_t) : PDBSTORE_status_e × Store :=
  if s.initialized then (PDBSTORE_SUCCESS, s)
  else
    let l := init_layout s init_num_banks init_bank_params
    if l.1 ≠ PDBSTORE_SUCCESS then (l.1, l.2.1)
    else init_recover l.2.1 l.2.2

def pdbstore_deinit (s : Store) : PDBSTORE_status_e × Store :=
  (PDBSTORE_SUCCESS, { s with initialized := false })

/-- The function `pdbstore_get`: the status, `*data` and `*actual_size`. -/
def pdbstore_get (s : Store) (key : List Nat) : PDBSTORE_status_e × media_ptr × Nat :=
  if is_valid_key key = false then
    (PDBSTORE_INVALID_ARGUMENT, record_out_init.data_ptr, record_out_init.actual_data_size)
  else if s.initialized = false then
    (PDBSTORE_NOT_INITIALIZED, record_out_init.data_ptr, record_out_init.actual_data_size)
  else
    let f := find_record s key
    if f.ret ≠ PDBSTORE_SUCCESS then (f.ret, f.out.data_ptr, f.out.actual_data_size)
    else if f.out.flags &&& DELETE_FLAG ≠ 0 then
      (PDBSTORE_NOT_FOUND, f.out.data_ptr, f.out.actual_data_size)
    else (PDBSTORE_SUCCESS, f.out.data_ptr, f.out.actual_data_size)

/-- The function `pdbstore_set`; the caller's buffer holds the bytes `data`. -/
def pdbstore_set (s : Store) (key : List Nat) (data : List Nat) (data_size flags : Nat) :
    PDBSTORE_status_e × Store :=
  if flags &&& (0xFFFFFFFF ^^^ SUPPORTED_USER_FLAGS) ≠ 0 then (PDBSTORE_INVALID_ARGUMENT, s)
  else pdbstore_do_set s key (data_buf.buf data) data_size flags

def pdbstore_remove (s : Store) (key : List Nat) : PDBSTORE_status_e × Store :=
  pdbstore_do_set s key (data_buf.buf []) 0 DELETE_FLAG

def pdbstore_reset (s : Store) : PDBSTORE_status_e × Store :=
  if s.initialized = false then (PDBSTORE_NOT_INITIALIZED, s)
  else
    let r := reset_area s AREA_INDEX_WRITABLE 0
    if r.1 ≠ PDBSTORE_SUCCESS then (r.1, r.2)
    else pdbstore_init (pdbstore_deinit r.2).2 r.2.num_banks r.2.bank_params

/-- The bank an area lies in. -/
def abank (s : Store) (a : area_index_e) : Nat := (s.area_params a).bank

/-- The address of the first byte of an area in the memory of its bank. -/
def abase (s : Store) (a : area_index_e) : Nat :=
  (s.bank_params (s.area_params a).bank).start_offset + (s.area_params a).address

def asize (s : Store) (a : area_index_e) : Nat := (s.area_params a).size

/-- The erase value of the bank of an area. -/
def aerase (s : Store) (a : area_index_e) : Nat := (s.bank_params (s.area_params a).bank).erase_val

/-- The byte at offset `x` of an area. -/
def acell (s : Store) (a : area_index_e) (x : Nat) : Nat :=
  s.mem (s.area_params a).bank (abase s a + x)

/-- The addresses of an area stay far enough below `2 ^ 32` for no sum of `read_record` to
wrap around. -/
def area_nowrap (s : Store) (a : area_index_e) : Prop :=
  abase s a + asize s a + 2048 ≤ 4294967296

/-- The area lies inside its bank, and the bank is not larger than `2 ^ 30` bytes. -/
def area_ok (s : Store) (a : area_index_e) : Prop :=
  abase s a + asize s a ≤ (s.bank_params (s.area_params a).bank).bank_size ∧
  (s.bank_params (s.area_params a).bank).bank_size ≤ 1073741824

/-- The state after `bank_prog` has copied `n` bytes of `buf` to `addr`. -/
def poke (s : Store) (bank addr n : Nat) (buf : List Nat) : Store :=
  set_bank_mem s bank (fun a => if addr ≤ a ∧ a < addr + n then buf.getD (a - addr) 0 else s.mem bank a)

/-- The state after `bank_erase` has erased `n` bytes at `addr`. -/
def wipe (s : Store) (bank addr n : Nat) : Store :=
  set_bank_mem s bank (fun a => if addr ≤ a ∧ a < addr + n then (s.bank_params bank).erase_val
    else s.mem bank a)

/-- Two states differ at most in the contents of the banks. -/
def same_cfg (s s' : Store) : Prop :=
  s'.num_banks = s.num_banks ∧ s'.bank_params = s.bank_params ∧ s'.area_params = s.area_params ∧
  s'.initialized = s.initialized ∧ s'.big_endian = s.big_endian ∧
  s'.free_space_offset = s.free_space_offset ∧ s'.host_big_endian = s.host_big_endian

/-- The `key_size` field of the header at offset `o` of an area. -/
def hdr_key_size (s : Store) (a : area_index_e) (o : Nat) : Nat := acell s a (o + 2) % 256

/-- The `data_size` field of the header at offset `o` of an area, in host order. -/
def hdr_data_size (s : Store) (a : area_index_e) (o : Nat) : Nat :=
  conv_ton16 s.big_endian (load16 s.host_big_endian (acell s a o) (acell s a (o + 1)))

/-- The `flags` field of the header at offset `o` of an area. -/
def hdr_flags (s : Store) (a : area_index_e) (o : Nat) : Nat := acell s a (o + 3) % 256

/-- The key bytes of the record at offset `o`, as long as its header says. -/
def rec_key (s : Store) (a : area_index_e) (o : Nat) : List Nat :=
  (List.range (hdr_key_size s a o)).map (fun i => acell s a (o + 8 + i))

/-- The data bytes of the record at offset `o`, as long as its header says. -/
def rec_data (s : Store) (a : area_index_e) (o : Nat) : List Nat :=
  (List.range (hdr_data_size s a o)).map (fun i => acell s a (o + 8 + hdr_key_size s a o + i))

/-- The offset behind the record at offset `o`, as its header says. -/
def rec_next (s : Store) (a : area_index_e) (o : Nat) : Nat :=
  o + 8 + hdr_key_size s a o + hdr_data_size s a o

/-- The CRC over the first four header bytes, the key and the data of the record at `o`. -/
def rec_crc (s : Store) (a : area_index_e) (o : Nat) : Nat :=
  calc_crc (calc_crc (calc_crc INITIAL_CRC
    [acell s a o, acell s a (o + 1), acell s a (o + 2), acell s a (o + 3)]) (rec_key s a o))
    (rec_data s a o)

/-- The comparison `conv_ton32(crc) == header.crc` of `read_record` for the record at `o`. -/
def rec_crc_ok (s : Store) (a : area_index_e) (o : Nat) : Prop :=
  conv_ton32 s.big_endian (rec_crc s a o) =
    load32 s.host_big_endian (acell s a (o + 4)) (acell s a (o + 5)) (acell s a (o + 6))
      (acell s a (o + 7))

instance (s : Store) (a : area_index_e) (o : Nat) : Decidable (rec_crc_ok s a o) := by
  unfold rec_crc_ok; infer_instance

/-- The first four bytes of the header `pdbstore_write_record` builds. -/
def hdr03 (s : Store) (key : List Nat) (n flags : Nat) : List Nat :=
  store16 s.host_big_endian (conv_ton16 s.big_endian (n % 65536)) ++ [strlen key % 256, flags % 256]

/-- The bytes of a whole record as `pdbstore_write_record` lays them out: header with the
CRC, key, data. -/
def rec_image (s : Store) (key : List Nat) (D : List Nat) (flags : Nat) : List Nat :=
  hdr03 s key D.length flags ++
    store32 s.host_big_endian (conv_ton32 s.big_endian
      (calc_crc (calc_crc (calc_crc INITIAL_CRC (hdr03 s key D.length flags)) (cstr key)) D)) ++
    cstr key ++ D

/-- A record of the writable area as the store sees it: key, data and flags. -/
structure log_rec where
  key : List Nat
  data : List Nat
  flags : Nat

/-- A record the store can have written: a key of 1 to 16 bytes without NUL, at most 1024
bytes of data, flags of one byte. -/
def log_rec_ok (r : log_rec) : Prop :=
  1 ≤ strlen r.key ∧ strlen r.key ≤ 16 ∧ cstr r.key = r.key ∧ r.data.length ≤ 1024 ∧ r.flags < 256

/-- The size of a record on the media. -/
def log_rec_size (r : log_rec) : Nat := 8 + strlen r.key + r.data.length

/-- The size of a sequence of records on the media. -/
def log_size : List log_rec → Nat
  | [] => 0
  | r :: l => log_rec_size r + log_size l

/-- The cells of area `a` from offset `o` on hold the images of the records of `log`, one
behind the other. -/
def log_at (s : Store) (a : area_index_e) : Nat → List log_rec → Prop
  | _, [] => True
  | o, r :: l =>
    (∀ i, i < log_rec_size r → acell s a (o + i) = (rec_image s r.key r.data r.flags).getD i 0) ∧
    log_at s a (o + log_rec_size r) l

/-- The layout of the three areas that `pdbstore_init` sets up. -/
structure layout (s : Store) : Prop where
  ro_nowrap : area_nowrap s AREA_INDEX_READONLY
  ro_addr : (s.area_params AREA_INDEX_READONLY).address = 0
  wr_ok : area_ok s AREA_INDEX_WRITABLE
  st_ok : area_ok s AREA_INDEX_STAGING
  st_bank : (s.area_params AREA_INDEX_STAGING).bank = (s.area_params AREA_INDEX_WRITABLE).bank
  st_base : abase s AREA_INDEX_STAGING = abase s AREA_INDEX_WRITABLE + asize s AREA_INDEX_WRITABLE
  st_size : asize s AREA_INDEX_STAGING = 1048
  wr_size : 1048 ≤ asize s AREA_INDEX_WRITABLE
  ro_disj : (s.area_params AREA_INDEX_READONLY).bank ≠ (s.area_params AREA_INDEX_WRITABLE).bank ∨
    abase s AREA_INDEX_READONLY + asize s AREA_INDEX_READONLY ≤ abase s AREA_INDEX_WRITABLE

/-- The steady state of an initialized store: the writable area holds the records of `log`
one behind the other up to `free_space_offset`, the rest of it and the staging area are
erased. -/
structure steady (s : Store) (log : List log_rec) : Prop where
  lay : layout s
  recs : ∀ r, r ∈ log → log_rec_ok r
  cells : log_at s AREA_INDEX_WRITABLE 0 log
  fso : s.free_space_offset = log_size log
  fits : log_size log ≤ asize s AREA_INDEX_WRITABLE
  tail : ∀ x, log_size log ≤ x → x < asize s AREA_INDEX_WRITABLE →
    acell s AREA_INDEX_WRITABLE x = aerase s AREA_INDEX_WRITABLE
  staging : ∀ x, x < asize s AREA_INDEX_STAGING →
    acell s AREA_INDEX_STAGING x = aerase s AREA_INDEX_STAGING

/-- What an operation on the writable and staging areas leaves alone: the configuration
(but `free_space_offset`) and the cells of the read-only area. -/
def frame (s s' : Store) : Prop :=
  s'.num_banks = s.num_banks ∧ s'.bank_params = s.bank_params ∧ s'.area_params = s.area_params ∧
  s'.initialized = s.initialized ∧ s'.big_endian = s.big_endian ∧
  s'.host_big_endian = s.host_big_endian ∧
  ∀ x, x < asize s AREA_INDEX_READONLY →
    acell s' AREA_INDEX_READONLY x = acell s AREA_INDEX_READONLY x

/-- The state `s'` arises from `s` by storing `img` at offset `p` of the writable area, with
the staging area erased at the end. -/
def wr_written (s s' : Store) (p : Nat) (img : List Nat) : Prop :=
  frame s s' ∧
  (∀ x, x < asize s AREA_INDEX_WRITABLE → acell s' AREA_INDEX_WRITABLE x =
    if p ≤ x ∧ x < p + img.length then img.getD (x - p) 0 else acell s AREA_INDEX_WRITABLE x) ∧
  (∀ x, x < asize s AREA_INDEX_STAGING → acell s' AREA_INDEX_STAGING x = aerase s AREA_INDEX_STAGING)

/-- The scan of `find_record` through the read-only area. -/
def ro_find (s : Store) (key : List Nat) : Option PDBSTORE_status_e × record_out × Nat :=
  find_record_loop s key AREA_INDEX_READONLY ((s.area_params AREA_INDEX_READONLY).size + 1) 0
    record_out_init

/-- The record `find_record` returns for the record `r` of the log that lies behind the
records `pre`. -/
def found_out (s : Store) (pre : List log_rec) (r : log_rec) : record_out :=
  { key := r.key,
    data_ptr := { bank := (s.area_params AREA_INDEX_WRITABLE).bank,
                  addr := abase s AREA_INDEX_WRITABLE + (log_size pre + 8 + strlen r.key) },
    actual_data_size := r.data.length,
    totally_corrupt := false,
    flags := r.flags,
    next_offset := log_size pre + log_rec_size r }

/-- One bit of the textbook reflected CRC-32: the register is shifted right and the
polynomial `0xEDB88320` is xored in when a one was shifted out. -/
def crc32_reflected_bit (crc : Nat) : Nat :=
  if crc % 2 = 1 then (crc / 2) ^^^ 0xEDB88320 else crc / 2

/-- One byte of the textbook reflected CRC-32. -/
def crc32_reflected_byte (crc b : Nat) : Nat :=
  crc32_reflected_bit (crc32_reflected_bit (crc32_reflected_bit (crc32_reflected_bit
    (crc32_reflected_bit (crc32_reflected_bit (crc32_reflected_bit (crc32_reflected_bit
      (crc ^^^ b))))))))

/-- The textbook reflected CRC-32 register after the bytes `s`, started at `init`, without a
final xor. -/
def crc32_reflected (init : Nat) (s : List Nat) : Nat := s.foldl crc32_reflected_byte init

/-- The standard CRC-32 (IEEE 802.3): initial value `0xFFFFFFFF`, final xor `0xFFFFFFFF`. -/
def crc32_ieee (s : List Nat) : Nat := crc32_reflected 0xFFFFFFFF s ^^^ 0xFFFFFFFF

/-- The function `is_valid_key` on a pointer that may be null: `none` is the null pointer. -/
def is_valid_key_ptr (key : Option (List Nat)) : Bool :=
  match key with
  | none => false
  | some k => is_valid_key k

/-- The bank of the worked examples: 4096 bytes that erase to `0xFF`. -/
def demo_bank : pdbstore_bank_params_t := { bank_size := 4096, start_offset := 0, erase_val := 255 }

/-- The key `"PDBS"` of the master record of the worked examples. -/
def demo_master_key : List Nat := [80, 68, 66, 83]

/-- A store that was never initialized, on a little-endian host, all banks blank. -/
def demo_blank : Store where
  num_banks := 0
  bank_params := fun _ => demo_bank
  area_params := fun _ => { address := 0, size := 0, bank := 0 }
  initialized := false
  big_endian := false
  free_space_offset := 0
  mem := fun _ _ => 255
  host_big_endian := false

/-- The media of the worked examples before the first mount: one bank whose read-only area
holds the master record (key `"PDBS"`, `num_keys = 0`), all other bytes blank. -/
def demo_media : Store :=
  { demo_blank with
    mem := fun _ a => if a < 14 then (rec_image demo_blank demo_master_key [0, 0] 0).getD a 0 else 255 }

/-- The store of the worked examples as `pdbstore_init` leaves it on `demo_media`: read-only
area `[0, 14)`, writable area `[14, 3048)`, staging area `[3048, 4096)`. -/
def demo_store : Store :=
  { demo_media with
    num_banks := 1
    area_params := fun a =>
      match a with
      | AREA_INDEX_READONLY => { address := 0, size := 14, bank := 0 }
      | AREA_INDEX_WRITABLE => { address := 14, size := 3034, bank := 0 }
      | AREA_INDEX_STAGING => { address := 3048, size := 1048, bank := 0 }
    initialized := true }

/-- The store of the worked examples after `pdbstore_set("a", {1, 2, 3}, 3, 0)`. -/
def demo_store_a : Store := (pdbstore_set demo_store [97] [1, 2, 3] 3 0).2

/-- The bytes of a record on the media as the specification lays them out: `data_size` as
two bytes, high byte first, `key_size`, `flags`, the CRC as four bytes, most significant
first, the key, the data; the CRC is `calc_crc` started at `0xFFFFFFFF` over the first four
bytes followed by the key followed by the data. -/
def spec_record_bytes (key data : List Nat) (flags : Nat) : List Nat :=
  let h03 := [data.length / 256 % 256, data.length % 256, key.length % 256, flags % 256]
  let crc := calc_crc 0xFFFFFFFF (h03 ++ key ++ data)
  h03 ++ [crc / 16777216 % 256, crc / 65536 % 256, crc / 256 % 256, crc % 256] ++ key ++ data

/-- The store of the worked examples with one byte of the free part of the writable area
(offset 10, address 24) already programmed to 0. -/
def demo_store_dirty : Store :=
  { demo_store with mem := fun b a => if a = 24 then 0 else demo_store.mem b a }

/-- The state in which the byte at offset `p` of area `a` has been changed to `v`. -/
def corrupt_byte (s : Store) (a : area_index_e) (p v : Nat) : Store :=
  poke s (s.area_params a).bank (abase s a + p) 1 [v]

/-- Bank parameters `pdbstore_init` can work with: one or two banks, each with its start
offset inside the bank, at most `2 ^ 30` bytes, and a byte as erase value. -/
def bp_ok (num : Nat) (bp : Nat → pdbstore_bank_params_t) : Prop :=
  (num = 1 ∨ num = 2) ∧
  ∀ i, i < num → (bp i).start_offset ≤ (bp i).bank_size ∧ (bp i).bank_size ≤ 1073741824 ∧
    (bp i).erase_val < 256

/-- The state `u` with other contents of the banks, `free_space_offset` and `initialized`. -/
def with_media (u : Store) (m : Nat → Nat → Nat) (f : Nat) (b : Bool) : Store :=
  { u with mem := m, free_space_offset := f, initialized := b }

/-- A first mount: the bank parameters are in range, the store is not initialized, the
master record holds the two bytes of `num_keys`, and the writable and the staging area that
`pdbstore_init` lays out hold erased bytes only. -/
structure fresh (num : Nat) (bp : Nat → pdbstore_bank_params_t) (s0 : Store) : Prop where
  params : bp_ok num bp
  uninit : s0.initialized = false
  master : 2 ≤ hdr_data_size (init_layout s0 num bp).2.1 AREA_INDEX_READONLY 0
  blank : ∀ x, x < asize (init_layout s0 num bp).2.1 AREA_INDEX_WRITABLE + 1048 →
    acell (init_layout s0 num bp).2.1 AREA_INDEX_WRITABLE x =
      aerase (init_layout s0 num bp).2.1 AREA_INDEX_WRITABLE

/-- One call of a public function that changes the state; `pdbstore_init` is called with
the bank parameters of the first mount. -/
inductive op_step (num : Nat) (bp : Nat → pdbstore_bank_params_t) : Store → Store → Prop
  | set (s : Store) (key data : List Nat) (n flags : Nat) :
      op_step num bp s (pdbstore_set s key data n flags).2
  | remove (s : Store) (key : List Nat) : op_step num bp s (pdbstore_remove s key).2
  | reset (s : Store) : op_step num bp s (pdbstore_reset s).2
  | deinit (s : Store) : op_step num bp s (pdbstore_deinit s).2
  | init (s : Store) : op_step num bp s (pdbstore_init s num bp).2

/-- The states a store gets into: a successful `pdbstore_init` on `s0`, followed by calls of
the public functions. -/
inductive reachable (num : Nat) (bp : Nat → pdbstore_bank_params_t) (s0 : Store) : Store → Prop
  | mount : (pdbstore_init s0 num bp).1 = PDBSTORE_SUCCESS →
      reachable num bp s0 (pdbstore_init s0 num bp).2
  | step (s s' : Store) : reachable num bp s0 s → op_step num bp s s' → reachable num bp s0 s'

/-- The state `s` has the configuration of `t` and the cells of its read-only area. -/
structure mounted (t s : Store) : Prop where
  nb : s.num_banks = t.num_banks
  bk : s.bank_params = t.bank_params
  ar : s.area_params = t.area_params
  be : s.big_endian = t.big_endian
  hb : s.host_big_endian = t.host_big_endian
  ro : ∀ x, x < asize t AREA_INDEX_READONLY →
    acell s AREA_INDEX_READONLY x = acell t AREA_INDEX_READONLY x

/-- The invariant of the reachable states: the configuration is the one the first mount
computed, the read-only cells are the ones it found, and the media is in a steady state;
`free_space_offset` points behind the records when the store is initialized. -/
def store_inv (num : Nat) (bp : Nat → pdbstore_bank_params_t) (s0 s : Store) : Prop :=
  ∃ t o log, init_layout s0 num bp = (PDBSTORE_SUCCESS, t, o) ∧ mounted t s ∧
    steady { s with free_space_offset := log_size log } log ∧
    (s.initialized = true → s.free_space_offset = log_size log)

/-- A bank that leaves the writable area its least size: 14 bytes of read-only records,
1048 bytes of writable area, 1048 bytes of staging area. -/
def tight_bank : pdbstore_bank_params_t := { bank_size := 2110, start_offset := 0, erase_val := 255 }

/-- The media of `demo_media` in the bank `tight_bank`, before the first mount. -/
def tight_media : Store := { demo_media with bank_params := fun _ => tight_bank }

/-- A key of nine bytes, `"key000009"`. -/
def tight_key : List Nat := [107, 101, 121, 48, 48, 48, 48, 48, 57]

/-- The store after the first mount of `tight_media`. -/
def tight_store : Store := (pdbstore_init tight_media 1 (fun _ => tight_bank)).2

/-- The store `tight_store` after `pdbstore_set("key000009", d, 1024, 0)` with 1024 zero
bytes: the record takes 1041 of the 1048 bytes of the writable area. -/
def tight_store_full : Store := (pdbstore_set tight_store tight_key (List.replicate 1024 0) 1024 0).2

/-- The media `tight_media` with a hand-made record at the start of the writable area: key
bytes `'a', 0, 'b'` (`key_size` 3), data `{7, 7}`, a matching CRC. The store itself never
writes such a record, its keys hold no NUL. -/
def nul_key_media : Store :=
  { tight_media with
    mem := fun _ a =>
      if a < 14 then tight_media.mem 0 a
      else if a < 27 then (spec_record_bytes [97, 0, 98] [7, 7] 0).getD (a - 14) 0
      else 255 }

/-- A sequence of calls of `pdbstore_set`, `pdbstore_remove` and `pdbstore_reset`. -/
inductive user_ops : Store → Store → Prop
  | done (s : Store) : user_ops s s
  | set (s s' : Store) (key data : List Nat) (n flags : Nat) :
      user_ops s s' → user_ops s (pdbstore_set s' key data n flags).2
  | remove (s s' : Store) (key : List Nat) : user_ops s s' → user_ops s (pdbstore_remove s' key).2
  | reset (s s' : Store) : user_ops s s' → user_ops s (pdbstore_reset s').2

/-- A bank for 24 bytes of read-only records, 1048 bytes of writable area and 1048 bytes of
staging area. -/
def ro_bank : pdbstore_bank_params_t := { bank_size := 2120, start_offset := 0, erase_val := 255 }

/-- A media before the first mount whose read-only area holds the master record with
`num_keys = 1` and one record, key `"a"`, data `{5}`, with the given flags byte and a
matching CRC; all other bytes are blank. -/
def ro_media (flags : Nat) : Store :=
  { demo_blank with
    bank_params := fun _ => ro_bank
    mem := fun _ a =>
      if a < 14 then (rec_image demo_blank demo_master_key [0, 1] 0).getD a 0
      else if a < 24 then (spec_record_bytes [97] [5] flags).getD (a - 14) 0
      else 255 }

/-- The store after the first mount of `ro_media 0`. -/
def ro_store : Store := (pdbstore_init (ro_media 0) 1 (fun _ => ro_bank)).2

/-- The state after a power loss in the data program of a `pdbstore_set` that appends a
record at `free_space_offset`: the header, the key and the first `m` bytes of the data have
reached the media (`pdbstore_write_record` programs the image of the record front to back),
and `initialized` is lost. -/
def torn_append (s : Store) (key data : List Nat) (n flags m : Nat) : Store :=
  { poke s (s.area_params AREA_INDEX_WRITABLE).bank
      (abase s AREA_INDEX_WRITABLE + s.free_space_offset) (8 + strlen key + m)
      (rec_image s key (buf_bytes s (data_buf.buf data) n) flags) with initialized := false }

/-- The state after a power loss in the data program of a `pdbstore_set` that replaces the
record at offset `off` in place: the record has been erased from its `flags` field on, and
the rest of the header, the key and the first `m` bytes of the data have been programmed. -/
def torn_replace (s : Store) (key data : List Nat) (n flags off m : Nat) : Store :=
  { poke (wipe s (s.area_params AREA_INDEX_WRITABLE).bank
        (abase s AREA_INDEX_WRITABLE + (off + 3)) (5 + strlen key + n))
      (s.area_params AREA_INDEX_WRITABLE).bank
      (abase s AREA_INDEX_WRITABLE + (off + 3)) (5 + strlen key + m)
      ((rec_image s key (buf_bytes s (data_buf.buf data) n) flags).drop 3) with
    initialized := false }

/-- The store `tight_store` after `pdbstore_set("a", {1, 2, 3}, 3, 0)` and
`pdbstore_set("b", {4, 5, 6}, 3, 0)`. -/
def tight_store_ab : Store :=
  (pdbstore_set (pdbstore_set tight_store [97] [1, 2, 3] 3 0).2 [98] [4, 5, 6] 3 0).2

/-- A media before a mount, one bank of 2110 bytes: the master record without read-only
keys; at offset 0 of the writable area a record with key `"a"`, one data byte and the
given flags byte whose data byte was altered from 5 to 6, so that its CRC check fails; in
the staging area the same record with its data byte 5 and a matching CRC; all other bytes
are blank. -/
def replay_media (flags : Nat) : Store :=
  { tight_media with
    mem := fun _ a =>
      if a < 14 then tight_media.mem 0 a
      else if a < 23 then (spec_record_bytes [97] [5] flags).getD (a - 14) 0
      else if a = 23 then 6
      else if 1062 ≤ a ∧ a < 1072 then (spec_record_bytes [97] [5] flags).getD (a - 1062) 0
      else 255 }

/-- The store `tight_store` after `pdbstore_set("a", {1, 2, 3}, 3, 0)`. -/
def tight_store_a : Store := (pdbstore_set tight_store [97] [1, 2, 3] 3 0).2

/-- The store `tight_store_a` after `pdbstore_remove("a")`. -/
def tight_store_removed : Store := (pdbstore_remove tight_store_a [97]).2

/-- A bank of 2000 bytes, too small for the master record of `demo_media`, a writable area
and the staging area. -/
def small_bank : pdbstore_bank_params_t := { bank_size := 2000, start_offset := 0, erase_val := 255 }

/-- The state after a power loss in the writable write of a resilient `pdbstore_set` that
replaces the record at offset `off` in place: `pdbstore_write_record` has written the whole
record to the staging area, the record at `off` has been erased from its `flags` field on,
and the first `j` bytes behind the size fields (flags, CRC, key, data, in this order) have
been programmed again; `initialized` is lost. -/
def torn_staged_replace (s : Store) (key data : List Nat) (n flags off j : Nat) : Store :=
  { poke (wipe (pdbstore_write_record s AREA_INDEX_STAGING key (data_buf.buf data) n flags 0 0
          false).2.1
        (s.area_params AREA_INDEX_WRITABLE).bank
        (abase s AREA_INDEX_WRITABLE + (off + 3)) (5 + strlen key + n))
      (s.area_params AREA_INDEX_WRITABLE).bank
      (abase s AREA_INDEX_WRITABLE + (off + 3)) j
      ((rec_image s key (buf_bytes s (data_buf.buf data) n) flags).drop 3) with
    initialized := false }

/-- A media before a mount, one bank of 2110 bytes: the master record without read-only
keys; at offset 0 of the writable area a valid record with key `"a"`, the data byte 5 and
the given flags byte, behind it a valid record with key `"b"` and the data byte 6; in the
staging area the record of `"a"` once more, byte for byte; all other bytes are blank. -/
def replayed_media (flags : Nat) : Store :=
  { tight_media with
    mem := fun _ a =>
      if a < 14 then tight_media.mem 0 a
      else if a < 24 then (spec_record_bytes [97] [5] flags).getD (a - 14) 0
      else if a < 34 then (spec_record_bytes [98] [6] 0).getD (a - 24) 0
      else if 1062 ≤ a ∧ a < 1072 then (spec_record_bytes [97] [5] flags).getD (a - 1062) 0
      else 255 }

/-- A media before a mount, one bank of 2110 bytes: the master record without read-only
keys; at offset 0 of the writable area a valid record with key `"a"` and the three data
bytes 1, 2, 3; in the staging area a valid record with key `"a"` and the one data byte 5;
all other bytes are blank. -/
def mismatch_media : Store :=
  { tight_media with
    mem := fun _ a =>
      if a < 14 then tight_media.mem 0 a
      else if a < 26 then (spec_record_bytes [97] [1, 2, 3] 0).getD (a - 14) 0
      else if 1062 ≤ a ∧ a < 1072 then (spec_record_bytes [97] [5] 1).getD (a - 1062) 0
      else 255 }

/-- The bytes of the record that `pdbstore_set(key, data, n, flags)` writes. -/
def set_image (s : Store) (key data : List Nat) (n flags : Nat) : List Nat :=
  rec_image s key (buf_bytes s (data_buf.buf data) n) flags

/-- The media after the first step of a resilient `pdbstore_set`: the record has been
programmed at the start of the staging area. -/
def staged (s : Store) (key data : List Nat) (n flags : Nat) : Store :=
  poke s (s.area_params AREA_INDEX_STAGING).bank (abase s AREA_INDEX_STAGING)
    (8 + strlen key + n) (set_image s key data n flags)

/-- The state after a power loss in the first step of a resilient `pdbstore_set`, the write
of the record to the staging area: the first `j` bytes of the record (header, key, data, in
this order) have been programmed at the start of the staging area; `initialized` is lost. -/
def cut_stage (s : Store) (key data : List Nat) (n flags j : Nat) : Store :=
  { poke s (s.area_params AREA_INDEX_STAGING).bank (abase s AREA_INDEX_STAGING) j
      (set_image s key data n flags) with initialized := false }

/-- The state after a power loss in the second step of a resilient `pdbstore_set` that
appends a record: the staging area holds the record, and the first `j` bytes of the record
have been programmed at `free_space_offset`. -/
def cut_append (s : Store) (key data : List Nat) (n flags j : Nat) : Store :=
  { poke (staged s key data n flags) (s.area_params AREA_INDEX_WRITABLE).bank
      (abase s AREA_INDEX_WRITABLE + s.free_space_offset) j (set_image s key data n flags) with
    initialized := false }

/-- The state after a power loss in the erase of the second step of a resilient
`pdbstore_set` that replaces the record at `off`: the staging area holds the record, and
`j` bytes of the old record have been erased from its `flags` field on. -/
def cut_erase (s : Store) (key data : List Nat) (n flags off j : Nat) : Store :=
  { wipe (staged s key data n flags) (s.area_params AREA_INDEX_WRITABLE).bank
      (abase s AREA_INDEX_WRITABLE + (off + 3)) j with
    initialized := false }

/-- The state after a power loss in the programming of the second step of a resilient
`pdbstore_set` that replaces the record at `off`: the staging area holds the record, the old
record has been erased from its `flags` field on, and `j` bytes of the new record have been
programmed from there. -/
def cut_program (s : Store) (key data : List Nat) (n flags off j : Nat) : Store :=
  { poke (wipe (staged s key data n flags) (s.area_params AREA_INDEX_WRITABLE).bank
        (abase s AREA_INDEX_WRITABLE + (off + 3)) (5 + strlen key + n))
      (s.area_params AREA_INDEX_WRITABLE).bank (abase s AREA_INDEX_WRITABLE + (off + 3)) j
      ((set_image s key data n flags).drop 3) with
    initialized := false }

/-- The state after a power loss in the third step of a resilient `pdbstore_set`, the erase
of the staging area, where `W` is the state after the second step: the first `j` bytes of
the staging area have been erased. -/
def cut_clear (W : Store) (j : Nat) : Store :=
  { wipe W (W.area_params AREA_INDEX_STAGING).bank (abase W AREA_INDEX_STAGING) j with
    initialized := false }

/-- The states in which a power loss can leave the media during
`pdbstore_set(key, data, n, flags)` with the resilient flag, called in the state `s`: none
when the call returns before it writes; otherwise the record is programmed to the staging
area, then written to the writable area at the offset `pdbstore_do_set` has found (appended,
or erased from the `flags` field on and programmed again), then the staging area is
erased, and each program and erase proceeds byte by byte from the lowest address. -/
def set_cut (s : Store) (key data : List Nat) (n flags : Nat) (T : Store) : Prop :=
  match do_set_target s key (data_buf.buf data) n flags with
  | Except.error _ => False
  | Except.ok (rc, _, _, off) =>
    (∃ j, j ≤ 8 + strlen key + n ∧ T = cut_stage s key data n flags j) ∨
    (rc = false ∧ ∃ j, j ≤ 8 + strlen key + n ∧ T = cut_append s key data n flags j) ∨
    (rc = true ∧ ∃ j, j ≤ 5 + strlen key + n ∧ T = cut_erase s key data n flags off j) ∨
    (rc = true ∧ ∃ j, j ≤ 5 + strlen key + n ∧ T = cut_program s key data n flags off j) ∨
    (rc = false ∧ ∃ j, j ≤ 1048 ∧
      T = cut_clear (cut_append s key data n flags (8 + strlen key + n)) j) ∨
    (rc = true ∧ ∃ j, j ≤ 1048 ∧
      T = cut_clear (cut_program s key data n flags off (5 + strlen key + n)) j)

/-- The state `T` is what a power loss can leave of the state `s`: the configuration is that
of `s`, `initialized` is lost, and bytes differ at most in the writable and the staging
area. -/
structure crash_of (s T : Store) : Prop where
  nb : T.num_banks = s.num_banks
  bk : T.bank_params = s.bank_params
  ar : T.area_params = s.area_params
  be : T.big_endian = s.big_endian
  hb : T.host_big_endian = s.host_big_endian
  ini : T.initialized = false
  out : ∀ b y, ¬ (b = (s.area_params AREA_INDEX_WRITABLE).bank ∧ abase s AREA_INDEX_WRITABLE ≤ y ∧
    y < abase s AREA_INDEX_WRITABLE + asize s AREA_INDEX_WRITABLE + 1048) → T.mem b y = s.mem b y

/-- After `pdbstore_init` on the state `T` that a power loss has left of `s`, the key has its
old value: `pdbstore_get` returns the status it returned in `s` and, with success, the same
size and bytes. -/
def recovered_old (num : Nat) (bp : Nat → pdbstore_bank_params_t) (s T : Store)
    (key : List Nat) : Prop :=
  (pdbstore_get (pdbstore_init T num bp).2 key).1 = (pdbstore_get s key).1 ∧
  ((pdbstore_get s key).1 = PDBSTORE_SUCCESS →
    (pdbstore_get (pdbstore_init T num bp).2 key).2.2 = (pdbstore_get s key).2.2 ∧
    mem_read (pdbstore_init T num bp).2 (pdbstore_get (pdbstore_init T num bp).2 key).2.1.bank
        (pdbstore_get (pdbstore_init T num bp).2 key).2.1.addr
        (pdbstore_get (pdbstore_init T num bp).2 key).2.2 =
      mem_read s (pdbstore_get s key).2.1.bank (pdbstore_get s key).2.1.addr
        (pdbstore_get s key).2.2)

/-- After `pdbstore_init` on the state `T`, the key has the new value `D`: `pdbstore_get`
returns success, the size of `D` and the bytes of `D`. -/
def recovered_new (num : Nat) (bp : Nat → pdbstore_bank_params_t) (T : Store)
    (key D : List Nat) : Prop :=
  (pdbstore_get (pdbstore_init T num bp).2 key).1 = PDBSTORE_SUCCESS ∧
  (pdbstore_get (pdbstore_init T num bp).2 key).2.2 = D.length ∧
  mem_read (pdbstore_init T num bp).2 (pdbstore_get (pdbstore_init T num bp).2 key).2.1.bank
    (pdbstore_get (pdbstore_init T num bp).2 key).2.1.addr D.length = D

/-- The number of elements of the key buffers that the callers of `read_record` with
`copy_key` pass: `char read_key[PDBSTORE_MAX_KEY_SIZE]` in `find_record`,
`char key[PDBSTORE_MAX_KEY_SIZE]` and `char staging_key[PDBSTORE_MAX_KEY_SIZE]` in
`pdbstore_init`. -/
def key_buffer_size : Nat := PDBSTORE_MAX_KEY_SIZE

/-- The indices of the caller's `key` buffer that `read_record` assigns, in the order of the
assignments: with `copy_key`, `read_area(area, offset, key_size, key)` fills the indices
below `key_size` and `key[key_size] = 0` follows. Nothing is assigned when the function
returns before, when `read_area` fails, or without `copy_key`. -/
def read_record_key_writes (s : Store) (area : area_index_e) (offset : Nat) (copy_key : Bool) :
    List Nat :=
  let ap := s.area_params area
  if u32 (offset + sizeof_header) ≥ u32 (ap.address + ap.size) then []
  else
    let rh := read_area s area offset sizeof_header
    if rh.1 ≠ PDBSTORE_SUCCESS then []
    else
      let header := rh.2
      let offset := u32 (offset + sizeof_header)
      let key_size := header.getD 2 0 % 256
      let data_size := conv_ton16 s.big_endian (load16 s.host_big_endian (header.getD 0 0) (header.getD 1 0))
      if key_size = 0 ∨ key_size > PDBSTORE_MAX_KEY_SIZE ∨ data_size > PDBSTORE_MAX_DATA_SIZE then []
      else
        let total_size := u32 (key_size + data_size)
        if u32 (offset + total_size) > u32 (ap.address + ap.size) then []
        else if copy_key then
          let rk := read_area s area offset key_size
          if rk.1 ≠ PDBSTORE_SUCCESS then []
          else List.range key_size ++ [key_size]
        else []

/-- A key of the maximum length: sixteen times `'k'`. -/
def max_key : List Nat := List.replicate 16 107

/-- The store `tight_store` after `pdbstore_set(max_key, {1}, 1, 0)`. -/
def max_key_store : Store := (pdbstore_set tight_store max_key [1] 1 0).2

/-- The media `tight_media` with the delete flag (`0x80`) in the flags byte of the master
record, under a matching CRC. -/
def deleted_master_media : Store :=
  { tight_media with
    mem := fun _ a => if a < 14 then (rec_image demo_blank demo_master_key [0, 0] 128).getD a 0 else 255 }

/-- A hand-made media in `tight_bank`, where `pdbstore_init` lays out the writable area at
the bank addresses `[14, 1062)` and the staging area behind it: the writable area holds the
record of key `"b"` with 1024 zero bytes at offset 0 and the record of key `"a"` with the
data `{1, 2, 3, 4, 5, 6, 255}` at offset 1033, both with a matching CRC. The second record
ends at offset 1049, one byte behind the end of the writable area: its last byte, 255, is
the first cell of the staging area, which is blank. -/
def straddle_media : Store :=
  { tight_media with
    mem := fun _ a =>
      if a < 14 then tight_media.mem 0 a
      else if a < 23 then [4, 0, 1, 0, 239, 129, 162, 248, 98].getD (a - 14) 0
      else if a < 1047 then 0
      else if a < 1063 then
        [0, 7, 1, 0, 0, 124, 42, 208, 97, 1, 2, 3, 4, 5, 6, 255].getD (a - 1047) 0
      else 255 }

/-- The store after the mount of `straddle_media`. -/
def straddle_store : Store := (pdbstore_init straddle_media 1 (fun _ => tight_bank)).2

/-! ## Properties of the embedding -/

theorem u32_of_lt {x : Nat} (h : x < 4294967296) : u32 x = x := Nat.mod_eq_of_lt h

theorem conv_ton16_le (n : Nat) (h : n < 65536) :
    conv_ton16 false n = n / 256 + (n % 256) * 256 := by
  unfold conv_ton16
  simp only [Bool.false_eq_true, if_false]
  have h1 : n >>> 8 < 2 ^ 8 := by rw [Nat.shiftRight_eq_div_pow]; omega
  have h2 := Nat.mul_add_lt_is_or h1 n
  rw [Nat.lor_comm, Nat.shiftLeft_eq, Nat.mul_comm n, ← h2, Nat.shiftRight_eq_div_pow]
  omega

theorem conv_ton16_invol (be : Bool) (n : Nat) (h : n < 65536) :
    conv_ton16 be (conv_ton16 be n) = n := by
  cases be
  · rw [conv_ton16_le n h, conv_ton16_le _ (by omega)]; omega
  · simp [conv_ton16]

theorem conv_ton16_lt (be : Bool) (n : Nat) (h : n < 65536) : conv_ton16 be n < 65536 := by
  unfold conv_ton16; split
  · exact h
  · exact Nat.mod_lt _ (by norm_num)

theorem conv_ton32_lt (be : Bool) (c : Nat) (h : c < 4294967296) : conv_ton32 be c < 4294967296 := by
  unfold conv_ton32; split
  · exact h
  · have e : (4294967296 : Nat) = 2 ^ 32 := by norm_num
    rw [e]
    refine Nat.or_lt_two_pow (Nat.or_lt_two_pow (Nat.or_lt_two_pow ?_ ?_) ?_) ?_
    · exact lt_of_le_of_lt Nat.and_le_right (by norm_num)
    · exact lt_of_le_of_lt Nat.and_le_right (by norm_num)
    · exact lt_of_le_of_lt Nat.and_le_right (by norm_num)
    · exact lt_of_le_of_lt Nat.and_le_right (by norm_num)

theorem load16_store16 (h : Bool) (v : Nat) (hv : v < 65536) :
    load16 h ((store16 h v).getD 0 0) ((store16 h v).getD 1 0) = v := by
  unfold load16 store16; cases h <;> simp <;> omega

theorem load32_store32 (h : Bool) (v : Nat) (hv : v < 4294967296) :
    load32 h ((store32 h v).getD 0 0) ((store32 h v).getD 1 0) ((store32 h v).getD 2 0)
      ((store32 h v).getD 3 0) = v := by
  unfold load32 store32; cases h <;> simp <;> omega

theorem crc_bit_lt (c : Nat) (h : c < 4294967296) : crc_bit c < 4294967296 := by
  unfold crc_bit
  have e : (4294967296 : Nat) = 2 ^ 32 := by norm_num
  simp only []
  rw [e]
  apply Nat.xor_lt_two_pow
  · rw [Nat.shiftRight_eq_div_pow]; omega
  · exact lt_of_le_of_lt Nat.and_le_left (by norm_num)

theorem same_cfg_refl (s : Store) : same_cfg s s := ⟨rfl, rfl, rfl, rfl, rfl, rfl, rfl⟩

theorem same_cfg_trans {s s1 s2 : Store} (h1 : same_cfg s s1) (h2 : same_cfg s1 s2) : same_cfg s s2 := by
  obtain ⟨a1, a2, a3, a4, a5, a6, a7⟩ := h1
  obtain ⟨b1, b2, b3, b4, b5, b6, b7⟩ := h2
  exact ⟨b1.trans a1, b2.trans a2, b3.trans a3, b4.trans a4, b5.trans a5, b6.trans a6, b7.trans a7⟩

theorem same_cfg_poke (s : Store) (bank addr n : Nat) (buf : List Nat) :
    same_cfg s (poke s bank addr n buf) := ⟨rfl, rfl, rfl, rfl, rfl, rfl, rfl⟩

theorem same_cfg_wipe (s : Store) (bank addr n : Nat) : same_cfg s (wipe s bank addr n) :=
  ⟨rfl, rfl, rfl, rfl, rfl, rfl, rfl⟩

theorem poke_mem (s : Store) (bank addr n : Nat) (buf : List Nat) (b x : Nat) :
    (poke s bank addr n buf).mem b x =
      if b = bank ∧ addr ≤ x ∧ x < addr + n then buf.getD (x - addr) 0 else s.mem b x := by
  unfold poke set_bank_mem
  by_cases hb : b = bank
  · subst hb; simp
  · simp [hb]

theorem wipe_mem (s : Store) (bank addr n : Nat) (b x : Nat) :
    (wipe s bank addr n).mem b x =
      if b = bank ∧ addr ≤ x ∧ x < addr + n then (s.bank_params bank).erase_val else s.mem b x := by
  unfold wipe set_bank_mem
  by_cases hb : b = bank
  · subst hb; simp
  · simp [hb]

theorem area_ok_nowrap {s : Store} {a : area_index_e} (h : area_ok s a) : area_nowrap s a := by
  obtain ⟨h1, h2⟩ := h
  unfold area_nowrap
  omega

theorem abs_address_eq (s : Store) (a : area_index_e) (o : Nat) (h : area_nowrap s a)
    (ho : o ≤ asize s a + 2047) : abs_address s a o = abase s a + o := by
  unfold abs_address
  unfold area_nowrap at h
  unfold abase at *
  apply u32_of_lt
  omega

theorem read_area_eq (s : Store) (a : area_index_e) (o n : Nat) (h : area_nowrap s a)
    (hn : o + n ≤ asize s a) :
    read_area s a o n = (PDBSTORE_SUCCESS, (List.range n).map (fun i => acell s a (o + i))) := by
  have h' := h
  unfold area_nowrap at h
  have e : u32 (o + n) = o + n := u32_of_lt (by omega)
  unfold read_area
  rw [e, if_neg (by unfold asize at hn; omega)]
  simp only [area_ptr_by_offset, mem_read]
  rw [abs_address_eq s a o h' (by omega)]
  simp only [acell, Nat.add_assoc]

theorem read_area_err (s : Store) (a : area_index_e) (o n : Nat)
    (hn : asize s a < o + n) (hlt : o + n < 4294967296) :
    read_area s a o n = (PDBSTORE_READ_ERROR, []) := by
  unfold read_area
  rw [u32_of_lt hlt, if_pos (by unfold asize at hn; omega)]

theorem write_area_cases (s : Store) (a : area_index_e) (o n : Nat) (buf : List Nat) :
    write_area s a o n buf = (PDBSTORE_WRITE_ERROR, s) ∨
    write_area s a o n buf =
      (PDBSTORE_SUCCESS, poke s (s.area_params a).bank (abs_address s a o) n buf) := by
  unfold write_area bank_prog
  simp only []
  split_ifs <;> simp [poke]

theorem write_area_eq (s : Store) (a : area_index_e) (o n : Nat) (buf : List Nat) (h : area_ok s a)
    (hn : o + n ≤ asize s a) (hn0 : n ≠ 0) (he : ∀ i, i < n → acell s a (o + i) = aerase s a) :
    write_area s a o n buf =
      (PDBSTORE_SUCCESS, poke s (s.area_params a).bank (abase s a + o) n buf) := by
  have h' := area_ok_nowrap h
  obtain ⟨h1, h2⟩ := h
  have ea := abs_address_eq s a o h' (by omega)
  unfold asize at hn h1
  unfold write_area bank_prog
  simp only [ea]
  have e : u32 (abase s a + o + n) = abase s a + o + n := u32_of_lt (by omega)
  rw [e, if_neg (by omega), if_neg]
  · rfl
  · simp only [List.any_eq_true, List.mem_range, bne_iff_ne, ne_eq, not_exists, not_and, not_not]
    intro i hi
    have := he i hi
    simpa [acell, aerase, Nat.add_assoc] using this

theorem erase_area_eq (s : Store) (a : area_index_e) (o n : Nat) (h : area_ok s a)
    (hn : o + n ≤ asize s a) (hn0 : n ≠ 0) :
    erase_area s a o n = (PDBSTORE_SUCCESS, wipe s (s.area_params a).bank (abase s a + o) n) := by
  have h' := area_ok_nowrap h
  obtain ⟨h1, h2⟩ := h
  have ea := abs_address_eq s a o h' (by omega)
  unfold asize at hn h1
  unfold erase_area bank_erase
  simp only [ea]
  have e : u32 (abase s a + o + n) = abase s a + o + n := u32_of_lt (by omega)
  rw [e, if_neg (by omega)]
  rfl

theorem reset_area_scan_spec (s : Store) (a : area_index_e) (h : area_ok s a) :
    ∀ (fuel ro rs : Nat), rs ≤ fuel → ro + rs ≤ asize s a →
      (reset_area_scan s a fuel ro rs).1 = PDBSTORE_SUCCESS ∧
      ((reset_area_scan s a fuel ro rs).2 = 0 ↔
        ∀ x, ro ≤ x → x < ro + rs → acell s a x = aerase s a) := by
  intro fuel
  induction fuel with
  | zero =>
    intro ro rs hf _
    have : rs = 0 := by omega
    subst this
    simp [reset_area_scan]
    intro x h1 h2; omega
  | succ fuel ih =>
    intro ro rs hf hsz
    unfold reset_area_scan
    by_cases h0 : rs = 0
    · subst h0; simp; intro x h1 h2; omega
    · rw [if_neg h0]
      simp only [WORK_BUF_SIZE]
      have hc : ro + min rs 16 ≤ asize s a := by omega
      rw [read_area_eq s a ro (min rs 16) (area_ok_nowrap h) hc]
      simp only [ne_eq, not_true_eq_false, if_false]
      by_cases hany : (List.map (fun i => acell s a (ro + i)) (List.range (min rs 16))).any
          (fun b => b != (s.bank_params (s.area_params a).bank).erase_val) = true
      · rw [if_pos hany]
        refine ⟨rfl, ?_⟩
        simp only [h0, false_iff]
        intro hall
        simp only [List.any_map, List.any_eq_true, List.mem_range, Function.comp, bne_iff_ne] at hany
        obtain ⟨i, hi, hne⟩ := hany
        exact hne (hall (ro + i) (by omega) (by omega))
      · rw [if_neg hany]
        have e : u32 (ro + min rs 16) = ro + min rs 16 := by
          apply u32_of_lt
          obtain ⟨h1, h2⟩ := h
          unfold asize at hc; unfold abase at h1; omega
        rw [e]
        obtain ⟨ih1, ih2⟩ := ih (ro + min rs 16) (rs - min rs 16) (by omega) (by omega)
        refine ⟨ih1, ?_⟩
        rw [ih2]
        simp only [List.any_map, List.any_eq_true, List.mem_range, Function.comp, bne_iff_ne,
          not_exists, not_and, not_not] at hany
        constructor
        · intro hall x h1 h2
          by_cases hx : x < ro + min rs 16
          · have := hany (x - ro) (by omega)
            have e2 : ro + (x - ro) = x := by omega
            rw [e2] at this
            exact this
          · exact hall x (by omega) (by omega)
        · intro hall x h1 h2
          exact hall x (by omega) (by omega)

/-- The effect of `reset_area` on an area that lies inside its bank: it succeeds, leaves the
state alone when the tail is blank already, and erases the tail otherwise. -/
theorem reset_area_spec (s : Store) (a : area_index_e) (o : Nat) (h : area_ok s a)
    (ho : o ≤ asize s a) :
    ((∀ x, o ≤ x → x < asize s a → acell s a x = aerase s a) ∧
      reset_area s a o = (PDBSTORE_SUCCESS, s)) ∨
    ((¬ ∀ x, o ≤ x → x < asize s a → acell s a x = aerase s a) ∧
      reset_area s a o =
        (PDBSTORE_SUCCESS, wipe s (s.area_params a).bank (abase s a + o) (asize s a - o))) := by
  have hb : asize s a < 2147483648 := by
    obtain ⟨h1, h2⟩ := h; omega
  have e : u32 ((s.area_params a).size + 4294967296 - o) = asize s a - o := by
    unfold u32 asize at *; omega
  obtain ⟨h1, h2⟩ := reset_area_scan_spec s a h (asize s a - o) o (asize s a - o) (le_refl _) (by omega)
  have e3 : o + (asize s a - o) = asize s a := by omega
  rw [e3] at h2
  unfold reset_area
  simp only [e, h1, ne_eq, not_true_eq_false, if_false]
  by_cases hall : ∀ x, o ≤ x → x < asize s a → acell s a x = aerase s a
  · left
    refine ⟨hall, ?_⟩
    rw [if_pos (h2.2 hall)]
  · right
    refine ⟨hall, ?_⟩
    have hne : (reset_area_scan s a (asize s a - o) o (asize s a - o)).2 ≠ 0 := fun hh => hall (h2.1 hh)
    rw [if_neg hne]
    have hlt : o < asize s a := by
      by_contra hc
      apply hall
      intro x hx1 hx2; omega
    exact erase_area_eq s a o (asize s a - o) h (by omega) (by omega)

theorem hdr_data_size_lt (s : Store) (a : area_index_e) (o : Nat) : hdr_data_size s a o < 65536 := by
  unfold hdr_data_size
  apply conv_ton16_lt
  unfold load16; split <;> omega

/-- The function `read_record` with `copy_key = true`, written out for an area whose
addresses do not wrap around. -/
theorem read_record_eq (s : Store) (a : area_index_e) (o : Nat) (out : record_out)
    (h : area_nowrap s a) (ho : o ≤ asize s a) :
    read_record s a o true out =
      if o + 8 ≥ (s.area_params a).address + asize s a then
        (PDBSTORE_DATA_CORRUPT, { out with totally_corrupt := true })
      else if o + 8 > asize s a then
        (PDBSTORE_READ_ERROR, { out with totally_corrupt := false })
      else if hdr_key_size s a o = 0 ∨ hdr_key_size s a o > 16 ∨ hdr_data_size s a o > 1024 then
        (PDBSTORE_DATA_CORRUPT, { out with totally_corrupt := true })
      else if rec_next s a o > (s.area_params a).address + asize s a then
        (PDBSTORE_DATA_CORRUPT, { out with totally_corrupt := true, flags := hdr_flags s a o })
      else if o + 8 + hdr_key_size s a o > asize s a then
        (PDBSTORE_READ_ERROR, { out with totally_corrupt := false, flags := hdr_flags s a o })
      else
        (if rec_crc_ok s a o then PDBSTORE_SUCCESS else PDBSTORE_DATA_CORRUPT,
          { key := rec_key s a o,
            data_ptr := { bank := (s.area_params a).bank, addr := abase s a + (o + 8 + hdr_key_size s a o) },
            actual_data_size := hdr_data_size s a o,
            totally_corrupt := false,
            flags := hdr_flags s a o,
            next_offset := rec_next s a o }) := by
  have h' := h
  unfold area_nowrap at h
  have hadr : (s.area_params a).address + asize s a + 2048 ≤ 4294967296 := by
    unfold abase at h; omega
  have e1 : u32 (o + sizeof_header) = o + 8 := u32_of_lt (by unfold sizeof_header; omega)
  have e2 : u32 ((s.area_params a).address + (s.area_params a).size) =
      (s.area_params a).address + asize s a := u32_of_lt (by unfold asize at *; omega)
  have hr8 : List.range 8 = [0, 1, 2, 3, 4, 5, 6, 7] := rfl
  unfold read_record
  simp only [e1, e2]
  by_cases c1 : o + 8 ≥ (s.area_params a).address + asize s a
  · rw [if_pos c1, if_pos c1]
  rw [if_neg c1, if_neg c1]
  by_cases c0 : o + 8 > asize s a
  · rw [if_pos c0, read_area_err s a o sizeof_header (by unfold sizeof_header; omega)
      (by unfold sizeof_header; omega)]
    simp
  rw [if_neg c0]
  have hra : read_area s a o sizeof_header =
      (PDBSTORE_SUCCESS, (List.range 8).map (fun i => acell s a (o + i))) :=
    read_area_eq s a o 8 h' (by omega)
  rw [hra]
  simp only [ne_eq, not_true_eq_false, if_false, hr8, List.map, List.getD_cons_zero,
    List.getD_cons_succ, Nat.add_zero, PDBSTORE_MAX_KEY_SIZE, PDBSTORE_MAX_DATA_SIZE]
  have hks : acell s a (o + 2) % 256 = hdr_key_size s a o := rfl
  have hds : conv_ton16 s.big_endian (load16 s.host_big_endian (acell s a o) (acell s a (o + 1))) =
      hdr_data_size s a o := rfl
  have hfl : acell s a (o + 3) % 256 = hdr_flags s a o := rfl
  rw [hks, hds, hfl]
  by_cases c2 : hdr_key_size s a o = 0 ∨ hdr_key_size s a o > 16 ∨ hdr_data_size s a o > 1024
  · rw [if_pos c2, if_pos c2]
  rw [if_neg c2, if_neg c2]
  have hk16 : hdr_key_size s a o ≤ 16 := by omega
  have hd1024 : hdr_data_size s a o ≤ 1024 := by omega
  have e3 : u32 (hdr_key_size s a o + hdr_data_size s a o) = hdr_key_size s a o + hdr_data_size s a o :=
    u32_of_lt (by omega)
  have e4 : u32 (o + 8 + (hdr_key_size s a o + hdr_data_size s a o)) = rec_next s a o := by
    unfold rec_next; rw [u32_of_lt (by omega)]; omega
  rw [e3, e4]
  by_cases c3 : rec_next s a o > (s.area_params a).address + asize s a
  · rw [if_pos c3, if_pos c3]
  rw [if_neg c3, if_neg c3]
  simp only [if_true]
  by_cases c4 : o + 8 + hdr_key_size s a o > asize s a
  · rw [if_pos c4, read_area_err s a (o + 8) (hdr_key_size s a o) (by omega) (by omega)]
    simp
  rw [if_neg c4, read_area_eq s a (o + 8) (hdr_key_size s a o) h' (by omega)]
  simp only [ne_eq, not_true_eq_false, if_false, sizeof_header, sizeof_crc]
  have e5 : u32 (o + 8 + hdr_key_size s a o) = o + 8 + hdr_key_size s a o := u32_of_lt (by omega)
  have e6 : u32 (o + 8 + hdr_key_size s a o + hdr_data_size s a o) = rec_next s a o := by
    unfold rec_next; exact u32_of_lt (by omega)
  rw [e5, e6]
  simp only [area_ptr_by_offset]
  rw [abs_address_eq s a (o + 8 + hdr_key_size s a o) h' (by omega)]
  have ekey : List.map (fun i => acell s a (o + 8 + i)) (List.range (hdr_key_size s a o)) = rec_key s a o := rfl
  have edata : mem_read s (s.area_params a).bank (abase s a + (o + 8 + hdr_key_size s a o)) (hdr_data_size s a o)
      = rec_data s a o := by
    unfold mem_read rec_data acell
    simp only [Nat.add_assoc]
  rw [ekey, edata]
  have ecrc : calc_crc (calc_crc (calc_crc INITIAL_CRC
      (List.take (8 - 4) [acell s a o, acell s a (o + 1), acell s a (o + 2), acell s a (o + 3),
        acell s a (o + 4), acell s a (o + 5), acell s a (o + 6), acell s a (o + 7)])) (rec_key s a o))
      (rec_data s a o) = rec_crc s a o := rfl
  rw [ecrc]
  by_cases c5 : rec_crc_ok s a o
  · rw [if_pos c5, if_neg (by simpa [rec_crc_ok] using c5)]
  · rw [if_neg c5, if_pos (by simpa [rec_crc_ok] using c5)]

theorem same_cfg_symm {s s' : Store} (h : same_cfg s s') : same_cfg s' s := by
  obtain ⟨a1, a2, a3, a4, a5, a6, a7⟩ := h
  exact ⟨a1.symm, a2.symm, a3.symm, a4.symm, a5.symm, a6.symm, a7.symm⟩

theorem same_cfg_asize {s s' : Store} (h : same_cfg s s') (a : area_index_e) : asize s' a = asize s a := by
  unfold asize; rw [h.2.2.1]

theorem same_cfg_abase {s s' : Store} (h : same_cfg s s') (a : area_index_e) : abase s' a = abase s a := by
  unfold abase; rw [h.2.2.1, h.2.1]

theorem same_cfg_aerase {s s' : Store} (h : same_cfg s s') (a : area_index_e) : aerase s' a = aerase s a := by
  unfold aerase; rw [h.2.2.1, h.2.1]

theorem same_cfg_area_ok {s s' : Store} (h : same_cfg s s') (a : area_index_e) (hk : area_ok s a) :
    area_ok s' a := by
  unfold area_ok at *
  rw [same_cfg_abase h, same_cfg_asize h, h.2.2.1, h.2.1]
  exact hk

theorem same_cfg_area_nowrap {s s' : Store} (h : same_cfg s s') (a : area_index_e)
    (hk : area_nowrap s a) : area_nowrap s' a := by
  unfold area_nowrap at *
  rw [same_cfg_abase h, same_cfg_asize h]
  exact hk

/-- The fields of the record at `o` depend only on the cells of the record. -/
theorem rec_fields_congr {s s' : Store} (hc : same_cfg s s') (a : area_index_e) (o : Nat)
    (hag : ∀ x, o ≤ x → x < rec_next s a o → acell s' a x = acell s a x) :
    hdr_key_size s' a o = hdr_key_size s a o ∧ hdr_data_size s' a o = hdr_data_size s a o ∧
    hdr_flags s' a o = hdr_flags s a o ∧ rec_next s' a o = rec_next s a o ∧
    rec_key s' a o = rec_key s a o ∧ rec_data s' a o = rec_data s a o ∧
    (rec_crc_ok s' a o ↔ rec_crc_ok s a o) := by
  have hn : o + 8 ≤ rec_next s a o := by unfold rec_next; omega
  have c0 := hag o (by omega) (by omega)
  have c1 := hag (o + 1) (by omega) (by omega)
  have c2 := hag (o + 2) (by omega) (by omega)
  have c3 := hag (o + 3) (by omega) (by omega)
  have c4 := hag (o + 4) (by omega) (by omega)
  have c5 := hag (o + 5) (by omega) (by omega)
  have c6 := hag (o + 6) (by omega) (by omega)
  have c7 := hag (o + 7) (by omega) (by omega)
  have k : hdr_key_size s' a o = hdr_key_size s a o := by unfold hdr_key_size; rw [c2]
  have d : hdr_data_size s' a o = hdr_data_size s a o := by
    unfold hdr_data_size; rw [c0, c1, hc.2.2.2.2.1, hc.2.2.2.2.2.2]
  have f : hdr_flags s' a o = hdr_flags s a o := by unfold hdr_flags; rw [c3]
  have n : rec_next s' a o = rec_next s a o := by unfold rec_next; rw [k, d]
  have ky : rec_key s' a o = rec_key s a o := by
    unfold rec_key; rw [k]
    apply List.map_congr_left
    intro i hi
    rw [List.mem_range] at hi
    exact hag _ (by omega) (by unfold rec_next; omega)
  have dt : rec_data s' a o = rec_data s a o := by
    unfold rec_data; rw [k, d]
    apply List.map_congr_left
    intro i hi
    rw [List.mem_range] at hi
    exact hag _ (by omega) (by unfold rec_next; omega)
  refine ⟨k, d, f, n, ky, dt, ?_⟩
  unfold rec_crc_ok rec_crc
  rw [ky, dt, c0, c1, c2, c3, c4, c5, c6, c7, hc.2.2.2.2.1, hc.2.2.2.2.2.2]

/-- `read_record` gives the same result in two states that agree on the cells of the
record, as far as they lie in the area or the record is well-formed. -/
theorem read_record_congr {s s' : Store} (hc : same_cfg s s') (a : area_index_e) (o : Nat)
    (out : record_out) (h : area_nowrap s a) (ho : o ≤ asize s a)
    (hag : o + 8 ≤ asize s a → ∀ x, o ≤ x → x < rec_next s a o → acell s' a x = acell s a x) :
    read_record s' a o true out = read_record s a o true out := by
  rw [read_record_eq s a o out h ho,
    read_record_eq s' a o out (same_cfg_area_nowrap hc a h) (by rw [same_cfg_asize hc]; exact ho)]
  simp only [same_cfg_asize hc, same_cfg_abase hc, hc.2.2.1]
  by_cases c1 : o + 8 ≥ (s.area_params a).address + asize s a
  · rw [if_pos c1, if_pos c1]
  rw [if_neg c1, if_neg c1]
  by_cases c0 : o + 8 > asize s a
  · rw [if_pos c0, if_pos c0]
  rw [if_neg c0, if_neg c0]
  obtain ⟨k, d, f, n, ky, dt, c⟩ := rec_fields_congr hc a o (hag (by omega))
  simp only [k, d, f, n, ky, c]

theorem store16_length (h : Bool) (v : Nat) : (store16 h v).length = 2 := by
  unfold store16; split <;> rfl

theorem store32_length (h : Bool) (v : Nat) : (store32 h v).length = 4 := by
  unfold store32; split <;> rfl

theorem hdr03_length (s : Store) (key : List Nat) (n flags : Nat) : (hdr03 s key n flags).length = 4 := by
  unfold hdr03; simp [store16_length]

theorem rec_image_length (s : Store) (key D : List Nat) (flags : Nat) :
    (rec_image s key D flags).length = 8 + strlen key + D.length := by
  unfold rec_image
  simp only [List.length_append, hdr03_length, store32_length]
  rfl

theorem buf_bytes_length (s : Store) (d : data_buf) (n : Nat) : (buf_bytes s d n).length = n := by
  unfold buf_bytes; cases d <;> simp [mem_read]

theorem poke_zero (s : Store) (bank addr : Nat) (buf : List Nat) : poke s bank addr 0 buf = s := by
  unfold poke set_bank_mem
  have : (fun b => if b = bank then
      (fun a => if addr ≤ a ∧ a < addr + 0 then buf.getD (a - addr) 0 else s.mem bank a)
      else s.mem b) = s.mem := by
    funext b a
    by_cases hb : b = bank
    · subst hb; simp
    · simp [hb]
  rw [this]

theorem poke_poke (s : Store) (bank addr n1 n2 : Nat) (l1 l2 : List Nat) (h1 : l1.length = n1) :
    poke (poke s bank addr n1 l1) bank (addr + n1) n2 l2 = poke s bank addr (n1 + n2) (l1 ++ l2) := by
  unfold poke set_bank_mem
  simp only [if_true]
  congr 1
  funext b a
  by_cases hb : b = bank
  · subst hb
    simp only [if_true]
    by_cases c1 : addr + n1 ≤ a ∧ a < addr + n1 + n2
    · rw [if_pos c1, if_pos (by omega)]
      rw [List.getD_append_right _ _ _ _ (by omega)]
      congr 1; omega
    · rw [if_neg c1]
      by_cases c2 : addr ≤ a ∧ a < addr + n1
      · rw [if_pos c2, if_pos (by omega)]
        rw [List.getD_append _ _ _ _ (by omega)]
      · rw [if_neg c2, if_neg (by omega)]
  · simp [hb]

@[simp] theorem poke_area_params (s : Store) (bank addr n : Nat) (buf : List Nat) :
    (poke s bank addr n buf).area_params = s.area_params := rfl

@[simp] theorem poke_bank_params (s : Store) (bank addr n : Nat) (buf : List Nat) :
    (poke s bank addr n buf).bank_params = s.bank_params := rfl

@[simp] theorem poke_big_endian (s : Store) (bank addr n : Nat) (buf : List Nat) :
    (poke s bank addr n buf).big_endian = s.big_endian := rfl

@[simp] theorem poke_host_big_endian (s : Store) (bank addr n : Nat) (buf : List Nat) :
    (poke s bank addr n buf).host_big_endian = s.host_big_endian := rfl

@[simp] theorem poke_free_space_offset (s : Store) (bank addr n : Nat) (buf : List Nat) :
    (poke s bank addr n buf).free_space_offset = s.free_space_offset := rfl

@[simp] theorem poke_initialized (s : Store) (bank addr n : Nat) (buf : List Nat) :
    (poke s bank addr n buf).initialized = s.initialized := rfl

@[simp] theorem wipe_area_params (s : Store) (bank addr n : Nat) :
    (wipe s bank addr n).area_params = s.area_params := rfl

@[simp] theorem wipe_bank_params (s : Store) (bank addr n : Nat) :
    (wipe s bank addr n).bank_params = s.bank_params := rfl

@[simp] theorem wipe_big_endian (s : Store) (bank addr n : Nat) :
    (wipe s bank addr n).big_endian = s.big_endian := rfl

@[simp] theorem wipe_host_big_endian (s : Store) (bank addr n : Nat) :
    (wipe s bank addr n).host_big_endian = s.host_big_endian := rfl

@[simp] theorem wipe_free_space_offset (s : Store) (bank addr n : Nat) :
    (wipe s bank addr n).free_space_offset = s.free_space_offset := rfl

@[simp] theorem wipe_initialized (s : Store) (bank addr n : Nat) :
    (wipe s bank addr n).initialized = s.initialized := rfl

/-- The three `write_area` calls of `pdbstore_write_record` onto erased cells program the
header part, the key and the data as one image. -/
theorem write_three (s : Store) (a : area_index_e) (p : Nat) (H K D : List Nat)
    (h : area_ok s a) (hH : H ≠ []) (hK : K ≠ [])
    (hfit : p + H.length + K.length + D.length ≤ asize s a)
    (her : ∀ x, p ≤ x → x < p + H.length + K.length + D.length → acell s a x = aerase s a) :
    write_area s a p H.length H =
      (PDBSTORE_SUCCESS, poke s (s.area_params a).bank (abase s a + p) H.length H) ∧
    write_area (poke s (s.area_params a).bank (abase s a + p) H.length H) a (p + H.length) K.length K =
      (PDBSTORE_SUCCESS, poke s (s.area_params a).bank (abase s a + p) (H.length + K.length) (H ++ K)) ∧
    (D ≠ [] →
      write_area (poke s (s.area_params a).bank (abase s a + p) (H.length + K.length) (H ++ K)) a
        (p + H.length + K.length) D.length D =
      (PDBSTORE_SUCCESS,
        poke s (s.area_params a).bank (abase s a + p) (H.length + K.length + D.length) (H ++ K ++ D))) := by
  have hHl : H.length ≠ 0 := by simpa using hH
  have hKl : K.length ≠ 0 := by simpa using hK
  refine ⟨?_, ?_, ?_⟩
  · exact write_area_eq s a p H.length H h (by omega) hHl (fun i hi => her _ (by omega) (by omega))
  · have hc := same_cfg_poke s (s.area_params a).bank (abase s a + p) H.length H
    rw [write_area_eq _ a (p + H.length) K.length K (same_cfg_area_ok hc a h)
      (by rw [same_cfg_asize hc]; omega) hKl ?_]
    · simp only [poke_area_params, same_cfg_abase hc]
      rw [← Nat.add_assoc, poke_poke _ _ _ _ _ _ _ rfl]
    · intro i hi
      rw [same_cfg_aerase hc, ← her (p + H.length + i) (by omega) (by omega)]
      simp only [acell, poke_area_params, same_cfg_abase hc, poke_mem]
      rw [if_neg (by omega)]
  · intro hD
    have hDl : D.length ≠ 0 := by simpa using hD
    have hc := same_cfg_poke s (s.area_params a).bank (abase s a + p) (H.length + K.length) (H ++ K)
    rw [write_area_eq _ a (p + H.length + K.length) D.length D (same_cfg_area_ok hc a h)
      (by rw [same_cfg_asize hc]; omega) hDl ?_]
    · simp only [poke_area_params, same_cfg_abase hc]
      have e : abase s a + (p + H.length + K.length) = abase s a + p + (H.length + K.length) := by omega
      rw [e, poke_poke _ _ _ _ _ _ _ (by simp)]
    · intro i hi
      rw [same_cfg_aerase hc, ← her (p + H.length + K.length + i) (by omega) (by omega)]
      simp only [acell, poke_area_params, same_cfg_abase hc, poke_mem]
      rw [if_neg (by omega)]

theorem record_size_eq (key : List Nat) (n : Nat) (hk : strlen key ≤ 16) (hn : n ≤ 1024) :
    record_size key n = 8 + strlen key + n := by
  unfold record_size sizeof_header
  exact u32_of_lt (by omega)

/-- Appending a record onto erased cells: `pdbstore_write_record` with
`replace_current = false` programs the image of the record and returns the offset behind
it. `D` is the content of the data buffer, which the header and key cells do not overlap. -/
theorem write_record_append (s : Store) (a : area_index_e) (key : List Nat) (data : data_buf)
    (n flags o nx : Nat) (D : List Nat)
    (h : area_ok s a) (hk1 : 1 ≤ strlen key) (hk2 : strlen key ≤ 16) (hn : n ≤ 1024)
    (hfit : o + 8 + strlen key + n ≤ asize s a)
    (her : ∀ x, o ≤ x → x < o + 8 + strlen key + n → acell s a x = aerase s a)
    (hD : ∀ s', same_cfg s s' →
      (∀ b x, ¬ (b = (s.area_params a).bank ∧ abase s a + o ≤ x ∧ x < abase s a + o + 8 + strlen key) →
        s'.mem b x = s.mem b x) → buf_bytes s' data n = D) :
    pdbstore_write_record s a key data n flags o nx false =
      (PDBSTORE_SUCCESS,
        poke s (s.area_params a).bank (abase s a + o) (8 + strlen key + n) (rec_image s key D flags),
        o + 8 + strlen key + n) := by
  have hDs : buf_bytes s data n = D := hD s (same_cfg_refl s) (fun _ _ _ => rfl)
  have hDl : D.length = n := by rw [← hDs, buf_bytes_length]
  have hsz : asize s a < 2147483648 := by obtain ⟨h1, h2⟩ := h; omega
  have hkl : strlen key % 256 = strlen key := Nat.mod_eq_of_lt (by omega)
  have hck : (cstr key).take (strlen key) = cstr key := List.take_of_length_le (le_refl _)
  have hcl : (cstr key).length = strlen key := rfl
  -- the header image
  let H := hdr03 s key n flags ++ store32 s.host_big_endian (conv_ton32 s.big_endian
      (calc_crc (calc_crc (calc_crc INITIAL_CRC (hdr03 s key n flags)) (cstr key)) D))
  have hHl : H.length = 8 := by simp [H, hdr03_length, store32_length]
  have hHne : H ≠ [] := by intro hh; rw [hh] at hHl; simp at hHl
  have hKne : cstr key ≠ [] := by intro hh; rw [hh] at hcl; simp at hcl; omega
  have hw := write_three s a o H (cstr key) D h hHne hKne (by rw [hHl, hcl, hDl]; omega)
    (by rw [hHl, hcl, hDl]; exact her)
  rw [hHl, hcl, hDl] at hw
  obtain ⟨w1, w2, w3⟩ := hw
  have himg : rec_image s key D flags = H ++ cstr key ++ D := by
    unfold rec_image; rw [hDl]
  unfold pdbstore_write_record
  rw [record_size_eq key n hk2 hn, u32_of_lt (by omega), if_neg (by unfold asize at hfit; omega)]
  simp only [Bool.false_eq_true, if_false, ne_eq, not_true_eq_false, hkl, hck, hDs,
    sizeof_header, Nat.sub_zero, List.drop_zero]
  have hH' : store16 s.host_big_endian (conv_ton16 s.big_endian (n % 65536)) ++ [strlen key, flags % 256] ++
      store32 s.host_big_endian (conv_ton32 s.big_endian
        (calc_crc (calc_crc (calc_crc INITIAL_CRC
          (store16 s.host_big_endian (conv_ton16 s.big_endian (n % 65536)) ++ [strlen key, flags % 256]))
          (cstr key)) D)) = H := by
    simp only [H, hdr03, hkl]
  rw [hH', w1]
  simp only [ne_eq, not_true_eq_false, if_false]
  rw [u32_of_lt (by omega), w2]
  simp only [ne_eq, not_true_eq_false, if_false]
  rw [u32_of_lt (by omega)]
  have hD2 : buf_bytes (poke s (s.area_params a).bank (abase s a + o) (8 + strlen key) (H ++ cstr key))
      data n = D := by
    apply hD _ (same_cfg_poke _ _ _ _ _)
    intro b x hx
    rw [poke_mem, if_neg]
    omega
  rw [hD2]
  by_cases hn0 : n = 0
  · subst hn0
    have hDnil : D = [] := List.length_eq_zero.mp hDl
    subst hDnil
    simp only [if_true, Nat.add_zero, not_true_eq_false, if_false]
    rw [himg, List.append_nil]
  · rw [if_pos hn0]
    have hDne : D ≠ [] := by intro hh; rw [hh] at hDl; simp at hDl; omega
    rw [w3 hDne, himg, u32_of_lt (by omega)]

theorem poke_wipe (s : Store) (bank addr n : Nat) (buf : List Nat) :
    poke (wipe s bank addr n) bank addr n buf = poke s bank addr n buf := by
  unfold poke wipe set_bank_mem
  simp only [if_true]
  congr 1
  funext b a
  by_cases hb : b = bank
  · subst hb
    simp only [if_true]
    by_cases c : addr ≤ a ∧ a < addr + n
    · rw [if_pos c, if_pos c]
    · rw [if_neg c, if_neg c, if_neg c]
  · simp [hb]

/-- Replacing a record in place: `pdbstore_write_record` with `replace_current = true`
erases the record from its `flags` field on and programs the image of the new record from
there. `D` is the content of the data buffer once the erase is done. -/
theorem write_record_replace (s : Store) (a : area_index_e) (key : List Nat) (data : data_buf)
    (n flags o nx : Nat) (D : List Nat)
    (h : area_ok s a) (hk1 : 1 ≤ strlen key) (hk2 : strlen key ≤ 16) (hn : n ≤ 1024)
    (hfit : o + 8 + strlen key + n ≤ asize s a)
    (hD : ∀ s', same_cfg s s' →
      (∀ b x, ¬ (b = (s.area_params a).bank ∧ abase s a + o ≤ x ∧ x < abase s a + o + 8 + strlen key) →
        s'.mem b x = (wipe s (s.area_params a).bank (abase s a + (o + 3)) (5 + strlen key + n)).mem b x) →
      buf_bytes s' data n = D) :
    pdbstore_write_record s a key data n flags o nx true =
      (PDBSTORE_SUCCESS,
        poke s (s.area_params a).bank (abase s a + (o + 3)) (5 + strlen key + n)
          ((rec_image s key D flags).drop 3),
        o + 8 + strlen key + n) := by
  obtain ⟨se, hse⟩ : ∃ se, se = wipe s (s.area_params a).bank (abase s a + (o + 3)) (5 + strlen key + n) :=
    ⟨_, rfl⟩
  have hce : same_cfg s se := by rw [hse]; exact same_cfg_wipe _ _ _ _
  have hDs : buf_bytes se data n = D := hD se hce (fun _ _ _ => by rw [hse])
  have hDl : D.length = n := by rw [← hDs, buf_bytes_length]
  have hsz : asize s a < 2147483648 := by obtain ⟨h1, h2⟩ := h; omega
  have hkl : strlen key % 256 = strlen key := Nat.mod_eq_of_lt (by omega)
  have hck : (cstr key).take (strlen key) = cstr key := List.take_of_length_le (le_refl _)
  have hcl : (cstr key).length = strlen key := rfl
  let H := (hdr03 s key n flags ++ store32 s.host_big_endian (conv_ton32 s.big_endian
      (calc_crc (calc_crc (calc_crc INITIAL_CRC (hdr03 s key n flags)) (cstr key)) D))).drop 3
  have hHl : H.length = 5 := by simp [H, hdr03_length, store32_length]
  have hHne : H ≠ [] := by intro hh; rw [hh] at hHl; simp at hHl
  have hKne : cstr key ≠ [] := by intro hh; rw [hh] at hcl; simp at hcl; omega
  have hw := write_three se a (o + 3) H (cstr key) D (same_cfg_area_ok hce a h) hHne hKne
    (by rw [hHl, hcl, hDl, same_cfg_asize hce]; omega)
    (by
      rw [hHl, hcl, hDl]
      intro x hx1 hx2
      rw [same_cfg_aerase hce]
      simp only [acell, same_cfg_abase hce, hce.2.2.1]
      rw [hse, wipe_mem, if_pos (by omega)]
      rfl)
  rw [hHl, hcl, hDl] at hw
  simp only [same_cfg_abase hce, hce.2.2.1] at hw
  rw [hse] at hw hDs
  obtain ⟨w1, w2, w3⟩ := hw
  have himg : (rec_image s key D flags).drop 3 = H ++ cstr key ++ D := by
    simp only [H, rec_image, hDl, List.append_assoc]
    rw [List.drop_append_of_le_length (by simp [hdr03_length]),
      List.drop_append_of_le_length (by simp [hdr03_length])]
    simp only [List.append_assoc]
  unfold pdbstore_write_record
  rw [record_size_eq key n hk2 hn, u32_of_lt (by omega), if_neg (by unfold asize at hfit; omega)]
  simp only [if_true, offsetof_flags]
  rw [u32_of_lt (by omega)]
  have e1 : u32 (8 + strlen key + n + 4294967296 - 3) = 5 + strlen key + n := by
    unfold u32; omega
  rw [e1, erase_area_eq s a (o + 3) (5 + strlen key + n) h (by omega) (by omega)]
  simp only [ne_eq, not_true_eq_false, if_false, hkl, hck,
    sizeof_header, wipe_host_big_endian, wipe_big_endian]
  rw [hDs]
  have hH' : List.drop 3 (store16 s.host_big_endian (conv_ton16 s.big_endian (n % 65536)) ++
      [strlen key, flags % 256] ++
      store32 s.host_big_endian (conv_ton32 s.big_endian
        (calc_crc (calc_crc (calc_crc INITIAL_CRC
          (store16 s.host_big_endian (conv_ton16 s.big_endian (n % 65536)) ++ [strlen key, flags % 256]))
          (cstr key)) D))) = H := by
    simp only [H, hdr03, hkl]
  rw [hH']
  have e2 : (8 : Nat) - 3 = 5 := rfl
  rw [e2, w1]
  simp only [ne_eq, not_true_eq_false, if_false]
  have e3 : u32 (o + 3 + 5) = o + 3 + 5 := u32_of_lt (by omega)
  rw [e3, w2]
  simp only [ne_eq, not_true_eq_false, if_false]
  have e4 : u32 (o + 3 + 5 + strlen key) = o + 3 + 5 + strlen key := u32_of_lt (by omega)
  rw [e4]
  have hD2 : buf_bytes (poke (wipe s (s.area_params a).bank (abase s a + (o + 3)) (5 + strlen key + n))
      (s.area_params a).bank (abase s a + (o + 3)) (5 + strlen key) (H ++ cstr key)) data n = D := by
    apply hD _ (same_cfg_trans (same_cfg_wipe _ _ _ _) (same_cfg_poke _ _ _ _ _))
    intro b x hx
    rw [poke_mem, if_neg]
    omega
  rw [hD2]
  by_cases hn0 : n = 0
  · subst hn0
    have hDnil : D = [] := List.length_eq_zero.mp hDl
    subst hDnil
    simp only [if_true, Nat.add_zero, not_true_eq_false, if_false]
    rw [himg, List.append_nil, poke_wipe]
  · rw [if_pos hn0]
    have hDne : D ≠ [] := by intro hh; rw [hh] at hDl; simp at hDl; omega
    rw [w3 hDne, himg, u32_of_lt (by omega), poke_wipe]

theorem crc_byte_lt (c b : Nat) (h : c < 4294967296) : crc_byte c b < 4294967296 := by
  unfold crc_byte
  have h0 : c ^^^ (b % 256) < 4294967296 := by
    have e : (4294967296 : Nat) = 2 ^ 32 := by norm_num
    rw [e]
    exact Nat.xor_lt_two_pow (by omega) (by omega)
  exact crc_bit_lt _ (crc_bit_lt _ (crc_bit_lt _ (crc_bit_lt _ (crc_bit_lt _ (crc_bit_lt _
    (crc_bit_lt _ (crc_bit_lt _ h0)))))))

theorem calc_crc_lt (c : Nat) (l : List Nat) (h : c < 4294967296) : calc_crc c l < 4294967296 := by
  unfold calc_crc
  induction l generalizing c with
  | nil => simpa using h
  | cons b l ih => simpa using ih (crc_byte c b) (crc_byte_lt c b h)

theorem getD_range_map (f : Nat → Nat) (n i : Nat) (h : i < n) :
    ((List.range n).map f).getD i 0 = f i := by
  rw [List.getD_eq_getElem _ _ (by simpa using h)]
  simp

/-- A list of length `n` is the list of its `n` first entries. -/
theorem list_eq_range_map (l : List Nat) (n : Nat) (h : l.length = n) :
    (List.range n).map (fun i => l.getD i 0) = l := by
  apply List.ext_getElem
  · simp [h]
  · intro i h1 h2
    simp only [List.getElem_map, List.getElem_range]
    exact List.getD_eq_getElem _ _ h2

/-- Reading back the image of a record: the cells at `[o, o + 8 + strlen key + n)` of an area
hold the image of `(key, D, flags)`, so the header fields, the key and the data are those of
the record and the stored CRC matches. -/
theorem rec_image_read (s : Store) (a : area_index_e) (o : Nat) (key D : List Nat) (flags : Nat)
    (hk2 : strlen key ≤ 16) (hn : D.length ≤ 1024)
    (hcells : ∀ i, i < 8 + strlen key + D.length →
      acell s a (o + i) = (rec_image s key D flags).getD i 0) :
    hdr_key_size s a o = strlen key ∧ hdr_data_size s a o = D.length ∧
    hdr_flags s a o = flags % 256 ∧ rec_next s a o = o + 8 + strlen key + D.length ∧
    rec_key s a o = cstr key ∧ rec_data s a o = D ∧ rec_crc_ok s a o := by
  have hcl : (cstr key).length = strlen key := rfl
  have h3 : (hdr03 s key D.length flags).length = 4 := hdr03_length _ _ _ _
  obtain ⟨H, hH⟩ : ∃ H, H = hdr03 s key D.length flags := ⟨_, rfl⟩
  obtain ⟨C, hC⟩ : ∃ C, C = store32 s.host_big_endian (conv_ton32 s.big_endian
      (calc_crc (calc_crc (calc_crc INITIAL_CRC (hdr03 s key D.length flags)) (cstr key)) D)) := ⟨_, rfl⟩
  have hCl : C.length = 4 := by rw [hC, store32_length]
  have hHl : H.length = 4 := by rw [hH, h3]
  have himg : rec_image s key D flags = H ++ C ++ cstr key ++ D := by
    unfold rec_image; rw [hH, hC]
  -- the cells of the four parts
  have cH : ∀ i, i < 4 → acell s a (o + i) = H.getD i 0 := by
    intro i hi
    rw [hcells i (by omega), himg, List.append_assoc, List.append_assoc,
      List.getD_append _ _ _ _ (by omega)]
  have cC : ∀ i, i < 4 → acell s a (o + 4 + i) = C.getD i 0 := by
    intro i hi
    rw [Nat.add_assoc, hcells (4 + i) (by omega), himg, List.append_assoc, List.append_assoc,
      List.getD_append_right _ _ _ _ (by omega), List.getD_append _ _ _ _ (by omega)]
    congr 1; omega
  have cK : ∀ i, i < strlen key → acell s a (o + 8 + i) = (cstr key).getD i 0 := by
    intro i hi
    rw [Nat.add_assoc, hcells (8 + i) (by omega), himg, List.append_assoc,
      List.getD_append_right _ _ _ _ (by simp [hHl, hCl]),
      List.getD_append _ _ _ _ (by simp [hHl, hCl]; omega)]
    congr 1; simp [hHl, hCl]
  have cD : ∀ i, i < D.length → acell s a (o + 8 + strlen key + i) = D.getD i 0 := by
    intro i hi
    rw [Nat.add_assoc, Nat.add_assoc, hcells (8 + (strlen key + i)) (by omega), himg,
      List.getD_append_right _ _ _ _ (by simp [hHl, hCl, hcl]; omega)]
    congr 1; simp [hHl, hCl, hcl]; omega
  -- the header bytes
  have hH0 : H.getD 0 0 = (store16 s.host_big_endian (conv_ton16 s.big_endian (D.length % 65536))).getD 0 0 := by
    rw [hH]; unfold hdr03
    rw [List.getD_append _ _ _ _ (by simp [store16_length])]
  have hH1 : H.getD 1 0 = (store16 s.host_big_endian (conv_ton16 s.big_endian (D.length % 65536))).getD 1 0 := by
    rw [hH]; unfold hdr03
    rw [List.getD_append _ _ _ _ (by simp [store16_length])]
  have hH2 : H.getD 2 0 = strlen key % 256 := by
    rw [hH]; unfold hdr03
    rw [List.getD_append_right _ _ _ _ (by simp [store16_length])]
    simp [store16_length]
  have hH3 : H.getD 3 0 = flags % 256 := by
    rw [hH]; unfold hdr03
    rw [List.getD_append_right _ _ _ _ (by simp [store16_length])]
    simp [store16_length]
  have c0 := cH 0 (by omega)
  have c1 := cH 1 (by omega)
  have c2 := cH 2 (by omega)
  have c3 := cH 3 (by omega)
  rw [Nat.add_zero] at c0
  have k : hdr_key_size s a o = strlen key := by
    unfold hdr_key_size; rw [c2, hH2]; omega
  have d : hdr_data_size s a o = D.length := by
    unfold hdr_data_size
    rw [c0, c1, hH0, hH1, load16_store16 _ _ (conv_ton16_lt _ _ (by omega)),
      conv_ton16_invol _ _ (by omega)]
    omega
  have f : hdr_flags s a o = flags % 256 := by
    unfold hdr_flags; rw [c3, hH3]; omega
  have ky : rec_key s a o = cstr key := by
    unfold rec_key; rw [k]
    refine Eq.trans ?_ (list_eq_range_map (cstr key) (strlen key) hcl)
    apply List.map_congr_left
    intro i hi
    exact cK i (List.mem_range.mp hi)
  have dt : rec_data s a o = D := by
    unfold rec_data; rw [k, d]
    refine Eq.trans ?_ (list_eq_range_map D D.length rfl)
    apply List.map_congr_left
    intro i hi
    exact cD i (List.mem_range.mp hi)
  refine ⟨k, d, f, by unfold rec_next; rw [k, d], ky, dt, ?_⟩
  have hH4 : [acell s a o, acell s a (o + 1), acell s a (o + 2), acell s a (o + 3)] = H := by
    rw [c0, c1, c2, c3]
    apply List.ext_getElem
    · simp [hHl]
    · intro i h1 h2
      have hi : i < 4 := by simpa using h1
      rw [← List.getD_eq_getElem _ 0 h2]
      interval_cases i <;> simp
  unfold rec_crc_ok rec_crc
  rw [ky, dt, hH4]
  have e4 := cC 0 (by omega)
  have e5 := cC 1 (by omega)
  have e6 := cC 2 (by omega)
  have e7 := cC 3 (by omega)
  rw [Nat.add_zero] at e4
  rw [e4, e5, e6, e7, hC, ← hH]
  rw [load32_store32]
  exact conv_ton32_lt _ _ (calc_crc_lt _ _ (calc_crc_lt _ _ (calc_crc_lt _ _ (by unfold INITIAL_CRC; norm_num))))

theorem log_size_append (l1 l2 : List log_rec) : log_size (l1 ++ l2) = log_size l1 + log_size l2 := by
  induction l1 with
  | nil => simp [log_size]
  | cons r l ih => simp [log_size, ih]; omega

theorem log_at_append (s : Store) (a : area_index_e) (o : Nat) (l1 l2 : List log_rec) :
    log_at s a o (l1 ++ l2) ↔ log_at s a o l1 ∧ log_at s a (o + log_size l1) l2 := by
  induction l1 generalizing o with
  | nil => simp [log_at, log_size]
  | cons r l ih =>
    show ((∀ i, i < log_rec_size r → acell s a (o + i) = (rec_image s r.key r.data r.flags).getD i 0) ∧
        log_at s a (o + log_rec_size r) (l ++ l2)) ↔
      ((∀ i, i < log_rec_size r → acell s a (o + i) = (rec_image s r.key r.data r.flags).getD i 0) ∧
        log_at s a (o + log_rec_size r) l) ∧ log_at s a (o + (log_rec_size r + log_size l)) l2
    rw [ih, Nat.add_assoc]
    tauto

/-- Reading the record at the head of a log: `read_record` succeeds and returns the key,
data, size and flags of the record. -/
theorem read_record_log (s : Store) (a : area_index_e) (o : Nat) (r : log_rec) (out : record_out)
    (h : area_nowrap s a) (hr : log_rec_ok r) (hfit : o + log_rec_size r ≤ asize s a)
    (hcells : ∀ i, i < log_rec_size r → acell s a (o + i) = (rec_image s r.key r.data r.flags).getD i 0) :
    read_record s a o true out =
      (PDBSTORE_SUCCESS,
        { key := r.key,
          data_ptr := { bank := (s.area_params a).bank, addr := abase s a + (o + 8 + strlen r.key) },
          actual_data_size := r.data.length,
          totally_corrupt := false,
          flags := r.flags,
          next_offset := o + log_rec_size r }) := by
  obtain ⟨hk1, hk2, hck, hd, hf⟩ := hr
  unfold log_rec_size at hfit hcells
  obtain ⟨k, d, f, n, ky, dt, c⟩ := rec_image_read s a o r.key r.data r.flags hk2 hd hcells
  rw [read_record_eq s a o out h (by omega)]
  rw [if_neg (by omega), if_neg (by omega), if_neg (by rw [k, d]; omega), if_neg (by rw [n]; omega),
    if_neg (by rw [k]; omega), if_pos c, k, d, f, n, ky, hck, Nat.mod_eq_of_lt hf]
  simp only [log_rec_size, Nat.add_assoc]

/-- The scan of `find_record` through the writable area in steady state, from the record
at offset `o` on: it stops at the first record with the key, or runs to the end of the log. -/
theorem find_record_loop_log (s : Store) (key : List Nat)
    (h : area_nowrap s AREA_INDEX_WRITABLE) :
    ∀ (rest : List log_rec) (o fuel : Nat) (out : record_out),
      log_at s AREA_INDEX_WRITABLE o rest → (∀ r, r ∈ rest → log_rec_ok r) →
      s.free_space_offset = o + log_size rest → o + log_size rest ≤ asize s AREA_INDEX_WRITABLE →
      rest.length < fuel →
      (∃ pre r post, rest = pre ++ r :: post ∧ (∀ q, q ∈ pre → q.key ≠ cstr key) ∧ r.key = cstr key ∧
        find_record_loop s key AREA_INDEX_WRITABLE fuel o out =
          (some PDBSTORE_SUCCESS,
            { key := r.key,
              data_ptr := { bank := (s.area_params AREA_INDEX_WRITABLE).bank,
                            addr := abase s AREA_INDEX_WRITABLE + (o + log_size pre + 8 + strlen r.key) },
              actual_data_size := r.data.length,
              totally_corrupt := false,
              flags := r.flags,
              next_offset := o + log_size pre + log_rec_size r },
            o + log_size pre)) ∨
      ((∀ q, q ∈ rest → q.key ≠ cstr key) ∧
        ∃ out', find_record_loop s key AREA_INDEX_WRITABLE fuel o out = (none, out', o + log_size rest)) := by
  intro rest
  induction rest with
  | nil =>
    intro o fuel out _ _ hfso _ hfuel
    right
    refine ⟨by simp, out, ?_⟩
    obtain ⟨f, rfl⟩ : ∃ f, fuel = f + 1 := ⟨fuel - 1, by omega⟩
    simp only [log_size, Nat.add_zero] at hfso ⊢
    unfold find_record_loop
    by_cases c : o < (s.area_params AREA_INDEX_WRITABLE).size
    · rw [if_neg (by simpa using c), if_pos ⟨rfl, by omega⟩]
    · rw [if_pos c]
  | cons r rest ih =>
    intro o fuel out hat hok hfso hfit hfuel
    obtain ⟨f, rfl⟩ : ∃ f, fuel = f + 1 := ⟨fuel - 1, by omega⟩
    simp only [log_size] at hfso hfit
    obtain ⟨hc, hat'⟩ := hat
    have hr := hok r (List.mem_cons_self _ _)
    have hsz : 9 ≤ log_rec_size r := by
      obtain ⟨hk1, _⟩ := hr; unfold log_rec_size; omega
    have hrd := read_record_log s AREA_INDEX_WRITABLE o r out h hr (by omega) hc
    unfold find_record_loop
    rw [if_neg (by unfold asize at hfit; omega), if_neg (by omega), hrd]
    simp only [ne_eq, not_true_eq_false, if_false]
    by_cases ck : cstr r.key = cstr key
    · rw [if_pos ck]
      left
      refine ⟨[], r, rest, rfl, by simp, by rw [← hr.2.2.1]; exact ck, ?_⟩
      simp [log_size]
    · rw [if_neg ck]
      have hne : r.key ≠ cstr key := by rw [← hr.2.2.1]; exact ck
      rcases ih (o + log_rec_size r) f _ hat' (fun q hq => hok q (List.mem_cons_of_mem _ hq))
          (by omega) (by omega) (by simpa using hfuel) with
        ⟨pre, r', post, e1, e2, e3, e4⟩ | ⟨e1, out', e2⟩
      · left
        refine ⟨r :: pre, r', post, by rw [e1]; rfl, ?_, e3, ?_⟩
        · intro q hq
          rcases List.mem_cons.mp hq with rfl | hq
          · exact hne
          · exact e2 q hq
        · rw [e4]
          simp only [log_size, Nat.add_assoc]
      · right
        refine ⟨?_, out', ?_⟩
        · intro q hq
          rcases List.mem_cons.mp hq with rfl | hq
          · exact hne
          · exact e1 q hq
        · rw [e2]
          simp only [log_size, Nat.add_assoc]

/-- The header fields at `o` depend only on the eight cells of the header. -/
theorem hdr_fields_congr {s s' : Store} (hc : same_cfg s s') (a : area_index_e) (o : Nat)
    (hag : ∀ x, o ≤ x → x < o + 8 → acell s' a x = acell s a x) :
    hdr_key_size s' a o = hdr_key_size s a o ∧ hdr_data_size s' a o = hdr_data_size s a o ∧
    hdr_flags s' a o = hdr_flags s a o ∧ rec_next s' a o = rec_next s a o := by
  have c0 := hag o (by omega) (by omega)
  have c1 := hag (o + 1) (by omega) (by omega)
  have c2 := hag (o + 2) (by omega) (by omega)
  have c3 := hag (o + 3) (by omega) (by omega)
  have k : hdr_key_size s' a o = hdr_key_size s a o := by unfold hdr_key_size; rw [c2]
  have d : hdr_data_size s' a o = hdr_data_size s a o := by
    unfold hdr_data_size; rw [c0, c1, hc.2.2.2.2.1, hc.2.2.2.2.2.2]
  have f : hdr_flags s' a o = hdr_flags s a o := by unfold hdr_flags; rw [c3]
  exact ⟨k, d, f, by unfold rec_next; rw [k, d]⟩

/-- `read_record` gives the same result in two states that agree on the header of the record
and, when the record lies inside the bound `read_record` checks, on the rest of it. -/
theorem read_record_congr_in {s s' : Store} (hc : same_cfg s s') (a : area_index_e) (o : Nat)
    (out : record_out) (h : area_nowrap s a) (ho : o ≤ asize s a)
    (hh : o + 8 ≤ asize s a → ∀ x, o ≤ x → x < o + 8 → acell s' a x = acell s a x)
    (hb : o + 8 ≤ asize s a → rec_next s a o ≤ (s.area_params a).address + asize s a →
      ∀ x, o + 8 ≤ x → x < rec_next s a o → acell s' a x = acell s a x) :
    read_record s' a o true out = read_record s a o true out := by
  by_cases c0 : o + 8 > asize s a
  · rw [read_record_eq s a o out h ho,
      read_record_eq s' a o out (same_cfg_area_nowrap hc a h) (by rw [same_cfg_asize hc]; exact ho)]
    simp only [same_cfg_asize hc, same_cfg_abase hc, hc.2.2.1]
    by_cases c1 : o + 8 ≥ (s.area_params a).address + asize s a
    · rw [if_pos c1, if_pos c1]
    · rw [if_neg c1, if_neg c1, if_pos c0, if_pos c0]
  have hle : o + 8 ≤ asize s a := by omega
  by_cases c3 : rec_next s a o > (s.area_params a).address + asize s a
  · obtain ⟨k, d, f, n⟩ := hdr_fields_congr hc a o (hh hle)
    rw [read_record_eq s a o out h ho,
      read_record_eq s' a o out (same_cfg_area_nowrap hc a h) (by rw [same_cfg_asize hc]; exact ho)]
    simp only [same_cfg_asize hc, same_cfg_abase hc, hc.2.2.1, k, d, f, n]
    by_cases c1 : o + 8 ≥ (s.area_params a).address + asize s a
    · rw [if_pos c1, if_pos c1]
    rw [if_neg c1, if_neg c1, if_neg c0, if_neg c0]
    by_cases c2 : hdr_key_size s a o = 0 ∨ hdr_key_size s a o > 16 ∨ hdr_data_size s a o > 1024
    · rw [if_pos c2, if_pos c2]
    · rw [if_neg c2, if_neg c2, if_pos c3, if_pos c3]
  · apply read_record_congr hc a o out h ho
    intro _ x hx1 hx2
    by_cases hx : x < o + 8
    · exact hh hle x hx1 hx
    · exact hb hle (by omega) x (by omega) hx2

theorem find_record_loop_succ (s : Store) (key : List Nat) (area : area_index_e) (f o : Nat)
    (out : record_out) :
    find_record_loop s key area (f + 1) o out =
      if ¬ (o < (s.area_params area).size) then (none, out, o)
      else if area = AREA_INDEX_WRITABLE ∧ o ≥ s.free_space_offset then (none, out, o)
      else if (read_record s area o true out).1 ≠ PDBSTORE_SUCCESS then
        (some (read_record s area o true out).1, (read_record s area o true out).2, o)
      else if cstr (read_record s area o true out).2.key = cstr key then
        (some PDBSTORE_SUCCESS, (read_record s area o true out).2, o)
      else find_record_loop s key area f (read_record s area o true out).2.next_offset
        (read_record s area o true out).2 := by
  rw [find_record_loop]

/-- A record that `read_record` accepts ends inside the bound of its area. -/
theorem read_record_success_next (s : Store) (a : area_index_e) (o : Nat) (out : record_out)
    (h : area_nowrap s a) (ho : o ≤ asize s a)
    (hs : (read_record s a o true out).1 = PDBSTORE_SUCCESS) :
    (read_record s a o true out).2.next_offset = rec_next s a o ∧
    rec_next s a o ≤ (s.area_params a).address + asize s a ∧ o + 8 ≤ asize s a := by
  rw [read_record_eq s a o out h ho] at hs ⊢
  (split_ifs at hs ⊢; simp_all)

/-- The scan of `find_record` through the read-only area reads cells of that area only. -/
theorem find_record_loop_ro_congr {s s' : Store} (hc : same_cfg s s') (key : List Nat)
    (h : area_nowrap s AREA_INDEX_READONLY) (ha : (s.area_params AREA_INDEX_READONLY).address = 0)
    (hag : ∀ x, x < asize s AREA_INDEX_READONLY →
      acell s' AREA_INDEX_READONLY x = acell s AREA_INDEX_READONLY x) :
    ∀ (fuel o : Nat) (out : record_out), o ≤ asize s AREA_INDEX_READONLY →
      find_record_loop s' key AREA_INDEX_READONLY fuel o out =
        find_record_loop s key AREA_INDEX_READONLY fuel o out := by
  intro fuel
  induction fuel with
  | zero => intro o out _; rfl
  | succ f ih =>
    intro o out ho
    have hrr : read_record s' AREA_INDEX_READONLY o true out =
        read_record s AREA_INDEX_READONLY o true out := by
      apply read_record_congr_in hc _ o out h ho
      · intro h8 x hx1 hx2
        exact hag x (by omega)
      · intro h8 hn x hx1 hx2
        exact hag x (by omega)
    rw [find_record_loop_succ, find_record_loop_succ, hc.2.2.1, hrr]
    by_cases c : o < (s.area_params AREA_INDEX_READONLY).size
    · have hro : ∀ x : Nat, ¬ (AREA_INDEX_READONLY = AREA_INDEX_WRITABLE ∧ o ≥ x) := by
        intro x hx; exact absurd hx.1 (by decide)
      rw [if_neg (not_not.mpr c), if_neg (not_not.mpr c), if_neg (hro _), if_neg (hro _)]
      by_cases c1 : (read_record s AREA_INDEX_READONLY o true out).1 ≠ PDBSTORE_SUCCESS
      · rw [if_pos c1, if_pos c1]
      rw [if_neg c1, if_neg c1]
      by_cases c2 : cstr (read_record s AREA_INDEX_READONLY o true out).2.key = cstr key
      · rw [if_pos c2, if_pos c2]
      rw [if_neg c2, if_neg c2]
      apply ih
      obtain ⟨e1, e2, _⟩ := read_record_success_next s _ o out h ho (not_not.mp c1)
      rw [e1]; omega
    · rw [if_pos c, if_pos c]

theorem frame_refl (s : Store) : frame s s := ⟨rfl, rfl, rfl, rfl, rfl, rfl, fun _ _ => rfl⟩

theorem frame_asize {s s' : Store} (h : frame s s') (a : area_index_e) : asize s' a = asize s a := by
  unfold asize; rw [h.2.2.1]

theorem frame_abase {s s' : Store} (h : frame s s') (a : area_index_e) : abase s' a = abase s a := by
  unfold abase; rw [h.2.2.1, h.2.1]

theorem frame_aerase {s s' : Store} (h : frame s s') (a : area_index_e) : aerase s' a = aerase s a := by
  unfold aerase; rw [h.2.2.1, h.2.1]

theorem frame_trans {s s1 s2 : Store} (h1 : frame s s1) (h2 : frame s1 s2) : frame s s2 := by
  refine ⟨h2.1.trans h1.1, h2.2.1.trans h1.2.1, h2.2.2.1.trans h1.2.2.1, h2.2.2.2.1.trans h1.2.2.2.1,
    h2.2.2.2.2.1.trans h1.2.2.2.2.1, h2.2.2.2.2.2.1.trans h1.2.2.2.2.2.1, ?_⟩
  intro x hx
  rw [h2.2.2.2.2.2.2 x (by rw [frame_asize h1]; exact hx), h1.2.2.2.2.2.2 x hx]

theorem acell_poke (s : Store) (b addr n : Nat) (img : List Nat) (a : area_index_e) (x : Nat) :
    acell (poke s b addr n img) a x =
      if (s.area_params a).bank = b ∧ addr ≤ abase s a + x ∧ abase s a + x < addr + n then
        img.getD (abase s a + x - addr) 0
      else acell s a x := by
  show (poke s b addr n img).mem ((s.area_params a).bank) (abase s a + x) = _
  rw [poke_mem]
  rfl

theorem acell_wipe (s : Store) (b addr n : Nat) (a : area_index_e) (x : Nat) :
    acell (wipe s b addr n) a x =
      if (s.area_params a).bank = b ∧ addr ≤ abase s a + x ∧ abase s a + x < addr + n then
        (s.bank_params b).erase_val
      else acell s a x := by
  show (wipe s b addr n).mem ((s.area_params a).bank) (abase s a + x) = _
  rw [wipe_mem]
  rfl

theorem layout_congr {s s' : Store} (hl : layout s) (h1 : s'.bank_params = s.bank_params)
    (h2 : s'.area_params = s.area_params) : layout s' := by
  have ea : ∀ a, abase s' a = abase s a := by intro a; unfold abase; rw [h1, h2]
  have es : ∀ a, asize s' a = asize s a := by intro a; unfold asize; rw [h2]
  obtain ⟨l1, l2, l3, l4, l5, l6, l7, l8, l9⟩ := hl
  refine ⟨?_, ?_, ?_, ?_, ?_, ?_, ?_, ?_, ?_⟩
  · unfold area_nowrap at *; rw [ea, es]; exact l1
  · rw [h2]; exact l2
  · unfold area_ok at *; rw [ea, es, h1, h2]; exact l3
  · unfold area_ok at *; rw [ea, es, h1, h2]; exact l4
  · rw [h2]; exact l5
  · rw [ea, ea, es]; exact l6
  · rw [es]; exact l7
  · rw [es]; exact l8
  · rw [ea, ea, es, h2]; exact l9

/-- A program into the writable or the staging area does not reach the read-only area. -/
theorem layout_ro_cell_poke (s : Store) (hl : layout s) (p n : Nat) (img : List Nat) (x : Nat)
    (hx : x < asize s AREA_INDEX_READONLY) :
    acell (poke s (s.area_params AREA_INDEX_WRITABLE).bank (abase s AREA_INDEX_WRITABLE + p) n img)
      AREA_INDEX_READONLY x = acell s AREA_INDEX_READONLY x := by
  rw [acell_poke, if_neg]
  rintro ⟨h1, h2, h3⟩
  rcases hl.ro_disj with hd | hd
  · exact hd h1
  · omega

theorem layout_ro_cell_wipe (s : Store) (hl : layout s) (p n : Nat) (x : Nat)
    (hx : x < asize s AREA_INDEX_READONLY) :
    acell (wipe s (s.area_params AREA_INDEX_WRITABLE).bank (abase s AREA_INDEX_WRITABLE + p) n)
      AREA_INDEX_READONLY x = acell s AREA_INDEX_READONLY x := by
  rw [acell_wipe, if_neg]
  rintro ⟨h1, h2, h3⟩
  rcases hl.ro_disj with hd | hd
  · exact hd h1
  · omega

/-- What `reset_area` does to the memory: the tail of the area is erased, nothing else
changes. -/
theorem reset_area_mem (s : Store) (a : area_index_e) (o : Nat) (h : area_ok s a)
    (ho : o ≤ asize s a) :
    (reset_area s a o).1 = PDBSTORE_SUCCESS ∧ same_cfg s (reset_area s a o).2 ∧
    (∀ x, o ≤ x → x < asize s a → acell (reset_area s a o).2 a x = aerase s a) ∧
    (∀ b y, ¬ (b = (s.area_params a).bank ∧ abase s a + o ≤ y ∧ y < abase s a + asize s a) →
      (reset_area s a o).2.mem b y = s.mem b y) := by
  rcases reset_area_spec s a o h ho with ⟨h1, h2⟩ | ⟨h1, h2⟩
  · rw [h2]
    exact ⟨rfl, same_cfg_refl s, h1, fun _ _ _ => rfl⟩
  · rw [h2]
    refine ⟨rfl, same_cfg_wipe _ _ _ _, ?_, ?_⟩
    · intro x hx1 hx2
      rw [acell_wipe, if_pos ⟨rfl, by omega, by omega⟩]
      rfl
    · intro b y hy
      rw [wipe_mem, if_neg]
      intro hh
      apply hy
      refine ⟨hh.1, hh.2.1, ?_⟩
      have := hh.2.2
      omega

/-- The part of `do_set_commit` around the write to the writable area: staging the record
and clearing the staging area afterwards leaves only the effect of that write. -/
theorem commit_core (s : Store) (hl : layout s)
    (hst : ∀ x, x < asize s AREA_INDEX_STAGING →
      acell s AREA_INDEX_STAGING x = aerase s AREA_INDEX_STAGING)
    (key : List Nat) (data : data_buf) (n flags : Nat) (D : List Nat)
    (hk1 : 1 ≤ strlen key) (hk2 : strlen key ≤ 16) (hn : n ≤ 1024)
    (hD : flags &&& PDBSTORE_RESILIENT_FLAG ≠ 0 → ∀ s', buf_bytes s' data n = D)
    (off nxt p : Nat) (rc : Bool) (img : List Nat)
    (hp : p + img.length ≤ asize s AREA_INDEX_WRITABLE)
    (hw : ∀ s1 nx, same_cfg s s1 →
      (∀ x, x < asize s AREA_INDEX_WRITABLE →
        acell s1 AREA_INDEX_WRITABLE x = acell s AREA_INDEX_WRITABLE x) →
      (∀ b y, ¬ (b = (s.area_params AREA_INDEX_STAGING).bank ∧ abase s AREA_INDEX_STAGING ≤ y ∧
          y < abase s AREA_INDEX_STAGING + asize s AREA_INDEX_STAGING) → s1.mem b y = s.mem b y) →
      pdbstore_write_record s1 AREA_INDEX_WRITABLE key data n flags off nx rc =
        (PDBSTORE_SUCCESS,
          poke s1 (s.area_params AREA_INDEX_WRITABLE).bank (abase s AREA_INDEX_WRITABLE + p)
            img.length img, nxt)) :
    ∃ s', do_set_commit s key data n flags off rc = (PDBSTORE_SUCCESS, s') ∧
      wr_written s s' p img ∧
      s'.free_space_offset = if rc then s.free_space_offset else nxt := by
  have hstb := hl.st_bank
  have hstbase := hl.st_base
  have hstsz := hl.st_size
  unfold do_set_commit
  by_cases hr : flags &&& PDBSTORE_RESILIENT_FLAG ≠ 0
  · -- resilient: stage, write, clear
    have h1 := write_record_append s AREA_INDEX_STAGING key data n flags 0 0 D hl.st_ok hk1 hk2 hn
      (by omega) (fun x _ hx => hst x (by omega)) (fun s' _ _ => hD hr s')
    obtain ⟨s1, hs1⟩ : ∃ s1, s1 = poke s (s.area_params AREA_INDEX_STAGING).bank
      (abase s AREA_INDEX_STAGING + 0) (8 + strlen key + n) (rec_image s key D flags) := ⟨_, rfl⟩
    rw [← hs1] at h1
    have hc1 : same_cfg s s1 := by rw [hs1]; exact same_cfg_poke _ _ _ _ _
    have hm1 : ∀ b y, ¬ (b = (s.area_params AREA_INDEX_STAGING).bank ∧ abase s AREA_INDEX_STAGING ≤ y ∧
        y < abase s AREA_INDEX_STAGING + asize s AREA_INDEX_STAGING) → s1.mem b y = s.mem b y := by
      intro b y hy
      rw [hs1, poke_mem, if_neg]
      intro hh; apply hy
      exact ⟨hh.1, by omega, by omega⟩
    have hwr1 : ∀ x, x < asize s AREA_INDEX_WRITABLE →
        acell s1 AREA_INDEX_WRITABLE x = acell s AREA_INDEX_WRITABLE x := by
      intro x hx
      show s1.mem (s1.area_params AREA_INDEX_WRITABLE).bank (abase s1 AREA_INDEX_WRITABLE + x) = _
      rw [hc1.2.2.1, same_cfg_abase hc1, hm1]
      · rfl
      · intro hh; omega
    have h2 := hw s1 (0 + 8 + strlen key + n) hc1 hwr1 hm1
    obtain ⟨w, hw'⟩ : ∃ w, w = poke s1 (s.area_params AREA_INDEX_WRITABLE).bank
      (abase s AREA_INDEX_WRITABLE + p) img.length img := ⟨_, rfl⟩
    rw [← hw'] at h2
    rw [if_pos hr, h1]
    simp only [ne_eq, not_true_eq_false, if_false, h2, hr]
    obtain ⟨s2, hs2⟩ : ∃ s2, s2 = if rc = true then w else { w with free_space_offset := nxt } := ⟨_, rfl⟩
    rw [← hs2]
    have hcw : same_cfg s1 w := by rw [hw']; exact same_cfg_poke _ _ _ _ _
    have hm2 : s2.mem = w.mem := by rw [hs2]; split <;> rfl
    have hb2 : s2.bank_params = s.bank_params := by
      rw [hs2]; split
      · exact hcw.2.1.trans hc1.2.1
      · exact hcw.2.1.trans hc1.2.1
    have ha2 : s2.area_params = s.area_params := by
      rw [hs2]; split
      · exact hcw.2.2.1.trans hc1.2.2.1
      · exact hcw.2.2.1.trans hc1.2.2.1
    have hf2 : s2.free_space_offset = if rc then s.free_space_offset else nxt := by
      rw [hs2]; split
      · exact hcw.2.2.2.2.2.1.trans hc1.2.2.2.2.2.1
      · rfl
    have hl2 : layout s2 := layout_congr hl hb2 ha2
    have eb2 : ∀ a, abase s2 a = abase s a := by intro a; unfold abase; rw [hb2, ha2]
    have es2 : ∀ a, asize s2 a = asize s a := by intro a; unfold asize; rw [ha2]
    have ee2 : ∀ a, aerase s2 a = aerase s a := by intro a; unfold aerase; rw [hb2, ha2]
    have hra := reset_area_mem s2 AREA_INDEX_STAGING 0 hl2.st_ok (Nat.zero_le _)
    rcases hrs : reset_area s2 AREA_INDEX_STAGING 0 with ⟨ret, s3⟩
    rw [hrs] at hra
    obtain ⟨r1, r2, r3, r4⟩ := hra
    simp only at r1 r2 r3 r4
    subst r1
    simp only [not_true_eq_false, if_false]
    refine ⟨s3, rfl, ⟨⟨?_, ?_, ?_, ?_, ?_, ?_, ?_⟩, ?_, ?_⟩, ?_⟩
    · rw [r2.1, hs2]; split
      · exact hcw.1.trans hc1.1
      · exact hcw.1.trans hc1.1
    · rw [r2.2.1, hb2]
    · rw [r2.2.2.1, ha2]
    · rw [r2.2.2.2.1, hs2]; split
      · exact hcw.2.2.2.1.trans hc1.2.2.2.1
      · exact hcw.2.2.2.1.trans hc1.2.2.2.1
    · rw [r2.2.2.2.2.1, hs2]; split
      · exact hcw.2.2.2.2.1.trans hc1.2.2.2.2.1
      · exact hcw.2.2.2.2.1.trans hc1.2.2.2.2.1
    · rw [r2.2.2.2.2.2.2, hs2]; split
      · exact hcw.2.2.2.2.2.2.trans hc1.2.2.2.2.2.2
      · exact hcw.2.2.2.2.2.2.trans hc1.2.2.2.2.2.2
    · -- read-only cells
      intro x hx
      show s3.mem (s3.area_params AREA_INDEX_READONLY).bank (abase s3 AREA_INDEX_READONLY + x) = _
      rw [r2.2.2.1, same_cfg_abase r2, ha2, eb2, r4, hm2, hw', poke_mem, if_neg, hm1]
      · rfl
      · intro hh
        rcases hl.ro_disj with hd | hd
        · exact hd (hh.1.trans hstb)
        · omega
      · intro hh
        rcases hl.ro_disj with hd | hd
        · exact hd hh.1
        · omega
      · rw [ha2, eb2, es2]
        intro hh
        rcases hl.ro_disj with hd | hd
        · exact hd (hh.1.trans hstb)
        · omega
    · -- writable cells
      intro x hx
      show s3.mem (s3.area_params AREA_INDEX_WRITABLE).bank (abase s3 AREA_INDEX_WRITABLE + x) = _
      rw [r2.2.2.1, same_cfg_abase r2, ha2, eb2, r4, hm2, hw', poke_mem]
      · by_cases c : p ≤ x ∧ x < p + img.length
        · have c' : (s.area_params AREA_INDEX_WRITABLE).bank = (s.area_params AREA_INDEX_WRITABLE).bank ∧
              abase s AREA_INDEX_WRITABLE + p ≤ abase s AREA_INDEX_WRITABLE + x ∧
              abase s AREA_INDEX_WRITABLE + x < abase s AREA_INDEX_WRITABLE + p + img.length :=
            ⟨rfl, by omega, by omega⟩
          rw [if_pos c, if_pos c']
          have e : abase s AREA_INDEX_WRITABLE + x - (abase s AREA_INDEX_WRITABLE + p) = x - p := by omega
          rw [e]
        · have c' : ¬ ((s.area_params AREA_INDEX_WRITABLE).bank = (s.area_params AREA_INDEX_WRITABLE).bank ∧
              abase s AREA_INDEX_WRITABLE + p ≤ abase s AREA_INDEX_WRITABLE + x ∧
              abase s AREA_INDEX_WRITABLE + x < abase s AREA_INDEX_WRITABLE + p + img.length) := by
            omega
          rw [if_neg c, if_neg c', hm1]
          · rfl
          · intro hh; omega
      · rw [ha2, eb2, es2]
        intro hh; omega
    · -- staging cells
      intro x hx
      rw [r3 x (Nat.zero_le _) (by rw [es2]; exact hx), ee2]
    · rw [r2.2.2.2.2.2.1, hf2]
  · -- not resilient: only the write
    have h2 := hw s 0 (same_cfg_refl s) (fun _ _ => rfl) (fun _ _ _ => rfl)
    obtain ⟨w, hw'⟩ : ∃ w, w = poke s (s.area_params AREA_INDEX_WRITABLE).bank
      (abase s AREA_INDEX_WRITABLE + p) img.length img := ⟨_, rfl⟩
    rw [← hw'] at h2
    rw [if_neg hr]
    simp only [ne_eq, not_true_eq_false, if_false, h2, hr]
    have hcw : same_cfg s w := by rw [hw']; exact same_cfg_poke _ _ _ _ _
    refine ⟨_, rfl, ⟨⟨?_, ?_, ?_, ?_, ?_, ?_, ?_⟩, ?_, ?_⟩, ?_⟩
    · split
      · exact hcw.1
      · exact hcw.1
    · split
      · exact hcw.2.1
      · exact hcw.2.1
    · split
      · exact hcw.2.2.1
      · exact hcw.2.2.1
    · split
      · exact hcw.2.2.2.1
      · exact hcw.2.2.2.1
    · split
      · exact hcw.2.2.2.2.1
      · exact hcw.2.2.2.2.1
    · split
      · exact hcw.2.2.2.2.2.2
      · exact hcw.2.2.2.2.2.2
    · intro x hx
      have : acell w AREA_INDEX_READONLY x = acell s AREA_INDEX_READONLY x := by
        rw [hw']; exact layout_ro_cell_poke s hl p img.length img x hx
      rw [← this]
      split <;> rfl
    · intro x hx
      have : acell w AREA_INDEX_WRITABLE x =
          if p ≤ x ∧ x < p + img.length then img.getD (x - p) 0 else acell s AREA_INDEX_WRITABLE x := by
        rw [hw', acell_poke]
        by_cases c : p ≤ x ∧ x < p + img.length
        · rw [if_pos c, if_pos ⟨rfl, by omega, by omega⟩]
          have e : abase s AREA_INDEX_WRITABLE + x - (abase s AREA_INDEX_WRITABLE + p) = x - p := by omega
          rw [e]
        · rw [if_neg c, if_neg (by omega)]
      rw [← this]
      split <;> rfl
    · intro x hx
      have : acell w AREA_INDEX_STAGING x = aerase s AREA_INDEX_STAGING := by
        rw [hw', acell_poke, if_neg (by omega)]
        exact hst x hx
      rw [← this]
      split <;> rfl
    · split
      · exact hcw.2.2.2.2.2.1
      · rfl

theorem cstr_cstr (key : List Nat) : cstr (cstr key) = cstr key := by
  unfold cstr
  induction key with
  | nil => rfl
  | cons c l ih =>
    by_cases h : (c != 0) = true
    · simp only [List.takeWhile_cons, h, if_true, ih]
    · simp only [List.takeWhile_cons, h, if_false, List.takeWhile_nil]
      rfl

theorem strlen_cstr (key : List Nat) : strlen (cstr key) = strlen key := by
  unfold strlen; rw [cstr_cstr]

theorem rec_image_cfg {s s' : Store} (h1 : s'.big_endian = s.big_endian)
    (h2 : s'.host_big_endian = s.host_big_endian) (key D : List Nat) (flags : Nat) :
    rec_image s' key D flags = rec_image s key D flags := by
  unfold rec_image hdr03; rw [h1, h2]

/-- The image of a record depends on the C string of the key and the low byte of the flags. -/
theorem rec_image_norm (s : Store) (key D : List Nat) (flags : Nat) :
    rec_image s (cstr key) D (flags % 256) = rec_image s key D flags := by
  unfold rec_image hdr03
  rw [strlen_cstr, cstr_cstr, Nat.mod_mod]

/-- The first three bytes of the image of a record hold the sizes only. -/
theorem rec_image_hdr3 (s : Store) (key key' D D' : List Nat) (flags flags' : Nat)
    (hk : strlen key' = strlen key) (hd : D'.length = D.length) (i : Nat) (hi : i < 3) :
    (rec_image s key' D' flags').getD i 0 = (rec_image s key D flags).getD i 0 := by
  unfold rec_image
  rw [List.append_assoc, List.append_assoc, List.getD_append _ _ _ _ (by rw [hdr03_length]; omega),
    List.append_assoc, List.append_assoc, List.getD_append _ _ _ _ (by rw [hdr03_length]; omega)]
  unfold hdr03
  rw [hk, hd]
  by_cases h2 : i < 2
  · rw [List.getD_append _ _ _ _ (by rw [store16_length]; omega),
      List.getD_append _ _ _ _ (by rw [store16_length]; omega)]
  · have e : i = 2 := by omega
    subst e
    rw [List.getD_append_right _ _ _ _ (by rw [store16_length]),
      List.getD_append_right _ _ _ _ (by rw [store16_length])]
    simp [store16_length]

theorem log_at_congr {s s' : Store} (h1 : s'.big_endian = s.big_endian)
    (h2 : s'.host_big_endian = s.host_big_endian) (a : area_index_e) :
    ∀ (l : List log_rec) (o : Nat),
      (∀ x, o ≤ x → x < o + log_size l → acell s' a x = acell s a x) →
      log_at s a o l → log_at s' a o l := by
  intro l
  induction l with
  | nil => intro o _ _; trivial
  | cons r l ih =>
    intro o hag hat
    obtain ⟨hc, hat'⟩ := hat
    simp only [log_size] at hag
    refine ⟨?_, ih _ (fun x hx1 hx2 => hag x (by omega) (by omega)) hat'⟩
    intro i hi
    rw [hag (o + i) (by omega) (by omega), rec_image_cfg h1 h2]
    exact hc i hi

theorem log_size_le_length (l : List log_rec) : l.length ≤ log_size l := by
  induction l with
  | nil => simp [log_size]
  | cons r l ih => simp only [List.length_cons, log_size, log_rec_size]; omega

/-- Appending a record to the log keeps the store in steady state. -/
theorem steady_append (s s' : Store) (log : List log_rec) (key D : List Nat) (flags : Nat)
    (hs : steady s log) (hk1 : 1 ≤ strlen key) (hk2 : strlen key ≤ 16) (hd : D.length ≤ 1024)
    (hfit : log_size log + (8 + strlen key + D.length) ≤ asize s AREA_INDEX_WRITABLE)
    (hw : wr_written s s' (log_size log) (rec_image s key D flags))
    (hf : s'.free_space_offset = log_size log + (8 + strlen key + D.length)) :
    steady s' (log ++ [{ key := cstr key, data := D, flags := flags % 256 }]) := by
  obtain ⟨hfr, hwc, hsc⟩ := hw
  obtain ⟨f1, f2, f3, f4, f5, f6, f7⟩ := hfr
  have hfr : frame s s' := ⟨f1, f2, f3, f4, f5, f6, f7⟩
  have hil : (rec_image s key D flags).length = 8 + strlen key + D.length := rec_image_length _ _ _ _
  have hsz : log_size (log ++ [{ key := cstr key, data := D, flags := flags % 256 }]) =
      log_size log + (8 + strlen key + D.length) := by
    rw [log_size_append]; simp [log_size, log_rec_size, strlen_cstr]
  refine ⟨layout_congr hs.lay f2 f3, ?_, ?_, ?_, ?_, ?_, ?_⟩
  · intro r hr
    rcases List.mem_append.mp hr with h | h
    · exact hs.recs r h
    · rw [List.mem_singleton] at h
      subst h
      exact ⟨by rw [strlen_cstr]; exact hk1, by rw [strlen_cstr]; exact hk2, cstr_cstr key, hd,
        Nat.mod_lt _ (by norm_num)⟩
  · rw [log_at_append]
    constructor
    · apply log_at_congr f5 f6 _ _ _ _ hs.cells
      intro x _ hx2
      rw [hwc x (by have := hs.fits; omega), if_neg (by omega)]
    · refine ⟨?_, trivial⟩
      intro i hi
      simp only [log_rec_size, strlen_cstr] at hi
      rw [Nat.zero_add, hwc _ (by omega), if_pos (by omega), rec_image_norm, rec_image_cfg f5 f6]
      congr 1; omega
  · rw [hf, hsz]
  · rw [hsz, frame_asize hfr]; exact hfit
  · intro x hx1 hx2
    rw [hsz] at hx1
    rw [frame_asize hfr] at hx2
    rw [hwc x hx2, if_neg (by omega), frame_aerase hfr]
    exact hs.tail x (by omega) hx2
  · intro x hx
    rw [frame_asize hfr] at hx
    rw [hsc x hx, frame_aerase hfr]

/-- Replacing a record of the log in place, with a record of the same sizes, keeps the
store in steady state. -/
theorem steady_replace (s s' : Store) (pre post : List log_rec) (r : log_rec) (key D : List Nat)
    (flags : Nat) (hs : steady s (pre ++ r :: post)) (hk : cstr key = r.key)
    (hd : D.length = r.data.length)
    (hw : wr_written s s' (log_size pre + 3) ((rec_image s key D flags).drop 3))
    (hf : s'.free_space_offset = s.free_space_offset) :
    steady s' (pre ++ { key := r.key, data := D, flags := flags % 256 } :: post) := by
  obtain ⟨hfr, hwc, hsc⟩ := hw
  obtain ⟨f1, f2, f3, f4, f5, f6, f7⟩ := hfr
  have hfr : frame s s' := ⟨f1, f2, f3, f4, f5, f6, f7⟩
  have hrok := hs.recs r (by simp)
  obtain ⟨hk1, hk2, hck, hdl, hfl⟩ := hrok
  have hkl : strlen key = strlen r.key := by rw [← hk, strlen_cstr]
  have hil : ((rec_image s key D flags).drop 3).length = 5 + strlen key + D.length := by
    rw [List.length_drop, rec_image_length]; omega
  have hsz1 : log_rec_size { key := r.key, data := D, flags := flags % 256 } = log_rec_size r := by
    simp [log_rec_size, hd]
  have hsz : log_size (pre ++ { key := r.key, data := D, flags := flags % 256 } :: post) =
      log_size (pre ++ r :: post) := by
    rw [log_size_append, log_size_append]; simp only [log_size, hsz1]
  have hfits := hs.fits
  rw [log_size_append] at hfits
  simp only [log_size] at hfits
  have hcells := hs.cells
  rw [log_at_append] at hcells
  obtain ⟨hc1, hc2, hc3⟩ := hcells
  have hrs : log_rec_size r = 8 + strlen key + D.length := by
    unfold log_rec_size; rw [hkl, hd]
  refine ⟨layout_congr hs.lay f2 f3, ?_, ?_, ?_, ?_, ?_, ?_⟩
  · intro q hq
    rcases List.mem_append.mp hq with h | h
    · exact hs.recs q (List.mem_append_left _ h)
    · rcases List.mem_cons.mp h with h | h
      · subst h
        exact ⟨hk1, hk2, hck, by rw [hd]; exact hdl, Nat.mod_lt _ (by norm_num)⟩
      · exact hs.recs q (List.mem_append_right _ (List.mem_cons_of_mem _ h))
  · rw [log_at_append]
    refine ⟨?_, ?_, ?_⟩
    · apply log_at_congr f5 f6 _ _ _ _ hc1
      intro x _ hx2
      rw [hwc x (by omega), if_neg (by omega)]
    · intro i hi
      rw [hsz1] at hi
      rw [Nat.zero_add] at hc2 ⊢
      rw [hwc _ (by omega), rec_image_cfg f5 f6, ← hk, rec_image_norm]
      by_cases c : i < 3
      · rw [if_neg (by omega), hc2 i hi]
        exact (rec_image_hdr3 s r.key key r.data D r.flags flags hkl hd i c).symm
      · rw [if_pos (by rw [hil]; omega), List.getD_eq_getElem?_getD, List.getElem?_drop,
          ← List.getD_eq_getElem?_getD]
        congr 1; omega
    · rw [hsz1]
      apply log_at_congr f5 f6 _ _ _ _ hc3
      intro x hx1 hx2
      rw [hwc x (by omega), if_neg (by rw [hil]; omega)]
  · rw [hf, hs.fso, hsz]
  · rw [hsz, frame_asize hfr]; exact hs.fits
  · intro x hx1 hx2
    rw [hsz] at hx1
    rw [frame_asize hfr] at hx2
    have := hx1
    rw [log_size_append] at this
    simp only [log_size] at this
    rw [hwc x hx2, if_neg (by rw [hil]; omega), frame_aerase hfr]
    exact hs.tail x hx1 hx2
  · intro x hx
    rw [frame_asize hfr] at hx
    rw [hsc x hx, frame_aerase hfr]

theorem find_record_ro (s : Store) (key : List Nat) (ret : PDBSTORE_status_e)
    (h : (ro_find s key).1 = some ret) :
    find_record s key =
      { ret := ret, out := (ro_find s key).2.1, area := some AREA_INDEX_READONLY,
        offset := (ro_find s key).2.2 } := by
  unfold find_record
  simp only []
  unfold ro_find at h
  rw [h]
  rfl

/-- `find_record` in steady state, for a key the read-only area does not have: the first
record of the log with the key, or not-found. -/
theorem find_record_steady (s : Store) (log : List log_rec) (key : List Nat) (hs : steady s log)
    (h : (ro_find s key).1 = none) :
    (∃ pre r post, log = pre ++ r :: post ∧ (∀ q, q ∈ pre → q.key ≠ cstr key) ∧ r.key = cstr key ∧
      find_record s key =
        { ret := PDBSTORE_SUCCESS, out := found_out s pre r, area := some AREA_INDEX_WRITABLE,
          offset := log_size pre }) ∨
    ((∀ q, q ∈ log → q.key ≠ cstr key) ∧
      ∃ out', find_record s key =
        { ret := PDBSTORE_NOT_FOUND, out := out', area := none, offset := log_size log }) := by
  have hfuel : log.length < (s.area_params AREA_INDEX_WRITABLE).size + 1 := by
    have h1 := log_size_le_length log
    have h2 := hs.fits
    unfold asize at h2
    omega
  have hcells := hs.cells
  have hfits := hs.fits
  rcases find_record_loop_log s key (area_ok_nowrap hs.lay.wr_ok) log 0
      ((s.area_params AREA_INDEX_WRITABLE).size + 1) (ro_find s key).2.1
      hcells hs.recs (by rw [hs.fso]; omega) (by omega) hfuel with
    ⟨pre, r, post, e1, e2, e3, e4⟩ | ⟨e1, out', e2⟩
  · left
    refine ⟨pre, r, post, e1, e2, e3, ?_⟩
    unfold find_record
    simp only []
    unfold ro_find at h e4
    rw [h]
    simp only []
    rw [e4]
    simp only [found_out, Nat.zero_add]
  · right
    refine ⟨e1, out', ?_⟩
    unfold find_record
    simp only []
    unfold ro_find at h e2
    rw [h]
    simp only []
    rw [e2]
    simp only [Nat.zero_add]

/-- The first element of a list with a property is determined by the list. -/
theorem first_match_unique {α : Type} (P : α → Prop) (pre pre' : List α) (r r' : α)
    (post post' : List α) (e : pre ++ r :: post = pre' ++ r' :: post')
    (h1 : ∀ q, q ∈ pre → ¬ P q) (h2 : P r) (h1' : ∀ q, q ∈ pre' → ¬ P q) (h2' : P r') :
    pre' = pre ∧ r' = r ∧ post' = post := by
  induction pre generalizing pre' with
  | nil =>
    cases pre' with
    | nil => simp at e; exact ⟨rfl, e.1.symm, e.2.symm⟩
    | cons a l =>
      simp at e
      exact absurd (e.1 ▸ h2) (h1' a (by simp))
  | cons a l ih =>
    cases pre' with
    | nil =>
      simp at e
      exact absurd (e.1 ▸ h2') (h1 a (by simp))
    | cons a' l' =>
      simp at e
      obtain ⟨e1, e2, e3⟩ := ih l' e.2 (fun q hq => h1 q (List.mem_cons_of_mem _ hq))
        (fun q hq => h1' q (List.mem_cons_of_mem _ hq))
      exact ⟨by rw [e1, e.1], e2, e3⟩

theorem is_valid_key_strlen (key : List Nat) (h : is_valid_key key = true) :
    1 ≤ strlen key ∧ strlen key ≤ 16 := by
  unfold is_valid_key PDBSTORE_MAX_KEY_SIZE at h
  split_ifs at h with h1
  all_goals omega

theorem do_set_of_target_error (s : Store) (key : List Nat) (data : data_buf) (n flags : Nat)
    (ret : PDBSTORE_status_e)
    (hi : s.initialized = true) (hk : is_valid_key key = true) (hn : n ≤ 1024)
    (ht : do_set_target s key data n flags = Except.error ret) :
    pdbstore_do_set s key data n flags = (ret, s) := by
  unfold pdbstore_do_set
  rw [if_neg (by rw [hk]; unfold PDBSTORE_MAX_DATA_SIZE; simp; omega), if_neg (by rw [hi]; simp), ht]

theorem do_set_of_target_ok (s : Store) (key : List Nat) (data : data_buf) (n flags : Nat)
    (rc : Bool) (d : data_buf) (m off : Nat)
    (hi : s.initialized = true) (hk : is_valid_key key = true) (hn : n ≤ 1024)
    (ht : do_set_target s key data n flags = Except.ok (rc, d, m, off)) :
    pdbstore_do_set s key data n flags = do_set_commit s key d m flags off rc := by
  unfold pdbstore_do_set
  rw [if_neg (by rw [hk]; unfold PDBSTORE_MAX_DATA_SIZE; simp; omega), if_neg (by rw [hi]; simp), ht]

/-- Setting a new key in steady state when the record fits: the record is appended. -/
theorem do_set_append_steady (s : Store) (log : List log_rec) (key data : List Nat) (n flags : Nat)
    (hs : steady s log) (hi : s.initialized = true) (hk : is_valid_key key = true) (hn : n ≤ 1024)
    (hf : flags &&& DELETE_FLAG = 0) (hro : (ro_find s key).1 = none)
    (hnew : ∀ q, q ∈ log → q.key ≠ cstr key)
    (hfit : log_size log + (8 + strlen key + n) ≤ asize s AREA_INDEX_WRITABLE) :
    ∃ s', pdbstore_do_set s key (data_buf.buf data) n flags = (PDBSTORE_SUCCESS, s') ∧
      steady s' (log ++ [{ key := cstr key, data := buf_bytes s (data_buf.buf data) n,
                           flags := flags % 256 }]) ∧
      frame s s' := by
  obtain ⟨hk1, hk2⟩ := is_valid_key_strlen key hk
  obtain ⟨D, hD⟩ : ∃ D, D = buf_bytes s (data_buf.buf data) n := ⟨_, rfl⟩
  have hDl : D.length = n := by rw [hD, buf_bytes_length]
  have hDs : ∀ s', buf_bytes s' (data_buf.buf data) n = D := by intro s'; rw [hD]; rfl
  have hfind : ∃ out', find_record s key =
      { ret := PDBSTORE_NOT_FOUND, out := out', area := none, offset := log_size log } := by
    rcases find_record_steady s log key hs hro with ⟨pre, r, post, e1, e2, e3, e4⟩ | ⟨e1, h⟩
    · exact absurd e3 (hnew r (by rw [e1]; simp))
    · exact h
  obtain ⟨out', hfind⟩ := hfind
  have htarget : do_set_target s key (data_buf.buf data) n flags =
      Except.ok (false, data_buf.buf data, n, log_size log) := by
    unfold do_set_target
    simp only [hfind]
    have hlt : log_size log + (8 + strlen key + n) < 4294967296 := by
      have := hs.lay.wr_ok.1; have := hs.lay.wr_ok.2; omega
    rw [if_neg (by decide), if_pos trivial, if_neg (by rw [hf]; simp),
      record_size_eq key n hk2 hn, hs.fso, u32_of_lt hlt, if_neg (by unfold asize at hfit; omega)]
  have hwok := hs.lay.wr_ok
  have hcore := commit_core s hs.lay hs.staging key (data_buf.buf data) n flags D hk1 hk2 hn
    (fun _ => hDs) (log_size log) (log_size log + 8 + strlen key + n) (log_size log) false
    (rec_image s key D flags) (by rw [rec_image_length, hDl]; omega)
    (by
      intro s1 nx hc1 hcell _
      have h1 := write_record_append s1 AREA_INDEX_WRITABLE key (data_buf.buf data) n flags
        (log_size log) nx D (same_cfg_area_ok hc1 _ hwok) hk1 hk2 hn
        (by rw [same_cfg_asize hc1]; omega)
        (by
          intro x hx1 hx2
          rw [hcell x (by omega), same_cfg_aerase hc1]
          exact hs.tail x hx1 (by omega))
        (fun s' _ _ => hDs s')
      rw [h1, hc1.2.2.1, same_cfg_abase hc1, rec_image_cfg hc1.2.2.2.2.1 hc1.2.2.2.2.2.2,
        rec_image_length, hDl])
  obtain ⟨s', h1, h2, h3⟩ := hcore
  refine ⟨s', ?_, ?_, h2.1⟩
  · rw [do_set_of_target_ok s key _ n flags _ _ _ _ hi hk hn htarget]
    exact h1
  · rw [← hD]
    have := steady_append s s' log key D flags hs hk1 hk2 (by omega) (by rw [hDl]; exact hfit) h2
      (by rw [h3, hDl]; simp only [Bool.false_eq_true, if_false]; omega)
    exact this

/-- Setting a new key in steady state when the record does not fit: media-full, and the
state is left alone. -/
theorem do_set_full_steady (s : Store) (log : List log_rec) (key : List Nat) (data : data_buf)
    (n flags : Nat)
    (hs : steady s log) (hi : s.initialized = true) (hk : is_valid_key key = true) (hn : n ≤ 1024)
    (hf : flags &&& DELETE_FLAG = 0) (hro : (ro_find s key).1 = none)
    (hnew : ∀ q, q ∈ log → q.key ≠ cstr key)
    (hfit : ¬ log_size log + (8 + strlen key + n) ≤ asize s AREA_INDEX_WRITABLE) :
    pdbstore_do_set s key data n flags = (PDBSTORE_MEDIA_FULL, s) := by
  obtain ⟨hk1, hk2⟩ := is_valid_key_strlen key hk
  have hfind : ∃ out', find_record s key =
      { ret := PDBSTORE_NOT_FOUND, out := out', area := none, offset := log_size log } := by
    rcases find_record_steady s log key hs hro with ⟨pre, r, post, e1, e2, e3, e4⟩ | ⟨e1, h⟩
    · exact absurd e3 (hnew r (by rw [e1]; simp))
    · exact h
  obtain ⟨out', hfind⟩ := hfind
  have htarget : do_set_target s key data n flags = Except.error PDBSTORE_MEDIA_FULL := by
    unfold do_set_target
    simp only [hfind]
    have hlt : log_size log + (8 + strlen key + n) < 4294967296 := by
      have := hs.lay.wr_ok.1; have := hs.lay.wr_ok.2; have := hs.fits; omega
    rw [if_neg (by decide), if_pos trivial, if_neg (by rw [hf]; simp),
      record_size_eq key n hk2 hn, hs.fso, u32_of_lt hlt, if_pos (by unfold asize at hfit; omega)]
  exact do_set_of_target_error s key _ n flags _ hi hk hn htarget

/-- Setting a key of the log with another data size: invalid-argument, and the state is left
alone. -/
theorem do_set_mismatch_steady (s : Store) (pre post : List log_rec) (r : log_rec) (key : List Nat)
    (data : data_buf) (n flags : Nat)
    (hs : steady s (pre ++ r :: post)) (hi : s.initialized = true) (hk : is_valid_key key = true)
    (hn : n ≤ 1024) (hf : flags &&& DELETE_FLAG = 0) (hro : (ro_find s key).1 = none)
    (hpre : ∀ q, q ∈ pre → q.key ≠ cstr key) (hr : r.key = cstr key) (hne : n ≠ r.data.length) :
    pdbstore_do_set s key data n flags = (PDBSTORE_INVALID_ARGUMENT, s) := by
  have hfind : find_record s key =
      { ret := PDBSTORE_SUCCESS, out := found_out s pre r, area := some AREA_INDEX_WRITABLE,
        offset := log_size pre } := by
    rcases find_record_steady s _ key hs hro with ⟨pre', r', post', e1, e2, e3, e4⟩ | ⟨e1, h⟩
    · obtain ⟨ep, er, _⟩ := first_match_unique (fun q : log_rec => q.key = cstr key) pre pre' r r' post post'
        e1 hpre hr e2 e3
      subst ep; subst er
      exact e4
    · exact absurd hr (e1 r (by simp))
  have htarget : do_set_target s key data n flags = Except.error PDBSTORE_INVALID_ARGUMENT := by
    unfold do_set_target
    simp only [hfind]
    rw [if_pos trivial, if_neg (by decide), if_neg (by rw [hf]; simp), if_pos (by simpa [found_out] using hne)]
  exact do_set_of_target_error s key _ n flags _ hi hk hn htarget

theorem find_record_found (s : Store) (pre post : List log_rec) (r : log_rec) (key : List Nat)
    (hs : steady s (pre ++ r :: post)) (hro : (ro_find s key).1 = none)
    (hpre : ∀ q, q ∈ pre → q.key ≠ cstr key) (hr : r.key = cstr key) :
    find_record s key =
      { ret := PDBSTORE_SUCCESS, out := found_out s pre r, area := some AREA_INDEX_WRITABLE,
        offset := log_size pre } := by
  rcases find_record_steady s _ key hs hro with ⟨pre', r', post', e1, e2, e3, e4⟩ | ⟨e1, h⟩
  · obtain ⟨ep, er, _⟩ := first_match_unique (fun q : log_rec => q.key = cstr key) pre pre' r r' post post'
      e1 hpre hr e2 e3
    subst ep; subst er
    exact e4
  · exact absurd hr (e1 r (by simp))

theorem steady_rec_fits (s : Store) (pre post : List log_rec) (r : log_rec)
    (hs : steady s (pre ++ r :: post)) :
    log_size pre + log_rec_size r ≤ asize s AREA_INDEX_WRITABLE := by
  have := hs.fits
  rw [log_size_append] at this
  simp only [log_size] at this
  omega

/-- Setting a key of the log with data of the same size: the record is replaced in place. -/
theorem do_set_replace_steady (s : Store) (pre post : List log_rec) (r : log_rec)
    (key data : List Nat) (n flags : Nat)
    (hs : steady s (pre ++ r :: post)) (hi : s.initialized = true) (hk : is_valid_key key = true)
    (hn : n ≤ 1024) (hf : flags &&& DELETE_FLAG = 0) (hro : (ro_find s key).1 = none)
    (hpre : ∀ q, q ∈ pre → q.key ≠ cstr key) (hr : r.key = cstr key) (hsz : n = r.data.length) :
    ∃ s', pdbstore_do_set s key (data_buf.buf data) n flags = (PDBSTORE_SUCCESS, s') ∧
      steady s' (pre ++ { key := r.key, data := buf_bytes s (data_buf.buf data) n,
                          flags := flags % 256 } :: post) ∧
      frame s s' ∧ s'.free_space_offset = s.free_space_offset := by
  obtain ⟨hk1, hk2⟩ := is_valid_key_strlen key hk
  obtain ⟨D, hD⟩ : ∃ D, D = buf_bytes s (data_buf.buf data) n := ⟨_, rfl⟩
  have hDl : D.length = n := by rw [hD, buf_bytes_length]
  have hDs : ∀ s', buf_bytes s' (data_buf.buf data) n = D := by intro s'; rw [hD]; rfl
  have hfind := find_record_found s pre post r key hs hro hpre hr
  have hkl : strlen r.key = strlen key := by rw [hr, strlen_cstr]
  have hfit := steady_rec_fits s pre post r hs
  unfold log_rec_size at hfit
  rw [hkl, ← hsz] at hfit
  have htarget : do_set_target s key (data_buf.buf data) n flags =
      Except.ok (true, data_buf.buf data, n, log_size pre) := by
    unfold do_set_target
    simp only [hfind]
    rw [if_pos trivial, if_neg (by decide), if_neg (by rw [hf]; simp),
      if_neg (by simpa [found_out] using hsz)]
  have hwok := hs.lay.wr_ok
  have hil : ((rec_image s key D flags).drop 3).length = 5 + strlen key + n := by
    rw [List.length_drop, rec_image_length, hDl]; omega
  have hcore := commit_core s hs.lay hs.staging key (data_buf.buf data) n flags D hk1 hk2 hn
    (fun _ => hDs) (log_size pre) (log_size pre + 8 + strlen key + n) (log_size pre + 3) true
    ((rec_image s key D flags).drop 3) (by rw [hil]; omega)
    (by
      intro s1 nx hc1 hcell _
      have h1 := write_record_replace s1 AREA_INDEX_WRITABLE key (data_buf.buf data) n flags
        (log_size pre) nx D (same_cfg_area_ok hc1 _ hwok) hk1 hk2 hn
        (by rw [same_cfg_asize hc1]; omega)
        (fun s' _ _ => hDs s')
      rw [h1, hc1.2.2.1, same_cfg_abase hc1, rec_image_cfg hc1.2.2.2.2.1 hc1.2.2.2.2.2.2, hil])
  obtain ⟨s', h1, h2, h3⟩ := hcore
  refine ⟨s', ?_, ?_, h2.1, by simpa using h3⟩
  · rw [do_set_of_target_ok s key _ n flags _ _ _ _ hi hk hn htarget]
    exact h1
  · rw [← hD]
    exact steady_replace s s' pre post r key D flags hs hr.symm (by rw [hDl]; exact hsz) h2
      (by simpa using h3)

/-- Removing a key of the log: the record is rewritten in place with the delete flag, and
its data is what the erase left in the record. -/
theorem do_set_remove_steady (s : Store) (pre post : List log_rec) (r : log_rec)
    (key : List Nat) (data : data_buf) (n : Nat)
    (hs : steady s (pre ++ r :: post)) (hi : s.initialized = true) (hk : is_valid_key key = true)
    (hn : n ≤ 1024) (hro : (ro_find s key).1 = none)
    (hpre : ∀ q, q ∈ pre → q.key ≠ cstr key) (hr : r.key = cstr key) :
    ∃ s', pdbstore_do_set s key data n DELETE_FLAG = (PDBSTORE_SUCCESS, s') ∧
      steady s' (pre ++ { key := r.key,
                          data := List.replicate r.data.length (aerase s AREA_INDEX_WRITABLE),
                          flags := DELETE_FLAG } :: post) ∧
      frame s s' ∧ s'.free_space_offset = s.free_space_offset := by
  obtain ⟨hk1, hk2⟩ := is_valid_key_strlen key hk
  obtain ⟨hrk1, hrk2, hrck, hrd, hrf⟩ := hs.recs r (by simp)
  obtain ⟨D, hD⟩ : ∃ D, D = List.replicate r.data.length (aerase s AREA_INDEX_WRITABLE) := ⟨_, rfl⟩
  have hDl : D.length = r.data.length := by rw [hD, List.length_replicate]
  have hfind := find_record_found s pre post r key hs hro hpre hr
  have hkl : strlen r.key = strlen key := by rw [hr, strlen_cstr]
  have hfit := steady_rec_fits s pre post r hs
  unfold log_rec_size at hfit
  rw [hkl] at hfit
  have htarget : do_set_target s key data n DELETE_FLAG =
      Except.ok (true, data_buf.media (found_out s pre r).data_ptr, r.data.length, log_size pre) := by
    unfold do_set_target
    simp only [hfind]
    rw [if_pos trivial, if_neg (by decide), if_pos (by decide)]
    rfl
  have hwok := hs.lay.wr_ok
  have hil : ((rec_image s key D DELETE_FLAG).drop 3).length = 5 + strlen key + r.data.length := by
    rw [List.length_drop, rec_image_length, hDl]; omega
  have hcore := commit_core s hs.lay hs.staging key (data_buf.media (found_out s pre r).data_ptr)
    r.data.length DELETE_FLAG D hk1 hk2 hrd
    (fun h => absurd h (by decide)) (log_size pre) (log_size pre + 8 + strlen key + r.data.length)
    (log_size pre + 3) true
    ((rec_image s key D DELETE_FLAG).drop 3) (by rw [hil]; omega)
    (by
      intro s1 nx hc1 hcell _
      have h1 := write_record_replace s1 AREA_INDEX_WRITABLE key
        (data_buf.media (found_out s pre r).data_ptr) r.data.length DELETE_FLAG
        (log_size pre) nx D (same_cfg_area_ok hc1 _ hwok) hk1 hk2 hrd
        (by rw [same_cfg_asize hc1]; omega)
        (by
          intro s' hc' hag
          rw [hD]
          unfold buf_bytes mem_read
          simp only [found_out]
          rw [List.eq_replicate_iff]
          refine ⟨by simp, ?_⟩
          intro b hb
          rw [List.mem_map] at hb
          obtain ⟨i, hi', rfl⟩ := hb
          rw [List.mem_range] at hi'
          rw [hag, wipe_mem, if_pos]
          · rw [hc1.2.1, hc1.2.2.1]; rfl
          · rw [hc1.2.2.1, same_cfg_abase hc1]
            refine ⟨rfl, ?_, ?_⟩ <;> omega
          · rw [hc1.2.2.1, same_cfg_abase hc1]
            intro hh
            omega)
      rw [h1, hc1.2.2.1, same_cfg_abase hc1, rec_image_cfg hc1.2.2.2.2.1 hc1.2.2.2.2.2.2, hil])
  obtain ⟨s', h1, h2, h3⟩ := hcore
  refine ⟨s', ?_, ?_, h2.1, by simpa using h3⟩
  · rw [do_set_of_target_ok s key _ n DELETE_FLAG _ _ _ _ hi hk hn htarget]
    exact h1
  · have := steady_replace s s' pre post r key D DELETE_FLAG hs hr.symm hDl h2 (by simpa using h3)
    rw [hD] at this
    exact this

/-- `read_record` returns success, data-corrupt or read-error. -/
theorem read_record_status (s : Store) (a : area_index_e) (o : Nat) (ck : Bool) (out : record_out) :
    (read_record s a o ck out).1 = PDBSTORE_SUCCESS ∨
    (read_record s a o ck out).1 = PDBSTORE_DATA_CORRUPT ∨
    (read_record s a o ck out).1 = PDBSTORE_READ_ERROR := by
  have hra : ∀ o n, (read_area s a o n).1 = PDBSTORE_SUCCESS ∨ (read_area s a o n).1 = PDBSTORE_READ_ERROR := by
    intro o n; unfold read_area; split <;> simp
  unfold read_record
  simp only []
  split_ifs <;> simp_all
  all_goals
    rcases hra o sizeof_header with h | h <;> simp_all

/-- The scan of `find_record` never ends with not-found inside an area. -/
theorem find_record_loop_status (s : Store) (key : List Nat) (a : area_index_e) :
    ∀ (fuel o : Nat) (out : record_out) (ret : PDBSTORE_status_e),
      (find_record_loop s key a fuel o out).1 = some ret →
      ret = PDBSTORE_SUCCESS ∨ ret = PDBSTORE_DATA_CORRUPT ∨ ret = PDBSTORE_READ_ERROR ∨
        ret = PDBSTORE_INTERNAL_ERROR := by
  intro fuel
  induction fuel with
  | zero =>
    intro o out ret h
    simp only [find_record_loop, Option.some.injEq] at h
    exact Or.inr (Or.inr (Or.inr h.symm))
  | succ f ih =>
    intro o out ret h
    rw [find_record_loop_succ] at h
    split_ifs at h with h1 h2 h3 h4
    · simp only [Option.some.injEq] at h
      rcases read_record_status s a o true out with h5 | h5 | h5
      · exact absurd h5 h3
      · right; left; rw [← h, h5]
      · right; right; left; rw [← h, h5]
    · simp only [Option.some.injEq] at h
      left; exact h.symm
    · exact ih _ _ _ h

/-- `pdbstore_get` of a key of the log in steady state: not-found for a tombstone, else the
data of the first record with the key. -/
theorem get_found_steady (s : Store) (pre post : List log_rec) (r : log_rec) (key : List Nat)
    (hs : steady s (pre ++ r :: post)) (hi : s.initialized = true) (hk : is_valid_key key = true)
    (hro : (ro_find s key).1 = none)
    (hpre : ∀ q, q ∈ pre → q.key ≠ cstr key) (hr : r.key = cstr key) :
    pdbstore_get s key =
      (if r.flags &&& DELETE_FLAG ≠ 0 then PDBSTORE_NOT_FOUND else PDBSTORE_SUCCESS,
        (found_out s pre r).data_ptr, r.data.length) ∧
    mem_read s (found_out s pre r).data_ptr.bank (found_out s pre r).data_ptr.addr r.data.length =
      r.data := by
  have hfind := find_record_found s pre post r key hs hro hpre hr
  constructor
  · unfold pdbstore_get
    rw [if_neg (by rw [hk]; simp), if_neg (by rw [hi]; simp)]
    simp only [hfind]
    rw [if_neg (by simp)]
    by_cases c : r.flags &&& DELETE_FLAG ≠ 0
    · rw [if_pos (by simpa [found_out] using c), if_pos c]
      rfl
    · rw [if_neg (by simpa [found_out] using c), if_neg c]
      rfl
  · have hcells := hs.cells
    rw [log_at_append] at hcells
    obtain ⟨_, hc, _⟩ := hcells
    obtain ⟨hk1, hk2, hck, hd, hf⟩ := hs.recs r (by simp)
    obtain ⟨k, d, f, n, ky, dt, c⟩ := rec_image_read s AREA_INDEX_WRITABLE (0 + log_size pre) r.key
      r.data r.flags hk2 hd hc
    refine Eq.trans ?_ dt
    unfold rec_data mem_read found_out acell
    rw [k, d]
    simp only [Nat.zero_add, Nat.add_assoc]

/-- `pdbstore_get` of a key that neither area has: not-found. -/
theorem get_missing_steady (s : Store) (log : List log_rec) (key : List Nat)
    (hs : steady s log) (hi : s.initialized = true) (hk : is_valid_key key = true)
    (hro : (ro_find s key).1 = none) (hnew : ∀ q, q ∈ log → q.key ≠ cstr key) :
    (pdbstore_get s key).1 = PDBSTORE_NOT_FOUND := by
  rcases find_record_steady s log key hs hro with ⟨pre, r, post, e1, e2, e3, e4⟩ | ⟨e1, out', h⟩
  · exact absurd e3 (hnew r (by rw [e1]; simp))
  · unfold pdbstore_get
    rw [if_neg (by rw [hk]; simp), if_neg (by rw [hi]; simp)]
    simp only [h]
    rw [if_pos (by decide)]

/-- One turn of the scan of `pdbstore_init` at a record that reads with success and is not
the staged one: the scan moves on behind the record. -/
theorem init_scan_skip (sk : List Nat) (sp : media_ptr) (sn sf fuel : Nat) (s : Store)
    (offset : Nat) (o : record_out) (sv : Bool) (nx : Nat) (r : record_out)
    (ho : offset < (s.area_params AREA_INDEX_WRITABLE).size)
    (hr : read_record s AREA_INDEX_WRITABLE offset true { o with next_offset := s.free_space_offset } =
      (PDBSTORE_SUCCESS, r))
    (hk : ¬ (sv = true ∧ cstr r.key = cstr sk ∧ r.totally_corrupt = false)) :
    init_scan sk sp sn sf (fuel + 1) s offset o sv nx =
      init_scan sk sp sn sf fuel { s with free_space_offset := r.next_offset } r.next_offset r sv nx := by
  rw [init_scan]
  rw [if_neg (not_not.mpr ho)]
  simp only [hr]
  have hk2 : (sv = true ∧ cstr r.key = cstr sk ∧ r.totally_corrupt = false) = False := eq_false hk
  simp only [hk2, and_false, decide_False, Bool.false_eq_true, if_false, false_and, reduceCtorEq,
    ne_eq, not_true_eq_false, not_false_eq_true]

/-- One turn of the scan of `pdbstore_init` at a record that reads as corrupt and is not
replayed: the rest of the area is reset and the scan ends there. -/
theorem init_scan_corrupt (sk : List Nat) (sp : media_ptr) (sn sf fuel : Nat) (s : Store)
    (offset : Nat) (o : record_out) (sv : Bool) (nx : Nat) (r : record_out)
    (ho : offset < (s.area_params AREA_INDEX_WRITABLE).size)
    (hr : read_record s AREA_INDEX_WRITABLE offset true { o with next_offset := s.free_space_offset } =
      (PDBSTORE_DATA_CORRUPT, r))
    (hk : ¬ (sv = true ∧ cstr r.key = cstr sk ∧ r.totally_corrupt = false)) :
    init_scan sk sp sn sf (fuel + 1) s offset o sv nx =
      if (reset_area { s with free_space_offset := r.next_offset } AREA_INDEX_WRITABLE offset).1 ≠
          PDBSTORE_SUCCESS then
        { ret := (reset_area { s with free_space_offset := r.next_offset } AREA_INDEX_WRITABLE offset).1,
          s := (reset_area { s with free_space_offset := r.next_offset } AREA_INDEX_WRITABLE offset).2,
          offset := offset, staging_valid := sv }
      else
        { ret := PDBSTORE_SUCCESS,
          s := { (reset_area { s with free_space_offset := r.next_offset } AREA_INDEX_WRITABLE offset).2
                 with free_space_offset := offset },
          offset := offset, staging_valid := sv } := by
  rw [init_scan]
  rw [if_neg (not_not.mpr ho)]
  simp only [hr]
  have hk2 : (sv = true ∧ cstr r.key = cstr sk ∧ r.totally_corrupt = false) = False := eq_false hk
  simp only [hk2, and_false, decide_False, Bool.false_eq_true, if_false, false_and, reduceCtorEq,
    ne_eq, not_true_eq_false, not_false_eq_true, if_true]

/-- The scan of `pdbstore_init` ends when the offset has reached the end of the area. -/
theorem init_scan_end (sk : List Nat) (sp : media_ptr) (sn sf fuel : Nat) (s : Store)
    (offset : Nat) (o : record_out) (sv : Bool) (nx : Nat)
    (ho : ¬ offset < (s.area_params AREA_INDEX_WRITABLE).size) :
    init_scan sk sp sn sf (fuel + 1) s offset o sv nx =
      { ret := PDBSTORE_SUCCESS, s := s, offset := offset, staging_valid := sv } := by
  rw [init_scan]
  rw [if_pos ho]

/-- A read error ends the scan of `pdbstore_init` with that error. -/
theorem init_scan_read_error (sk : List Nat) (sp : media_ptr) (sn sf fuel : Nat) (s : Store)
    (offset : Nat) (o : record_out) (sv : Bool) (nx : Nat) (r : record_out)
    (ho : offset < (s.area_params AREA_INDEX_WRITABLE).size)
    (hr : read_record s AREA_INDEX_WRITABLE offset true { o with next_offset := s.free_space_offset } =
      (PDBSTORE_READ_ERROR, r)) :
    init_scan sk sp sn sf (fuel + 1) s offset o sv nx =
      { ret := PDBSTORE_READ_ERROR, s := { s with free_space_offset := r.next_offset },
        offset := offset, staging_valid := sv } := by
  rw [init_scan]
  rw [if_neg (not_not.mpr ho)]
  simp only [hr]
  simp only [reduceCtorEq, or_self, false_and, decide_False, Bool.false_eq_true, if_false,
    ne_eq, not_true_eq_false, not_false_eq_true, if_true]

/-- The CRC of a record image made of erase bytes only never matches the CRC field made of
the same erase bytes (the erase values 1, 2 and 3 are the ones whose sizes pass the checks
of `read_record`). -/
theorem blank_crc_mismatch (be : Bool) (ev : Nat) (h1 : 1 ≤ ev) (h3 : ev ≤ 3) :
    conv_ton32 be (calc_crc (calc_crc (calc_crc INITIAL_CRC [ev, ev, ev, ev]) (List.replicate ev ev))
      (List.replicate (257 * ev) ev)) ≠ ev * 16843009 := by
  have hev : ev = 1 ∨ ev = 2 ∨ ev = 3 := by omega
  rcases hev with e | e | e <;> subst e <;> cases be <;> decide!

theorem map_range_const (f : Nat → Nat) (n c : Nat) (h : ∀ i, i < n → f i = c) :
    (List.range n).map f = List.replicate n c := by
  apply List.ext_getElem
  · simp
  · intro i h1 h2
    simp only [List.getElem_map, List.getElem_range, List.getElem_replicate]
    exact h i (by simpa using h1)

theorem load16_same (hb : Bool) (ev : Nat) (h : ev < 256) : load16 hb ev ev = 257 * ev := by
  unfold load16; cases hb <;> simp <;> omega

theorem load32_same (hb : Bool) (ev : Nat) (h : ev < 256) : load32 hb ev ev ev ev = ev * 16843009 := by
  unfold load32; cases hb <;> simp <;> omega

theorem conv_ton16_same (be : Bool) (ev : Nat) (h : ev < 256) : conv_ton16 be (257 * ev) = 257 * ev := by
  cases be
  · rw [conv_ton16_le _ (by omega)]; omega
  · simp [conv_ton16]

/-- A record whose cells all hold the erase value does not pass the CRC check. -/
theorem blank_not_crc_ok (s : Store) (a : area_index_e) (o : Nat) (ev : Nat) (hev : ev < 256)
    (hbl : ∀ x, o ≤ x → x < o + 1048 → acell s a x = ev)
    (hk1 : hdr_key_size s a o ≠ 0) (hk2 : hdr_key_size s a o ≤ 16) (hd : hdr_data_size s a o ≤ 1024) :
    ¬ rec_crc_ok s a o := by
  have c0 := hbl o (by omega) (by omega)
  have c1 := hbl (o + 1) (by omega) (by omega)
  have c2 := hbl (o + 2) (by omega) (by omega)
  have c3 := hbl (o + 3) (by omega) (by omega)
  have c4 := hbl (o + 4) (by omega) (by omega)
  have c5 := hbl (o + 5) (by omega) (by omega)
  have c6 := hbl (o + 6) (by omega) (by omega)
  have c7 := hbl (o + 7) (by omega) (by omega)
  have k : hdr_key_size s a o = ev := by unfold hdr_key_size; rw [c2]; omega
  have d : hdr_data_size s a o = 257 * ev := by
    unfold hdr_data_size; rw [c0, c1, load16_same _ _ hev, conv_ton16_same _ _ hev]
  rw [k] at hk1 hk2
  rw [d] at hd
  have ky : rec_key s a o = List.replicate ev ev := by
    unfold rec_key; rw [k]
    exact map_range_const _ _ _ (fun i hi => hbl _ (by omega) (by omega))
  have dt : rec_data s a o = List.replicate (257 * ev) ev := by
    unfold rec_data; rw [k, d]
    exact map_range_const _ _ _ (fun i hi => hbl _ (by omega) (by omega))
  unfold rec_crc_ok rec_crc
  rw [ky, dt, c0, c1, c2, c3, c4, c5, c6, c7, load32_same _ _ hev]
  exact blank_crc_mismatch s.big_endian ev (by omega) (by omega)

/-- Reading a record where the media is blank: the record is corrupt, or, at less than 24
bytes before the end of an area that does not start at address 0, the read fails. -/
theorem read_record_blank (s : Store) (a : area_index_e) (o : Nat) (out : record_out)
    (h : area_nowrap s a) (ho : o ≤ asize s a) (hev : aerase s a < 256)
    (hbl : ∀ x, o ≤ x → x < o + 1048 → acell s a x = aerase s a) :
    ∃ r, (read_record s a o true out = (PDBSTORE_DATA_CORRUPT, r) ∧
        (r.totally_corrupt = false → r.next_offset = rec_next s a o)) ∨
      (read_record s a o true out = (PDBSTORE_READ_ERROR, r) ∧
        (s.area_params a).address ≠ 0 ∧ asize s a < o + 24 ∧ r.next_offset = out.next_offset) := by
  rw [read_record_eq s a o out h ho]
  by_cases c1 : o + 8 ≥ (s.area_params a).address + asize s a
  · rw [if_pos c1]; exact ⟨_, Or.inl ⟨rfl, fun hh => by simp at hh⟩⟩
  rw [if_neg c1]
  by_cases c0 : o + 8 > asize s a
  · rw [if_pos c0]; exact ⟨_, Or.inr ⟨rfl, by omega, by omega, rfl⟩⟩
  rw [if_neg c0]
  by_cases c2 : hdr_key_size s a o = 0 ∨ hdr_key_size s a o > 16 ∨ hdr_data_size s a o > 1024
  · rw [if_pos c2]; exact ⟨_, Or.inl ⟨rfl, fun hh => by simp at hh⟩⟩
  rw [if_neg c2]
  by_cases c3 : rec_next s a o > (s.area_params a).address + asize s a
  · rw [if_pos c3]; exact ⟨_, Or.inl ⟨rfl, fun hh => by simp at hh⟩⟩
  rw [if_neg c3]
  by_cases c4 : o + 8 + hdr_key_size s a o > asize s a
  · rw [if_pos c4]
    refine ⟨_, Or.inr ⟨rfl, ?_, by omega, rfl⟩⟩
    intro h0
    unfold rec_next at c3
    omega
  rw [if_neg c4]
  have hc : ¬ rec_crc_ok s a o :=
    blank_not_crc_ok s a o (aerase s a) hev hbl (by omega) (by omega) (by omega)
  rw [if_neg hc]
  exact ⟨_, Or.inl ⟨rfl, fun _ => rfl⟩⟩

/-- The cells behind the writable area are the cells of the staging area. -/
theorem wr_cell_staging (s : Store) (hl : layout s) (y : Nat) :
    acell s AREA_INDEX_WRITABLE (asize s AREA_INDEX_WRITABLE + y) = acell s AREA_INDEX_STAGING y := by
  unfold acell
  rw [hl.st_bank, hl.st_base, Nat.add_assoc]

theorem wr_aerase_staging (s : Store) (hl : layout s) :
    aerase s AREA_INDEX_STAGING = aerase s AREA_INDEX_WRITABLE := by
  unfold aerase
  rw [hl.st_bank]

/-- With a blank tail of the writable area and a blank staging area, the cells are blank
from the end of the records to the end of the staging area. -/
theorem wr_blank_ext (s : Store) (hl : layout s) (e : Nat)
    (htail : ∀ x, e ≤ x → x < asize s AREA_INDEX_WRITABLE →
      acell s AREA_INDEX_WRITABLE x = aerase s AREA_INDEX_WRITABLE)
    (hst : ∀ x, x < asize s AREA_INDEX_STAGING →
      acell s AREA_INDEX_STAGING x = aerase s AREA_INDEX_STAGING) :
    ∀ x, e ≤ x → x < asize s AREA_INDEX_WRITABLE + 1048 →
      acell s AREA_INDEX_WRITABLE x = aerase s AREA_INDEX_WRITABLE := by
  intro x h1 h2
  by_cases hx : x < asize s AREA_INDEX_WRITABLE
  · exact htail x h1 hx
  · have e1 : x = asize s AREA_INDEX_WRITABLE + (x - asize s AREA_INDEX_WRITABLE) := by omega
    rw [e1, wr_cell_staging s hl, hst _ (by rw [hl.st_size]; omega), wr_aerase_staging s hl]

/-- The scan of `pdbstore_init` over a writable area that holds the records `rest` from
offset `o` on, followed by blank media, with no valid staged record: the scan ends behind
the records with `free_space_offset` there, or with a read error when less than 24 bytes
remain in an area that does not start at address 0. -/
theorem init_scan_log (sk : List Nat) (sp : media_ptr) (sn sf : Nat) :
    ∀ (rest : List log_rec) (o fuel : Nat) (out : record_out) (nx : Nat) (s : Store),
      layout s → aerase s AREA_INDEX_WRITABLE < 256 →
      log_at s AREA_INDEX_WRITABLE o rest → (∀ r, r ∈ rest → log_rec_ok r) →
      o + log_size rest ≤ asize s AREA_INDEX_WRITABLE →
      (∀ x, o + log_size rest ≤ x → x < asize s AREA_INDEX_WRITABLE + 1048 →
        acell s AREA_INDEX_WRITABLE x = aerase s AREA_INDEX_WRITABLE) →
      (o < asize s AREA_INDEX_WRITABLE ∨ s.free_space_offset = o) →
      rest.length < fuel →
      init_scan sk sp sn sf fuel s o out false nx =
        { ret := PDBSTORE_SUCCESS, s := { s with free_space_offset := o + log_size rest },
          offset := o + log_size rest, staging_valid := false } ∨
      (∃ f, init_scan sk sp sn sf fuel s o out false nx =
          { ret := PDBSTORE_READ_ERROR, s := { s with free_space_offset := f },
            offset := o + log_size rest, staging_valid := false } ∧
        (s.area_params AREA_INDEX_WRITABLE).address ≠ 0 ∧
        asize s AREA_INDEX_WRITABLE < o + log_size rest + 24) := by
  intro rest
  induction rest with
  | nil =>
    intro o fuel out nx s hl hev _ _ hfit hbl hfso hfuel
    obtain ⟨fuel, rfl⟩ : ∃ f, fuel = f + 1 := ⟨fuel - 1, by simp at hfuel; omega⟩
    simp only [log_size, Nat.add_zero] at *
    by_cases ho : o < (s.area_params AREA_INDEX_WRITABLE).size
    · have hnw := area_ok_nowrap hl.wr_ok
      obtain ⟨r, hr⟩ := read_record_blank s AREA_INDEX_WRITABLE o
        { out with next_offset := s.free_space_offset } hnw hfit hev
        (fun x h1 h2 => hbl x h1 (by unfold asize at *; omega))
      rcases hr with ⟨hr, _⟩ | ⟨hr, ha, hs, hn⟩
      · left
        rw [init_scan_corrupt sk sp sn sf fuel s o out false nx r ho hr (by simp)]
        have hl2 : layout { s with free_space_offset := r.next_offset } := layout_congr hl rfl rfl
        rcases reset_area_spec { s with free_space_offset := r.next_offset } AREA_INDEX_WRITABLE o
          hl2.wr_ok hfit with ⟨_, hrs⟩ | ⟨hne, _⟩
        · rw [hrs]
          simp only [ne_eq, not_true_eq_false, if_false]
        · exact absurd (fun x h1 h2 => hbl x h1 (by
            have : asize { s with free_space_offset := r.next_offset } AREA_INDEX_WRITABLE =
              asize s AREA_INDEX_WRITABLE := rfl
            omega)) hne
      · right
        refine ⟨r.next_offset, ?_, ha, hs⟩
        rw [init_scan_read_error sk sp sn sf fuel s o out false nx r ho hr]
    · left
      rw [init_scan_end sk sp sn sf fuel s o out false nx ho]
      have hf : s.free_space_offset = o := by
        rcases hfso with h | h
        · exact absurd h ho
        · exact h
      rw [← hf]
  | cons r l ih =>
    intro o fuel out nx s hl hev hat hok hfit hbl _ hfuel
    obtain ⟨fuel, rfl⟩ : ∃ f, fuel = f + 1 := ⟨fuel - 1, by simp at hfuel; omega⟩
    have hnw := area_ok_nowrap hl.wr_ok
    have hrok := hok r (List.mem_cons_self _ _)
    have hsz : log_size (r :: l) = log_rec_size r + log_size l := rfl
    have h9 : 9 ≤ log_rec_size r := by
      unfold log_rec_size; have := hrok.1; omega
    rw [hsz] at hfit hbl ⊢
    have ho : o < (s.area_params AREA_INDEX_WRITABLE).size := by unfold asize at hfit; omega
    have hrd := read_record_log s AREA_INDEX_WRITABLE o r { out with next_offset := s.free_space_offset }
      hnw hrok (by omega) hat.1
    rw [init_scan_skip sk sp sn sf fuel s o out false nx _ ho hrd (by simp)]
    simp only []
    have hl2 : layout { s with free_space_offset := o + log_rec_size r } := layout_congr hl rfl rfl
    have hat2 : log_at { s with free_space_offset := o + log_rec_size r } AREA_INDEX_WRITABLE
        (o + log_rec_size r) l := @log_at_congr s { s with free_space_offset := o + log_rec_size r } rfl rfl _ l _
        (fun _ _ _ => rfl) hat.2
    have e : o + (log_rec_size r + log_size l) = o + log_rec_size r + log_size l := by omega
    rw [e]
    exact ih (o + log_rec_size r) fuel _ nx
      { s with free_space_offset := o + log_rec_size r } hl2 hev hat2
      (fun q hq => hok q (List.mem_cons_of_mem _ hq)) (by
        have : asize { s with free_space_offset := o + log_rec_size r } AREA_INDEX_WRITABLE =
          asize s AREA_INDEX_WRITABLE := rfl
        omega)
      (fun x h1 h2 => hbl x (by omega) h2) (Or.inr rfl) (by simp at hfuel; omega)

attribute [irreducible] reset_area

/-- The steady state does not depend on `initialized` and `num_banks`. -/
theorem steady_congr {s s' : Store} {log : List log_rec} (hs : steady s log)
    (h1 : s'.bank_params = s.bank_params) (h2 : s'.area_params = s.area_params)
    (h3 : s'.big_endian = s.big_endian) (h4 : s'.host_big_endian = s.host_big_endian)
    (h5 : s'.mem = s.mem) (h6 : s'.free_space_offset = s.free_space_offset) : steady s' log := by
  have hc : ∀ a x, acell s' a x = acell s a x := by
    intro a x; unfold acell abase; rw [h1, h2, h5]
  have hz : ∀ a, asize s' a = asize s a := by
    intro a; unfold asize; rw [h2]
  have he : ∀ a, aerase s' a = aerase s a := by
    intro a; unfold aerase; rw [h1, h2]
  refine ⟨layout_congr hs.lay h1 h2, hs.recs, ?_, ?_, ?_, ?_, ?_⟩
  · exact @log_at_congr s s' h3 h4 _ log 0 (fun x _ _ => hc _ x) hs.cells
  · rw [h6]; exact hs.fso
  · rw [hz]; exact hs.fits
  · intro x hx1 hx2
    rw [hc, he]
    exact hs.tail x hx1 (by rw [← hz]; exact hx2)
  · intro x hx
    rw [hc, he]
    exact hs.staging x (by rw [← hz]; exact hx)

/-- The second part of `pdbstore_init` on a media in the steady state: nothing is written,
`free_space_offset` is found behind the records and the store is initialized; or the scan
ends with a read error, which takes a writable area that does not start at address 0 and
less than 24 free bytes. -/
theorem init_recover_steady (t : Store) (log : List log_rec) (o : record_out)
    (hs : steady { t with free_space_offset := log_size log } log)
    (hev : aerase t AREA_INDEX_WRITABLE < 256) :
    init_recover t o =
      (PDBSTORE_SUCCESS, { t with free_space_offset := log_size log, initialized := true }) ∨
    (∃ f, init_recover t o = (PDBSTORE_READ_ERROR, { t with free_space_offset := f }) ∧
      (t.area_params AREA_INDEX_WRITABLE).address ≠ 0 ∧
      asize t AREA_INDEX_WRITABLE < log_size log + 24) := by
  have hl : layout t := @layout_congr { t with free_space_offset := log_size log } t hs.lay rfl rfl
  have hat : log_at t AREA_INDEX_WRITABLE 0 log :=
    @log_at_congr { t with free_space_offset := log_size log } t rfl rfl _ log 0
      (fun _ _ _ => rfl) hs.cells
  have htail : ∀ x, log_size log ≤ x → x < asize t AREA_INDEX_WRITABLE →
      acell t AREA_INDEX_WRITABLE x = aerase t AREA_INDEX_WRITABLE := hs.tail
  have hst : ∀ x, x < asize t AREA_INDEX_STAGING →
      acell t AREA_INDEX_STAGING x = aerase t AREA_INDEX_STAGING := hs.staging
  have hfit : log_size log ≤ asize t AREA_INDEX_WRITABLE := hs.fits
  have hext := wr_blank_ext t hl (log_size log) htail hst
  have hevs : aerase t AREA_INDEX_STAGING < 256 := by rw [wr_aerase_staging t hl]; exact hev
  obtain ⟨r, hr⟩ := read_record_blank t AREA_INDEX_STAGING 0 record_out_init
    (area_ok_nowrap hl.st_ok) (Nat.zero_le _) hevs
    (fun x _ h2 => hst x (by rw [hl.st_size]; omega))
  have hrs : read_record t AREA_INDEX_STAGING 0 true record_out_init = (PDBSTORE_DATA_CORRUPT, r) := by
    rcases hr with ⟨h, _⟩ | ⟨_, _, h, _⟩
    · exact h
    · rw [hl.st_size] at h; omega
  have hwz := hl.wr_size
  have hsc := init_scan_log r.key r.data_ptr r.actual_data_size r.flags log 0
    ((t.area_params AREA_INDEX_WRITABLE).size + 1)
    { o with key := [], totally_corrupt := r.totally_corrupt } r.next_offset t hl hev hat hs.recs
    (by omega) (fun x h1 h2 => hext x (by omega) h2) (Or.inl (by omega))
    (by have := log_size_le_length log; unfold asize at hfit; omega)
  simp only [Nat.zero_add] at hsc
  unfold init_recover
  rw [hrs, if_neg (by simp)]
  rcases hsc with hsc | ⟨f, hsc, ha, hz⟩
  · left
    have e : init_scan (PDBSTORE_DATA_CORRUPT, r).2.key (PDBSTORE_DATA_CORRUPT, r).2.data_ptr
        (PDBSTORE_DATA_CORRUPT, r).2.actual_data_size (PDBSTORE_DATA_CORRUPT, r).2.flags
        ((t.area_params AREA_INDEX_WRITABLE).size + 1) t 0
        { o with key := [], totally_corrupt := (PDBSTORE_DATA_CORRUPT, r).2.totally_corrupt }
        (decide ((PDBSTORE_DATA_CORRUPT, r).1 = PDBSTORE_SUCCESS))
        (PDBSTORE_DATA_CORRUPT, r).2.next_offset = _ := hsc
    rw [e]
    unfold init_finish
    simp only [ne_eq, not_true_eq_false, if_false, Bool.false_eq_true]
    have hl2 : layout { t with free_space_offset := log_size log } := hs.lay
    rcases reset_area_spec { t with free_space_offset := log_size log } AREA_INDEX_STAGING 0
      hl2.st_ok (Nat.zero_le _) with ⟨_, hrz⟩ | ⟨hne, _⟩
    · rw [hrz]
      simp only [ne_eq, not_true_eq_false, if_false]
    · exact absurd (fun x _ h2 => hs.staging x h2) hne
  · right
    refine ⟨f, ?_, ha, hz⟩
    have e : init_scan (PDBSTORE_DATA_CORRUPT, r).2.key (PDBSTORE_DATA_CORRUPT, r).2.data_ptr
        (PDBSTORE_DATA_CORRUPT, r).2.actual_data_size (PDBSTORE_DATA_CORRUPT, r).2.flags
        ((t.area_params AREA_INDEX_WRITABLE).size + 1) t 0
        { o with key := [], totally_corrupt := (PDBSTORE_DATA_CORRUPT, r).2.totally_corrupt }
        (decide ((PDBSTORE_DATA_CORRUPT, r).1 = PDBSTORE_SUCCESS))
        (PDBSTORE_DATA_CORRUPT, r).2.next_offset = _ := hsc
    rw [e]
    unfold init_finish
    simp only [ne_eq, reduceCtorEq, not_false_eq_true, if_true]

theorem crc_bit_eq_reflected (c : Nat) : crc_bit c = crc32_reflected_bit c := by
  unfold crc_bit crc32_reflected_bit u32
  have h1 : c &&& 1 = c % 2 := Nat.and_one_is_mod c
  simp only [h1, Nat.shiftRight_one]
  rcases Nat.mod_two_eq_zero_or_one c with h | h
  · rw [h]; simp
  · rw [h]
    simp only [if_true]
    have : (4294967296 - 1) % 4294967296 = 2 ^ 32 - 1 := by norm_num
    rw [this, Nat.and_pow_two_sub_one_eq_mod]

theorem crc_byte_eq_reflected (c b : Nat) (hb : b < 256) :
    crc_byte c b = crc32_reflected_byte c b := by
  unfold crc_byte crc32_reflected_byte
  simp only [crc_bit_eq_reflected, Nat.mod_eq_of_lt hb]

theorem calc_crc_eq_reflected (s : List Nat) : ∀ (c : Nat), (∀ b, b ∈ s → b < 256) →
    calc_crc c s = crc32_reflected c s := by
  induction s with
  | nil => intro c _; rfl
  | cons b l ih =>
    intro c h
    unfold calc_crc crc32_reflected
    simp only [List.foldl_cons]
    rw [crc_byte_eq_reflected c b (h b (List.mem_cons_self _ _))]
    exact ih _ (fun x hx => h x (List.mem_cons_of_mem _ hx))

theorem crc32_reflected_lt (s : List Nat) (c : Nat) (hc : c < 4294967296)
    (h : ∀ b, b ∈ s → b < 256) : crc32_reflected c s < 4294967296 := by
  rw [← calc_crc_eq_reflected s c h]
  exact calc_crc_lt c s hc

theorem xor_mask_cancel (x : Nat) : x ^^^ 4294967295 ^^^ 4294967295 = x := by
  rw [Nat.xor_assoc, Nat.xor_self, Nat.xor_zero]

/-- Claim C13: `calc_crc` started at `0xFFFFFFFF` is the reflected CRC-32 with polynomial
`0xEDB88320` and no final xor, that is the bitwise complement of the standard CRC-32; on
the ASCII bytes of "123456789" it gives `0x340BC6D9` (the standard check value being
`0xCBF43926`), and on the empty sequence the initial value. -/
theorem calc_crc_is_reflected_crc32 (s : List Nat) (h : ∀ b, b ∈ s → b < 256) :
    calc_crc INITIAL_CRC s = crc32_reflected 0xFFFFFFFF s ∧
    calc_crc INITIAL_CRC s = crc32_ieee s ^^^ 0xFFFFFFFF ∧
    crc32_ieee [49, 50, 51, 52, 53, 54, 55, 56, 57] = 0xCBF43926 ∧
    calc_crc INITIAL_CRC [49, 50, 51, 52, 53, 54, 55, 56, 57] = 0x340BC6D9 ∧
    (∀ c, calc_crc c [] = c) := by
  refine ⟨calc_crc_eq_reflected s _ h, ?_, by decide!, by decide!, fun _ => rfl⟩
  unfold crc32_ieee
  rw [xor_mask_cancel]
  exact calc_crc_eq_reflected s _ h

theorem calc_crc_is_reflected_crc32_witness :
    calc_crc INITIAL_CRC [49, 50, 51] = crc32_reflected 0xFFFFFFFF [49, 50, 51] ∧
    calc_crc INITIAL_CRC [49, 50, 51] = crc32_ieee [49, 50, 51] ^^^ 0xFFFFFFFF ∧
    crc32_ieee [49, 50, 51, 52, 53, 54, 55, 56, 57] = 0xCBF43926 ∧
    calc_crc INITIAL_CRC [49, 50, 51, 52, 53, 54, 55, 56, 57] = 0x340BC6D9 ∧
    (∀ c, calc_crc c [] = c) :=
  calc_crc_is_reflected_crc32 [49, 50, 51] (by decide)

theorem flags_mask (flags : Nat) (h : flags &&& 254 ≠ 0) :
    flags &&& (0xFFFFFFFF ^^^ SUPPORTED_USER_FLAGS) ≠ 0 := by
  have e : (0xFFFFFFFF ^^^ SUPPORTED_USER_FLAGS) = 4294967294 := by decide
  rw [e]
  intro h0
  apply h
  apply Nat.eq_of_testBit_eq
  intro i
  have h1 := congrArg (fun x => Nat.testBit x i) h0
  simp only [Nat.testBit_and, Nat.zero_testBit] at h1 ⊢
  by_cases hi : i < 8
  · have : Nat.testBit 4294967294 i = Nat.testBit 254 i := by
      interval_cases i <;> decide
    rw [← this]; exact h1
  · have : Nat.testBit 254 i = false := by
      apply Nat.testBit_eq_false_of_lt
      calc 254 < 2 ^ 8 := by norm_num
        _ ≤ 2 ^ i := Nat.pow_le_pow_right (by norm_num) (by omega)
    rw [this]; simp

/-- Claim C14: `pdbstore_set` returns invalid-argument, with the state untouched, whenever
the flags byte has a bit other than `PDBSTORE_RESILIENT_FLAG` set (the DELETE bit `0x80`
in particular) or the size is above 1024, whatever the state, the key and the data. -/
theorem set_rejects_flags_and_size (s : Store) (key data : List Nat) (size flags : Nat)
    (h : flags &&& 254 ≠ 0 ∨ size > PDBSTORE_MAX_DATA_SIZE) :
    pdbstore_set s key data size flags = (PDBSTORE_INVALID_ARGUMENT, s) ∧
    pdbstore_set s key data size DELETE_FLAG = (PDBSTORE_INVALID_ARGUMENT, s) := by
  have hdel : pdbstore_set s key data size DELETE_FLAG = (PDBSTORE_INVALID_ARGUMENT, s) := by
    unfold pdbstore_set
    rw [if_pos (flags_mask DELETE_FLAG (by decide))]
  refine ⟨?_, hdel⟩
  unfold pdbstore_set
  by_cases hb : flags &&& (0xFFFFFFFF ^^^ SUPPORTED_USER_FLAGS) ≠ 0
  · rw [if_pos hb]
  · rw [if_neg hb]
    rcases h with h | h
    · exact absurd (flags_mask flags h) hb
    · unfold pdbstore_do_set
      rw [if_pos (Or.inr h)]

theorem set_rejects_flags_and_size_witness :
    pdbstore_set demo_store [97] [1, 2] 2 130 = (PDBSTORE_INVALID_ARGUMENT, demo_store) ∧
    pdbstore_set demo_store [97] [1, 2] 2 DELETE_FLAG = (PDBSTORE_INVALID_ARGUMENT, demo_store) :=
  set_rejects_flags_and_size demo_store [97] [1, 2] 2 130 (Or.inl (by decide))

theorem is_valid_key_iff (k : List Nat) :
    is_valid_key k = true ↔
      1 ≤ strlen k ∧ strlen k ≤ 16 ∧ ∀ c, c ∈ cstr k → c ∉ invalid_key_chars := by
  unfold is_valid_key PDBSTORE_MAX_KEY_SIZE
  by_cases h1 : strlen k = 0 ∨ strlen k > 16
  · rw [if_pos h1]
    constructor
    · intro h; exact absurd h (by decide)
    · intro h; omega
  · rw [if_neg h1]
    by_cases h2 : (cstr k).any (fun c => invalid_key_chars.contains c) = true
    · rw [if_pos h2]
      constructor
      · intro h; exact absurd h (by decide)
      · intro h
        rw [List.any_eq_true] at h2
        obtain ⟨c, hc, hin⟩ := h2
        exact absurd (by simpa using hin) (h.2.2 c hc)
    · rw [if_neg h2]
      refine ⟨fun _ => ⟨by omega, by omega, ?_⟩, fun _ => rfl⟩
      intro c hc hin
      apply h2
      rw [List.any_eq_true]
      exact ⟨c, hc, by simpa using hin⟩

/-- Claim C15: `is_valid_key` accepts exactly the non-null keys of 1 to 16 bytes that hold
none of the bytes of `" */?:;\"|<>\\"` (32, 42, 47, 63, 58, 59, 34, 124, 60, 62, 92), and
`pdbstore_get`, `pdbstore_set` and `pdbstore_remove` return invalid-argument for a key that
is not valid. -/
theorem key_validation (s : Store) (k : List Nat) (h : is_valid_key k = false) :
    (∀ key : Option (List Nat), is_valid_key_ptr key = true ↔
      ∃ k', key = some k' ∧ 1 ≤ strlen k' ∧ strlen k' ≤ 16 ∧
        ∀ c, c ∈ cstr k' → c ∉ [32, 42, 47, 63, 58, 59, 34, 124, 60, 62, 92]) ∧
    (pdbstore_get s k).1 = PDBSTORE_INVALID_ARGUMENT ∧
    (∀ d n f, (pdbstore_set s k d n f).1 = PDBSTORE_INVALID_ARGUMENT) ∧
    (pdbstore_remove s k).1 = PDBSTORE_INVALID_ARGUMENT := by
  refine ⟨?_, ?_, ?_, ?_⟩
  · intro key
    cases key with
    | none => simp [is_valid_key_ptr]
    | some k' =>
      simp only [is_valid_key_ptr, Option.some.injEq, exists_eq_left']
      exact is_valid_key_iff k'
  · unfold pdbstore_get
    rw [if_pos h]
  · intro d n f
    unfold pdbstore_set
    split
    · rfl
    · unfold pdbstore_do_set
      rw [if_pos (Or.inl h)]
  · unfold pdbstore_remove pdbstore_do_set
    rw [if_pos (Or.inl h)]

theorem key_validation_witness :
    (∀ key : Option (List Nat), is_valid_key_ptr key = true ↔
      ∃ k', key = some k' ∧ 1 ≤ strlen k' ∧ strlen k' ≤ 16 ∧
        ∀ c, c ∈ cstr k' → c ∉ [32, 42, 47, 63, 58, 59, 34, 124, 60, 62, 92]) ∧
    (pdbstore_get demo_store [97, 42]).1 = PDBSTORE_INVALID_ARGUMENT ∧
    (∀ d n f, (pdbstore_set demo_store [97, 42] d n f).1 = PDBSTORE_INVALID_ARGUMENT) ∧
    (pdbstore_remove demo_store [97, 42]).1 = PDBSTORE_INVALID_ARGUMENT :=
  key_validation demo_store [97, 42] (by decide)

/-- The function `read_record` with `copy_key = false` (a null `key`), written out for an
area whose addresses do not wrap around: the key is read in place, the caller's key stays. -/
theorem read_record_eq_nokey (s : Store) (a : area_index_e) (o : Nat) (out : record_out)
    (h : area_nowrap s a) (ho : o ≤ asize s a) :
    read_record s a o false out =
      if o + 8 ≥ (s.area_params a).address + asize s a then
        (PDBSTORE_DATA_CORRUPT, { out with totally_corrupt := true })
      else if o + 8 > asize s a then
        (PDBSTORE_READ_ERROR, { out with totally_corrupt := false })
      else if hdr_key_size s a o = 0 ∨ hdr_key_size s a o > 16 ∨ hdr_data_size s a o > 1024 then
        (PDBSTORE_DATA_CORRUPT, { out with totally_corrupt := true })
      else if rec_next s a o > (s.area_params a).address + asize s a then
        (PDBSTORE_DATA_CORRUPT, { out with totally_corrupt := true, flags := hdr_flags s a o })
      else
        (if rec_crc_ok s a o then PDBSTORE_SUCCESS else PDBSTORE_DATA_CORRUPT,
          { key := out.key,
            data_ptr := { bank := (s.area_params a).bank, addr := abase s a + (o + 8 + hdr_key_size s a o) },
            actual_data_size := hdr_data_size s a o,
            totally_corrupt := false,
            flags := hdr_flags s a o,
            next_offset := rec_next s a o }) := by
  have h' := h
  unfold area_nowrap at h
  have hadr : (s.area_params a).address + asize s a + 2048 ≤ 4294967296 := by
    unfold abase at h; omega
  have e1 : u32 (o + sizeof_header) = o + 8 := u32_of_lt (by unfold sizeof_header; omega)
  have e2 : u32 ((s.area_params a).address + (s.area_params a).size) =
      (s.area_params a).address + asize s a := u32_of_lt (by unfold asize at *; omega)
  have hr8 : List.range 8 = [0, 1, 2, 3, 4, 5, 6, 7] := rfl
  unfold read_record
  simp only [e1, e2]
  by_cases c1 : o + 8 ≥ (s.area_params a).address + asize s a
  · rw [if_pos c1, if_pos c1]
  rw [if_neg c1, if_neg c1]
  by_cases c0 : o + 8 > asize s a
  · rw [if_pos c0, read_area_err s a o sizeof_header (by unfold sizeof_header; omega)
      (by unfold sizeof_header; omega)]
    simp
  rw [if_neg c0]
  have hra : read_area s a o sizeof_header =
      (PDBSTORE_SUCCESS, (List.range 8).map (fun i => acell s a (o + i))) :=
    read_area_eq s a o 8 h' (by omega)
  rw [hra]
  simp only [ne_eq, not_true_eq_false, if_false, hr8, List.map, List.getD_cons_zero,
    List.getD_cons_succ, Nat.add_zero, PDBSTORE_MAX_KEY_SIZE, PDBSTORE_MAX_DATA_SIZE]
  have hks : acell s a (o + 2) % 256 = hdr_key_size s a o := rfl
  have hds : conv_ton16 s.big_endian (load16 s.host_big_endian (acell s a o) (acell s a (o + 1))) =
      hdr_data_size s a o := rfl
  have hfl : acell s a (o + 3) % 256 = hdr_flags s a o := rfl
  rw [hks, hds, hfl]
  by_cases c2 : hdr_key_size s a o = 0 ∨ hdr_key_size s a o > 16 ∨ hdr_data_size s a o > 1024
  · rw [if_pos c2, if_pos c2]
  rw [if_neg c2, if_neg c2]
  have hk16 : hdr_key_size s a o ≤ 16 := by omega
  have hd1024 : hdr_data_size s a o ≤ 1024 := by omega
  have e3 : u32 (hdr_key_size s a o + hdr_data_size s a o) = hdr_key_size s a o + hdr_data_size s a o :=
    u32_of_lt (by omega)
  have e4 : u32 (o + 8 + (hdr_key_size s a o + hdr_data_size s a o)) = rec_next s a o := by
    unfold rec_next; rw [u32_of_lt (by omega)]; omega
  rw [e3, e4]
  by_cases c3 : rec_next s a o > (s.area_params a).address + asize s a
  · rw [if_pos c3, if_pos c3]
  rw [if_neg c3, if_neg c3]
  simp only [Bool.false_eq_true, if_false, ne_eq, not_true_eq_false, sizeof_header, sizeof_crc]
  have e5 : u32 (o + 8 + hdr_key_size s a o) = o + 8 + hdr_key_size s a o := u32_of_lt (by omega)
  have e6 : u32 (o + 8 + hdr_key_size s a o + hdr_data_size s a o) = rec_next s a o := by
    unfold rec_next; exact u32_of_lt (by omega)
  rw [e5, e6]
  simp only [area_ptr_by_offset]
  rw [abs_address_eq s a (o + 8 + hdr_key_size s a o) h' (by omega),
    abs_address_eq s a (o + 8) h' (by omega)]
  have ekey : mem_read s (s.area_params a).bank (abase s a + (o + 8)) (hdr_key_size s a o) =
      rec_key s a o := by
    unfold mem_read rec_key acell
    simp only [Nat.add_assoc]
  have edata : mem_read s (s.area_params a).bank (abase s a + (o + 8 + hdr_key_size s a o)) (hdr_data_size s a o)
      = rec_data s a o := by
    unfold mem_read rec_data acell
    simp only [Nat.add_assoc]
  rw [ekey, edata]
  have ecrc : calc_crc (calc_crc (calc_crc INITIAL_CRC
      (List.take (8 - 4) [acell s a o, acell s a (o + 1), acell s a (o + 2), acell s a (o + 3),
        acell s a (o + 4), acell s a (o + 5), acell s a (o + 6), acell s a (o + 7)])) (rec_key s a o))
      (rec_data s a o) = rec_crc s a o := rfl
  rw [ecrc]
  by_cases c5 : rec_crc_ok s a o
  · rw [if_pos c5, if_neg (by simpa [rec_crc_ok] using c5)]
  · rw [if_neg c5, if_pos (by simpa [rec_crc_ok] using c5)]

/-- Claim C19: for a record whose header holds a key size of 1 to 16 and a data size of at
most 1024 and which fits in its area, `read_record` (with or without a key buffer) returns
success when the stored CRC equals the CRC over the first four header bytes, the key and the
data; otherwise it returns data-corrupt with `totally_corrupt = false` and
`next_offset = offset + 8 + key_size + data_size`. -/
theorem read_record_crc_classification (s : Store) (a : area_index_e) (o : Nat) (ck : Bool)
    (out : record_out) (h : area_nowrap s a)
    (hk1 : 1 ≤ hdr_key_size s a o) (hk2 : hdr_key_size s a o ≤ 16)
    (hd : hdr_data_size s a o ≤ 1024)
    (hfit : o + 8 + hdr_key_size s a o + hdr_data_size s a o ≤ asize s a) :
    (rec_crc_ok s a o → (read_record s a o ck out).1 = PDBSTORE_SUCCESS) ∧
    (¬ rec_crc_ok s a o →
      (read_record s a o ck out).1 = PDBSTORE_DATA_CORRUPT ∧
      (read_record s a o ck out).2.totally_corrupt = false ∧
      (read_record s a o ck out).2.next_offset =
        o + 8 + hdr_key_size s a o + hdr_data_size s a o) := by
  have hn : rec_next s a o = o + 8 + hdr_key_size s a o + hdr_data_size s a o := rfl
  have c1 : ¬ o + 8 ≥ (s.area_params a).address + asize s a := by omega
  have c0 : ¬ o + 8 > asize s a := by omega
  have c2 : ¬ (hdr_key_size s a o = 0 ∨ hdr_key_size s a o > 16 ∨ hdr_data_size s a o > 1024) := by
    omega
  have c3 : ¬ rec_next s a o > (s.area_params a).address + asize s a := by omega
  have c4 : ¬ o + 8 + hdr_key_size s a o > asize s a := by omega
  cases ck
  · rw [read_record_eq_nokey s a o out h (by omega), if_neg c1, if_neg c0, if_neg c2, if_neg c3]
    constructor
    · intro hc; rw [if_pos hc]
    · intro hc; rw [if_neg hc]; exact ⟨rfl, rfl, rfl⟩
  · rw [read_record_eq s a o out h (by omega), if_neg c1, if_neg c0, if_neg c2, if_neg c3, if_neg c4]
    constructor
    · intro hc; rw [if_pos hc]
    · intro hc; rw [if_neg hc]; exact ⟨rfl, rfl, rfl⟩

theorem read_record_fso (s : Store) (f : Nat) (a : area_index_e) (o : Nat) (ck : Bool)
    (out : record_out) :
    read_record { s with free_space_offset := f } a o ck out = read_record s a o ck out := by
  unfold read_record
  rfl

theorem find_record_loop_ro_fso (s : Store) (f : Nat) (key : List Nat) :
    ∀ (fuel o : Nat) (out : record_out),
      find_record_loop { s with free_space_offset := f } key AREA_INDEX_READONLY fuel o out =
        find_record_loop s key AREA_INDEX_READONLY fuel o out := by
  intro fuel
  induction fuel with
  | zero => intro o out; rfl
  | succ n ih =>
    intro o out
    rw [find_record_loop_succ, find_record_loop_succ, read_record_fso]
    have hro : ∀ x, ¬ (AREA_INDEX_READONLY = AREA_INDEX_WRITABLE ∧ o ≥ x) := by
      intro x hx; exact absurd hx.1 (by decide)
    rw [if_neg (hro _), if_neg (hro _), ih]

/-- The scan of the read-only area gives the same result after an operation that leaves
the configuration and the cells of the read-only area alone. -/
theorem ro_find_frame {s s' : Store} (hl : layout s) (hf : frame s s') (key : List Nat) :
    ro_find s' key = ro_find s key := by
  obtain ⟨h1, h2, h3, h4, h5, h6, h7⟩ := hf
  have hc : same_cfg s { s' with free_space_offset := s.free_space_offset } :=
    ⟨h1, h2, h3, h4, h5, rfl, h6⟩
  have e1 := find_record_loop_ro_congr hc key hl.ro_nowrap hl.ro_addr (fun x hx => h7 x hx)
    ((s.area_params AREA_INDEX_READONLY).size + 1) 0 record_out_init (Nat.zero_le _)
  have e2 := find_record_loop_ro_fso s' s.free_space_offset key
    ((s.area_params AREA_INDEX_READONLY).size + 1) 0 record_out_init
  unfold ro_find
  rw [h3, ← e1, ← e2]

/-- A call of `pdbstore_set` with no flag or the resilient flag goes on to
`pdbstore_do_set`. -/
theorem set_eq_do_set (s : Store) (key data : List Nat) (n f : Nat) (hf : f = 0 ∨ f = 1) :
    pdbstore_set s key data n f = pdbstore_do_set s key (data_buf.buf data) n f := by
  unfold pdbstore_set
  rcases hf with h | h <;> subst h <;> rw [if_neg (by decide)]

/-- A call of `pdbstore_do_set` that returns success had a valid key, a size of at most
1024 and an initialized store. -/
theorem do_set_success_args (s : Store) (key : List Nat) (data : data_buf) (n f : Nat)
    (h : (pdbstore_do_set s key data n f).1 = PDBSTORE_SUCCESS) :
    is_valid_key key = true ∧ n ≤ 1024 ∧ s.initialized = true := by
  unfold pdbstore_do_set at h
  by_cases c1 : is_valid_key key = false ∨ n > PDBSTORE_MAX_DATA_SIZE
  · rw [if_pos c1] at h; simp at h
  · rw [if_neg c1] at h
    by_cases c2 : s.initialized = false
    · rw [if_pos c2] at h; simp at h
    · unfold PDBSTORE_MAX_DATA_SIZE at c1
      refine ⟨?_, by omega, by simpa using c2⟩
      cases hk : is_valid_key key
      · exact absurd (Or.inl hk) c1
      · rfl

/-- In the steady state, a key that `find_record` does not find is in neither area. -/
theorem not_found_steady (s : Store) (log : List log_rec) (key : List Nat) (hs : steady s log)
    (h : (find_record s key).ret = PDBSTORE_NOT_FOUND) :
    (ro_find s key).1 = none ∧ ∀ q, q ∈ log → q.key ≠ cstr key := by
  have hro : (ro_find s key).1 = none := by
    cases hr : (ro_find s key).1 with
    | none => rfl
    | some ret =>
      rw [find_record_ro s key ret hr] at h
      simp only at h
      subst h
      have := find_record_loop_status s key AREA_INDEX_READONLY _ _ _ _ hr
      rcases this with h1 | h1 | h1 | h1 <;> exact absurd h1 (by decide)
  refine ⟨hro, ?_⟩
  rcases find_record_steady s log key hs hro with ⟨pre, r, post, _, _, _, hf⟩ | ⟨hnew, _⟩
  · rw [hf] at h; simp at h
  · exact hnew

/-- In the steady state, a key that `find_record` finds in the writable area is the key of
the first record of the log with that key, and the read-only area does not hold it. -/
theorem found_wr_steady (s : Store) (log : List log_rec) (key : List Nat) (hs : steady s log)
    (h1 : (find_record s key).ret = PDBSTORE_SUCCESS)
    (h2 : (find_record s key).area = some AREA_INDEX_WRITABLE) :
    (ro_find s key).1 = none ∧
    ∃ pre r post, log = pre ++ r :: post ∧ (∀ q, q ∈ pre → q.key ≠ cstr key) ∧ r.key = cstr key := by
  have hro : (ro_find s key).1 = none := by
    cases hr : (ro_find s key).1 with
    | none => rfl
    | some ret =>
      rw [find_record_ro s key ret hr] at h2
      exact absurd h2 (by simp)
  refine ⟨hro, ?_⟩
  rcases find_record_steady s log key hs hro with ⟨pre, r, post, e, hp, hr, _⟩ | ⟨_, out, hf⟩
  · exact ⟨pre, r, post, e, hp, hr⟩
  · rw [hf] at h1; simp at h1

/-- A call of `pdbstore_get` that returns success had a valid key, an initialized store and
a record that `find_record` found without the DELETE flag. -/
theorem get_success_args (s : Store) (key : List Nat)
    (h : (pdbstore_get s key).1 = PDBSTORE_SUCCESS) :
    is_valid_key key = true ∧ s.initialized = true ∧ (find_record s key).ret = PDBSTORE_SUCCESS := by
  unfold pdbstore_get at h
  by_cases c1 : is_valid_key key = false
  · rw [if_pos c1] at h; simp at h
  · rw [if_neg c1] at h
    by_cases c2 : s.initialized = false
    · rw [if_pos c2] at h; simp at h
    · rw [if_neg c2] at h
      refine ⟨by simpa using c1, by simpa using c2, ?_⟩
      by_contra c3
      simp only [] at h
      rw [if_pos c3] at h
      exact c3 h

/-- The store of the worked examples is in the steady state, with no record. -/
theorem demo_steady : steady demo_store [] := by
  refine ⟨⟨?_, rfl, ?_, ?_, rfl, ?_, rfl, ?_, ?_⟩, ?_, trivial, rfl, ?_, ?_, ?_⟩
  · unfold area_nowrap abase asize; decide
  · unfold area_ok abase asize; decide
  · unfold area_ok abase asize; decide
  · unfold abase asize; decide
  · unfold asize; decide
  · right; unfold abase asize; decide
  · intro r hr; simp at hr
  · unfold asize log_size; decide
  · intro x _ hx
    unfold acell aerase abase
    have hx2 : x < 3034 := hx
    show (if 0 + 14 + x < 14 then _ else 255) = 255
    rw [if_neg (by omega)]
  · intro x hx
    unfold acell aerase abase
    show (if 0 + 3048 + x < 14 then _ else 255) = 255
    rw [if_neg (by omega)]

theorem flags_no_delete (f : Nat) (hf : f = 0 ∨ f = 1) :
    f &&& DELETE_FLAG = 0 ∧ (f % 256) &&& DELETE_FLAG = 0 := by
  rcases hf with h | h <;> subst h <;> decide

theorem buf_bytes_buf (s : Store) (d : List Nat) (n : Nat) (h : d.length = n) :
    buf_bytes s (data_buf.buf d) n = d := by
  unfold buf_bytes
  exact list_eq_range_map d n h

/-- What `pdbstore_set` does with a key that is in neither area, in the steady state. -/
theorem set_new_steady (s : Store) (log : List log_rec) (key data : List Nat) (n f : Nat)
    (hs : steady s log) (hi : s.initialized = true) (hk : is_valid_key key = true)
    (hnf : (find_record s key).ret = PDBSTORE_NOT_FOUND) (hn : n ≤ 1024) (hf : f = 0 ∨ f = 1) :
    (s.free_space_offset + 8 + strlen key + n ≤ asize s AREA_INDEX_WRITABLE ∧
      ∃ s', pdbstore_set s key data n f = (PDBSTORE_SUCCESS, s') ∧
        steady s' (log ++ [{ key := cstr key, data := buf_bytes s (data_buf.buf data) n,
                             flags := f % 256 }]) ∧
        frame s s' ∧ s'.free_space_offset = s.free_space_offset + 8 + strlen key + n) ∨
    (s.free_space_offset + 8 + strlen key + n > asize s AREA_INDEX_WRITABLE ∧
      pdbstore_set s key data n f = (PDBSTORE_MEDIA_FULL, s)) := by
  obtain ⟨hro, hnew⟩ := not_found_steady s log key hs hnf
  have hfso := hs.fso
  rw [set_eq_do_set s key data n f hf]
  by_cases hfit : log_size log + (8 + strlen key + n) ≤ asize s AREA_INDEX_WRITABLE
  · left
    refine ⟨by omega, ?_⟩
    obtain ⟨s', h1, h2, h3⟩ := do_set_append_steady s log key data n f hs hi hk hn
      (flags_no_delete f hf).1 hro hnew hfit
    refine ⟨s', h1, h2, h3, ?_⟩
    rw [h2.fso, log_size_append, hfso]
    simp only [log_size, log_rec_size, strlen_cstr, buf_bytes_length]
    omega
  · right
    refine ⟨by omega, ?_⟩
    exact do_set_full_steady s log key (data_buf.buf data) n f hs hi hk hn
      (flags_no_delete f hf).1 hro hnew hfit

/-- Claim C6: in the steady state of an initialized store, `pdbstore_set` of a valid key
that is in neither area, with at most 1024 bytes, returns media-full exactly when
`free_space_offset + 8 + strlen(key) + n` exceeds the size of the writable area; it then
leaves the whole state as it was, so every key keeps its `pdbstore_get` result; otherwise it
succeeds and `free_space_offset` grows by `8 + strlen(key) + n`. -/
theorem capacity (s : Store) (log : List log_rec) (key data : List Nat) (n f : Nat)
    (hs : steady s log) (hi : s.initialized = true) (hk : is_valid_key key = true)
    (hnf : (find_record s key).ret = PDBSTORE_NOT_FOUND) (hn : n ≤ 1024) (hf : f = 0 ∨ f = 1) :
    ((pdbstore_set s key data n f).1 = PDBSTORE_MEDIA_FULL ↔
      s.free_space_offset + 8 + strlen key + n > asize s AREA_INDEX_WRITABLE) ∧
    ((pdbstore_set s key data n f).1 = PDBSTORE_MEDIA_FULL →
      (pdbstore_set s key data n f).2 = s ∧
      ∀ k2, pdbstore_get (pdbstore_set s key data n f).2 k2 = pdbstore_get s k2) ∧
    ((pdbstore_set s key data n f).1 ≠ PDBSTORE_MEDIA_FULL →
      (pdbstore_set s key data n f).1 = PDBSTORE_SUCCESS ∧
      (pdbstore_set s key data n f).2.free_space_offset =
        s.free_space_offset + 8 + strlen key + n) := by
  rcases set_new_steady s log key data n f hs hi hk hnf hn hf with
    ⟨hfit, s', h1, _, _, h4⟩ | ⟨hfull, h1⟩
  · rw [h1]
    refine ⟨⟨fun h => by simp at h, fun h => by omega⟩, fun h => by simp at h, fun _ => ⟨rfl, h4⟩⟩
  · rw [h1]
    exact ⟨⟨fun _ => hfull, fun _ => rfl⟩, fun _ => ⟨rfl, fun _ => rfl⟩, fun h => absurd rfl h⟩

theorem capacity_witness :
    ((pdbstore_set demo_store [97] [1, 2, 3] 3 0).1 = PDBSTORE_MEDIA_FULL ↔
      demo_store.free_space_offset + 8 + strlen [97] + 3 > asize demo_store AREA_INDEX_WRITABLE) ∧
    ((pdbstore_set demo_store [97] [1, 2, 3] 3 0).1 = PDBSTORE_MEDIA_FULL →
      (pdbstore_set demo_store [97] [1, 2, 3] 3 0).2 = demo_store ∧
      ∀ k2, pdbstore_get (pdbstore_set demo_store [97] [1, 2, 3] 3 0).2 k2 =
        pdbstore_get demo_store k2) ∧
    ((pdbstore_set demo_store [97] [1, 2, 3] 3 0).1 ≠ PDBSTORE_MEDIA_FULL →
      (pdbstore_set demo_store [97] [1, 2, 3] 3 0).1 = PDBSTORE_SUCCESS ∧
      (pdbstore_set demo_store [97] [1, 2, 3] 3 0).2.free_space_offset =
        demo_store.free_space_offset + 8 + strlen [97] + 3) :=
  capacity demo_store [] [97] [1, 2, 3] 3 0 demo_steady rfl (by decide) (by decide!) (by decide)
    (Or.inl rfl)

/-- The store of the worked examples after `pdbstore_set("a", {1, 2, 3}, 3, 0)` is in the
steady state, with one record. -/
theorem demo_a_steady :
    steady demo_store_a ([] ++ [{ key := cstr [97], data := buf_bytes demo_store (data_buf.buf [1, 2, 3]) 3,
                                  flags := 0 % 256 }]) := by
  rcases set_new_steady demo_store [] [97] [1, 2, 3] 3 0 demo_steady rfl (by decide) (by decide!)
    (by decide) (Or.inl rfl) with ⟨_, s', h1, h2, _, _⟩ | ⟨h, _⟩
  · have e : demo_store_a = s' := by unfold demo_store_a; rw [h1]
    rw [e]; exact h2
  · exact absurd h (by decide)

/-- Claim C2: in the steady state of an initialized store, after `pdbstore_set(k, d1, n1, 0)`
has succeeded for a key that was in neither area, `pdbstore_set(k, d2, n2, f)` with no flag
or the resilient flag succeeds exactly when `n2 = n1` and returns invalid-argument
otherwise; when it succeeds, `pdbstore_get(k)` returns `d2` with size `n1` and
`free_space_offset` is as before the second call. -/
theorem size_fixed_update (s : Store) (log : List log_rec) (key d1 d2 : List Nat) (n1 n2 f : Nat)
    (hs : steady s log) (hnf : (find_record s key).ret = PDBSTORE_NOT_FOUND)
    (hd2 : d2.length = n2) (hf : f = 0 ∨ f = 1)
    (hset : (pdbstore_set s key d1 n1 0).1 = PDBSTORE_SUCCESS) :
    ((pdbstore_set (pdbstore_set s key d1 n1 0).2 key d2 n2 f).1 = PDBSTORE_SUCCESS ↔ n2 = n1) ∧
    (n2 ≠ n1 → pdbstore_set (pdbstore_set s key d1 n1 0).2 key d2 n2 f =
      (PDBSTORE_INVALID_ARGUMENT, (pdbstore_set s key d1 n1 0).2)) ∧
    (n2 = n1 →
      (pdbstore_get (pdbstore_set (pdbstore_set s key d1 n1 0).2 key d2 n2 f).2 key).1 =
        PDBSTORE_SUCCESS ∧
      (pdbstore_get (pdbstore_set (pdbstore_set s key d1 n1 0).2 key d2 n2 f).2 key).2.2 = n1 ∧
      mem_read (pdbstore_set (pdbstore_set s key d1 n1 0).2 key d2 n2 f).2
        (pdbstore_get (pdbstore_set (pdbstore_set s key d1 n1 0).2 key d2 n2 f).2 key).2.1.bank
        (pdbstore_get (pdbstore_set (pdbstore_set s key d1 n1 0).2 key d2 n2 f).2 key).2.1.addr
        n1 = d2 ∧
      (pdbstore_set (pdbstore_set s key d1 n1 0).2 key d2 n2 f).2.free_space_offset =
        (pdbstore_set s key d1 n1 0).2.free_space_offset) := by
  have hset' := hset
  rw [set_eq_do_set s key d1 n1 0 (Or.inl rfl)] at hset'
  obtain ⟨hk, hn1, hi⟩ := do_set_success_args s key _ n1 0 hset'
  obtain ⟨hro, hnew⟩ := not_found_steady s log key hs hnf
  rcases set_new_steady s log key d1 n1 0 hs hi hk hnf hn1 (Or.inl rfl) with
    ⟨_, s1, h1, hs1, hfr1, _⟩ | ⟨_, h1⟩
  · rw [h1]
    simp only []
    have hi1 : s1.initialized = true := by rw [hfr1.2.2.2.1]; exact hi
    have hro1 : (ro_find s1 key).1 = none := by rw [ro_find_frame hs.lay hfr1]; exact hro
    have hlen : (buf_bytes s (data_buf.buf d1) n1).length = n1 := buf_bytes_length _ _ _
    rw [set_eq_do_set s1 key d2 n2 f hf]
    by_cases hsz : n2 = n1
    · have hn2 : n2 ≤ 1024 := by omega
      obtain ⟨s2, h2, hs2, hfr2, hfso2⟩ := do_set_replace_steady s1 log [] _ key d2 n2 f hs1
        hi1 hk hn2 (flags_no_delete f hf).1 hro1 hnew rfl (by rw [hlen]; exact hsz)
      rw [h2]
      simp only []
      have hi2 : s2.initialized = true := by rw [hfr2.2.2.2.1]; exact hi1
      have hro2 : (ro_find s2 key).1 = none := by rw [ro_find_frame hs1.lay hfr2]; exact hro1
      obtain ⟨g1, g2⟩ := get_found_steady s2 log [] _ key hs2 hi2 hk hro2 hnew rfl
      simp only [] at g1 g2
      rw [if_neg (by rw [(flags_no_delete f hf).2]; simp)] at g1
      rw [buf_bytes_length] at g1 g2
      rw [buf_bytes_buf s1 d2 n2 hd2] at g2
      rw [g1]
      refine ⟨⟨fun _ => hsz, fun _ => trivial⟩, fun h => absurd hsz h, fun _ => ⟨rfl, hsz, ?_, hfso2⟩⟩
      rw [← hsz]
      exact g2
    · have h2 := do_set_mismatch_steady s1 log [] _ key (data_buf.buf d2) n2 f hs1 hi1 hk
      by_cases hn2 : n2 ≤ 1024
      · have h2' := h2 hn2 (flags_no_delete f hf).1 hro1 hnew rfl (by rw [hlen]; exact hsz)
        rw [h2']
        exact ⟨⟨fun h => by simp at h, fun h => absurd h hsz⟩, fun _ => rfl, fun h => absurd h hsz⟩
      · have h2' : pdbstore_do_set s1 key (data_buf.buf d2) n2 f = (PDBSTORE_INVALID_ARGUMENT, s1) := by
          unfold pdbstore_do_set
          rw [if_pos (Or.inr (by unfold PDBSTORE_MAX_DATA_SIZE; omega))]
        rw [h2']
        exact ⟨⟨fun h => by simp at h, fun h => absurd h hsz⟩, fun _ => rfl, fun h => absurd h hsz⟩
  · rw [h1] at hset
    simp at hset

theorem size_fixed_update_witness :
    ((pdbstore_set demo_store_a [97] [4, 5, 6] 3 1).1 = PDBSTORE_SUCCESS ↔ 3 = 3) ∧
    (3 ≠ 3 → pdbstore_set demo_store_a [97] [4, 5, 6] 3 1 =
      (PDBSTORE_INVALID_ARGUMENT, demo_store_a)) ∧
    (3 = 3 →
      (pdbstore_get (pdbstore_set demo_store_a [97] [4, 5, 6] 3 1).2 [97]).1 = PDBSTORE_SUCCESS ∧
      (pdbstore_get (pdbstore_set demo_store_a [97] [4, 5, 6] 3 1).2 [97]).2.2 = 3 ∧
      mem_read (pdbstore_set demo_store_a [97] [4, 5, 6] 3 1).2
        (pdbstore_get (pdbstore_set demo_store_a [97] [4, 5, 6] 3 1).2 [97]).2.1.bank
        (pdbstore_get (pdbstore_set demo_store_a [97] [4, 5, 6] 3 1).2 [97]).2.1.addr 3 =
          [4, 5, 6] ∧
      (pdbstore_set demo_store_a [97] [4, 5, 6] 3 1).2.free_space_offset =
        demo_store_a.free_space_offset) :=
by
  unfold demo_store_a
  exact size_fixed_update demo_store [] [97] [1, 2, 3] [4, 5, 6] 3 3 1 demo_steady (by decide!) rfl
    (Or.inr rfl) (by decide!)

/-- What `pdbstore_remove` does with a key that `find_record` finds in the writable area, in
the steady state. -/
theorem remove_found_steady (s : Store) (log : List log_rec) (key : List Nat)
    (hs : steady s log) (hi : s.initialized = true) (hk : is_valid_key key = true)
    (h1 : (find_record s key).ret = PDBSTORE_SUCCESS)
    (h2 : (find_record s key).area = some AREA_INDEX_WRITABLE) :
    ∃ pre r post s', log = pre ++ r :: post ∧ (∀ q, q ∈ pre → q.key ≠ cstr key) ∧
      r.key = cstr key ∧ (find_record s key).offset = log_size pre ∧
      pdbstore_remove s key = (PDBSTORE_SUCCESS, s') ∧
      steady s' (pre ++ { key := r.key,
                          data := List.replicate r.data.length (aerase s AREA_INDEX_WRITABLE),
                          flags := DELETE_FLAG } :: post) ∧
      frame s s' ∧ s'.free_space_offset = s.free_space_offset ∧ s'.initialized = true ∧
      (ro_find s' key).1 = none := by
  obtain ⟨hro, pre, r, post, e, hp, hr⟩ := found_wr_steady s log key hs h1 h2
  subst e
  obtain ⟨s', g1, g2, g3, g4⟩ := do_set_remove_steady s pre post r key (data_buf.buf []) 0 hs hi hk
    (by omega) hro hp hr
  refine ⟨pre, r, post, s', rfl, hp, hr, ?_, g1, g2, g3, g4, ?_, ?_⟩
  · rw [find_record_found s pre post r key hs hro hp hr]
  · rw [g3.2.2.2.1]; exact hi
  · rw [ro_find_frame hs.lay g3]; exact hro

/-- Claim C3 (as the code behaves): in the steady state of an initialized store, for a key
that `pdbstore_get` returns from the writable area, the first `pdbstore_remove` returns
success and hides the key, and a second `pdbstore_remove` right after it returns success
again, not not-found: `pdbstore_do_set` does not look at the flags of the record it finds. -/
theorem second_remove_succeeds (s : Store) (log : List log_rec) (key : List Nat)
    (hs : steady s log) (hget : (pdbstore_get s key).1 = PDBSTORE_SUCCESS)
    (hwr : (find_record s key).area = some AREA_INDEX_WRITABLE) :
    (pdbstore_remove s key).1 = PDBSTORE_SUCCESS ∧
    (pdbstore_get (pdbstore_remove s key).2 key).1 = PDBSTORE_NOT_FOUND ∧
    (pdbstore_remove (pdbstore_remove s key).2 key).1 = PDBSTORE_SUCCESS := by
  obtain ⟨hk, hi, h1⟩ := get_success_args s key hget
  obtain ⟨pre, r, post, s', _, hp, hr, _, g1, g2, _, _, g5, g6⟩ :=
    remove_found_steady s log key hs hi hk h1 hwr
  obtain ⟨e1, _⟩ := get_found_steady s' pre post _ key g2 g5 hk g6 hp hr
  rw [g1]
  simp only []
  have e2 := find_record_found s' pre post _ key g2 g6 hp hr
  obtain ⟨_, _, _, s'', _, _, _, _, k1, _⟩ := remove_found_steady s' _ key g2 g5 hk
    (by rw [e2]) (by rw [e2])
  rw [k1, e1]
  refine ⟨trivial, ?_, rfl⟩
  have hd : DELETE_FLAG &&& DELETE_FLAG ≠ 0 := by decide
  rw [if_pos hd]

theorem second_remove_succeeds_witness :
    (pdbstore_remove demo_store_a [97]).1 = PDBSTORE_SUCCESS ∧
    (pdbstore_get (pdbstore_remove demo_store_a [97]).2 [97]).1 = PDBSTORE_NOT_FOUND ∧
    (pdbstore_remove (pdbstore_remove demo_store_a [97]).2 [97]).1 = PDBSTORE_SUCCESS :=
  second_remove_succeeds demo_store_a _ [97] demo_a_steady (by decide!) (by decide!)

theorem read_record_crc_classification_witness :
    (rec_crc_ok demo_store AREA_INDEX_READONLY 0 →
      (read_record demo_store AREA_INDEX_READONLY 0 true record_out_init).1 = PDBSTORE_SUCCESS) ∧
    (¬ rec_crc_ok demo_store AREA_INDEX_READONLY 0 →
      (read_record demo_store AREA_INDEX_READONLY 0 true record_out_init).1 = PDBSTORE_DATA_CORRUPT ∧
      (read_record demo_store AREA_INDEX_READONLY 0 true record_out_init).2.totally_corrupt = false ∧
      (read_record demo_store AREA_INDEX_READONLY 0 true record_out_init).2.next_offset =
        0 + 8 + hdr_key_size demo_store AREA_INDEX_READONLY 0 +
          hdr_data_size demo_store AREA_INDEX_READONLY 0) :=
  read_record_crc_classification demo_store AREA_INDEX_READONLY 0 true record_out_init
    demo_steady.lay.ro_nowrap (by decide!) (by decide!) (by decide!) (by decide!)

theorem cstr_of_no_nul (key : List Nat) (h : ∀ c, c ∈ key → c ≠ 0) : cstr key = key := by
  unfold cstr
  rw [List.takeWhile_eq_self_iff]
  intro c hc
  simpa using h c hc

/-- The cells of a record that `pdbstore_write_record` has appended at an erased place. -/
theorem write_record_append_cells (s : Store) (a : area_index_e) (key : List Nat) (D : List Nat)
    (flags o : Nat) (i : Nat) (hi : i < 8 + strlen key + D.length) :
    acell (poke s (s.area_params a).bank (abase s a + o) (8 + strlen key + D.length)
      (rec_image s key D flags)) a (o + i) =
      (rec_image (poke s (s.area_params a).bank (abase s a + o) (8 + strlen key + D.length)
        (rec_image s key D flags)) key D flags).getD i 0 := by
  rw [acell_poke, if_pos ⟨rfl, by omega, by omega⟩]
  have e : abase s a + (o + i) - (abase s a + o) = i := by omega
  rw [e]
  rfl

/-- Claim C17: a record that `pdbstore_write_record` writes with `replace_current = false`
at an erased place of an area where it fits (key of 1 to 16 bytes without NUL, at most 1024
data bytes, a flags byte) is read back by `read_record` at the same offset: success,
`totally_corrupt = false`, the same key, size, flags and data bytes, and the same
`next_offset` that `pdbstore_write_record` returned. -/
theorem record_codec_round_trip (s : Store) (a : area_index_e) (key data : List Nat)
    (n flags o nx : Nat) (out : record_out)
    (h : area_ok s a) (hk1 : 1 ≤ key.length) (hk2 : key.length ≤ 16)
    (hnul : ∀ c, c ∈ key → c ≠ 0) (hn : n ≤ 1024) (hd : data.length = n) (hf : flags < 256)
    (hfit : o + 8 + key.length + n ≤ asize s a)
    (her : ∀ x, o ≤ x → x < o + 8 + key.length + n → acell s a x = aerase s a) :
    (pdbstore_write_record s a key (data_buf.buf data) n flags o nx false).1 = PDBSTORE_SUCCESS ∧
    (pdbstore_write_record s a key (data_buf.buf data) n flags o nx false).2.2 =
      o + 8 + key.length + n ∧
    read_record (pdbstore_write_record s a key (data_buf.buf data) n flags o nx false).2.1 a o
        true out =
      (PDBSTORE_SUCCESS,
        { key := key,
          data_ptr := { bank := (s.area_params a).bank, addr := abase s a + (o + 8 + key.length) },
          actual_data_size := n,
          totally_corrupt := false,
          flags := flags,
          next_offset :=
            (pdbstore_write_record s a key (data_buf.buf data) n flags o nx false).2.2 }) ∧
    mem_read (pdbstore_write_record s a key (data_buf.buf data) n flags o nx false).2.1
      (s.area_params a).bank (abase s a + (o + 8 + key.length)) n = data := by
  have hc : cstr key = key := cstr_of_no_nul key hnul
  have hsl : strlen key = key.length := by unfold strlen; rw [hc]
  rw [← hsl] at hk1 hk2 hfit her ⊢
  have hw := write_record_append s a key (data_buf.buf data) n flags o nx data h hk1 hk2 hn hfit her
    (fun s' _ _ => buf_bytes_buf s' data n hd)
  rw [hw]
  simp only []
  subst hd
  obtain ⟨s', hs'⟩ : ∃ s', s' = poke s (s.area_params a).bank (abase s a + o)
      (8 + strlen key + data.length) (rec_image s key data flags) := ⟨_, rfl⟩
  have hcfg : same_cfg s s' := by rw [hs']; exact same_cfg_poke _ _ _ _ _
  have hnw : area_nowrap s' a := same_cfg_area_nowrap hcfg a (area_ok_nowrap h)
  have hcells : ∀ i, i < 8 + strlen key + data.length →
      acell s' a (o + i) = (rec_image s' key data flags).getD i 0 := by
    intro i hi
    rw [hs']
    exact write_record_append_cells s a key data flags o i hi
  have hrok : log_rec_ok { key := key, data := data, flags := flags } :=
    ⟨hk1, hk2, hc, hn, hf⟩
  have hrd := read_record_log s' a o { key := key, data := data, flags := flags } out hnw hrok
    (by rw [same_cfg_asize hcfg]; unfold log_rec_size; simp only []; omega)
    (by unfold log_rec_size; exact hcells)
  rw [← hs', hrd]
  have e1 : (s'.area_params a).bank = (s.area_params a).bank := by rw [hcfg.2.2.1]
  have e2 : abase s' a = abase s a := same_cfg_abase hcfg a
  refine ⟨trivial, trivial, ?_, ?_⟩
  · simp only [log_rec_size, e1, e2]
    rw [Nat.add_assoc o 8, Nat.add_assoc o]
  · obtain ⟨k, d, _, _, _, dt, _⟩ := rec_image_read s' a o key data flags hk2 hn hcells
    refine Eq.trans ?_ dt
    unfold rec_data mem_read acell
    rw [k, d, e1, e2]
    simp only [Nat.add_assoc]

theorem and_byte_mask (x k : Nat) : x &&& ((2 ^ 8 - 1) <<< k) = ((x >>> k) % 2 ^ 8) <<< k := by
  apply Nat.eq_of_testBit_eq
  intro j
  simp only [Nat.testBit_and, Nat.testBit_shiftLeft, Nat.testBit_mod_two_pow, Nat.testBit_shiftRight,
    Nat.testBit_two_pow_sub_one]
  by_cases hj : k ≤ j
  · have e : k + (j - k) = j := by omega
    simp [hj, e]
    exact Bool.and_comm _ _
  · simp [hj]

theorem bswap32 (c : Nat) :
    (((c >>> 24) &&& 0xff) ||| (((c <<< 8) % 4294967296) &&& 0xff0000) |||
      ((c >>> 8) &&& 0xff00) ||| (((c <<< 24) % 4294967296) &&& 0xff000000)) =
    c / 16777216 % 256 + (c / 65536 % 256) * 256 + (c / 256 % 256) * 65536 + (c % 256) * 16777216 := by
  have m0 : (0xff : Nat) = (2 ^ 8 - 1) <<< 0 := by decide
  have m1 : (0xff00 : Nat) = (2 ^ 8 - 1) <<< 8 := by decide
  have m2 : (0xff0000 : Nat) = (2 ^ 8 - 1) <<< 16 := by decide
  have m3 : (0xff000000 : Nat) = (2 ^ 8 - 1) <<< 24 := by decide
  rw [m0, m1, m2, m3, and_byte_mask, and_byte_mask, and_byte_mask, and_byte_mask]
  simp only [Nat.shiftRight_eq_div_pow, Nat.shiftLeft_eq, Nat.pow_zero, Nat.mul_one, Nat.div_one]
  have a1 : c / 2 ^ 24 % 2 ^ 8 = c / 16777216 % 256 := by norm_num
  have a2 : c * 2 ^ 8 % 4294967296 / 2 ^ 16 % 2 ^ 8 * 2 ^ 16 = 2 ^ 16 * (c / 256 % 256) := by
    norm_num; omega
  have a3 : c / 2 ^ 8 / 2 ^ 8 % 2 ^ 8 * 2 ^ 8 = 2 ^ 8 * (c / 65536 % 256) := by
    norm_num; omega
  have a4 : c * 2 ^ 24 % 4294967296 / 2 ^ 24 % 2 ^ 8 * 2 ^ 24 = 2 ^ 24 * (c % 256) := by
    norm_num; omega
  rw [a1, a2, a3, a4]
  have hA : c / 16777216 % 256 < 2 ^ 8 := by norm_num; omega
  have hB : c / 65536 % 256 < 2 ^ 8 := by norm_num; omega
  have hC : c / 256 % 256 < 2 ^ 8 := by norm_num; omega
  -- A ||| 2^16 C ||| 2^8 B ||| 2^24 D
  have s1 : 2 ^ 8 * (c / 65536 % 256) + c / 16777216 % 256 =
      2 ^ 8 * (c / 65536 % 256) ||| c / 16777216 % 256 := Nat.mul_add_lt_is_or hA _
  have hX : 2 ^ 8 * (c / 65536 % 256) + c / 16777216 % 256 < 2 ^ 16 := by norm_num; omega
  have s2 := Nat.mul_add_lt_is_or hX (c / 256 % 256)
  have hY : 2 ^ 16 * (c / 256 % 256) + (2 ^ 8 * (c / 65536 % 256) + c / 16777216 % 256) < 2 ^ 24 := by
    norm_num; omega
  have s3 := Nat.mul_add_lt_is_or hY (c % 256)
  have e : (c / 16777216 % 256 ||| 2 ^ 16 * (c / 256 % 256) ||| 2 ^ 8 * (c / 65536 % 256) |||
      2 ^ 24 * (c % 256)) =
      2 ^ 24 * (c % 256) ||| (2 ^ 16 * (c / 256 % 256) |||
        (2 ^ 8 * (c / 65536 % 256) ||| c / 16777216 % 256)) := by
    ac_rfl
  rw [e, ← s1, ← s2, ← s3]
  norm_num
  omega

theorem conv_ton32_le (c : Nat) :
    conv_ton32 false c =
      c / 16777216 % 256 + (c / 65536 % 256) * 256 + (c / 256 % 256) * 65536 +
        (c % 256) * 16777216 := by
  unfold conv_ton32
  simp only [Bool.false_eq_true, if_false]
  exact bswap32 c

theorem store16_conv (h : Bool) (v : Nat) (hv : v < 65536) :
    store16 h (conv_ton16 h v) = [v / 256 % 256, v % 256] := by
  cases h
  · rw [conv_ton16_le v hv]
    unfold store16
    simp only [Bool.false_eq_true, if_false, List.cons.injEq, and_true]
    obtain ⟨P, hP⟩ : ∃ P, P = v / 256 := ⟨_, rfl⟩
    obtain ⟨Q, hQ⟩ : ∃ Q, Q = v % 256 := ⟨_, rfl⟩
    have hP2 : P < 256 := by omega
    have hQ2 : Q < 256 := by omega
    rw [← hP, ← hQ]
    clear hP hQ
    constructor <;> omega
  · unfold conv_ton16 store16
    simp only [if_true]

theorem store32_conv (h : Bool) (c : Nat) :
    store32 h (conv_ton32 h c) = [c / 16777216 % 256, c / 65536 % 256, c / 256 % 256, c % 256] := by
  cases h
  · rw [conv_ton32_le c]
    unfold store32
    simp only [Bool.false_eq_true, if_false, List.cons.injEq, and_true]
    obtain ⟨A, hA⟩ : ∃ A, A = c / 16777216 % 256 := ⟨_, rfl⟩
    obtain ⟨B, hB⟩ : ∃ B, B = c / 65536 % 256 := ⟨_, rfl⟩
    obtain ⟨C, hC⟩ : ∃ C, C = c / 256 % 256 := ⟨_, rfl⟩
    obtain ⟨D, hD⟩ : ∃ D, D = c % 256 := ⟨_, rfl⟩
    have hA2 : A < 256 := by omega
    have hB2 : B < 256 := by omega
    have hC2 : C < 256 := by omega
    have hD2 : D < 256 := by omega
    rw [← hA, ← hB, ← hC, ← hD]
    clear hA hB hC hD
    refine ⟨?_, ?_, ?_, ?_⟩ <;> omega
  · unfold conv_ton32 store32
    simp only [if_true]

theorem calc_crc_append (c : Nat) (l1 l2 : List Nat) :
    calc_crc c (l1 ++ l2) = calc_crc (calc_crc c l1) l2 := by
  unfold calc_crc
  rw [List.foldl_append]

/-- On a store whose `big_endian` flag is the endianness of the host (as
`pdbstore_init_readonly_area` sets it), the record image of `pdbstore_write_record` is the
one of the specification, whatever the host. -/
theorem rec_image_eq_spec (s : Store) (key D : List Nat) (flags : Nat)
    (hbe : s.big_endian = s.host_big_endian) (hc : cstr key = key) (hn : D.length ≤ 1024) :
    rec_image s key D flags = spec_record_bytes key D flags := by
  have hsl : strlen key = key.length := by unfold strlen; rw [hc]
  have h03 : hdr03 s key D.length flags =
      [D.length / 256 % 256, D.length % 256, key.length % 256, flags % 256] := by
    unfold hdr03
    rw [hbe, Nat.mod_eq_of_lt (by omega : D.length < 65536), store16_conv _ _ (by omega), hsl]
    rfl
  unfold rec_image spec_record_bytes
  rw [h03, hc, hbe, store32_conv]
  simp only [calc_crc_append]
  rfl

/-- Claim C12: on a store whose `big_endian` flag is the endianness of the host (as
`pdbstore_init_readonly_area` sets it, on either kind of host), `pdbstore_write_record` with
`replace_current = false` onto an erased place with enough room leaves at
`[offset, offset + 8 + key_size + n)` the bytes of the specification: `data_size` high byte
first, `key_size`, `flags`, the CRC most significant byte first, the key, the data; it
returns `next_offset = offset + 8 + key_size + n`. -/
theorem record_media_layout (s : Store) (a : area_index_e) (key data : List Nat)
    (n flags o nx : Nat)
    (h : area_ok s a) (hbe : s.big_endian = s.host_big_endian)
    (hk1 : 1 ≤ key.length) (hk2 : key.length ≤ 16)
    (hnul : ∀ c, c ∈ key → c ≠ 0) (hn : n ≤ 1024) (hd : data.length = n)
    (hfit : o + 8 + key.length + n ≤ asize s a)
    (her : ∀ x, o ≤ x → x < o + 8 + key.length + n → acell s a x = aerase s a) :
    (pdbstore_write_record s a key (data_buf.buf data) n flags o nx false).1 = PDBSTORE_SUCCESS ∧
    (pdbstore_write_record s a key (data_buf.buf data) n flags o nx false).2.2 =
      o + 8 + key.length + n ∧
    (spec_record_bytes key data flags).length = 8 + key.length + n ∧
    ∀ i, i < 8 + key.length + n →
      acell (pdbstore_write_record s a key (data_buf.buf data) n flags o nx false).2.1 a (o + i) =
        (spec_record_bytes key data flags).getD i 0 := by
  have hc : cstr key = key := cstr_of_no_nul key hnul
  have hsl : strlen key = key.length := by unfold strlen; rw [hc]
  rw [← hsl] at hk1 hk2 hfit her ⊢
  have hw := write_record_append s a key (data_buf.buf data) n flags o nx data h hk1 hk2 hn hfit her
    (fun s' _ _ => buf_bytes_buf s' data n hd)
  rw [hw]
  simp only []
  subst hd
  have himg := rec_image_eq_spec s key data flags hbe hc hn
  refine ⟨trivial, trivial, ?_, ?_⟩
  · rw [← himg, rec_image_length]
  · intro i hi
    rw [acell_poke, if_pos ⟨rfl, by omega, by omega⟩, himg]
    have e : abase s a + (o + i) - (abase s a + o) = i := by omega
    rw [e]

theorem demo_wr_blank (x : Nat) (hx : x < 12) :
    acell demo_store AREA_INDEX_WRITABLE x = aerase demo_store AREA_INDEX_WRITABLE :=
  demo_steady.tail x (Nat.zero_le _) (by
    have : asize demo_store AREA_INDEX_WRITABLE = 3034 := rfl
    omega)

theorem record_media_layout_witness :
    (pdbstore_write_record demo_store AREA_INDEX_WRITABLE [97] (data_buf.buf [1, 2, 3]) 3 1 0 0
      false).1 = PDBSTORE_SUCCESS ∧
    (pdbstore_write_record demo_store AREA_INDEX_WRITABLE [97] (data_buf.buf [1, 2, 3]) 3 1 0 0
      false).2.2 = 0 + 8 + [97].length + 3 ∧
    (spec_record_bytes [97] [1, 2, 3] 1).length = 8 + [97].length + 3 ∧
    ∀ i, i < 8 + [97].length + 3 →
      acell (pdbstore_write_record demo_store AREA_INDEX_WRITABLE [97] (data_buf.buf [1, 2, 3]) 3 1
        0 0 false).2.1 AREA_INDEX_WRITABLE (0 + i) = (spec_record_bytes [97] [1, 2, 3] 1).getD i 0 :=
  record_media_layout demo_store AREA_INDEX_WRITABLE [97] [1, 2, 3] 3 1 0 0 demo_steady.lay.wr_ok rfl
    (by decide) (by decide) (by decide) (by decide) rfl (by decide!)
    (fun x _ hx => demo_wr_blank x hx)

theorem record_codec_round_trip_witness :
    (pdbstore_write_record demo_store AREA_INDEX_WRITABLE [97] (data_buf.buf [1, 2, 3]) 3 1 0 0
      false).1 = PDBSTORE_SUCCESS ∧
    (pdbstore_write_record demo_store AREA_INDEX_WRITABLE [97] (data_buf.buf [1, 2, 3]) 3 1 0 0
      false).2.2 = 0 + 8 + [97].length + 3 ∧
    read_record (pdbstore_write_record demo_store AREA_INDEX_WRITABLE [97] (data_buf.buf [1, 2, 3])
        3 1 0 0 false).2.1 AREA_INDEX_WRITABLE 0 true record_out_init =
      (PDBSTORE_SUCCESS,
        { key := [97],
          data_ptr := { bank := (demo_store.area_params AREA_INDEX_WRITABLE).bank,
                        addr := abase demo_store AREA_INDEX_WRITABLE + (0 + 8 + [97].length) },
          actual_data_size := 3,
          totally_corrupt := false,
          flags := 1,
          next_offset :=
            (pdbstore_write_record demo_store AREA_INDEX_WRITABLE [97] (data_buf.buf [1, 2, 3]) 3 1
              0 0 false).2.2 }) ∧
    mem_read (pdbstore_write_record demo_store AREA_INDEX_WRITABLE [97] (data_buf.buf [1, 2, 3]) 3
        1 0 0 false).2.1
      (demo_store.area_params AREA_INDEX_WRITABLE).bank
      (abase demo_store AREA_INDEX_WRITABLE + (0 + 8 + [97].length)) 3 = [1, 2, 3] :=
  record_codec_round_trip demo_store AREA_INDEX_WRITABLE [97] [1, 2, 3] 3 1 0 0 record_out_init
    demo_steady.lay.wr_ok (by decide) (by decide) (by decide) (by decide) rfl (by decide)
    (by decide!) (fun x _ hx => demo_wr_blank x hx)

/-- Claim C11 (as the code behaves): on `demo_store_dirty` the program of the data bytes of
`pdbstore_set("a", {1, 2, 3}, 3, 0)` fails (a destination byte is not erased), yet
`pdbstore_set` returns success, and the record it leaves is corrupt:
`pdbstore_write_record` does not test the status of the data `write_area`. -/
theorem data_write_error_ignored :
    (write_area demo_store_dirty AREA_INDEX_WRITABLE 9 3 [1, 2, 3]).1 = PDBSTORE_WRITE_ERROR ∧
    (write_area (pdbstore_set demo_store_dirty [97] [1, 2, 3] 3 0).2 AREA_INDEX_WRITABLE 9 3
      [1, 2, 3]).1 = PDBSTORE_WRITE_ERROR ∧
    (pdbstore_set demo_store_dirty [97] [1, 2, 3] 3 0).1 = PDBSTORE_SUCCESS ∧
    (pdbstore_set demo_store_dirty [97] [1, 2, 3] 3 0).2.free_space_offset = 12 ∧
    mem_read (pdbstore_set demo_store_dirty [97] [1, 2, 3] 3 0).2 0 23 3 = [255, 0, 255] ∧
    (pdbstore_get (pdbstore_set demo_store_dirty [97] [1, 2, 3] 3 0).2 [97]).1 =
      PDBSTORE_DATA_CORRUPT := by
  refine ⟨?_, ?_, ?_, ?_, ?_, ?_⟩ <;> decide!

/-- Claim C18 (as the code behaves): in the writable area of `demo_store` (address 14 in its
bank, size 3034) only 4 bytes remain at offset 3030, yet `read_record` does not return
data-corrupt with `totally_corrupt` set but read-error: it compares `offset + 8` with
`address + size`, not with `size`. In an area at address 0 of the same size the record is
totally corrupt. -/
theorem short_tail_read_error :
    asize demo_store AREA_INDEX_WRITABLE < 3030 + 8 ∧
    (read_record demo_store AREA_INDEX_WRITABLE 3030 true record_out_init).1 = PDBSTORE_READ_ERROR ∧
    (read_record demo_store AREA_INDEX_WRITABLE 3030 true record_out_init).2.totally_corrupt = false ∧
    (read_record demo_store AREA_INDEX_WRITABLE 3030 false record_out_init).1 = PDBSTORE_READ_ERROR ∧
    (read_record
      { demo_store with area_params := fun _ => { address := 0, size := 3034, bank := 0 } }
      AREA_INDEX_WRITABLE 3030 true record_out_init).1 = PDBSTORE_DATA_CORRUPT ∧
    (read_record
      { demo_store with area_params := fun _ => { address := 0, size := 3034, bank := 0 } }
      AREA_INDEX_WRITABLE 3030 true record_out_init).2.totally_corrupt = true := by
  refine ⟨?_, ?_, ?_, ?_, ?_, ?_⟩ <;> decide!

theorem crc_bit_inj (c1 c2 : Nat) (h1 : c1 < 4294967296) (h2 : c2 < 4294967296)
    (h : crc_bit c1 = crc_bit c2) : c1 = c2 := by
  rw [crc_bit_eq_reflected, crc_bit_eq_reflected] at h
  unfold crc32_reflected_bit at h
  have hP : Nat.testBit 0xEDB88320 31 = true := by decide
  have hlow : ∀ x, x < 4294967296 → Nat.testBit (x / 2) 31 = false := by
    intro x hx
    apply Nat.testBit_eq_false_of_lt
    have : (2 : Nat) ^ 31 = 2147483648 := by norm_num
    omega
  have hhigh : ∀ x, x < 4294967296 → Nat.testBit ((x / 2) ^^^ 0xEDB88320) 31 = true := by
    intro x hx
    rw [Nat.testBit_xor, hlow x hx, hP]
    rfl
  by_cases p1 : c1 % 2 = 1 <;> by_cases p2 : c2 % 2 = 1
  · rw [if_pos p1, if_pos p2] at h
    have := Nat.xor_left_inj.mp h
    omega
  · rw [if_pos p1, if_neg p2] at h
    have e1 := hhigh c1 h1
    rw [h, hlow c2 h2] at e1
    exact absurd e1 (by decide)
  · rw [if_neg p1, if_pos p2] at h
    have e1 := hhigh c2 h2
    rw [← h, hlow c1 h1] at e1
    exact absurd e1 (by decide)
  · rw [if_neg p1, if_neg p2] at h
    omega

theorem xor_byte_lt (c b : Nat) (h : c < 4294967296) : c ^^^ (b % 256) < 4294967296 := by
  have e : (4294967296 : Nat) = 2 ^ 32 := by norm_num
  rw [e] at h ⊢
  apply Nat.xor_lt_two_pow h
  have : b % 256 < 256 := Nat.mod_lt _ (by norm_num)
  have : (2 : Nat) ^ 32 = 4294967296 := by norm_num
  omega

/-- Two CRC registers that one byte step of `calc_crc` maps to the same value differ by the
xor of the two bytes. -/
theorem crc_byte_inj (c1 c2 b1 b2 : Nat) (h1 : c1 < 4294967296) (h2 : c2 < 4294967296)
    (h : crc_byte c1 b1 = crc_byte c2 b2) : c1 ^^^ (b1 % 256) = c2 ^^^ (b2 % 256) := by
  unfold crc_byte at h
  have x1 := xor_byte_lt c1 b1 h1
  have x2 := xor_byte_lt c2 b2 h2
  have l := crc_bit_lt
  have i := crc_bit_inj
  apply i _ _ x1 x2
  apply i _ _ (l _ x1) (l _ x2)
  apply i _ _ (l _ (l _ x1)) (l _ (l _ x2))
  apply i _ _ (l _ (l _ (l _ x1))) (l _ (l _ (l _ x2)))
  apply i _ _ (l _ (l _ (l _ (l _ x1)))) (l _ (l _ (l _ (l _ x2))))
  apply i _ _ (l _ (l _ (l _ (l _ (l _ x1))))) (l _ (l _ (l _ (l _ (l _ x2)))))
  apply i _ _ (l _ (l _ (l _ (l _ (l _ (l _ x1)))))) (l _ (l _ (l _ (l _ (l _ (l _ x2))))))
  apply i _ _ (l _ (l _ (l _ (l _ (l _ (l _ (l _ x1))))))) (l _ (l _ (l _ (l _ (l _ (l _ (l _ x2)))))))
  exact h

theorem crc_byte_inj_crc (c1 c2 b : Nat) (h1 : c1 < 4294967296) (h2 : c2 < 4294967296)
    (h : crc_byte c1 b = crc_byte c2 b) : c1 = c2 :=
  Nat.xor_left_inj.mp (crc_byte_inj c1 c2 b b h1 h2 h)

theorem crc_byte_inj_byte (c b1 b2 : Nat) (h1 : c < 4294967296)
    (h : crc_byte c b1 = crc_byte c b2) : b1 % 256 = b2 % 256 :=
  Nat.xor_right_inj.mp (crc_byte_inj c c b1 b2 h1 h1 h)

/-- The CRC of a byte sequence determines the initial value it was started with. -/
theorem calc_crc_inj (l : List Nat) : ∀ (c1 c2 : Nat), c1 < 4294967296 → c2 < 4294967296 →
    calc_crc c1 l = calc_crc c2 l → c1 = c2 := by
  induction l with
  | nil => intro c1 c2 _ _ h; exact h
  | cons b l ih =>
    intro c1 c2 h1 h2 h
    have h' : calc_crc (crc_byte c1 b) l = calc_crc (crc_byte c2 b) l := h
    exact crc_byte_inj_crc c1 c2 b h1 h2
      (ih _ _ (crc_byte_lt c1 b h1) (crc_byte_lt c2 b h2) h')

theorem calc_crc_range_succ (c : Nat) (f : Nat → Nat) (n : Nat) :
    calc_crc c ((List.range (n + 1)).map f) = crc_byte (calc_crc c ((List.range n).map f)) (f n) := by
  unfold calc_crc
  rw [List.range_succ, List.map_append, List.foldl_append]
  rfl

/-- Two byte sequences that differ in exactly one byte have different CRCs. -/
theorem calc_crc_one_byte (c : Nat) (hc : c < 4294967296) (f g : Nat → Nat) (j : Nat)
    (hfg : ∀ i, i ≠ j → f i = g i) (hj : f j % 256 ≠ g j % 256) :
    ∀ n, j < n → calc_crc c ((List.range n).map f) ≠ calc_crc c ((List.range n).map g) := by
  intro n
  induction n with
  | zero => intro h; omega
  | succ n ih =>
    intro hn
    rw [calc_crc_range_succ, calc_crc_range_succ]
    by_cases hjn : j = n
    · subst hjn
      have e : (List.range j).map f = (List.range j).map g := by
        apply List.map_congr_left
        intro i hi
        rw [List.mem_range] at hi
        exact hfg i (by omega)
      rw [e]
      intro h
      exact hj (crc_byte_inj_byte _ _ _ (calc_crc_lt _ _ hc) h)
    · have hlt : j < n := by omega
      rw [← hfg n (by omega)]
      intro h
      exact ih hlt (crc_byte_inj_crc _ _ _ (calc_crc_lt _ _ hc) (calc_crc_lt _ _ hc) h)

theorem corrupt_byte_cfg (s : Store) (a : area_index_e) (p v : Nat) :
    same_cfg s (corrupt_byte s a p v) := same_cfg_poke _ _ _ _ _

theorem acell_corrupt_byte (s : Store) (a : area_index_e) (p v x : Nat) :
    acell (corrupt_byte s a p v) a x = if x = p then v else acell s a x := by
  unfold corrupt_byte
  rw [acell_poke]
  by_cases h : x = p
  · subst h
    rw [if_pos ⟨rfl, by omega, by omega⟩, if_pos rfl]
    simp
  · rw [if_neg (by omega), if_neg h]

theorem conv_ton32_inj (be : Bool) (x y : Nat) (hx : x < 4294967296) (hy : y < 4294967296)
    (h : conv_ton32 be x = conv_ton32 be y) : x = y := by
  have hs := congrArg (store32 be) h
  rw [store32_conv, store32_conv] at hs
  simp only [List.cons.injEq, and_true] at hs
  obtain ⟨hA, hB, hC, hD⟩ := hs
  have e1 : x / 16777216 = y / 16777216 := by omega
  have f2 : x / 65536 = 256 * (x / 16777216) + x / 65536 % 256 := by omega
  have g2 : y / 65536 = 256 * (y / 16777216) + y / 65536 % 256 := by omega
  have e2 : x / 65536 = y / 65536 := by omega
  have f3 : x / 256 = 256 * (x / 65536) + x / 256 % 256 := by omega
  have g3 : y / 256 = 256 * (y / 65536) + y / 256 % 256 := by omega
  have e3 : x / 256 = y / 256 := by omega
  omega

theorem load32_byte_inj (hb : Bool) (b0 b1 b2 b3 v : Nat) (hv : v < 256) :
    (b0 < 256 → v ≠ b0 → load32 hb v b1 b2 b3 ≠ load32 hb b0 b1 b2 b3) ∧
    (b1 < 256 → v ≠ b1 → load32 hb b0 v b2 b3 ≠ load32 hb b0 b1 b2 b3) ∧
    (b2 < 256 → v ≠ b2 → load32 hb b0 b1 v b3 ≠ load32 hb b0 b1 b2 b3) ∧
    (b3 < 256 → v ≠ b3 → load32 hb b0 b1 b2 v ≠ load32 hb b0 b1 b2 b3) := by
  unfold load32
  refine ⟨?_, ?_, ?_, ?_⟩ <;> intro h1 h2 <;> cases hb <;> simp <;> omega

theorem corrupt_byte_hdr (s : Store) (a : area_index_e) (o p v : Nat) (hp : o + 3 ≤ p) :
    hdr_key_size (corrupt_byte s a p v) a o = hdr_key_size s a o ∧
    hdr_data_size (corrupt_byte s a p v) a o = hdr_data_size s a o ∧
    rec_next (corrupt_byte s a p v) a o = rec_next s a o := by
  have k : hdr_key_size (corrupt_byte s a p v) a o = hdr_key_size s a o := by
    unfold hdr_key_size
    rw [acell_corrupt_byte, if_neg (by omega)]
  have d : hdr_data_size (corrupt_byte s a p v) a o = hdr_data_size s a o := by
    unfold hdr_data_size
    rw [acell_corrupt_byte, acell_corrupt_byte, if_neg (by omega), if_neg (by omega)]
    rfl
  refine ⟨k, d, ?_⟩
  unfold rec_next
  rw [k, d]

/-- A record that passes the CRC check does not pass it any more after one byte among its
flags, CRC, key and data bytes was changed to another byte value. -/
theorem corrupt_byte_not_crc_ok (s : Store) (a : area_index_e) (o p v : Nat)
    (hp1 : o + 3 ≤ p) (hp2 : p < rec_next s a o)
    (hold : acell s a p < 256) (hv : v < 256) (hne : v ≠ acell s a p)
    (hok : rec_crc_ok s a o) : ¬ rec_crc_ok (corrupt_byte s a p v) a o := by
  obtain ⟨k, d, _⟩ := corrupt_byte_hdr s a o p v hp1
  have hc := acell_corrupt_byte s a p v
  have hI : INITIAL_CRC < 4294967296 := by decide
  unfold rec_crc_ok at hok ⊢
  have hbe : (corrupt_byte s a p v).big_endian = s.big_endian := rfl
  have hhb : (corrupt_byte s a p v).host_big_endian = s.host_big_endian := rfl
  rw [hbe, hhb]
  by_cases c2 : p < o + 8
  · by_cases c1 : p = o + 3
    · -- the flags byte
      have hst : load32 s.host_big_endian (acell (corrupt_byte s a p v) a (o + 4))
          (acell (corrupt_byte s a p v) a (o + 5)) (acell (corrupt_byte s a p v) a (o + 6))
          (acell (corrupt_byte s a p v) a (o + 7)) =
          load32 s.host_big_endian (acell s a (o + 4)) (acell s a (o + 5)) (acell s a (o + 6))
            (acell s a (o + 7)) := by
        rw [hc, hc, hc, hc, if_neg (by omega), if_neg (by omega), if_neg (by omega),
          if_neg (by omega)]
      rw [hst, ← hok]
      intro h
      have h2 := conv_ton32_inj _ _ _ (calc_crc_lt _ _ (calc_crc_lt _ _ (calc_crc_lt _ _ hI)))
        (calc_crc_lt _ _ (calc_crc_lt _ _ (calc_crc_lt _ _ hI))) h
      unfold rec_crc at h2
      have ek : rec_key (corrupt_byte s a p v) a o = rec_key s a o := by
        unfold rec_key
        rw [k]
        apply List.map_congr_left
        intro i _
        rw [hc, if_neg (by omega)]
      have ed : rec_data (corrupt_byte s a p v) a o = rec_data s a o := by
        unfold rec_data
        rw [k, d]
        apply List.map_congr_left
        intro i _
        rw [hc, if_neg (by omega)]
      rw [ek, ed] at h2
      have h3 := calc_crc_inj _ _ _ (calc_crc_lt _ _ (calc_crc_lt _ _ hI))
        (calc_crc_lt _ _ (calc_crc_lt _ _ hI)) h2
      have h4 := calc_crc_inj _ _ _ (calc_crc_lt _ _ hI) (calc_crc_lt _ _ hI) h3
      have h5 := calc_crc_one_byte INITIAL_CRC hI (fun i => acell s a (o + i))
        (fun i => acell (corrupt_byte s a p v) a (o + i)) 3
        (fun i hi => by
          show acell s a (o + i) = acell (corrupt_byte s a p v) a (o + i)
          rw [hc, if_neg (by omega)])
        (by
          show acell s a (o + 3) % 256 ≠ acell (corrupt_byte s a p v) a (o + 3) % 256
          rw [hc, if_pos c1.symm]
          rw [c1] at hold hne
          omega) 4 (by omega)
      exact h5 h4.symm
    · -- a byte of the CRC field
      have ecrc : rec_crc (corrupt_byte s a p v) a o = rec_crc s a o := by
        unfold rec_crc rec_key rec_data
        rw [k, d, hc, hc, hc, hc, if_neg (by omega), if_neg (by omega), if_neg (by omega),
          if_neg (by omega)]
        have e1 : List.map (fun i => acell (corrupt_byte s a p v) a (o + 8 + i))
            (List.range (hdr_key_size s a o)) =
            List.map (fun i => acell s a (o + 8 + i)) (List.range (hdr_key_size s a o)) := by
          apply List.map_congr_left
          intro i _
          rw [hc, if_neg (by omega)]
        have e2 : List.map (fun i => acell (corrupt_byte s a p v) a (o + 8 + hdr_key_size s a o + i))
            (List.range (hdr_data_size s a o)) =
            List.map (fun i => acell s a (o + 8 + hdr_key_size s a o + i))
              (List.range (hdr_data_size s a o)) := by
          apply List.map_congr_left
          intro i _
          rw [hc, if_neg (by omega)]
        rw [e1, e2]
      rw [ecrc, hok, hc, hc, hc, hc]
      have h4 : p = o + 4 ∨ p = o + 5 ∨ p = o + 6 ∨ p = o + 7 := by omega
      intro h
      have hL := load32_byte_inj s.host_big_endian (acell s a (o + 4)) (acell s a (o + 5))
        (acell s a (o + 6)) (acell s a (o + 7)) v hv
      rcases h4 with e | e | e | e
      · rw [e] at hold hne
        rw [if_pos e.symm, if_neg (by omega), if_neg (by omega), if_neg (by omega)] at h
        exact hL.1 hold hne h.symm
      · rw [e] at hold hne
        rw [if_neg (by omega), if_pos e.symm, if_neg (by omega), if_neg (by omega)] at h
        exact hL.2.1 hold hne h.symm
      · rw [e] at hold hne
        rw [if_neg (by omega), if_neg (by omega), if_pos e.symm, if_neg (by omega)] at h
        exact hL.2.2.1 hold hne h.symm
      · rw [e] at hold hne
        rw [if_neg (by omega), if_neg (by omega), if_neg (by omega), if_pos e.symm] at h
        exact hL.2.2.2 hold hne h.symm
  · -- a byte of the key or of the data
    have hst : load32 s.host_big_endian (acell (corrupt_byte s a p v) a (o + 4))
        (acell (corrupt_byte s a p v) a (o + 5)) (acell (corrupt_byte s a p v) a (o + 6))
        (acell (corrupt_byte s a p v) a (o + 7)) =
        load32 s.host_big_endian (acell s a (o + 4)) (acell s a (o + 5)) (acell s a (o + 6))
          (acell s a (o + 7)) := by
      rw [hc, hc, hc, hc, if_neg (by omega), if_neg (by omega), if_neg (by omega),
        if_neg (by omega)]
    rw [hst, ← hok]
    intro h
    have h2 := conv_ton32_inj _ _ _ (calc_crc_lt _ _ (calc_crc_lt _ _ (calc_crc_lt _ _ hI)))
      (calc_crc_lt _ _ (calc_crc_lt _ _ (calc_crc_lt _ _ hI))) h
    unfold rec_crc at h2
    rw [hc, hc, hc, hc, if_neg (by omega), if_neg (by omega), if_neg (by omega),
      if_neg (by omega)] at h2
    unfold rec_next at hp2
    by_cases c3 : p < o + 8 + hdr_key_size s a o
    · have ed : rec_data (corrupt_byte s a p v) a o = rec_data s a o := by
        unfold rec_data
        rw [k, d]
        apply List.map_congr_left
        intro i _
        rw [hc, if_neg (by omega)]
      rw [ed] at h2
      have h3 := calc_crc_inj _ _ _ (calc_crc_lt _ _ (calc_crc_lt _ _ hI))
        (calc_crc_lt _ _ (calc_crc_lt _ _ hI)) h2
      unfold rec_key at h3
      rw [k] at h3
      have h5 := calc_crc_one_byte _ (calc_crc_lt INITIAL_CRC
          [acell s a o, acell s a (o + 1), acell s a (o + 2), acell s a (o + 3)] hI)
        (fun i => acell s a (o + 8 + i))
        (fun i => acell (corrupt_byte s a p v) a (o + 8 + i)) (p - (o + 8))
        (fun i hi => by
          show acell s a (o + 8 + i) = acell (corrupt_byte s a p v) a (o + 8 + i)
          rw [hc, if_neg (by omega)])
        (by
          show acell s a (o + 8 + (p - (o + 8))) % 256 ≠
            acell (corrupt_byte s a p v) a (o + 8 + (p - (o + 8))) % 256
          have e : o + 8 + (p - (o + 8)) = p := by omega
          rw [e, hc, if_pos rfl]
          omega) (hdr_key_size s a o) (by omega)
      exact h5 h3.symm
    · have ek : rec_key (corrupt_byte s a p v) a o = rec_key s a o := by
        unfold rec_key
        rw [k]
        apply List.map_congr_left
        intro i hi
        rw [List.mem_range] at hi
        rw [hc, if_neg (by omega)]
      rw [ek] at h2
      unfold rec_data at h2
      rw [k, d] at h2
      have h5 := calc_crc_one_byte _ (calc_crc_lt _ (rec_key s a o) (calc_crc_lt INITIAL_CRC
          [acell s a o, acell s a (o + 1), acell s a (o + 2), acell s a (o + 3)] hI))
        (fun i => acell s a (o + 8 + hdr_key_size s a o + i))
        (fun i => acell (corrupt_byte s a p v) a (o + 8 + hdr_key_size s a o + i))
        (p - (o + 8 + hdr_key_size s a o))
        (fun i hi => by
          show acell s a (o + 8 + hdr_key_size s a o + i) =
            acell (corrupt_byte s a p v) a (o + 8 + hdr_key_size s a o + i)
          rw [hc, if_neg (by omega)])
        (by
          show acell s a (o + 8 + hdr_key_size s a o + (p - (o + 8 + hdr_key_size s a o))) % 256 ≠
            acell (corrupt_byte s a p v) a
              (o + 8 + hdr_key_size s a o + (p - (o + 8 + hdr_key_size s a o))) % 256
          have e : o + 8 + hdr_key_size s a o + (p - (o + 8 + hdr_key_size s a o)) = p := by omega
          rw [e, hc, if_pos rfl]
          omega) (hdr_data_size s a o) (by omega)
      exact h5 h2.symm

/-- What a successful `read_record` says about the record: it lies in the area, its sizes
are in range and its CRC matches. -/
theorem read_record_success_conds (s : Store) (a : area_index_e) (o : Nat) (ck : Bool)
    (out : record_out) (h : area_nowrap s a) (ho : o ≤ asize s a)
    (hok : (read_record s a o ck out).1 = PDBSTORE_SUCCESS) :
    ¬ (o + 8 ≥ (s.area_params a).address + asize s a) ∧ ¬ (o + 8 > asize s a) ∧
    ¬ (hdr_key_size s a o = 0 ∨ hdr_key_size s a o > 16 ∨ hdr_data_size s a o > 1024) ∧
    ¬ (rec_next s a o > (s.area_params a).address + asize s a) ∧
    (ck = true → ¬ (o + 8 + hdr_key_size s a o > asize s a)) ∧ rec_crc_ok s a o := by
  cases ck
  · rw [read_record_eq_nokey s a o out h ho] at hok
    by_cases c1 : o + 8 ≥ (s.area_params a).address + asize s a
    · rw [if_pos c1] at hok; simp at hok
    rw [if_neg c1] at hok
    by_cases c0 : o + 8 > asize s a
    · rw [if_pos c0] at hok; simp at hok
    rw [if_neg c0] at hok
    by_cases c2 : hdr_key_size s a o = 0 ∨ hdr_key_size s a o > 16 ∨ hdr_data_size s a o > 1024
    · rw [if_pos c2] at hok; simp at hok
    rw [if_neg c2] at hok
    by_cases c3 : rec_next s a o > (s.area_params a).address + asize s a
    · rw [if_pos c3] at hok; simp at hok
    rw [if_neg c3] at hok
    by_cases c5 : rec_crc_ok s a o
    · exact ⟨c1, c0, c2, c3, fun hh => by simp at hh, c5⟩
    · rw [if_neg c5] at hok; simp at hok
  · rw [read_record_eq s a o out h ho] at hok
    by_cases c1 : o + 8 ≥ (s.area_params a).address + asize s a
    · rw [if_pos c1] at hok; simp at hok
    rw [if_neg c1] at hok
    by_cases c0 : o + 8 > asize s a
    · rw [if_pos c0] at hok; simp at hok
    rw [if_neg c0] at hok
    by_cases c2 : hdr_key_size s a o = 0 ∨ hdr_key_size s a o > 16 ∨ hdr_data_size s a o > 1024
    · rw [if_pos c2] at hok; simp at hok
    rw [if_neg c2] at hok
    by_cases c3 : rec_next s a o > (s.area_params a).address + asize s a
    · rw [if_pos c3] at hok; simp at hok
    rw [if_neg c3] at hok
    by_cases c4 : o + 8 + hdr_key_size s a o > asize s a
    · rw [if_pos c4] at hok; simp at hok
    rw [if_neg c4] at hok
    by_cases c5 : rec_crc_ok s a o
    · exact ⟨c1, c0, c2, c3, fun _ => c4, c5⟩
    · rw [if_neg c5] at hok; simp at hok

/-- After the change of one byte among the flags, CRC, key and data bytes of a record that
`read_record` read with success, `read_record` returns data-corrupt. -/
theorem read_record_corrupt_byte (s : Store) (a : area_index_e) (o p v : Nat) (ck : Bool)
    (out out2 : record_out) (h : area_nowrap s a) (ho : o ≤ asize s a)
    (hok : (read_record s a o ck out).1 = PDBSTORE_SUCCESS)
    (hp1 : o + 3 ≤ p) (hp2 : p < rec_next s a o)
    (hold : acell s a p < 256) (hv : v < 256) (hne : v ≠ acell s a p) :
    (read_record (corrupt_byte s a p v) a o ck out2).1 = PDBSTORE_DATA_CORRUPT := by
  obtain ⟨c1, c0, c2, c3, c4, c5⟩ := read_record_success_conds s a o ck out h ho hok
  have hcfg := corrupt_byte_cfg s a p v
  have hnw := same_cfg_area_nowrap hcfg a h
  have hz := same_cfg_asize hcfg a
  have hap : (corrupt_byte s a p v).area_params = s.area_params := hcfg.2.2.1
  obtain ⟨k, d, n⟩ := corrupt_byte_hdr s a o p v hp1
  have hbad := corrupt_byte_not_crc_ok s a o p v hp1 hp2 hold hv hne c5
  cases ck
  · rw [read_record_eq_nokey _ a o out2 hnw (by rw [hz]; exact ho)]
    rw [hz, hap, k, d, n, if_neg c1, if_neg c0, if_neg c2, if_neg c3, if_neg hbad]
  · rw [read_record_eq _ a o out2 hnw (by rw [hz]; exact ho)]
    rw [hz, hap, k, d, n, if_neg c1, if_neg c0, if_neg c2, if_neg c3, if_neg (c4 rfl), if_neg hbad]

/-- The scan of `find_record` in the writable area passes the records whose key differs from
the one looked for. -/
theorem find_record_loop_skip (s : Store) (key : List Nat)
    (h : area_nowrap s AREA_INDEX_WRITABLE) :
    ∀ (pre : List log_rec) (o fuel : Nat) (out : record_out),
      log_at s AREA_INDEX_WRITABLE o pre → (∀ r, r ∈ pre → log_rec_ok r) →
      (∀ q, q ∈ pre → q.key ≠ cstr key) →
      o + log_size pre ≤ s.free_space_offset → o + log_size pre ≤ asize s AREA_INDEX_WRITABLE →
      ∃ out', find_record_loop s key AREA_INDEX_WRITABLE (fuel + pre.length) o out =
        find_record_loop s key AREA_INDEX_WRITABLE fuel (o + log_size pre) out' := by
  intro pre
  induction pre with
  | nil =>
    intro o fuel out _ _ _ _ _
    exact ⟨out, rfl⟩
  | cons r l ih =>
    intro o fuel out hat hok hne hfso hfit
    have hrok := hok r (List.mem_cons_self _ _)
    have hsz : log_size (r :: l) = log_rec_size r + log_size l := rfl
    have h9 : 9 ≤ log_rec_size r := by
      unfold log_rec_size; have := hrok.1; omega
    rw [hsz] at hfso hfit ⊢
    have hrd := read_record_log s AREA_INDEX_WRITABLE o r out h hrok (by omega) hat.1
    have e : fuel + (r :: l).length = (fuel + l.length) + 1 := by simp; omega
    rw [e, find_record_loop_succ, if_neg (by unfold asize at hfit; omega),
      if_neg (by intro hh; have := hh.2; omega), hrd]
    simp only []
    rw [if_neg (by simp)]
    have hk : ¬ cstr r.key = cstr key := by
      rw [hrok.2.2.1]; exact hne r (List.mem_cons_self _ _)
    rw [if_neg hk]
    obtain ⟨out', ho'⟩ := ih (o + log_rec_size r) fuel _ hat.2
      (fun q hq => hok q (List.mem_cons_of_mem _ hq))
      (fun q hq => hne q (List.mem_cons_of_mem _ hq)) (by omega) (by omega)
    refine ⟨out', ?_⟩
    rw [ho', Nat.add_assoc]

/-- The result of `find_record` when the read-only area does not hold the key and the scan
of the writable area returns from inside the loop. -/
theorem find_record_wr (s : Store) (key : List Nat) (ret : PDBSTORE_status_e) (out : record_out)
    (off : Nat) (h : (ro_find s key).1 = none)
    (hw : find_record_loop s key AREA_INDEX_WRITABLE ((s.area_params AREA_INDEX_WRITABLE).size + 1) 0
      (ro_find s key).2.1 = (some ret, out, off)) :
    find_record s key =
      { ret := ret, out := out, area := some AREA_INDEX_WRITABLE, offset := off } := by
  unfold find_record
  simp only []
  unfold ro_find at h hw
  rw [h]
  simp only []
  rw [hw]

/-- In the steady state, after the change of one byte among the flags, CRC, key and data
bytes of the record that `find_record` finds for a key in the writable area, `pdbstore_get`
of the key returns data-corrupt. -/
theorem get_corrupt_byte (s : Store) (log : List log_rec) (key : List Nat) (o p v : Nat)
    (hs : steady s log) (hget : (pdbstore_get s key).1 = PDBSTORE_SUCCESS)
    (hwr : (find_record s key).area = some AREA_INDEX_WRITABLE)
    (hoff : (find_record s key).offset = o)
    (hp1 : o + 3 ≤ p) (hp2 : p < rec_next s AREA_INDEX_WRITABLE o)
    (hold : acell s AREA_INDEX_WRITABLE p < 256) (hv : v < 256)
    (hne : v ≠ acell s AREA_INDEX_WRITABLE p) :
    (pdbstore_get (corrupt_byte s AREA_INDEX_WRITABLE p v) key).1 = PDBSTORE_DATA_CORRUPT := by
  obtain ⟨hk, hi, h1⟩ := get_success_args s key hget
  obtain ⟨hro, pre, r, post, e, hp, hr⟩ := found_wr_steady s log key hs h1 hwr
  subst e
  rw [find_record_found s pre post r key hs hro hp hr] at hoff
  simp only [] at hoff
  subst hoff
  obtain ⟨s', hs'⟩ : ∃ s', s' = corrupt_byte s AREA_INDEX_WRITABLE p v := ⟨_, rfl⟩
  have hcfg : same_cfg s s' := by rw [hs']; exact corrupt_byte_cfg _ _ _ _
  have hnw := area_ok_nowrap hs.lay.wr_ok
  have hnw' : area_nowrap s' AREA_INDEX_WRITABLE := same_cfg_area_nowrap hcfg _ hnw
  have hfr : frame s s' := by
    refine ⟨hcfg.1, hcfg.2.1, hcfg.2.2.1, hcfg.2.2.2.1, hcfg.2.2.2.2.1, hcfg.2.2.2.2.2.2, ?_⟩
    intro x hx
    rw [hs']
    exact layout_ro_cell_poke s hs.lay p 1 [v] x hx
  have hro' : (ro_find s' key).1 = none := by rw [ro_find_frame hs.lay hfr]; exact hro
  have hcells := hs.cells
  rw [log_at_append] at hcells
  obtain ⟨hpre, hrc, _⟩ := hcells
  simp only [Nat.zero_add] at hpre hrc
  have hrok := hs.recs r (by simp)
  have hfits := steady_rec_fits s pre post r hs
  have hpre' : log_at s' AREA_INDEX_WRITABLE 0 pre := by
    refine log_at_congr hcfg.2.2.2.2.1 hcfg.2.2.2.2.2.2 _ pre 0 ?_ hpre
    intro x _ hx
    rw [hs', acell_corrupt_byte, if_neg (by omega)]
  have hfso : s'.free_space_offset = log_size (pre ++ r :: post) := by
    rw [hcfg.2.2.2.2.2.1]; exact hs.fso
  have hsz : log_size (pre ++ r :: post) = log_size pre + (log_rec_size r + log_size post) := by
    rw [log_size_append]; rfl
  have hz : asize s' AREA_INDEX_WRITABLE = asize s AREA_INDEX_WRITABLE := same_cfg_asize hcfg _
  have h9 : 9 ≤ log_rec_size r := by unfold log_rec_size; have := hrok.1; omega
  have hlen := log_size_le_length pre
  obtain ⟨out', hsk⟩ := find_record_loop_skip s' key hnw' pre 0
    ((asize s AREA_INDEX_WRITABLE - pre.length) + 1) (ro_find s' key).2.1 hpre'
    (fun q hq => hs.recs q (by simp [hq])) hp (by rw [hfso, hsz]; omega) (by rw [hz]; omega)
  have efuel : (asize s AREA_INDEX_WRITABLE - pre.length) + 1 + pre.length =
      (s'.area_params AREA_INDEX_WRITABLE).size + 1 := by
    have : (s'.area_params AREA_INDEX_WRITABLE).size = asize s AREA_INDEX_WRITABLE := hz
    omega
  rw [efuel, Nat.zero_add] at hsk
  have hrd := read_record_log s AREA_INDEX_WRITABLE (log_size pre) r out' hnw hrok hfits hrc
  have hbad := read_record_corrupt_byte s AREA_INDEX_WRITABLE (log_size pre) p v true out' out' hnw
    (by omega) (by rw [hrd]) hp1 hp2 hold hv hne
  rw [← hs'] at hbad
  have hloop : find_record_loop s' key AREA_INDEX_WRITABLE
      ((s'.area_params AREA_INDEX_WRITABLE).size + 1) 0 (ro_find s' key).2.1 =
      (some PDBSTORE_DATA_CORRUPT, (read_record s' AREA_INDEX_WRITABLE (log_size pre) true out').2,
        log_size pre) := by
    rw [hsk, find_record_loop_succ, if_neg (by unfold asize at hz hfits; omega),
      if_neg (by intro hh; have := hh.2; omega), if_pos (by rw [hbad]; simp), hbad]
  have hfind := find_record_wr s' key _ _ _ hro' hloop
  rw [← hs']
  unfold pdbstore_get
  rw [if_neg (by rw [hk]; simp), if_neg (by rw [hcfg.2.2.2.1, hi]; simp)]
  simp only [hfind]
  rw [if_pos (by simp)]

/-- Claim C20: for a record on which `read_record` returns success, after the change of
exactly one byte among its flags, CRC, key and data bytes to another byte value (the three
bytes of the size fields untouched), `read_record` at the same offset returns data-corrupt;
and in the steady state `pdbstore_get` of the key of such a record of the writable area
returns data-corrupt (for a changed data byte as for the others). -/
theorem single_byte_corruption_detected (s : Store) (a : area_index_e) (o p v : Nat) (ck : Bool)
    (out out2 : record_out) (h : area_nowrap s a) (ho : o ≤ asize s a)
    (hok : (read_record s a o ck out).1 = PDBSTORE_SUCCESS)
    (hp1 : o + 3 ≤ p) (hp2 : p < o + 8 + hdr_key_size s a o + hdr_data_size s a o)
    (hold : acell s a p < 256) (hv : v < 256) (hne : v ≠ acell s a p) :
    (read_record (corrupt_byte s a p v) a o ck out2).1 = PDBSTORE_DATA_CORRUPT ∧
    ∀ log key, a = AREA_INDEX_WRITABLE → steady s log →
      (pdbstore_get s key).1 = PDBSTORE_SUCCESS →
      (find_record s key).area = some AREA_INDEX_WRITABLE → (find_record s key).offset = o →
      (pdbstore_get (corrupt_byte s a p v) key).1 = PDBSTORE_DATA_CORRUPT := by
  refine ⟨read_record_corrupt_byte s a o p v ck out out2 h ho hok hp1 hp2 hold hv hne, ?_⟩
  intro log key ha hs hget hwr hoff
  subst ha
  exact get_corrupt_byte s log key o p v hs hget hwr hoff hp1 hp2 hold hv hne

theorem single_byte_corruption_detected_witness :
    (read_record (corrupt_byte demo_store_a AREA_INDEX_WRITABLE 11 0) AREA_INDEX_WRITABLE 0 true
      record_out_init).1 = PDBSTORE_DATA_CORRUPT ∧
    (pdbstore_get (corrupt_byte demo_store_a AREA_INDEX_WRITABLE 11 0) [97]).1 =
      PDBSTORE_DATA_CORRUPT :=
  have h := single_byte_corruption_detected demo_store_a AREA_INDEX_WRITABLE 0 11 0 true
    record_out_init record_out_init (area_ok_nowrap demo_a_steady.lay.wr_ok) (Nat.zero_le _)
    (by decide!) (by decide) (by decide!) (by decide!) (by decide) (by decide!)
  ⟨h.1, h.2 _ [97] rfl demo_a_steady (by decide!) (by decide!) (by decide!)⟩

/-- The areas `init_areas` computes, for a state as `pdbstore_init_readonly_area` leaves it
with the end `ro` of the read-only records inside bank 0: the three areas are laid out one
behind the other in the writable bank. -/
theorem init_areas_spec (u : Store) (ro : Nat) (t : Store)
    (hbp : bp_ok u.num_banks u.bank_params)
    (hra : (u.area_params AREA_INDEX_READONLY).address = 0)
    (hrb : (u.area_params AREA_INDEX_READONLY).bank = 0)
    (hro : ro ≤ (u.bank_params 0).bank_size)
    (h : init_areas u ro = (PDBSTORE_SUCCESS, t)) :
    layout t ∧ t.mem = u.mem ∧ t.host_big_endian = u.host_big_endian ∧
    t.big_endian = u.big_endian ∧ t.free_space_offset = u.free_space_offset ∧
    t.initialized = u.initialized ∧ t.num_banks = u.num_banks ∧ t.bank_params = u.bank_params ∧
    t.area_params AREA_INDEX_READONLY = { address := 0, size := ro, bank := 0 } ∧
    aerase t AREA_INDEX_WRITABLE < 256 ∧
    (u.num_banks = 1 → (t.area_params AREA_INDEX_WRITABLE).address = ro) ∧
    (u.num_banks = 2 → (t.area_params AREA_INDEX_WRITABLE).address = 0) := by
  obtain ⟨hn, hb⟩ := hbp
  unfold init_areas at h
  simp only [set_area, sizeof_header, PDBSTORE_MAX_KEY_SIZE, PDBSTORE_MAX_DATA_SIZE, reduceCtorEq,
    if_false, if_true, hra, hrb] at h
  rcases hn with h1 | h2
  · obtain ⟨b1, b2, b3⟩ := hb 0 (by omega)
    have e1 : u32 ((u.bank_params 0).bank_size + 4294967296 - (u.bank_params 0).start_offset) =
        (u.bank_params 0).bank_size - (u.bank_params 0).start_offset := by
      unfold u32; omega
    simp only [h1, if_true, e1] at h
    have e2 : u32 (u32 (2 * (8 + 16 + 1024)) + ro) = 2096 + ro := by unfold u32; omega
    have e3 : u32 (8 + 16 + 1024 + ro) = 1048 + ro := by unfold u32; omega
    rw [e2, e3] at h
    by_cases c : (u.bank_params 0).bank_size - (u.bank_params 0).start_offset < 2096 + ro
    · simp [c] at h
    · simp only [c, and_false, if_false, true_and, OfNat.one_ne_ofNat, ne_eq, not_true_eq_false,
        false_and, and_self] at h
      have e4 : u32 ((u.bank_params 0).bank_size - (u.bank_params 0).start_offset + 4294967296 -
          (1048 + ro)) = (u.bank_params 0).bank_size - (u.bank_params 0).start_offset - (1048 + ro) := by
        unfold u32; omega
      have e5 : u32 (ro + ((u.bank_params 0).bank_size - (u.bank_params 0).start_offset -
          (1048 + ro))) = (u.bank_params 0).bank_size - (u.bank_params 0).start_offset - 1048 := by
        unfold u32; omega
      rw [e4, e5] at h
      have ht := (Prod.mk.inj h).2
      subst ht
      refine ⟨⟨?_, ?_, ?_, ?_, ?_, ?_, ?_, ?_, ?_⟩, rfl, rfl, rfl, rfl, rfl, h1.symm, rfl, ?_, ?_, ?_, ?_⟩
      · simp [area_nowrap, abase, asize]; omega
      · simp
      · simp [area_ok, abase, asize]; omega
      · simp [area_ok, abase, asize]; omega
      · simp
      · simp [abase, asize]; omega
      · simp [asize]
      · simp [asize]; omega
      · right; simp [abase, asize]
      · simp [hrb]
      · simp [aerase]; exact b3
      · simp
      · simp [h1]
  · obtain ⟨b1, b2, b3⟩ := hb 0 (by omega)
    obtain ⟨c1, c2, c3⟩ := hb 1 (by omega)
    have e1 : u32 ((u.bank_params 1).bank_size + 4294967296 - (u.bank_params 1).start_offset) =
        (u.bank_params 1).bank_size - (u.bank_params 1).start_offset := by
      unfold u32; omega
    simp only [h2, OfNat.ofNat_ne_one, if_false, e1] at h
    have e2 : u32 (2 * (8 + 16 + 1024)) = 2096 := by unfold u32; omega
    rw [e2] at h
    by_cases c : (u.bank_params 1).bank_size - (u.bank_params 1).start_offset < 2096
    · simp [c] at h
    · simp only [c, and_false, if_false, true_and, and_true,
        false_and, and_self] at h
      have e4 : u32 ((u.bank_params 1).bank_size - (u.bank_params 1).start_offset + 4294967296 -
          (8 + 16 + 1024)) = (u.bank_params 1).bank_size - (u.bank_params 1).start_offset - 1048 := by
        unfold u32; omega
      have e5 : u32 (0 + ((u.bank_params 1).bank_size - (u.bank_params 1).start_offset - 1048)) =
          (u.bank_params 1).bank_size - (u.bank_params 1).start_offset - 1048 := by
        unfold u32; omega
      rw [e4, e5] at h
      rw [if_neg (by omega)] at h
      have ht := (Prod.mk.inj h).2
      subst ht
      refine ⟨⟨?_, ?_, ?_, ?_, ?_, ?_, ?_, ?_, ?_⟩, rfl, rfl, rfl, rfl, rfl, h2.symm, rfl, ?_, ?_, ?_, ?_⟩
      · simp [area_nowrap, abase, asize]; omega
      · simp
      · simp [area_ok, abase, asize]; omega
      · simp [area_ok, abase, asize]; omega
      · simp
      · simp [abase, asize]
      · simp [asize]
      · simp [asize]; omega
      · left; simp
      · simp
      · simp [aerase]; exact c3
      · simp [h2]
      · simp

theorem read_record_initialized (s : Store) (b : Bool) (a : area_index_e) (o : Nat) (ck : Bool)
    (out : record_out) :
    read_record { s with initialized := b } a o ck out = read_record s a o ck out := by
  unfold read_record
  rfl

/-- `read_record` without a key buffer gives the same result in two states that agree on the
cells of the record. -/
theorem read_record_congr_nokey {s s' : Store} (hc : same_cfg s s') (a : area_index_e) (o : Nat)
    (out : record_out) (h : area_nowrap s a) (ho : o ≤ asize s a)
    (hag : o + 8 ≤ asize s a → ∀ x, o ≤ x → x < rec_next s a o → acell s' a x = acell s a x) :
    read_record s' a o false out = read_record s a o false out := by
  rw [read_record_eq_nokey s a o out h ho,
    read_record_eq_nokey s' a o out (same_cfg_area_nowrap hc a h) (by rw [same_cfg_asize hc]; exact ho)]
  simp only [same_cfg_asize hc, same_cfg_abase hc, hc.2.2.1]
  by_cases c1 : o + 8 ≥ (s.area_params a).address + asize s a
  · rw [if_pos c1, if_pos c1]
  rw [if_neg c1, if_neg c1]
  by_cases c0 : o + 8 > asize s a
  · rw [if_pos c0, if_pos c0]
  rw [if_neg c0, if_neg c0]
  obtain ⟨k, d, f, n, ky, dt, c⟩ := rec_fields_congr hc a o (hag (by omega))
  simp only [k, d, f, n, ky, c]

/-- The loop of `pdbstore_init` over the read-only records reads cells below the offset it
ends at only. -/
theorem init_readonly_loop_congr {s s' : Store} (hc : same_cfg s s')
    (h : area_nowrap s AREA_INDEX_READONLY)
    (ha : (s.area_params AREA_INDEX_READONLY).address = 0) :
    ∀ (i offset : Nat) (o res : record_out), o.next_offset = offset →
      offset ≤ asize s AREA_INDEX_READONLY →
      init_readonly_loop s i offset o = (PDBSTORE_SUCCESS, res) →
      (∀ x, x < res.next_offset → acell s' AREA_INDEX_READONLY x = acell s AREA_INDEX_READONLY x) →
      init_readonly_loop s' i offset o = (PDBSTORE_SUCCESS, res) ∧ offset ≤ res.next_offset ∧
        res.next_offset ≤ asize s AREA_INDEX_READONLY := by
  intro i
  induction i with
  | zero =>
    intro offset o res ho hle hl _
    unfold init_readonly_loop at hl ⊢
    have e := (Prod.mk.inj hl).2
    subst e
    exact ⟨rfl, by omega, by omega⟩
  | succ i ih =>
    intro offset o res ho hle hl hag
    unfold init_readonly_loop at hl ⊢
    simp only at hl ⊢
    by_cases c : (read_record s AREA_INDEX_READONLY offset false o).1 = PDBSTORE_SUCCESS
    · rw [if_neg (by simpa using c)] at hl
      obtain ⟨c1, c2, c3, c4, _, c6⟩ := read_record_success_conds s AREA_INDEX_READONLY offset false o h hle c
      have hn : (read_record s AREA_INDEX_READONLY offset false o).2.next_offset =
          rec_next s AREA_INDEX_READONLY offset := by
        rw [read_record_eq_nokey s _ offset o h hle, if_neg c1, if_neg c2, if_neg c3, if_neg c4]
      have hb : rec_next s AREA_INDEX_READONLY offset ≤ asize s AREA_INDEX_READONLY := by
        rw [ha] at c4; omega
      obtain ⟨i1, i2, i3⟩ := ih _ _ res rfl (by rw [hn]; exact hb) hl hag
      have e : read_record s' AREA_INDEX_READONLY offset false o =
          read_record s AREA_INDEX_READONLY offset false o := by
        apply read_record_congr_nokey hc _ _ _ h hle
        intro _ x _ hx
        apply hag
        rw [hn] at i2
        omega
      rw [e, if_neg (by simpa using c)]
      refine ⟨i1, ?_, i3⟩
      rw [hn] at i2
      unfold rec_next at i2
      omega
    · rw [if_pos (by simpa using c)] at hl
      exact absurd (Prod.mk.inj hl).1 c

/-- The scan of the read-only area in `pdbstore_init` reads cells below the offset it ends
at only, when the master record holds the two bytes of `num_keys`. -/
theorem init_readonly_scan_congr {s s' : Store} (hc : same_cfg s s')
    (h : area_nowrap s AREA_INDEX_READONLY)
    (ha : (s.area_params AREA_INDEX_READONLY).address = 0) (res : record_out)
    (hl : init_readonly_scan s = (PDBSTORE_SUCCESS, res))
    (hm : 2 ≤ hdr_data_size s AREA_INDEX_READONLY 0 ∨ s'.mem = s.mem)
    (hag : ∀ x, x < res.next_offset → acell s' AREA_INDEX_READONLY x = acell s AREA_INDEX_READONLY x) :
    init_readonly_scan s' = (PDBSTORE_SUCCESS, res) ∧
      res.next_offset ≤ asize s AREA_INDEX_READONLY ∧ 8 ≤ res.next_offset := by
  unfold init_readonly_scan at hl ⊢
  simp only at hl ⊢
  by_cases c : (read_record s AREA_INDEX_READONLY 0 false record_out_init).1 = PDBSTORE_SUCCESS
  · rw [if_neg (by simpa using c)] at hl
    obtain ⟨c1, c2, c3, c4, _, c6⟩ :=
      read_record_success_conds s AREA_INDEX_READONLY 0 false record_out_init h (Nat.zero_le _) c
    have hr : read_record s AREA_INDEX_READONLY 0 false record_out_init =
        (PDBSTORE_SUCCESS,
          { key := record_out_init.key,
            data_ptr := { bank := (s.area_params AREA_INDEX_READONLY).bank,
                          addr := abase s AREA_INDEX_READONLY + (0 + 8 + hdr_key_size s AREA_INDEX_READONLY 0) },
            actual_data_size := hdr_data_size s AREA_INDEX_READONLY 0,
            totally_corrupt := false,
            flags := hdr_flags s AREA_INDEX_READONLY 0,
            next_offset := rec_next s AREA_INDEX_READONLY 0 }) := by
      rw [read_record_eq_nokey s _ 0 _ h (Nat.zero_le _), if_neg c1, if_neg c2, if_neg c3, if_neg c4,
        if_pos c6]
    have hb : rec_next s AREA_INDEX_READONLY 0 ≤ asize s AREA_INDEX_READONLY := by
      rw [ha] at c4; omega
    rw [hr] at hl
    simp only at hl
    obtain ⟨i1, i2, i3⟩ := init_readonly_loop_congr hc h ha _ (rec_next s AREA_INDEX_READONLY 0) _ res rfl hb hl hag
    have e : read_record s' AREA_INDEX_READONLY 0 false record_out_init =
        read_record s AREA_INDEX_READONLY 0 false record_out_init := by
      apply read_record_congr_nokey hc _ _ _ h (Nat.zero_le _)
      intro _ x _ hx
      apply hag
      omega
    rw [e, if_neg (by simpa using c), hr]
    simp only
    have hk1 : s'.mem (s.area_params AREA_INDEX_READONLY).bank
        (abase s AREA_INDEX_READONLY + (0 + 8 + hdr_key_size s AREA_INDEX_READONLY 0)) =
        s.mem (s.area_params AREA_INDEX_READONLY).bank
        (abase s AREA_INDEX_READONLY + (0 + 8 + hdr_key_size s AREA_INDEX_READONLY 0)) := by
      rcases hm with hm | hm
      · have := hag (0 + 8 + hdr_key_size s AREA_INDEX_READONLY 0) (by unfold rec_next at i2; omega)
        unfold acell at this
        rw [same_cfg_abase hc, hc.2.2.1] at this
        exact this
      · rw [hm]
    have hk2 : s'.mem (s.area_params AREA_INDEX_READONLY).bank
        (abase s AREA_INDEX_READONLY + (0 + 8 + hdr_key_size s AREA_INDEX_READONLY 0) + 1) =
        s.mem (s.area_params AREA_INDEX_READONLY).bank
        (abase s AREA_INDEX_READONLY + (0 + 8 + hdr_key_size s AREA_INDEX_READONLY 0) + 1) := by
      rcases hm with hm | hm
      · have := hag (0 + 8 + hdr_key_size s AREA_INDEX_READONLY 0 + 1) (by unfold rec_next at i2; omega)
        unfold acell at this
        rw [same_cfg_abase hc, hc.2.2.1] at this
        exact this
      · rw [hm]
    rw [hk1, hk2, hc.2.2.2.2.1, hc.2.2.2.2.2.2]
    exact ⟨i1, i3, by unfold rec_next at i2; omega⟩
  · rw [if_pos (by simpa using c)] at hl
    exact absurd (Prod.mk.inj hl).1 c

theorem init_readonly_loop_flags (s : Store) (f : Nat) (b : Bool) :
    ∀ (i offset : Nat) (o : record_out),
      init_readonly_loop { s with free_space_offset := f, initialized := b } i offset o =
        init_readonly_loop s i offset o := by
  intro i
  induction i with
  | zero => intro offset o; rfl
  | succ i ih =>
    intro offset o
    unfold init_readonly_loop
    have e : read_record { s with free_space_offset := f, initialized := b } AREA_INDEX_READONLY
        offset false o = read_record s AREA_INDEX_READONLY offset false o := by
      unfold read_record; rfl
    simp only [e, ih]

theorem init_readonly_scan_flags (s : Store) (f : Nat) (b : Bool) :
    init_readonly_scan { s with free_space_offset := f, initialized := b } =
      init_readonly_scan s := by
  unfold init_readonly_scan
  have e : read_record { s with free_space_offset := f, initialized := b } AREA_INDEX_READONLY
      0 false record_out_init = read_record s AREA_INDEX_READONLY 0 false record_out_init := by
    unfold read_record; rfl
  simp only [e, init_readonly_loop_flags]

theorem set_area_with_media (u : Store) (m : Nat → Nat → Nat) (f : Nat) (b : Bool)
    (a : area_index_e) (p : pdbstore_area_params_t) :
    set_area (with_media u m f b) a p = with_media (set_area u a p) m f b := rfl

theorem with_media_cfg (u : Store) (m : Nat → Nat → Nat) (f : Nat) (b : Bool) :
    (with_media u m f b).num_banks = u.num_banks ∧
    (with_media u m f b).bank_params = u.bank_params ∧
    (with_media u m f b).area_params = u.area_params := ⟨rfl, rfl, rfl⟩

/-- The computation of the areas does not look at the media, `free_space_offset` and
`initialized`. -/
theorem init_areas_mem (u : Store) (ro : Nat) (m : Nat → Nat → Nat) (f : Nat) (b : Bool) :
    init_areas (with_media u m f b) ro =
      ((init_areas u ro).1, with_media (init_areas u ro).2 m f b) := by
  unfold init_areas
  simp only [set_area_with_media, (with_media_cfg _ m f b).1, (with_media_cfg _ m f b).2.1,
    (with_media_cfg _ m f b).2.2]
  split_ifs <;> rfl

/-- What `pdbstore_init_readonly_area` does for one or two banks. -/
theorem init_readonly_area_spec (s : Store) (num : Nat) (bp : Nat → pdbstore_bank_params_t)
    (hn : num = 1 ∨ num = 2) :
    ∃ u, pdbstore_init_readonly_area s num bp = (PDBSTORE_SUCCESS, u) ∧ u.num_banks = num ∧
      u.bank_params = (fun i => if i < num then bp i else s.bank_params i) ∧
      u.area_params AREA_INDEX_READONLY = { address := 0, size := (bp 0).bank_size, bank := 0 } ∧
      u.mem = s.mem ∧ u.big_endian = s.host_big_endian ∧
      u.host_big_endian = s.host_big_endian ∧ u.free_space_offset = s.free_space_offset ∧
      u.initialized = s.initialized := by
  have hn0 : ¬ (num = 0 ∨ num > PDBSTORE_MAX_BANKS) := by
    unfold PDBSTORE_MAX_BANKS
    omega
  have h0 : (0 : Nat) < num := by omega
  unfold pdbstore_init_readonly_area
  simp only [if_neg hn0]
  refine ⟨_, rfl, rfl, rfl, ?_, rfl, rfl, rfl, rfl, rfl⟩
  simp [set_area, h0]

/-- The result of `pdbstore_init_readonly_area` depends on the state through the host byte
order and the bank parameters beyond `num` only. -/
theorem init_readonly_area_congr (s s' : Store) (num : Nat) (bp : Nat → pdbstore_bank_params_t)
    (hn : num = 1 ∨ num = 2) (hh : s'.host_big_endian = s.host_big_endian)
    (hj : ∀ i, num ≤ i → s'.bank_params i = s.bank_params i) :
    pdbstore_init_readonly_area s' num bp =
      ((pdbstore_init_readonly_area s num bp).1,
        with_media (pdbstore_init_readonly_area s num bp).2 s'.mem s'.free_space_offset
          s'.initialized) := by
  have hb : (fun i => if i < num then bp i else s'.bank_params i) =
      (fun i => if i < num then bp i else s.bank_params i) := by
    funext i
    by_cases c : i < num
    · rw [if_pos c, if_pos c]
    · rw [if_neg c, if_neg c]; exact hj i (by omega)
  have hn0 : ¬ (num = 0 ∨ num > PDBSTORE_MAX_BANKS) := by
    unfold PDBSTORE_MAX_BANKS
    omega
  have h0 : (0 : Nat) < num := by omega
  unfold pdbstore_init_readonly_area with_media
  simp only [set_area, hh, hb, if_neg hn0, h0, if_true]

/-- The steps of a successful first part of `pdbstore_init`. -/
theorem init_layout_parts (s : Store) (num : Nat) (bp : Nat → pdbstore_bank_params_t)
    (t u : Store) (o : record_out)
    (hr : pdbstore_init_readonly_area s num bp = (PDBSTORE_SUCCESS, u))
    (h : init_layout s num bp = (PDBSTORE_SUCCESS, t, o)) :
    init_readonly_scan u = (PDBSTORE_SUCCESS, o) ∧
    init_areas u o.next_offset = (PDBSTORE_SUCCESS, t) := by
  unfold init_layout at h
  simp only at h
  rw [hr] at h
  simp only [ne_eq, not_true_eq_false, if_false] at h
  by_cases c : (init_readonly_scan u).1 = PDBSTORE_SUCCESS
  · rw [if_neg (by simpa using c)] at h
    have ho : (init_readonly_scan u).2 = o := (Prod.mk.inj (Prod.mk.inj h).2).2
    have hsc : init_readonly_scan u = (PDBSTORE_SUCCESS, o) := by
      rw [← ho, ← c]
    rw [ho] at h
    have e1 := (Prod.mk.inj h).1
    have e2 := (Prod.mk.inj (Prod.mk.inj h).2).1
    refine ⟨hsc, ?_⟩
    rw [← e1, ← e2]
  · rw [if_pos (by simpa using c)] at h
    exact absurd (Prod.mk.inj h).1 c

/-- The first part of `pdbstore_init`, when it succeeds on bank parameters in range: the
areas it computes are laid out as `layout` says, the read-only area ends where the scan
of its records ended, and nothing else of the state changes. -/
theorem init_layout_spec (s : Store) (num : Nat) (bp : Nat → pdbstore_bank_params_t)
    (t : Store) (o : record_out) (hbp : bp_ok num bp)
    (h : init_layout s num bp = (PDBSTORE_SUCCESS, t, o)) :
    layout t ∧ t.mem = s.mem ∧ t.host_big_endian = s.host_big_endian ∧
    t.big_endian = s.host_big_endian ∧ t.free_space_offset = s.free_space_offset ∧
    t.initialized = s.initialized ∧ t.num_banks = num ∧
    t.bank_params = (fun i => if i < num then bp i else s.bank_params i) ∧
    t.area_params AREA_INDEX_READONLY = { address := 0, size := o.next_offset, bank := 0 } ∧
    aerase t AREA_INDEX_WRITABLE < 256 ∧
    (num = 1 → (t.area_params AREA_INDEX_WRITABLE).address = o.next_offset) ∧
    (num = 2 → (t.area_params AREA_INDEX_WRITABLE).address = 0) ∧ 8 ≤ o.next_offset := by
  have h0 : (0 : Nat) < num := by have := hbp.1; omega
  obtain ⟨b1, b2, b3⟩ := hbp.2 0 h0
  obtain ⟨u, hr, u1, u2, u3, u4, u5, u6, u7, u8⟩ := init_readonly_area_spec s num bp hbp.1
  obtain ⟨hsc, ha⟩ := init_layout_parts s num bp t u o hr h
  have hnw : area_nowrap u AREA_INDEX_READONLY := by
    unfold area_nowrap abase asize
    rw [u3, u2]
    simp only [h0, if_true]
    omega
  obtain ⟨_, hbound, hlow⟩ := init_readonly_scan_congr (same_cfg_refl u) hnw (by rw [u3]) o hsc
    (Or.inr rfl) (fun _ _ => rfl)
  have hbp2 : bp_ok u.num_banks u.bank_params := by
    rw [u1, u2]
    refine ⟨hbp.1, fun i hi => ?_⟩
    simp only [hi, if_true]
    exact hbp.2 i hi
  have hro : o.next_offset ≤ (u.bank_params 0).bank_size := by
    unfold asize at hbound
    rw [u3] at hbound
    rw [u2]
    simp only [h0, if_true]
    exact hbound
  obtain ⟨l, t1, t2, t3, t4, t5, t6, t7, t8, t9, t10, t11⟩ :=
    init_areas_spec u o.next_offset t hbp2 (by rw [u3]) (by rw [u3]) hro ha
  exact ⟨l, t1.trans u4, t2.trans u6, t3.trans u5, t4.trans u7, t5.trans u8, t6.trans u1,
    t7.trans u2, t8, t9, fun e => t10 (u1.trans e), fun e => t11 (u1.trans e), hlow⟩

/-- The first part of `pdbstore_init` gives the same areas on a state that differs from `s`
in cells outside the read-only area, in `free_space_offset`, `initialized` and the
configuration that `pdbstore_init` overwrites, when the master record holds the two bytes
of `num_keys`. -/
theorem init_layout_congr (s s' : Store) (num : Nat) (bp : Nat → pdbstore_bank_params_t)
    (t : Store) (o : record_out) (hbp : bp_ok num bp)
    (h : init_layout s num bp = (PDBSTORE_SUCCESS, t, o))
    (hm : 2 ≤ hdr_data_size t AREA_INDEX_READONLY 0)
    (hh : s'.host_big_endian = s.host_big_endian)
    (hj : ∀ i, num ≤ i → s'.bank_params i = s.bank_params i)
    (hcells : ∀ x, x < asize t AREA_INDEX_READONLY →
      s'.mem (t.area_params AREA_INDEX_READONLY).bank (abase t AREA_INDEX_READONLY + x) =
        acell t AREA_INDEX_READONLY x) :
    init_layout s' num bp =
      (PDBSTORE_SUCCESS, with_media t s'.mem s'.free_space_offset s'.initialized, o) := by
  have h0 : (0 : Nat) < num := by have := hbp.1; omega
  obtain ⟨b1, b2, b3⟩ := hbp.2 0 h0
  obtain ⟨u, hr, u1, u2, u3, u4, u5, u6, u7, u8⟩ := init_readonly_area_spec s num bp hbp.1
  obtain ⟨hsc, ha⟩ := init_layout_parts s num bp t u o hr h
  obtain ⟨l, t1, t2, t3, t4, t5, t6, t7, t8, t9, t10, t11⟩ := init_layout_spec s num bp t o hbp h
  have hnw : area_nowrap u AREA_INDEX_READONLY := by
    unfold area_nowrap abase asize
    rw [u3, u2]
    simp only [h0, if_true]
    omega
  have hab : abase t AREA_INDEX_READONLY = abase u AREA_INDEX_READONLY := by
    unfold abase
    rw [t8, u3, t7, u2]
  have hce : ∀ x, acell t AREA_INDEX_READONLY x = acell u AREA_INDEX_READONLY x := by
    intro x
    unfold acell
    rw [hab, t8, u3, t1, u4]
  have hm2 : 2 ≤ hdr_data_size u AREA_INDEX_READONLY 0 := by
    unfold hdr_data_size at hm ⊢
    rw [hce, hce, t3, t2] at hm
    rw [u5, u6]
    exact hm
  have e2 : init_readonly_scan { u with mem := s'.mem } = (PDBSTORE_SUCCESS, o) := by
    refine (init_readonly_scan_congr (show same_cfg u { u with mem := s'.mem } from
      ⟨rfl, rfl, rfl, rfl, rfl, rfl, rfl⟩) hnw (by rw [u3]) o hsc (Or.inl hm2) ?_).1
    intro x hx
    have := hcells x (by unfold asize; rw [t8]; exact hx)
    rw [hce, t8, hab] at this
    unfold acell abase
    simp only
    rw [u3]
    unfold acell abase at this
    rw [u3] at this
    exact this
  have e1 : init_readonly_scan (with_media u s'.mem s'.free_space_offset s'.initialized) =
      (PDBSTORE_SUCCESS, o) := by
    rw [← e2]
    exact init_readonly_scan_flags { u with mem := s'.mem } s'.free_space_offset s'.initialized
  unfold init_layout
  simp only
  rw [init_readonly_area_congr s s' num bp hbp.1 hh hj, hr]
  simp only [ne_eq, not_true_eq_false, if_false]
  rw [e1]
  simp only [not_true_eq_false, if_false]
  rw [init_areas_mem, ha]

/-- Whatever `pdbstore_do_set` does in the steady state, without the delete flag or with
just that flag, it leaves the store in a steady state, with the configuration and the
read-only area as they were. -/
theorem do_set_steady (s : Store) (log : List log_rec) (key data : List Nat) (n flags : Nat)
    (hs : steady s log) (hdf : flags = DELETE_FLAG ∨ flags &&& DELETE_FLAG = 0) :
    ∃ log', steady (pdbstore_do_set s key (data_buf.buf data) n flags).2 log' ∧
      frame s (pdbstore_do_set s key (data_buf.buf data) n flags).2 := by
  by_cases ha : is_valid_key key = false ∨ n > PDBSTORE_MAX_DATA_SIZE
  · refine ⟨log, ?_, ?_⟩ <;> (unfold pdbstore_do_set; rw [if_pos ha])
    · exact hs
    · exact frame_refl s
  by_cases hi : s.initialized = false
  · refine ⟨log, ?_, ?_⟩ <;> (unfold pdbstore_do_set; rw [if_neg ha, if_pos hi])
    · exact hs
    · exact frame_refl s
  have hk : is_valid_key key = true := by
    cases h : is_valid_key key
    · exact absurd (Or.inl h) ha
    · rfl
  have hn : n ≤ 1024 := by
    unfold PDBSTORE_MAX_DATA_SIZE at ha
    omega
  have hi1 : s.initialized = true := by
    cases h : s.initialized
    · exact absurd h hi
    · rfl
  -- a call that returns early leaves the state alone
  have early : ∀ ret, do_set_target s key (data_buf.buf data) n flags = Except.error ret →
      ∃ log', steady (pdbstore_do_set s key (data_buf.buf data) n flags).2 log' ∧
        frame s (pdbstore_do_set s key (data_buf.buf data) n flags).2 := by
    intro ret ht
    rw [do_set_of_target_error s key _ n flags ret hi1 hk hn ht]
    exact ⟨log, hs, frame_refl s⟩
  rcases hro : (ro_find s key).1 with _ | ret
  · rcases find_record_steady s log key hs hro with ⟨pre, r, post, hlog, hpre, hr, hfind⟩ | ⟨hnew, out', hfind⟩
    · subst hlog
      rcases hdf with hd | hd
      · subst hd
        obtain ⟨s', e, st, fr, _⟩ := do_set_remove_steady s pre post r key (data_buf.buf data) n hs hi1 hk hn hro hpre hr
        rw [e]
        exact ⟨_, st, fr⟩
      · by_cases hsz : n = r.data.length
        · obtain ⟨s', e, st, fr, _⟩ := do_set_replace_steady s pre post r key data n flags hs hi1 hk hn hd hro hpre hr hsz
          rw [e]
          exact ⟨_, st, fr⟩
        · rw [do_set_mismatch_steady s pre post r key _ n flags hs hi1 hk hn hd hro hpre hr hsz]
          exact ⟨_, hs, frame_refl s⟩
    · rcases hdf with hd | hd
      · apply early PDBSTORE_NOT_FOUND
        unfold do_set_target
        simp only [hfind]
        subst hd
        have hd2 : DELETE_FLAG &&& DELETE_FLAG ≠ 0 := by decide
        have hd3 : DELETE_FLAG ≠ 0 := by decide
        simp [hd2, hd3]
      · by_cases hfit : log_size log + (8 + strlen key + n) ≤ asize s AREA_INDEX_WRITABLE
        · obtain ⟨s', e, st, fr⟩ := do_set_append_steady s log key data n flags hs hi1 hk hn hd hro hnew hfit
          rw [e]
          exact ⟨_, st, fr⟩
        · rw [do_set_full_steady s log key _ n flags hs hi1 hk hn hd hro hnew hfit]
          exact ⟨_, hs, frame_refl s⟩
  · have hf := find_record_ro s key ret hro
    rcases find_record_loop_status s key AREA_INDEX_READONLY _ _ _ ret hro with h | h | h | h
    · apply early PDBSTORE_KEY_IS_READONLY
      unfold do_set_target
      simp [hf, h]
    all_goals
      apply early ret
      unfold do_set_target
      simp [hf, h]

theorem store_eta (s : Store) : { s with free_space_offset := s.free_space_offset } = s := by
  cases s; rfl

/-- A state with the configuration of `t` is `t` with the media, `free_space_offset` and
`initialized` of the state. -/
theorem mounted_eq {t s : Store} (h : mounted t s) :
    with_media t s.mem s.free_space_offset s.initialized = s := by
  obtain ⟨h1, h2, h3, h4, h5, _⟩ := h
  cases s
  cases t
  simp only at h1 h2 h3 h4 h5
  subst h1 h2 h3 h4 h5
  rfl

theorem mounted_of_frame {t s s' : Store} (h : mounted t s) (hf : frame s s') : mounted t s' := by
  obtain ⟨f1, f2, f3, f4, f5, f6, f7⟩ := hf
  refine ⟨f1.trans h.nb, f2.trans h.bk, f3.trans h.ar, f5.trans h.be, f6.trans h.hb, ?_⟩
  intro x hx
  rw [f7 x (by unfold asize at hx ⊢; rw [h.ar]; exact hx)]
  exact h.ro x hx

/-- The first part of `pdbstore_init` on a reachable state gives the layout of the first
mount. -/
theorem init_layout_mounted (num : Nat) (bp : Nat → pdbstore_bank_params_t) (s0 s t : Store)
    (o : record_out) (hp : bp_ok num bp)
    (hL : init_layout s0 num bp = (PDBSTORE_SUCCESS, t, o))
    (hmas : 2 ≤ hdr_data_size t AREA_INDEX_READONLY 0) (hm : mounted t s) :
    init_layout s num bp = (PDBSTORE_SUCCESS, s, o) := by
  obtain ⟨l, t1, t2, t3, t4, t5, t6, t7, t8, t9, t10, t11⟩ :=
    init_layout_spec s0 num bp _ _ hp hL
  have h := init_layout_congr s0 s num bp _ _ hp hL hmas (by rw [hm.hb, t2])
    (by
      intro i hi
      rw [hm.bk, t7]
      simp only
      rw [if_neg (by omega)])
    (by
      intro x hx
      have := hm.ro x hx
      unfold acell abase at this ⊢
      rw [hm.ar, hm.bk] at this
      exact this)
  rw [h, mounted_eq hm]

/-- The layout of a fresh media, with the facts `fresh` states about it. -/
theorem fresh_layout (num : Nat) (bp : Nat → pdbstore_bank_params_t) (s0 t : Store)
    (o : record_out) (hf : fresh num bp s0)
    (hL : init_layout s0 num bp = (PDBSTORE_SUCCESS, t, o)) :
    2 ≤ hdr_data_size t AREA_INDEX_READONLY 0 ∧
    ∀ x, x < asize t AREA_INDEX_WRITABLE + 1048 →
      acell t AREA_INDEX_WRITABLE x = aerase t AREA_INDEX_WRITABLE := by
  have h1 := hf.master
  have h2 := hf.blank
  rw [hL] at h1 h2
  exact ⟨h1, h2⟩

theorem mounted_aerase (num : Nat) (bp : Nat → pdbstore_bank_params_t) (s0 s t : Store)
    (o : record_out) (hp : bp_ok num bp)
    (hL : init_layout s0 num bp = (PDBSTORE_SUCCESS, t, o)) (hm : mounted t s) :
    aerase s AREA_INDEX_WRITABLE < 256 ∧
    (num = 1 → 8 ≤ (s.area_params AREA_INDEX_WRITABLE).address) ∧
    (num = 2 → (s.area_params AREA_INDEX_WRITABLE).address = 0) := by
  obtain ⟨l, t1, t2, t3, t4, t5, t6, t7, t8, t9, t10, t11, t12⟩ :=
    init_layout_spec s0 num bp _ _ hp hL
  refine ⟨?_, ?_, ?_⟩
  · unfold aerase at t9 ⊢
    rw [hm.ar, hm.bk]
    exact t9
  · intro h1
    rw [hm.ar, t10 h1]
    exact t12
  · intro h2
    rw [hm.ar, t11 h2]

/-- The function `pdbstore_init` on a state that is not initialized, has the configuration of
the first mount and a media in the steady state: it finds `free_space_offset` behind the
records and writes nothing; or it ends with a read error, which takes a writable area that
does not start at address 0 and less than 24 free bytes. -/
theorem init_mounted (num : Nat) (bp : Nat → pdbstore_bank_params_t) (s0 s t : Store)
    (o : record_out) (log : List log_rec) (hp : bp_ok num bp)
    (hL : init_layout s0 num bp = (PDBSTORE_SUCCESS, t, o))
    (hmas : 2 ≤ hdr_data_size t AREA_INDEX_READONLY 0) (hm : mounted t s)
    (hs : steady { s with free_space_offset := log_size log } log)
    (hi : s.initialized = false) :
    pdbstore_init s num bp =
      (PDBSTORE_SUCCESS, { s with free_space_offset := log_size log, initialized := true }) ∨
    (∃ f, pdbstore_init s num bp = (PDBSTORE_READ_ERROR, { s with free_space_offset := f }) ∧
      (s.area_params AREA_INDEX_WRITABLE).address ≠ 0 ∧
      asize s AREA_INDEX_WRITABLE < log_size log + 24) := by
  have h := init_layout_mounted num bp s0 s t o hp hL hmas hm
  have hev := (mounted_aerase num bp s0 s t o hp hL hm).1
  unfold pdbstore_init
  rw [if_neg (by rw [hi]; simp)]
  simp only [h, ne_eq, not_true_eq_false, if_false]
  exact init_recover_steady s log _ hs hev

/-- Flags that pass the test of `pdbstore_set` do not hold the delete flag. -/
theorem user_flags_no_delete (flags : Nat)
    (h : ¬ flags &&& (0xFFFFFFFF ^^^ SUPPORTED_USER_FLAGS) ≠ 0) : flags &&& DELETE_FLAG = 0 := by
  have h1 : flags &&& 254 = 0 := by
    by_contra c
    exact h (flags_mask flags c)
  have h2 : (flags &&& 254) &&& DELETE_FLAG = flags &&& DELETE_FLAG := by
    rw [Nat.land_assoc]
    rfl
  rw [← h2, h1]
  simp

/-- The first successful `pdbstore_init` on a fresh media leaves an initialized store in the
steady state with no record. -/
theorem inv_mount (num : Nat) (bp : Nat → pdbstore_bank_params_t) (s0 : Store)
    (hf : fresh num bp s0) (h : (pdbstore_init s0 num bp).1 = PDBSTORE_SUCCESS) :
    ∃ t o, init_layout s0 num bp = (PDBSTORE_SUCCESS, t, o) ∧
      pdbstore_init s0 num bp =
        (PDBSTORE_SUCCESS, { t with free_space_offset := 0, initialized := true }) ∧
      steady { t with free_space_offset := 0 } [] := by
  have hu := hf.uninit
  have hl : (init_layout s0 num bp).1 = PDBSTORE_SUCCESS := by
    by_contra c
    unfold pdbstore_init at h
    rw [if_neg (by rw [hu]; simp)] at h
    simp only [ne_eq, c, not_false_eq_true, if_true] at h
  obtain ⟨t, o, hL⟩ : ∃ t o, init_layout s0 num bp = (PDBSTORE_SUCCESS, t, o) :=
    ⟨(init_layout s0 num bp).2.1, (init_layout s0 num bp).2.2, by rw [← hl]⟩
  obtain ⟨l, t1, t2, t3, t4, t5, t6, t7, t8, t9, t10, t11, t12⟩ :=
    init_layout_spec s0 num bp _ _ hf.params hL
  obtain ⟨_, hbl⟩ := fresh_layout num bp s0 t o hf hL
  have hst : steady { t with free_space_offset := 0 } [] := by
    refine ⟨layout_congr l rfl rfl, ?_, trivial, rfl, Nat.zero_le _, ?_, ?_⟩
    · intro r hr
      simp at hr
    · intro x _ hx
      exact hbl x (by unfold asize at hx ⊢; simp only at hx; omega)
    · intro x hx
      have h1 := wr_cell_staging _ l x
      have h2 := wr_aerase_staging _ l
      have h3 := hbl (asize t AREA_INDEX_WRITABLE + x)
        (by have := l.st_size; unfold asize at hx this ⊢; simp only at hx; omega)
      rw [h1] at h3
      rw [← h2] at h3
      exact h3
  refine ⟨t, o, hL, ?_, hst⟩
  rcases init_recover_steady t [] o hst t9 with e | ⟨f, _, _, hz⟩
  · unfold pdbstore_init
    rw [if_neg (by rw [hu]; simp)]
    simp only [hL, ne_eq, not_true_eq_false, if_false]
    exact e
  · have := l.wr_size
    simp only [log_size] at hz
    omega

/-- The function `pdbstore_init` looks at the first `num` bank parameters only. -/
theorem init_params_congr (s : Store) (num : Nat) (bp bp' : Nat → pdbstore_bank_params_t)
    (h : ∀ i, i < num → bp' i = bp i) : pdbstore_init s num bp' = pdbstore_init s num bp := by
  have e : pdbstore_init_readonly_area s num bp' = pdbstore_init_readonly_area s num bp := by
    unfold pdbstore_init_readonly_area
    by_cases c : num = 0 ∨ num > PDBSTORE_MAX_BANKS
    · simp only [if_pos c]
    · simp only [if_neg c]
      have h0 : (0 : Nat) < num := by omega
      have hb : (fun i => if i < num then bp' i else s.bank_params i) =
          (fun i => if i < num then bp i else s.bank_params i) := by
        funext i
        by_cases ci : i < num
        · rw [if_pos ci, if_pos ci, h i ci]
        · rw [if_neg ci, if_neg ci]
      rw [hb]
      simp only [h0, if_true, h 0 h0]
  unfold pdbstore_init init_layout
  rw [e]

/-- The function `pdbstore_reset` on an initialized store in the steady state with the
configuration of the first mount: the writable area is erased and the store is mounted
again, with no record. -/
theorem reset_mounted (num : Nat) (bp : Nat → pdbstore_bank_params_t) (s0 s t : Store)
    (o : record_out) (log : List log_rec) (hp : bp_ok num bp)
    (hL : init_layout s0 num bp = (PDBSTORE_SUCCESS, t, o))
    (hmas : 2 ≤ hdr_data_size t AREA_INDEX_READONLY 0) (hm : mounted t s) (hs : steady s log)
    (hi : s.initialized = true) :
    ∃ s', pdbstore_reset s = (PDBSTORE_SUCCESS, s') ∧ steady s' [] ∧ frame s s' ∧
      s'.free_space_offset = 0 ∧
      ∀ x, x < asize s AREA_INDEX_WRITABLE →
        acell s' AREA_INDEX_WRITABLE x = aerase s AREA_INDEX_WRITABLE := by
  obtain ⟨l, t1, t2, t3, t4, t5, t6, t7, t8, t9, t10, t11, t12⟩ :=
    init_layout_spec s0 num bp _ _ hp hL
  have lay := hs.lay
  obtain ⟨r1, rc, rw_, rm⟩ := reset_area_mem s AREA_INDEX_WRITABLE 0 lay.wr_ok (Nat.zero_le _)
  obtain ⟨c1, c2, c3, c4, c5, c6, c7⟩ := rc
  obtain ⟨r, hr⟩ : ∃ r, (reset_area s AREA_INDEX_WRITABLE 0).2 = r := ⟨_, rfl⟩
  rw [hr] at c1 c2 c3 c4 c5 c6 c7 rm
  simp only [hr] at rw_
  have hmx : mounted t { r with initialized := false } := by
    refine ⟨c1.trans hm.nb, c2.trans hm.bk, c3.trans hm.ar, c5.trans hm.be, c7.trans hm.hb, ?_⟩
    intro x hx
    rw [← hm.ro x hx]
    unfold acell abase
    simp only
    rw [c2, c3]
    apply rm
    intro ⟨e1, e2, e3⟩
    have hx2 : x < asize s AREA_INDEX_READONLY := by
      unfold asize at hx ⊢
      rw [hm.ar]
      exact hx
    rcases lay.ro_disj with d | d
    · exact d e1
    · unfold abase at d e2
      omega
  have hst : steady { ({ r with initialized := false } : Store) with free_space_offset := log_size [] } [] := by
    refine ⟨layout_congr lay c2 c3, ?_, trivial, rfl, Nat.zero_le _, ?_, ?_⟩
    · intro q hq
      simp at hq
    · intro x _ hx
      have hx2 : x < asize s AREA_INDEX_WRITABLE := by
        unfold asize at hx ⊢
        simp only at hx
        rw [c3] at hx
        exact hx
      have := rw_ x (Nat.zero_le _) hx2
      unfold acell abase aerase at this ⊢
      simp only
      rw [c2, c3] at this ⊢
      exact this
    · intro x hx
      have hx2 : x < asize s AREA_INDEX_STAGING := by
        unfold asize at hx ⊢
        simp only at hx
        rw [c3] at hx
        exact hx
      have h1 := hs.staging x hx2
      unfold acell abase aerase at h1 ⊢
      simp only
      rw [c2, c3, ← h1]
      apply rm
      intro ⟨e1, e2, e3⟩
      have := lay.st_base
      unfold abase at this e2 e3
      omega
  have e0 : pdbstore_reset s = pdbstore_init { r with initialized := false } num bp := by
    unfold pdbstore_reset
    rw [if_neg (by rw [hi]; simp)]
    simp only [hr, r1, ne_eq, not_true_eq_false, if_false, pdbstore_deinit]
    rw [c1, hm.nb, t6]
    apply init_params_congr
    intro i hi
    rw [c2, hm.bk, t7]
    simp only [hi, if_true]
  rcases init_mounted num bp s0 _ t o [] hp hL hmas hmx hst rfl with e | ⟨f, _, _, hz⟩
  · refine ⟨_, e0.trans e, ?_, ?_, rfl, ?_⟩
    · exact steady_congr hst rfl rfl rfl rfl rfl rfl
    · refine ⟨c1, c2, c3, hi.symm, c5, c7, ?_⟩
      intro x hx
      have hx2 : x < asize t AREA_INDEX_READONLY := by
        unfold asize at hx ⊢
        rw [← hm.ar]
        exact hx
      have h1 := hmx.ro x hx2
      rw [hm.ro x hx2, ← h1]
      rfl
    · intro x hx
      have := rw_ x (Nat.zero_le _) hx
      unfold acell abase at this ⊢
      simp only
      rw [c2, c3] at this ⊢
      exact this
  · have := lay.wr_size
    unfold asize at this hz
    simp only [log_size] at hz
    rw [c3] at hz
    omega

theorem inv_do_set (num : Nat) (bp : Nat → pdbstore_bank_params_t) (s0 s : Store)
    (key data : List Nat) (n flags : Nat) (hinv : store_inv num bp s0 s)
    (hdf : flags = DELETE_FLAG ∨ flags &&& DELETE_FLAG = 0) :
    store_inv num bp s0 (pdbstore_do_set s key (data_buf.buf data) n flags).2 := by
  obtain ⟨t, o, log, hL, hm, hs, hfs⟩ := hinv
  by_cases hi : s.initialized = true
  · have e : ({ s with free_space_offset := log_size log } : Store) = s := by
      rw [← hfs hi]
    rw [e] at hs
    obtain ⟨log', st, fr⟩ := do_set_steady s log key data n flags hs hdf
    refine ⟨t, o, log', hL, mounted_of_frame hm fr, ?_, fun _ => st.fso⟩
    rw [← st.fso]
    exact st
  · have e : (pdbstore_do_set s key (data_buf.buf data) n flags).2 = s := by
      unfold pdbstore_do_set
      by_cases c : is_valid_key key = false ∨ n > PDBSTORE_MAX_DATA_SIZE
      · rw [if_pos c]
      · rw [if_neg c, if_pos (by simpa using hi)]
    rw [e]
    exact ⟨t, o, log, hL, hm, hs, hfs⟩

/-- Every call of a public function keeps the invariant of the reachable states. -/
theorem inv_step (num : Nat) (bp : Nat → pdbstore_bank_params_t) (s0 s s' : Store)
    (hf : fresh num bp s0) (hinv : store_inv num bp s0 s) (hst : op_step num bp s s') :
    store_inv num bp s0 s' := by
  cases hst with
  | set key data n flags =>
    unfold pdbstore_set
    by_cases c : flags &&& (0xFFFFFFFF ^^^ SUPPORTED_USER_FLAGS) ≠ 0
    · rw [if_pos c]
      exact hinv
    · rw [if_neg c]
      exact inv_do_set num bp s0 s key data n flags hinv (Or.inr (user_flags_no_delete flags c))
  | remove key =>
    unfold pdbstore_remove
    exact inv_do_set num bp s0 s key [] 0 DELETE_FLAG hinv (Or.inl rfl)
  | reset =>
    by_cases hi : s.initialized = true
    · obtain ⟨t, o, log, hL, hm, hs, hfs⟩ := hinv
      have e : ({ s with free_space_offset := log_size log } : Store) = s := by
        rw [← hfs hi]
      rw [e] at hs
      obtain ⟨hmas, _⟩ := fresh_layout num bp s0 t o hf hL
      obtain ⟨r, e1, st, fr, _, _⟩ := reset_mounted num bp s0 s t o log hf.params hL hmas hm hs hi
      rw [e1]
      refine ⟨t, o, [], hL, mounted_of_frame hm fr, ?_, fun _ => st.fso⟩
      rw [← st.fso]
      exact st
    · have e : pdbstore_reset s = (PDBSTORE_NOT_INITIALIZED, s) := by
        unfold pdbstore_reset
        rw [if_pos (by simpa using hi)]
      rw [e]
      exact hinv
  | deinit =>
    obtain ⟨t, o, log, hL, hm, hs, hfs⟩ := hinv
    refine ⟨t, o, log, hL, ⟨hm.nb, hm.bk, hm.ar, hm.be, hm.hb, hm.ro⟩,
      steady_congr hs rfl rfl rfl rfl rfl rfl, ?_⟩
    intro h
    simp [pdbstore_deinit] at h
  | init =>
    by_cases hi : s.initialized = true
    · have e : pdbstore_init s num bp = (PDBSTORE_SUCCESS, s) := by
        unfold pdbstore_init
        rw [if_pos hi]
      rw [e]
      exact hinv
    · obtain ⟨t, o, log, hL, hm, hs, hfs⟩ := hinv
      obtain ⟨hmas, _⟩ := fresh_layout num bp s0 t o hf hL
      rcases init_mounted num bp s0 s t o log hf.params hL hmas hm hs (by simpa using hi)
        with e | ⟨f, e, _, _⟩
      · rw [e]
        exact ⟨t, o, log, hL, ⟨hm.nb, hm.bk, hm.ar, hm.be, hm.hb, hm.ro⟩,
          steady_congr hs rfl rfl rfl rfl rfl rfl, fun _ => rfl⟩
      · rw [e]
        refine ⟨t, o, log, hL, ⟨hm.nb, hm.bk, hm.ar, hm.be, hm.hb, hm.ro⟩,
          steady_congr hs rfl rfl rfl rfl rfl rfl, ?_⟩
        intro h
        exact absurd h hi

/-- The reachable states of a store that was first mounted on a fresh media satisfy the
invariant. -/
theorem reachable_inv (num : Nat) (bp : Nat → pdbstore_bank_params_t) (s0 s : Store)
    (hf : fresh num bp s0) (hr : reachable num bp s0 s) : store_inv num bp s0 s := by
  induction hr with
  | mount h =>
    obtain ⟨t, o, hL, e, hst⟩ := inv_mount num bp s0 hf h
    rw [e]
    exact ⟨t, o, [], hL, ⟨rfl, rfl, rfl, rfl, rfl, fun _ _ => rfl⟩,
      steady_congr hst rfl rfl rfl rfl rfl rfl, fun _ => rfl⟩
  | step s s' _ hst ih => exact inv_step num bp s0 s s' hf ih hst

/-- An initialized reachable state is in the steady state. -/
theorem reachable_steady (num : Nat) (bp : Nat → pdbstore_bank_params_t) (s0 s : Store)
    (hf : fresh num bp s0) (hr : reachable num bp s0 s) (hi : s.initialized = true) :
    ∃ log, steady s log := by
  obtain ⟨t, o, log, hL, hm, hs, hfs⟩ := reachable_inv num bp s0 s hf hr
  have e : ({ s with free_space_offset := log_size log } : Store) = s := by
    rw [← hfs hi]
  rw [e] at hs
  exact ⟨log, hs⟩

/-- A call of `pdbstore_do_set` for a key at which the scan of the read-only area ends: the
key is read-only when the scan found it, else the status of the scan is returned; the state
is left alone. -/
theorem do_set_ro (s : Store) (key : List Nat) (data : data_buf) (n flags : Nat)
    (ret : PDBSTORE_status_e) (hi : s.initialized = true) (hk : is_valid_key key = true)
    (hn : n ≤ 1024) (hro : (ro_find s key).1 = some ret) :
    pdbstore_do_set s key data n flags =
      (if ret = PDBSTORE_SUCCESS then PDBSTORE_KEY_IS_READONLY else ret, s) := by
  have hf := find_record_ro s key ret hro
  rcases find_record_loop_status s key AREA_INDEX_READONLY _ _ _ ret hro with h | h | h | h
  · rw [if_pos h]
    apply do_set_of_target_error s key data n flags _ hi hk hn
    unfold do_set_target
    simp [hf, h]
  all_goals
    rw [if_neg (by rw [h]; simp)]
    apply do_set_of_target_error s key data n flags _ hi hk hn
    unfold do_set_target
    simp [hf, h]

/-- In the steady state, a `pdbstore_set` with no flag or the resilient flag that returns
success is followed by a `pdbstore_get` that returns the data. -/
theorem set_get_steady (s : Store) (log : List log_rec) (key data : List Nat) (n flags : Nat)
    (hs : steady s log) (hfl : flags = 0 ∨ flags = 1) (hd : data.length = n)
    (hset : (pdbstore_set s key data n flags).1 = PDBSTORE_SUCCESS) :
    (pdbstore_get (pdbstore_set s key data n flags).2 key).1 = PDBSTORE_SUCCESS ∧
    (pdbstore_get (pdbstore_set s key data n flags).2 key).2.2 = n ∧
    mem_read (pdbstore_set s key data n flags).2
      (pdbstore_get (pdbstore_set s key data n flags).2 key).2.1.bank
      (pdbstore_get (pdbstore_set s key data n flags).2 key).2.1.addr n = data := by
  rw [set_eq_do_set s key data n flags hfl] at hset ⊢
  obtain ⟨hk, hn, hi⟩ := do_set_success_args s key _ n flags hset
  obtain ⟨hf1, hf2⟩ := flags_no_delete flags hfl
  -- the record the call leaves, as the first record with the key
  have fin : ∀ s' pre post, pdbstore_do_set s key (data_buf.buf data) n flags = (PDBSTORE_SUCCESS, s') →
      steady s' (pre ++ { key := cstr key, data := buf_bytes s (data_buf.buf data) n,
                          flags := flags % 256 } :: post) →
      frame s s' → (ro_find s key).1 = none → (∀ q, q ∈ pre → q.key ≠ cstr key) →
      (pdbstore_get (pdbstore_do_set s key (data_buf.buf data) n flags).2 key).1 = PDBSTORE_SUCCESS ∧
      (pdbstore_get (pdbstore_do_set s key (data_buf.buf data) n flags).2 key).2.2 = n ∧
      mem_read (pdbstore_do_set s key (data_buf.buf data) n flags).2
        (pdbstore_get (pdbstore_do_set s key (data_buf.buf data) n flags).2 key).2.1.bank
        (pdbstore_get (pdbstore_do_set s key (data_buf.buf data) n flags).2 key).2.1.addr n = data := by
    intro s' pre post e st fr hro hpre
    rw [e]
    simp only []
    have hi2 : s'.initialized = true := by rw [fr.2.2.2.1]; exact hi
    have hro2 : (ro_find s' key).1 = none := by rw [ro_find_frame hs.lay fr]; exact hro
    obtain ⟨g1, g2⟩ := get_found_steady s' pre post _ key st hi2 hk hro2 hpre rfl
    simp only [] at g1 g2
    rw [if_neg (by rw [hf2]; simp)] at g1
    rw [buf_bytes_length] at g1 g2
    rw [buf_bytes_buf s data n hd] at g2
    rw [g1]
    exact ⟨rfl, rfl, g2⟩
  rcases hro : (ro_find s key).1 with _ | ret
  · rcases find_record_steady s log key hs hro with ⟨pre, r, post, hlog, hpre, hr, hfind⟩ | ⟨hnew, out', hfind⟩
    · subst hlog
      by_cases hsz : n = r.data.length
      · obtain ⟨s', e, st, fr, _⟩ := do_set_replace_steady s pre post r key data n flags hs hi hk hn hf1 hro hpre hr hsz
        rw [hr] at st
        exact fin s' pre post e st fr hro hpre
      · rw [do_set_mismatch_steady s pre post r key _ n flags hs hi hk hn hf1 hro hpre hr hsz] at hset
        simp at hset
    · by_cases hfit : log_size log + (8 + strlen key + n) ≤ asize s AREA_INDEX_WRITABLE
      · obtain ⟨s', e, st, fr⟩ := do_set_append_steady s log key data n flags hs hi hk hn hf1 hro hnew hfit
        exact fin s' log [] e st fr hro hnew
      · rw [do_set_full_steady s log key _ n flags hs hi hk hn hf1 hro hnew hfit] at hset
        simp at hset
  · rw [do_set_ro s key _ n flags ret hi hk hn hro] at hset
    simp only at hset
    by_cases c : ret = PDBSTORE_SUCCESS
    · rw [if_pos c] at hset
      simp at hset
    · rw [if_neg c] at hset
      exact absurd hset c

/-- Claim C1 (amended): for every state reached by a successful first `pdbstore_init` on a
fresh media (bank parameters in range, a master record with its two data bytes, writable
and staging area erased) followed by any sequence of `pdbstore_set`, `pdbstore_remove`,
`pdbstore_reset`, `pdbstore_deinit` and `pdbstore_init` with the same bank parameters: if
`pdbstore_set(key, data, n, flags)` with `flags` 0 or RESILIENT and a buffer of `n` bytes
returns success, then the following `pdbstore_get(key)` returns success, the size `n` and a
pointer to bytes equal to `data`. -/
theorem set_get_round_trip (num : Nat) (bp : Nat → pdbstore_bank_params_t) (s0 s : Store)
    (key data : List Nat) (n flags : Nat) (hf : fresh num bp s0)
    (hr : reachable num bp s0 s) (hfl : flags = 0 ∨ flags = 1) (hd : data.length = n)
    (hset : (pdbstore_set s key data n flags).1 = PDBSTORE_SUCCESS) :
    (pdbstore_get (pdbstore_set s key data n flags).2 key).1 = PDBSTORE_SUCCESS ∧
    (pdbstore_get (pdbstore_set s key data n flags).2 key).2.2 = n ∧
    mem_read (pdbstore_set s key data n flags).2
      (pdbstore_get (pdbstore_set s key data n flags).2 key).2.1.bank
      (pdbstore_get (pdbstore_set s key data n flags).2 key).2.1.addr n = data := by
  have hi : s.initialized = true := by
    rw [set_eq_do_set s key data n flags hfl] at hset
    exact (do_set_success_args s key _ n flags hset).2.2
  obtain ⟨log, hs⟩ := reachable_steady num bp s0 s hf hr hi
  exact set_get_steady s log key data n flags hs hfl hd hset

/-- The scan of `pdbstore_init` moves over records of the log that are not replayed from the
staging area: it goes on behind them, with `free_space_offset` there. -/
theorem init_scan_prefix (sk : List Nat) (sp : media_ptr) (sn sf : Nat) :
    ∀ (l : List log_rec) (r : log_rec) (o fuel : Nat) (out : record_out) (sv : Bool) (nx : Nat)
      (s : Store),
      layout s → log_at s AREA_INDEX_WRITABLE o (r :: l) → (∀ q, q ∈ r :: l → log_rec_ok q) →
      o + log_size (r :: l) ≤ asize s AREA_INDEX_WRITABLE →
      (sv = true → ∀ q, q ∈ r :: l → q.key ≠ cstr sk) →
      ∃ out', init_scan sk sp sn sf (fuel + (l.length + 1)) s o out sv nx =
        init_scan sk sp sn sf fuel { s with free_space_offset := o + log_size (r :: l) }
          (o + log_size (r :: l)) out' sv nx := by
  intro l
  induction l with
  | nil =>
    intro r o fuel out sv nx s hl hat hok hfit hkey
    have hnw := area_ok_nowrap hl.wr_ok
    have hrok := hok r (List.mem_cons_self _ _)
    have hsz : log_size [r] = log_rec_size r := by simp [log_size]
    rw [hsz] at hfit ⊢
    have h9 : 9 ≤ log_rec_size r := by
      unfold log_rec_size; have := hrok.1; omega
    have ho : o < (s.area_params AREA_INDEX_WRITABLE).size := by unfold asize at hfit; omega
    have hrd := read_record_log s AREA_INDEX_WRITABLE o r { out with next_offset := s.free_space_offset }
      hnw hrok (by omega) hat.1
    simp only [List.length_nil, Nat.zero_add]
    rw [init_scan_skip sk sp sn sf fuel s o out sv nx _ ho hrd (by
      intro ⟨h1, h2, _⟩
      simp only at h2
      rw [hrok.2.2.1] at h2
      exact hkey h1 r (List.mem_cons_self _ _) h2)]
    exact ⟨_, rfl⟩
  | cons r2 l ih =>
    intro r o fuel out sv nx s hl hat hok hfit hkey
    have hnw := area_ok_nowrap hl.wr_ok
    have hrok := hok r (List.mem_cons_self _ _)
    have hsz : log_size (r :: r2 :: l) = log_rec_size r + log_size (r2 :: l) := rfl
    have h9 : 9 ≤ log_rec_size r := by
      unfold log_rec_size; have := hrok.1; omega
    rw [hsz] at hfit ⊢
    have ho : o < (s.area_params AREA_INDEX_WRITABLE).size := by unfold asize at hfit; omega
    have hrd := read_record_log s AREA_INDEX_WRITABLE o r { out with next_offset := s.free_space_offset }
      hnw hrok (by omega) hat.1
    have ef : fuel + ((r2 :: l).length + 1) = (fuel + (l.length + 1)) + 1 := by
      simp only [List.length_cons]
      omega
    rw [ef, init_scan_skip sk sp sn sf _ s o out sv nx _ ho hrd (by
      intro ⟨h1, h2, _⟩
      simp only at h2
      rw [hrok.2.2.1] at h2
      exact hkey h1 r (List.mem_cons_self _ _) h2)]
    simp only []
    have hl2 : layout { s with free_space_offset := o + log_rec_size r } := layout_congr hl rfl rfl
    have hat2 : log_at { s with free_space_offset := o + log_rec_size r } AREA_INDEX_WRITABLE
        (o + log_rec_size r) (r2 :: l) :=
      @log_at_congr s { s with free_space_offset := o + log_rec_size r } rfl rfl _ (r2 :: l) _
        (fun _ _ _ => rfl) hat.2
    obtain ⟨out', e⟩ := ih r2 (o + log_rec_size r) fuel
      (read_record s AREA_INDEX_WRITABLE o true { out with next_offset := s.free_space_offset }).2
      sv nx
      { s with free_space_offset := o + log_rec_size r } hl2 hat2
      (fun q hq => hok q (List.mem_cons_of_mem _ hq)) (by
        have : asize { s with free_space_offset := o + log_rec_size r } AREA_INDEX_WRITABLE =
          asize s AREA_INDEX_WRITABLE := rfl
        omega)
      (fun h q hq => hkey h q (List.mem_cons_of_mem _ hq))
    refine ⟨out', ?_⟩
    rw [hrd] at e
    rw [e]
    have e2 : o + log_rec_size r + log_size (r2 :: l) = o + (log_rec_size r + log_size (r2 :: l)) := by
      omega
    rw [e2]

/-- The second part of `pdbstore_init` on a media in the steady state whose writable area
starts at an address of 8 or more and has between 1 and 7 free bytes: the read of the
header behind the last record is not classified as totally corrupt but fails, and
`pdbstore_init` ends with a read error. -/
theorem init_recover_near_full (t : Store) (log : List log_rec) (o : record_out)
    (hs : steady { t with free_space_offset := log_size log } log)
    (hev : aerase t AREA_INDEX_WRITABLE < 256)
    (ha : 8 ≤ (t.area_params AREA_INDEX_WRITABLE).address)
    (hlo : asize t AREA_INDEX_WRITABLE < log_size log + 8)
    (hhi : log_size log < asize t AREA_INDEX_WRITABLE) :
    (init_recover t o).1 = PDBSTORE_READ_ERROR := by
  have hl : layout t := @layout_congr { t with free_space_offset := log_size log } t hs.lay rfl rfl
  have hat : log_at t AREA_INDEX_WRITABLE 0 log :=
    @log_at_congr { t with free_space_offset := log_size log } t rfl rfl _ log 0
      (fun _ _ _ => rfl) hs.cells
  have hst : ∀ x, x < asize t AREA_INDEX_STAGING →
      acell t AREA_INDEX_STAGING x = aerase t AREA_INDEX_STAGING := hs.staging
  have hevs : aerase t AREA_INDEX_STAGING < 256 := by rw [wr_aerase_staging t hl]; exact hev
  obtain ⟨r, hr⟩ := read_record_blank t AREA_INDEX_STAGING 0 record_out_init
    (area_ok_nowrap hl.st_ok) (Nat.zero_le _) hevs
    (fun x _ h2 => hst x (by rw [hl.st_size]; omega))
  have hrs : read_record t AREA_INDEX_STAGING 0 true record_out_init = (PDBSTORE_DATA_CORRUPT, r) := by
    rcases hr with ⟨h, _⟩ | ⟨_, _, h, _⟩
    · exact h
    · rw [hl.st_size] at h; omega
  have hwz := hl.wr_size
  have hnw := area_ok_nowrap hl.wr_ok
  cases log with
  | nil =>
    simp only [log_size] at hlo
    omega
  | cons q l =>
    have hlen := log_size_le_length (q :: l)
    simp only [List.length_cons] at hlen
    obtain ⟨f, hf⟩ : ∃ f, (t.area_params AREA_INDEX_WRITABLE).size + 1 = (f + 1) + (l.length + 1) :=
      ⟨(t.area_params AREA_INDEX_WRITABLE).size - (l.length + 1), by unfold asize at hhi; omega⟩
    obtain ⟨out', e⟩ := init_scan_prefix r.key r.data_ptr r.actual_data_size r.flags l q 0 (f + 1)
      { o with key := [], totally_corrupt := r.totally_corrupt } false r.next_offset t hl hat hs.recs
      (by have := hs.fits; omega) (by simp)
    simp only [Nat.zero_add] at e
    have hrd : ∃ r2, read_record { t with free_space_offset := log_size (q :: l) } AREA_INDEX_WRITABLE
        (log_size (q :: l)) true
        { out' with next_offset :=
          ({ t with free_space_offset := log_size (q :: l) } : Store).free_space_offset } =
        (PDBSTORE_READ_ERROR, r2) := by
      rw [read_record_fso, read_record_eq t _ _ _ hnw (le_of_lt hhi),
        if_neg (by omega), if_pos (by omega)]
      exact ⟨_, rfl⟩
    obtain ⟨r2, hrd⟩ := hrd
    have hsc := init_scan_read_error r.key r.data_ptr r.actual_data_size r.flags f
      { t with free_space_offset := log_size (q :: l) } (log_size (q :: l)) out' false r.next_offset
      r2 hhi hrd
    have e2 : (init_scan r.key r.data_ptr r.actual_data_size r.flags
        ((t.area_params AREA_INDEX_WRITABLE).size + 1) t 0
        { o with key := [], totally_corrupt := r.totally_corrupt } false r.next_offset).ret =
        PDBSTORE_READ_ERROR := by
      rw [hf, e, hsc]
    unfold init_recover
    rw [hrs, if_neg (by simp)]
    unfold init_finish
    simp [e2]

/-- The media `tight_media` is fresh for one bank with the parameters `tight_bank`. -/
theorem tight_fresh : fresh 1 (fun _ => tight_bank) tight_media := by
  have hl : (init_layout tight_media 1 (fun _ => tight_bank)).1 = PDBSTORE_SUCCESS := by decide!
  have hL : init_layout tight_media 1 (fun _ => tight_bank) =
      (PDBSTORE_SUCCESS, (init_layout tight_media 1 (fun _ => tight_bank)).2.1,
        (init_layout tight_media 1 (fun _ => tight_bank)).2.2) := by
    rw [← hl]
  have hp : bp_ok 1 (fun _ => tight_bank) := by
    refine ⟨Or.inl rfl, fun i _ => ?_⟩
    simp [tight_bank]
  obtain ⟨t, o, hL⟩ : ∃ t o, init_layout tight_media 1 (fun _ => tight_bank) = (PDBSTORE_SUCCESS, t, o) :=
    ⟨_, _, hL⟩
  obtain ⟨l, t1, t2, t3, t4, t5, t6, t7, t8, t9, t10, t11, t12⟩ :=
    init_layout_spec tight_media 1 _ _ _ hp hL
  have ho : o.next_offset = 14 := by
    have : (init_layout tight_media 1 (fun _ => tight_bank)).2.2.next_offset = 14 := by decide!
    rw [hL] at this
    exact this
  refine ⟨hp, rfl, by decide!, ?_⟩
  rw [hL]
  simp only
  intro x _
  unfold acell abase aerase
  rw [t1, t7, t10 rfl, ho]
  simp [tight_media, demo_media, tight_bank]

/-- Claim C7 (as the code behaves): for a store with one bank that was first mounted on a
fresh media and then used through the public functions, with the writable area filled up
to between 1 and 7 bytes before its end, `pdbstore_deinit` followed by `pdbstore_init` with
the same bank parameters does not return success but read-error: `read_record` compares
`offset + 8` with `address + size` of the area, not with its size, so the header read behind
the last record is attempted and fails. -/
theorem remount_read_error (num : Nat) (bp : Nat → pdbstore_bank_params_t) (s0 s : Store)
    (hf : fresh num bp s0) (hr : reachable num bp s0 s) (hi : s.initialized = true)
    (h1 : num = 1) (hlo : asize s AREA_INDEX_WRITABLE < s.free_space_offset + 8)
    (hhi : s.free_space_offset < asize s AREA_INDEX_WRITABLE) :
    (pdbstore_init (pdbstore_deinit s).2 num bp).1 = PDBSTORE_READ_ERROR := by
  obtain ⟨t, o, log, hL, hm, hs, hfs⟩ := reachable_inv num bp s0 s hf hr
  obtain ⟨hmas, _⟩ := fresh_layout num bp s0 t o hf hL
  have hfso := hfs hi
  have hm2 : mounted t (pdbstore_deinit s).2 := ⟨hm.nb, hm.bk, hm.ar, hm.be, hm.hb, hm.ro⟩
  have hly := init_layout_mounted num bp s0 _ t o hf.params hL hmas hm2
  obtain ⟨hev, had, _⟩ := mounted_aerase num bp s0 _ t o hf.params hL hm2
  have e : pdbstore_init (pdbstore_deinit s).2 num bp = init_recover (pdbstore_deinit s).2 o := by
    unfold pdbstore_init
    rw [if_neg (by simp [pdbstore_deinit])]
    simp only [hly, ne_eq, not_true_eq_false, if_false]
  rw [e]
  have hs2 : steady { (pdbstore_deinit s).2 with free_space_offset := log_size log } log :=
    steady_congr hs rfl rfl rfl rfl rfl rfl
  have hlo2 : asize (pdbstore_deinit s).2 AREA_INDEX_WRITABLE < log_size log + 8 := by
    rw [← hfso]; exact hlo
  have hhi2 : log_size log < asize (pdbstore_deinit s).2 AREA_INDEX_WRITABLE := by
    rw [← hfso]; exact hhi
  exact init_recover_near_full (pdbstore_deinit s).2 log o hs2 hev (had h1) hlo2 hhi2

theorem tight_reachable : reachable 1 (fun _ => tight_bank) tight_media tight_store :=
  reachable.mount (by decide!)

/-- The store `tight_store_full` is reachable and initialized, and 7 bytes of its writable
area are free. -/
theorem tight_full_facts :
    reachable 1 (fun _ => tight_bank) tight_media tight_store_full ∧
    tight_store_full.initialized = true ∧
    asize tight_store_full AREA_INDEX_WRITABLE = 1048 ∧
    tight_store_full.free_space_offset = 1041 := by
  have hf : tight_store.initialized = true ∧ asize tight_store AREA_INDEX_WRITABLE = 1048 ∧
      tight_store.free_space_offset = 0 ∧
      (find_record tight_store tight_key).ret = PDBSTORE_NOT_FOUND := by
    decide!
  obtain ⟨hi1, hz, hf0, hnf⟩ := hf
  have hk : is_valid_key tight_key = true := by decide
  have hlen : strlen tight_key = 9 := by decide
  obtain ⟨log, hs1⟩ := reachable_steady 1 _ tight_media tight_store tight_fresh tight_reachable hi1
  refine ⟨reachable.step _ _ tight_reachable (op_step.set tight_store tight_key _ 1024 0), ?_⟩
  unfold tight_store_full
  rcases set_new_steady tight_store log tight_key (List.replicate 1024 0) 1024 0 hs1 hi1 hk hnf
    (by omega) (Or.inl rfl) with ⟨_, s', e, st, fr, hfso⟩ | ⟨hfull, _⟩
  · rw [e]
    refine ⟨?_, ?_, ?_⟩
    · rw [fr.2.2.2.1]; exact hi1
    · rw [frame_asize fr]; exact hz
    · simp only
      rw [hfso, hf0, hlen]
  · rw [hf0, hlen, hz] at hfull
    omega

theorem remount_read_error_witness :
    (pdbstore_init (pdbstore_deinit tight_store_full).2 1 (fun _ => tight_bank)).1 =
      PDBSTORE_READ_ERROR :=
  remount_read_error 1 (fun _ => tight_bank) tight_media tight_store_full tight_fresh
    tight_full_facts.1 tight_full_facts.2.1 rfl
    (by rw [tight_full_facts.2.2.1, tight_full_facts.2.2.2]; decide)
    (by rw [tight_full_facts.2.2.1, tight_full_facts.2.2.2]; decide)

theorem set_get_round_trip_witness :
    (pdbstore_get (pdbstore_set tight_store [97] [1, 2, 3] 3 1).2 [97]).1 = PDBSTORE_SUCCESS ∧
    (pdbstore_get (pdbstore_set tight_store [97] [1, 2, 3] 3 1).2 [97]).2.2 = 3 ∧
    mem_read (pdbstore_set tight_store [97] [1, 2, 3] 3 1).2
      (pdbstore_get (pdbstore_set tight_store [97] [1, 2, 3] 3 1).2 [97]).2.1.bank
      (pdbstore_get (pdbstore_set tight_store [97] [1, 2, 3] 3 1).2 [97]).2.1.addr 3 = [1, 2, 3] :=
  set_get_round_trip 1 (fun _ => tight_bank) tight_media tight_store [97] [1, 2, 3] 3 1 tight_fresh
    tight_reachable (Or.inr rfl) rfl (by decide!)

/-- Claim C1 as stated fails on a media that holds a record the store did not write:
`pdbstore_init` succeeds on `nul_key_media` and accepts the record with the key bytes
`'a', 0, 'b'`; `pdbstore_set("a", {1, 2}, 2, 0)` finds it (`strcmp` stops at the NUL),
replaces it in place from the `flags` field on and returns success, but the `key_size` 3 of
the old header stays, so the following `pdbstore_get("a")` returns data-corrupt. -/
theorem round_trip_fails_on_nul_key :
    (pdbstore_init nul_key_media 1 (fun _ => tight_bank)).1 = PDBSTORE_SUCCESS ∧
    is_valid_key [97] = true ∧
    (pdbstore_set (pdbstore_init nul_key_media 1 (fun _ => tight_bank)).2 [97] [1, 2] 2 0).1 =
      PDBSTORE_SUCCESS ∧
    (pdbstore_get
      (pdbstore_set (pdbstore_init nul_key_media 1 (fun _ => tight_bank)).2 [97] [1, 2] 2 0).2
      [97]).1 = PDBSTORE_DATA_CORRUPT := by
  decide!

/-- A record that the scan of `find_record` finds in the read-only area lies inside the
area, and the pointer, size and flags returned are those of the record. -/
theorem find_record_loop_ro_found (s : Store) (key : List Nat)
    (h : area_nowrap s AREA_INDEX_READONLY)
    (ha : (s.area_params AREA_INDEX_READONLY).address = 0) :
    ∀ (fuel o : Nat) (out res : record_out) (off : Nat), o ≤ asize s AREA_INDEX_READONLY →
      find_record_loop s key AREA_INDEX_READONLY fuel o out = (some PDBSTORE_SUCCESS, res, off) →
      rec_next s AREA_INDEX_READONLY off ≤ asize s AREA_INDEX_READONLY ∧
      res.data_ptr = { bank := (s.area_params AREA_INDEX_READONLY).bank,
                       addr := abase s AREA_INDEX_READONLY +
                         (off + 8 + hdr_key_size s AREA_INDEX_READONLY off) } ∧
      res.actual_data_size = hdr_data_size s AREA_INDEX_READONLY off ∧
      res.flags = hdr_flags s AREA_INDEX_READONLY off := by
  intro fuel
  induction fuel with
  | zero =>
    intro o out res off _ hf
    unfold find_record_loop at hf
    simp at hf
  | succ f ih =>
    intro o out res off ho hf
    rw [find_record_loop_succ] at hf
    by_cases c : o < (s.area_params AREA_INDEX_READONLY).size
    · have hro : ∀ x : Nat, ¬ (AREA_INDEX_READONLY = AREA_INDEX_WRITABLE ∧ o ≥ x) := by
        intro x hx; exact absurd hx.1 (by decide)
      rw [if_neg (not_not.mpr c), if_neg (hro _)] at hf
      by_cases c1 : (read_record s AREA_INDEX_READONLY o true out).1 ≠ PDBSTORE_SUCCESS
      · rw [if_pos c1] at hf
        have := (Prod.mk.inj hf).1
        simp only [Option.some.injEq] at this
        exact absurd this c1
      rw [if_neg c1] at hf
      have hok := not_not.mp c1
      obtain ⟨k1, k2, k3, k4, k5, k6⟩ := read_record_success_conds s _ o true out h ho hok
      by_cases c2 : cstr (read_record s AREA_INDEX_READONLY o true out).2.key = cstr key
      · rw [if_pos c2] at hf
        obtain ⟨_, e2, e3⟩ := Prod.mk.inj hf |>.imp id Prod.mk.inj
        subst e3
        rw [← e2, read_record_eq s _ o out h ho, if_neg k1, if_neg k2, if_neg k3, if_neg k4,
          if_neg (k5 rfl)]
        rw [ha] at k4
        exact ⟨by omega, rfl, rfl, rfl⟩
      · rw [if_neg c2] at hf
        obtain ⟨e1, e2, _⟩ := read_record_success_next s _ o out h ho hok
        exact ih _ _ res off (by rw [e1]; omega) hf
    · rw [if_pos c] at hf
      simp at hf

/-- The bytes of the read-only area are the same after an operation that leaves the
read-only area alone. -/
theorem ro_data_frame {s s' : Store} (hf : frame s s') (off n : Nat)
    (hb : off + n ≤ asize s AREA_INDEX_READONLY) :
    mem_read s' (s.area_params AREA_INDEX_READONLY).bank (abase s AREA_INDEX_READONLY + off) n =
      mem_read s (s.area_params AREA_INDEX_READONLY).bank (abase s AREA_INDEX_READONLY + off) n := by
  unfold mem_read
  apply List.map_congr_left
  intro i hi
  have hi2 : i < n := by simpa using hi
  have := hf.2.2.2.2.2.2 (off + i) (by omega)
  unfold acell at this
  rw [hf.2.2.1, frame_abase hf] at this
  rw [Nat.add_assoc]
  exact this

/-- A key that the read-only area holds: `pdbstore_get` gives the same status, pointer and
size, and the same bytes, after an operation that leaves the read-only area alone. -/
theorem get_ro_frame {s s' : Store} (hl : layout s) (hf : frame s s') (key : List Nat)
    (hro : (ro_find s key).1 = some PDBSTORE_SUCCESS) :
    pdbstore_get s' key = pdbstore_get s key ∧
    (find_record s key).area = some AREA_INDEX_READONLY ∧
    mem_read s' (find_record s key).out.data_ptr.bank (find_record s key).out.data_ptr.addr
        (find_record s key).out.actual_data_size =
      mem_read s (find_record s key).out.data_ptr.bank (find_record s key).out.data_ptr.addr
        (find_record s key).out.actual_data_size := by
  have hro2 : (ro_find s' key).1 = some PDBSTORE_SUCCESS := by rw [ro_find_frame hl hf]; exact hro
  have e1 := find_record_ro s key _ hro
  have e2 := find_record_ro s' key _ hro2
  rw [ro_find_frame hl hf] at e2
  refine ⟨?_, ?_, ?_⟩
  · unfold pdbstore_get
    rw [e1, e2, hf.2.2.2.1]
  · rw [e1]
  · rw [e1]
    simp only
    have hx : ro_find s key = (some PDBSTORE_SUCCESS, (ro_find s key).2.1, (ro_find s key).2.2) := by
      rw [← hro]
    unfold ro_find at hx
    obtain ⟨b1, b2, b3, _⟩ := find_record_loop_ro_found s key hl.ro_nowrap hl.ro_addr _ _ _ _ _
      (Nat.zero_le _) hx
    have b2' : (ro_find s key).2.1.data_ptr = _ := b2
    have b3' : (ro_find s key).2.1.actual_data_size = _ := b3
    rw [b2', b3']
    simp only
    apply ro_data_frame hf
    unfold rec_next at b1
    omega

/-- A call of `pdbstore_set` in the steady state leaves the configuration and the read-only
area alone. -/
theorem set_frame (s : Store) (log : List log_rec) (key data : List Nat) (n flags : Nat)
    (hs : steady s log) : frame s (pdbstore_set s key data n flags).2 := by
  unfold pdbstore_set
  by_cases c : flags &&& (0xFFFFFFFF ^^^ SUPPORTED_USER_FLAGS) ≠ 0
  · rw [if_pos c]
    exact frame_refl s
  · rw [if_neg c]
    exact (do_set_steady s log key data n flags hs (Or.inr (user_flags_no_delete flags c))).choose_spec.2

/-- Calls of `pdbstore_set`, `pdbstore_remove` and `pdbstore_reset` on an initialized
reachable state lead to initialized reachable states with the same configuration and the
same read-only area. -/
theorem user_ops_frame (num : Nat) (bp : Nat → pdbstore_bank_params_t) (s0 s s' : Store)
    (hf : fresh num bp s0) (hr : reachable num bp s0 s) (hi : s.initialized = true)
    (hu : user_ops s s') : reachable num bp s0 s' ∧ frame s s' := by
  induction hu with
  | done => exact ⟨hr, frame_refl s⟩
  | set s1 key data n flags _ ih =>
    obtain ⟨r1, f1⟩ := ih
    have hi1 : s1.initialized = true := by rw [f1.2.2.2.1]; exact hi
    obtain ⟨log, hs1⟩ := reachable_steady num bp s0 s1 hf r1 hi1
    exact ⟨reachable.step _ _ r1 (op_step.set s1 key data n flags),
      frame_trans f1 (set_frame s1 log key data n flags hs1)⟩
  | remove s1 key _ ih =>
    obtain ⟨r1, f1⟩ := ih
    have hi1 : s1.initialized = true := by rw [f1.2.2.2.1]; exact hi
    obtain ⟨log, hs1⟩ := reachable_steady num bp s0 s1 hf r1 hi1
    refine ⟨reachable.step _ _ r1 (op_step.remove s1 key), frame_trans f1 ?_⟩
    unfold pdbstore_remove
    exact (do_set_steady s1 log key [] 0 DELETE_FLAG hs1 (Or.inl rfl)).choose_spec.2
  | reset s1 _ ih =>
    obtain ⟨r1, f1⟩ := ih
    have hi1 : s1.initialized = true := by rw [f1.2.2.2.1]; exact hi
    obtain ⟨t, o, log, hL, hm, hs, hfs⟩ := reachable_inv num bp s0 s1 hf r1
    have e : ({ s1 with free_space_offset := log_size log } : Store) = s1 := by
      rw [← hfs hi1]
    rw [e] at hs
    obtain ⟨hmas, _⟩ := fresh_layout num bp s0 t o hf hL
    obtain ⟨r, e1, _, fr, _, _⟩ := reset_mounted num bp s0 s1 t o log hf.params hL hmas hm hs hi1
    refine ⟨reachable.step _ _ r1 (op_step.reset s1), frame_trans f1 ?_⟩
    rw [e1]
    exact fr

/-- The data that `pdbstore_get` returns for a key found in the read-only area are the data
bytes of the record found. -/
theorem get_ro_data (s : Store) (hl : layout s) (key : List Nat)
    (hro : (ro_find s key).1 = some PDBSTORE_SUCCESS) :
    mem_read s (find_record s key).out.data_ptr.bank (find_record s key).out.data_ptr.addr
        (find_record s key).out.actual_data_size =
      rec_data s AREA_INDEX_READONLY (find_record s key).offset := by
  have e1 := find_record_ro s key _ hro
  rw [e1]
  simp only
  have hx : ro_find s key = (some PDBSTORE_SUCCESS, (ro_find s key).2.1, (ro_find s key).2.2) := by
    rw [← hro]
  unfold ro_find at hx
  obtain ⟨b1, b2, b3, _⟩ := find_record_loop_ro_found s key hl.ro_nowrap hl.ro_addr _ _ _ _ _
    (Nat.zero_le _) hx
  have b2' : (ro_find s key).2.1.data_ptr = _ := b2
  have b3' : (ro_find s key).2.1.actual_data_size = _ := b3
  rw [b2', b3']
  simp only
  unfold mem_read rec_data acell
  apply List.map_congr_left
  intro i _
  have e : abase s AREA_INDEX_READONLY + ((ro_find s key).2.2 + 8 +
      hdr_key_size s AREA_INDEX_READONLY (ro_find s key).2.2) + i =
      abase s AREA_INDEX_READONLY + ((ro_find s key).2.2 + 8 +
      hdr_key_size s AREA_INDEX_READONLY (ro_find s key).2.2 + i) := by omega
  exact congrArg _ e

/-- The values `pdbstore_get` returns with a valid key on an initialized store. -/
theorem get_eq_find (s : Store) (key : List Nat) (hk : is_valid_key key = true)
    (hi : s.initialized = true) :
    pdbstore_get s key =
      (if (find_record s key).ret ≠ PDBSTORE_SUCCESS then (find_record s key).ret
        else if (find_record s key).out.flags &&& DELETE_FLAG ≠ 0 then PDBSTORE_NOT_FOUND
        else PDBSTORE_SUCCESS,
       (find_record s key).out.data_ptr, (find_record s key).out.actual_data_size) := by
  unfold pdbstore_get
  rw [if_neg (by rw [hk]; simp), if_neg (by rw [hi]; simp)]
  simp only
  split_ifs <;> rfl

/-- Claim C5 (amended): in an initialized state of a store that was first mounted on a fresh
media, for a valid key that `find_record` finds in the read-only area, `pdbstore_set` with
at most 1024 bytes and no flag or the resilient flag and `pdbstore_remove` return
key-is-readonly and leave the whole state, so every byte of every bank, as it was;
`pdbstore_get` returns the data bytes and the size of the first read-only record with the
key, with success unless that record carries the delete flag (then not-found); and after
any sequence of `pdbstore_set`, `pdbstore_remove` and `pdbstore_reset` it returns the same
status, pointer and size, and the bytes at the pointer are the same. -/
theorem readonly_invariance (num : Nat) (bp : Nat → pdbstore_bank_params_t) (s0 s : Store)
    (key : List Nat) (hf : fresh num bp s0) (hr : reachable num bp s0 s)
    (hi : s.initialized = true) (hk : is_valid_key key = true)
    (hro : (ro_find s key).1 = some PDBSTORE_SUCCESS) :
    (∀ data n f, n ≤ 1024 → f = 0 ∨ f = 1 →
      pdbstore_set s key data n f = (PDBSTORE_KEY_IS_READONLY, s)) ∧
    pdbstore_remove s key = (PDBSTORE_KEY_IS_READONLY, s) ∧
    (pdbstore_get s key).1 =
      (if (find_record s key).out.flags &&& DELETE_FLAG ≠ 0 then PDBSTORE_NOT_FOUND
        else PDBSTORE_SUCCESS) ∧
    mem_read s (pdbstore_get s key).2.1.bank (pdbstore_get s key).2.1.addr (pdbstore_get s key).2.2 =
      rec_data s AREA_INDEX_READONLY (find_record s key).offset ∧
    (pdbstore_get s key).2.2 = hdr_data_size s AREA_INDEX_READONLY (find_record s key).offset ∧
    (∀ s', user_ops s s' →
      pdbstore_get s' key = pdbstore_get s key ∧
      mem_read s' (pdbstore_get s key).2.1.bank (pdbstore_get s key).2.1.addr
          (pdbstore_get s key).2.2 =
        mem_read s (pdbstore_get s key).2.1.bank (pdbstore_get s key).2.1.addr
          (pdbstore_get s key).2.2) := by
  obtain ⟨log, hs⟩ := reachable_steady num bp s0 s hf hr hi
  have hl := hs.lay
  have hg := get_eq_find s key hk hi
  have e1 := find_record_ro s key _ hro
  have hret : (find_record s key).ret = PDBSTORE_SUCCESS := by rw [e1]
  refine ⟨?_, ?_, ?_, ?_, ?_, ?_⟩
  · intro data n f hn hfl
    rw [set_eq_do_set s key data n f hfl, do_set_ro s key _ n f _ hi hk hn hro]
    simp
  · unfold pdbstore_remove
    rw [do_set_ro s key _ 0 DELETE_FLAG _ hi hk (by omega) hro]
    simp
  · rw [hg]
    simp only [hret, ne_eq, not_true_eq_false, if_false]
  · rw [hg]
    exact get_ro_data s hl key hro
  · rw [hg]
    simp only
    rw [e1]
    simp only
    have hx : ro_find s key = (some PDBSTORE_SUCCESS, (ro_find s key).2.1, (ro_find s key).2.2) := by
      rw [← hro]
    unfold ro_find at hx
    obtain ⟨_, _, b3, _⟩ := find_record_loop_ro_found s key hl.ro_nowrap hl.ro_addr _ _ _ _ _
      (Nat.zero_le _) hx
    exact b3
  · intro s' hu
    obtain ⟨_, fr⟩ := user_ops_frame num bp s0 s s' hf hr hi hu
    obtain ⟨g1, _, g3⟩ := get_ro_frame hl fr key hro
    rw [hg]
    rw [hg] at g1
    exact ⟨g1, g3⟩

/-- The media `ro_media 0` is fresh for one bank with the parameters `ro_bank`. -/
theorem ro_fresh : fresh 1 (fun _ => ro_bank) (ro_media 0) := by
  have hl : (init_layout (ro_media 0) 1 (fun _ => ro_bank)).1 = PDBSTORE_SUCCESS := by decide!
  have hp : bp_ok 1 (fun _ => ro_bank) := by
    refine ⟨Or.inl rfl, fun i _ => ?_⟩
    simp [ro_bank]
  obtain ⟨t, o, hL⟩ : ∃ t o, init_layout (ro_media 0) 1 (fun _ => ro_bank) = (PDBSTORE_SUCCESS, t, o) :=
    ⟨(init_layout (ro_media 0) 1 (fun _ => ro_bank)).2.1,
      (init_layout (ro_media 0) 1 (fun _ => ro_bank)).2.2, by rw [← hl]⟩
  obtain ⟨l, t1, t2, t3, t4, t5, t6, t7, t8, t9, t10, t11, t12⟩ :=
    init_layout_spec (ro_media 0) 1 _ _ _ hp hL
  have ho : o.next_offset = 24 := by
    have : (init_layout (ro_media 0) 1 (fun _ => ro_bank)).2.2.next_offset = 24 := by decide!
    rw [hL] at this
    exact this
  refine ⟨hp, rfl, by decide!, ?_⟩
  rw [hL]
  simp only
  intro x _
  unfold acell abase aerase
  rw [t1, t7, t10 rfl, ho]
  have h1 : ¬ (24 + x < 14) := by omega
  have h2 : ¬ (24 + x < 24) := by omega
  simp [ro_media, ro_bank, h1, h2]

theorem ro_reachable : reachable 1 (fun _ => ro_bank) (ro_media 0) ro_store :=
  reachable.mount (by decide!)

theorem readonly_invariance_witness :
    (∀ data n f, n ≤ 1024 → f = 0 ∨ f = 1 →
      pdbstore_set ro_store [97] data n f = (PDBSTORE_KEY_IS_READONLY, ro_store)) ∧
    pdbstore_remove ro_store [97] = (PDBSTORE_KEY_IS_READONLY, ro_store) ∧
    (pdbstore_get ro_store [97]).1 =
      (if (find_record ro_store [97]).out.flags &&& DELETE_FLAG ≠ 0 then PDBSTORE_NOT_FOUND
        else PDBSTORE_SUCCESS) ∧
    mem_read ro_store (pdbstore_get ro_store [97]).2.1.bank (pdbstore_get ro_store [97]).2.1.addr
        (pdbstore_get ro_store [97]).2.2 =
      rec_data ro_store AREA_INDEX_READONLY (find_record ro_store [97]).offset ∧
    (pdbstore_get ro_store [97]).2.2 =
      hdr_data_size ro_store AREA_INDEX_READONLY (find_record ro_store [97]).offset ∧
    (∀ s', user_ops ro_store s' →
      pdbstore_get s' [97] = pdbstore_get ro_store [97] ∧
      mem_read s' (pdbstore_get ro_store [97]).2.1.bank (pdbstore_get ro_store [97]).2.1.addr
          (pdbstore_get ro_store [97]).2.2 =
        mem_read ro_store (pdbstore_get ro_store [97]).2.1.bank
          (pdbstore_get ro_store [97]).2.1.addr (pdbstore_get ro_store [97]).2.2) :=
  readonly_invariance 1 (fun _ => ro_bank) (ro_media 0) ro_store [97] ro_fresh ro_reachable
    (by decide!) (by decide) (by decide!)

/-- Claim C5 as stated fails for a read-only record that carries the delete flag: on
`ro_media 128` the first `pdbstore_init` succeeds, the key `"a"` is stored by a record of
the read-only area (`find_record` finds it there and `pdbstore_set` returns
key-is-readonly), yet `pdbstore_get("a")` returns not-found. -/
theorem readonly_get_hidden_by_delete_flag :
    (pdbstore_init (ro_media 128) 1 (fun _ => ro_bank)).1 = PDBSTORE_SUCCESS ∧
    is_valid_key [97] = true ∧
    (find_record (pdbstore_init (ro_media 128) 1 (fun _ => ro_bank)).2 [97]).ret =
      PDBSTORE_SUCCESS ∧
    (find_record (pdbstore_init (ro_media 128) 1 (fun _ => ro_bank)).2 [97]).area =
      some AREA_INDEX_READONLY ∧
    (pdbstore_set (pdbstore_init (ro_media 128) 1 (fun _ => ro_bank)).2 [97] [6] 1 0).1 =
      PDBSTORE_KEY_IS_READONLY ∧
    (pdbstore_get (pdbstore_init (ro_media 128) 1 (fun _ => ro_bank)).2 [97]).1 =
      PDBSTORE_NOT_FOUND := by
  decide!

/-- Claim C16 (amended): in a state of a store that was first mounted on a fresh media,
`pdbstore_reset` on an initialized store returns success and leaves the store initialized
with every byte of the writable area equal to the erase value and `free_space_offset` 0;
after it `pdbstore_get` returns not-found for every valid key that the read-only area
does not hold, and for every key found in the read-only area it returns the same status,
pointer and size as before, with the same bytes at the pointer (so the data of the
read-only record, with success unless the record carries the delete flag); on a store
that is not initialized `pdbstore_reset` returns not-initialized and leaves the state
alone. -/
theorem reset_restores_readonly_view (num : Nat) (bp : Nat → pdbstore_bank_params_t)
    (s0 s : Store) (hf : fresh num bp s0) (hr : reachable num bp s0 s) :
    (s.initialized = false → pdbstore_reset s = (PDBSTORE_NOT_INITIALIZED, s)) ∧
    (s.initialized = true →
      (pdbstore_reset s).1 = PDBSTORE_SUCCESS ∧
      (pdbstore_reset s).2.initialized = true ∧
      asize (pdbstore_reset s).2 AREA_INDEX_WRITABLE = asize s AREA_INDEX_WRITABLE ∧
      (∀ x, x < asize s AREA_INDEX_WRITABLE →
        acell (pdbstore_reset s).2 AREA_INDEX_WRITABLE x = aerase s AREA_INDEX_WRITABLE) ∧
      (pdbstore_reset s).2.free_space_offset = 0 ∧
      (∀ key, is_valid_key key = true → (ro_find s key).1 = none →
        (pdbstore_get (pdbstore_reset s).2 key).1 = PDBSTORE_NOT_FOUND) ∧
      (∀ key, (ro_find s key).1 = some PDBSTORE_SUCCESS →
        pdbstore_get (pdbstore_reset s).2 key = pdbstore_get s key ∧
        mem_read (pdbstore_reset s).2 (find_record s key).out.data_ptr.bank
            (find_record s key).out.data_ptr.addr (find_record s key).out.actual_data_size =
          mem_read s (find_record s key).out.data_ptr.bank
            (find_record s key).out.data_ptr.addr (find_record s key).out.actual_data_size)) := by
  refine ⟨?_, ?_⟩
  · intro hi
    unfold pdbstore_reset
    rw [if_pos hi]
  · intro hi
    obtain ⟨t, o, log, hL, hm, hs, hfs⟩ := reachable_inv num bp s0 s hf hr
    have e : ({ s with free_space_offset := log_size log } : Store) = s := by
      rw [← hfs hi]
    rw [e] at hs
    obtain ⟨hmas, _⟩ := fresh_layout num bp s0 t o hf hL
    obtain ⟨r, e1, st, fr, hz, hbl⟩ := reset_mounted num bp s0 s t o log hf.params hL hmas hm hs hi
    rw [e1]
    simp only
    have hir : r.initialized = true := by rw [fr.2.2.2.1]; exact hi
    refine ⟨trivial, hir, frame_asize fr _, hbl, hz, ?_, ?_⟩
    · intro key hk hro
      have hro2 : (ro_find r key).1 = none := by rw [ro_find_frame hs.lay fr]; exact hro
      exact get_missing_steady r [] key st hir hk hro2 (fun q hq => by simp at hq)
    · intro key hro
      obtain ⟨g1, _, g3⟩ := get_ro_frame hs.lay fr key hro
      exact ⟨g1, g3⟩

theorem reset_restores_readonly_view_witness :
    (ro_store.initialized = false → pdbstore_reset ro_store = (PDBSTORE_NOT_INITIALIZED, ro_store)) ∧
    (ro_store.initialized = true →
      (pdbstore_reset ro_store).1 = PDBSTORE_SUCCESS ∧
      (pdbstore_reset ro_store).2.initialized = true ∧
      asize (pdbstore_reset ro_store).2 AREA_INDEX_WRITABLE = asize ro_store AREA_INDEX_WRITABLE ∧
      (∀ x, x < asize ro_store AREA_INDEX_WRITABLE →
        acell (pdbstore_reset ro_store).2 AREA_INDEX_WRITABLE x =
          aerase ro_store AREA_INDEX_WRITABLE) ∧
      (pdbstore_reset ro_store).2.free_space_offset = 0 ∧
      (∀ key, is_valid_key key = true → (ro_find ro_store key).1 = none →
        (pdbstore_get (pdbstore_reset ro_store).2 key).1 = PDBSTORE_NOT_FOUND) ∧
      (∀ key, (ro_find ro_store key).1 = some PDBSTORE_SUCCESS →
        pdbstore_get (pdbstore_reset ro_store).2 key = pdbstore_get ro_store key ∧
        mem_read (pdbstore_reset ro_store).2 (find_record ro_store key).out.data_ptr.bank
            (find_record ro_store key).out.data_ptr.addr
            (find_record ro_store key).out.actual_data_size =
          mem_read ro_store (find_record ro_store key).out.data_ptr.bank
            (find_record ro_store key).out.data_ptr.addr
            (find_record ro_store key).out.actual_data_size)) :=
  reset_restores_readonly_view 1 (fun _ => ro_bank) (ro_media 0) ro_store ro_fresh ro_reachable

/-- Claim C16 as stated fails for a read-only record that carries the delete flag: on
`ro_media 128` the store mounts, `pdbstore_reset` returns success, the read-only area still
holds the record of the key `"a"` with its data byte 5, yet `pdbstore_get("a")` after the
reset returns not-found, not the provisioned value. -/
theorem reset_leaves_flagged_readonly_key_hidden :
    (pdbstore_init (ro_media 128) 1 (fun _ => ro_bank)).1 = PDBSTORE_SUCCESS ∧
    (pdbstore_reset (pdbstore_init (ro_media 128) 1 (fun _ => ro_bank)).2).1 = PDBSTORE_SUCCESS ∧
    (find_record (pdbstore_reset (pdbstore_init (ro_media 128) 1 (fun _ => ro_bank)).2).2 [97]).ret =
      PDBSTORE_SUCCESS ∧
    (find_record (pdbstore_reset (pdbstore_init (ro_media 128) 1 (fun _ => ro_bank)).2).2 [97]).area =
      some AREA_INDEX_READONLY ∧
    rec_data (pdbstore_reset (pdbstore_init (ro_media 128) 1 (fun _ => ro_bank)).2).2
      AREA_INDEX_READONLY 14 = [5] ∧
    (pdbstore_get (pdbstore_reset (pdbstore_init (ro_media 128) 1 (fun _ => ro_bank)).2).2 [97]).1 =
      PDBSTORE_NOT_FOUND := by
  decide!

/-- The status of `read_record` does not depend on the values its output parameters had
before the call. -/
theorem read_record_status_out (s : Store) (a : area_index_e) (o : Nat) (out out2 : record_out)
    (h : area_nowrap s a) (ho : o ≤ asize s a) :
    (read_record s a o true out2).1 = (read_record s a o true out).1 := by
  rw [read_record_eq s a o out h ho, read_record_eq s a o out2 h ho]
  split_ifs <;> rfl

/-- The scan of `pdbstore_init` over the records of a log that are not replayed, for a log
that may be empty: it goes on behind them. -/
theorem init_scan_over (sk : List Nat) (sp : media_ptr) (sn sf : Nat) (pre : List log_rec)
    (o fuel : Nat) (out : record_out) (sv : Bool) (nx : Nat) (s : Store)
    (hl : layout s) (hat : log_at s AREA_INDEX_WRITABLE o pre) (hok : ∀ q, q ∈ pre → log_rec_ok q)
    (hfit : o + log_size pre ≤ asize s AREA_INDEX_WRITABLE)
    (hkey : sv = true → ∀ q, q ∈ pre → q.key ≠ cstr sk) :
    ∃ x out', init_scan sk sp sn sf (fuel + pre.length) s o out sv nx =
        init_scan sk sp sn sf fuel { s with free_space_offset := x } (o + log_size pre) out' sv nx ∧
      (pre ≠ [] → x = o + log_size pre) ∧ (pre = [] → x = s.free_space_offset) := by
  cases pre with
  | nil =>
    refine ⟨s.free_space_offset, out, ?_, fun h => absurd rfl h, fun _ => rfl⟩
    simp only [List.length_nil, Nat.add_zero, log_size]
  | cons r l =>
    obtain ⟨out', e⟩ := init_scan_prefix sk sp sn sf l r o fuel out sv nx s hl hat hok hfit hkey
    exact ⟨_, out', e, fun _ => rfl, fun h => by simp at h⟩

/-- The function `reset_area` on an area inside its bank: it succeeds, keeps the
configuration, and afterwards the area holds the erase value from the offset on; no other
byte changes. -/
theorem reset_area_mem2 (s : Store) (a : area_index_e) (o : Nat) (h : area_ok s a)
    (ho : o ≤ asize s a) :
    ∃ s', reset_area s a o = (PDBSTORE_SUCCESS, s') ∧ same_cfg s s' ∧
      ∀ b y, s'.mem b y =
        if b = (s.area_params a).bank ∧ abase s a + o ≤ y ∧ y < abase s a + asize s a then
          aerase s a
        else s.mem b y := by
  rcases reset_area_spec s a o h ho with ⟨hb, e⟩ | ⟨_, e⟩
  · refine ⟨s, e, same_cfg_refl s, ?_⟩
    intro b y
    by_cases c : b = (s.area_params a).bank ∧ abase s a + o ≤ y ∧ y < abase s a + asize s a
    · rw [if_pos c]
      obtain ⟨c1, c2, c3⟩ := c
      have := hb (y - abase s a) (by omega) (by omega)
      unfold acell at this
      rw [c1, ← this]
      congr 1
      omega
    · rw [if_neg c]
  · refine ⟨_, e, same_cfg_wipe _ _ _ _, ?_⟩
    intro b y
    rw [wipe_mem]
    have e2 : abase s a + o + (asize s a - o) = abase s a + asize s a := by omega
    rw [e2]
    rfl

/-- The second part of `pdbstore_init` on a media without a valid staged record whose
writable area holds the records of `pre`, followed by the end of the area or by bytes that
`read_record` classifies as corrupt: the area is erased from there on, the staging area is
erased, `free_space_offset` is the end of the records, and nothing else changes. -/
theorem init_recover_truncate (t : Store) (pre : List log_rec) (o : record_out)
    (hl : layout t) (hat : log_at t AREA_INDEX_WRITABLE 0 pre)
    (hok : ∀ q, q ∈ pre → log_rec_ok q) (hfit : log_size pre ≤ asize t AREA_INDEX_WRITABLE)
    (hst : (read_record t AREA_INDEX_STAGING 0 true record_out_init).1 = PDBSTORE_DATA_CORRUPT)
    (htail : log_size pre < asize t AREA_INDEX_WRITABLE →
      (read_record t AREA_INDEX_WRITABLE (log_size pre) true record_out_init).1 =
        PDBSTORE_DATA_CORRUPT) :
    ∃ F, init_recover t o = (PDBSTORE_SUCCESS, F) ∧
      same_cfg { t with initialized := true, free_space_offset := log_size pre } F ∧
      ∀ b y, F.mem b y =
        if b = (t.area_params AREA_INDEX_WRITABLE).bank ∧
            abase t AREA_INDEX_WRITABLE + log_size pre ≤ y ∧
            y < abase t AREA_INDEX_WRITABLE + asize t AREA_INDEX_WRITABLE + 1048 then
          aerase t AREA_INDEX_WRITABLE
        else t.mem b y := by
  have hnw := area_ok_nowrap hl.wr_ok
  have hwz := hl.wr_size
  obtain ⟨rs, hrs⟩ : ∃ rs, read_record t AREA_INDEX_STAGING 0 true record_out_init =
      (PDBSTORE_DATA_CORRUPT, rs) := ⟨_, by rw [← hst]⟩
  have hlen := log_size_le_length pre
  obtain ⟨f, hf⟩ : ∃ f, (t.area_params AREA_INDEX_WRITABLE).size + 1 = (f + 1) + pre.length :=
    ⟨(t.area_params AREA_INDEX_WRITABLE).size - pre.length, by unfold asize at hfit; omega⟩
  obtain ⟨x, out', e, hx1, hx2⟩ := init_scan_over rs.key rs.data_ptr rs.actual_data_size rs.flags
    pre 0 (f + 1) { o with key := [], totally_corrupt := rs.totally_corrupt } false rs.next_offset
    t hl hat hok (by omega) (by simp)
  simp only [Nat.zero_add] at e hx1
  -- the scan of the writable area
  have hsc : ∃ s2, same_cfg { t with free_space_offset := log_size pre } s2 ∧
      (∀ b y, s2.mem b y =
        if b = (t.area_params AREA_INDEX_WRITABLE).bank ∧
            abase t AREA_INDEX_WRITABLE + log_size pre ≤ y ∧
            y < abase t AREA_INDEX_WRITABLE + asize t AREA_INDEX_WRITABLE then
          aerase t AREA_INDEX_WRITABLE
        else t.mem b y) ∧
      init_scan rs.key rs.data_ptr rs.actual_data_size rs.flags (f + 1)
        { t with free_space_offset := x } (log_size pre) out' false rs.next_offset =
        { ret := PDBSTORE_SUCCESS, s := s2, offset := log_size pre, staging_valid := false } := by
    by_cases hp : log_size pre < asize t AREA_INDEX_WRITABLE
    · have h1 : (read_record { t with free_space_offset := x } AREA_INDEX_WRITABLE (log_size pre) true
          { out' with next_offset := ({ t with free_space_offset := x } : Store).free_space_offset }).1 =
          PDBSTORE_DATA_CORRUPT := by
        rw [read_record_fso, read_record_status_out t _ _ record_out_init _ hnw hfit]
        exact htail hp
      obtain ⟨r2, hr2⟩ : ∃ r2, read_record { t with free_space_offset := x } AREA_INDEX_WRITABLE
          (log_size pre) true
          { out' with next_offset := ({ t with free_space_offset := x } : Store).free_space_offset } =
          (PDBSTORE_DATA_CORRUPT, r2) := ⟨_, by rw [← h1]⟩
      have hl2 : layout { t with free_space_offset := r2.next_offset } := layout_congr hl rfl rfl
      obtain ⟨s3, e3, c3, m3⟩ := reset_area_mem2 { t with free_space_offset := r2.next_offset }
        AREA_INDEX_WRITABLE (log_size pre) hl2.wr_ok hfit
      refine ⟨{ s3 with free_space_offset := log_size pre }, ?_, ?_, ?_⟩
      · obtain ⟨a1, a2, a3, a4, a5, a6, a7⟩ := c3
        exact ⟨a1, a2, a3, a4, a5, rfl, a7⟩
      · intro b y
        exact m3 b y
      · have hkk : ¬ ((false : Bool) = true ∧ cstr r2.key = cstr rs.key ∧ r2.totally_corrupt = false) := by
          simp
        rw [init_scan_corrupt rs.key rs.data_ptr rs.actual_data_size rs.flags f
          { t with free_space_offset := x } (log_size pre) out' false rs.next_offset r2 hp hr2 hkk]
        have e3' : reset_area
            { ({ t with free_space_offset := x } : Store) with free_space_offset := r2.next_offset }
            AREA_INDEX_WRITABLE (log_size pre) = (PDBSTORE_SUCCESS, s3) := e3
        rw [e3']
        simp only [ne_eq, not_true_eq_false, if_false]
    · have hpe : log_size pre = asize t AREA_INDEX_WRITABLE := by omega
      have hne : pre ≠ [] := by
        intro h
        rw [h] at hpe
        simp only [log_size] at hpe
        omega
      refine ⟨{ t with free_space_offset := x }, ?_, ?_, ?_⟩
      · rw [hx1 hne]
        exact same_cfg_refl _
      · intro b y
        rw [if_neg (by omega)]
      · rw [init_scan_end rs.key rs.data_ptr rs.actual_data_size rs.flags f
          { t with free_space_offset := x } (log_size pre) out' false rs.next_offset hp]
  obtain ⟨s2, c2, m2, esc⟩ := hsc
  obtain ⟨a1, a2, a3, a4, a5, a6, a7⟩ := c2
  simp only at a1 a2 a3 a4 a5 a6 a7
  have hl3 : layout { s2 with free_space_offset := s2.free_space_offset } := layout_congr hl a2 a3
  obtain ⟨s4, e4, c4, m4⟩ := reset_area_mem2 { s2 with free_space_offset := s2.free_space_offset }
    AREA_INDEX_STAGING 0 hl3.st_ok (Nat.zero_le _)
  obtain ⟨d1, d2, d3, d4, d5, d6, d7⟩ := c4
  simp only at d1 d2 d3 d4 d5 d6 d7
  refine ⟨{ s4 with initialized := true }, ?_, ?_, ?_⟩
  · unfold init_recover
    rw [hrs, if_neg (by simp)]
    have e2 : init_scan (PDBSTORE_DATA_CORRUPT, rs).2.key (PDBSTORE_DATA_CORRUPT, rs).2.data_ptr
        (PDBSTORE_DATA_CORRUPT, rs).2.actual_data_size (PDBSTORE_DATA_CORRUPT, rs).2.flags
        ((t.area_params AREA_INDEX_WRITABLE).size + 1) t 0
        { o with key := [], totally_corrupt := (PDBSTORE_DATA_CORRUPT, rs).2.totally_corrupt }
        (decide ((PDBSTORE_DATA_CORRUPT, rs).1 = PDBSTORE_SUCCESS))
        (PDBSTORE_DATA_CORRUPT, rs).2.next_offset =
        { ret := PDBSTORE_SUCCESS, s := s2, offset := log_size pre, staging_valid := false } := by
      rw [hf]
      exact e.trans esc
    rw [e2]
    unfold init_finish
    simp only [ne_eq, not_true_eq_false, if_false, Bool.false_eq_true]
    rw [e4]
    simp only [not_true_eq_false, if_false]
  · exact ⟨d1.trans a1, d2.trans a2, d3.trans a3, rfl, d5.trans a5, d6.trans a6, d7.trans a7⟩
  · intro b y
    simp only
    rw [m4 b y]
    have hb1 : aerase { s2 with free_space_offset := s2.free_space_offset } AREA_INDEX_STAGING =
        aerase t AREA_INDEX_WRITABLE := by
      rw [← wr_aerase_staging t hl]
      unfold aerase
      simp only
      rw [a2, a3]
    have hb2 : abase { s2 with free_space_offset := s2.free_space_offset } AREA_INDEX_STAGING =
        abase t AREA_INDEX_WRITABLE + asize t AREA_INDEX_WRITABLE := by
      rw [← hl.st_base]
      unfold abase
      simp only
      rw [a2, a3]
    have hb3 : asize { s2 with free_space_offset := s2.free_space_offset } AREA_INDEX_STAGING = 1048 := by
      rw [← hl.st_size]
      unfold asize
      simp only
      rw [a3]
    have hb4 : (({ s2 with free_space_offset := s2.free_space_offset } : Store).area_params
        AREA_INDEX_STAGING).bank = (t.area_params AREA_INDEX_WRITABLE).bank := by
      rw [← hl.st_bank]
      simp only
      rw [a3]
    rw [hb1, hb2, hb3, hb4]
    simp only
    rw [m2 b y]
    by_cases cb : b = (t.area_params AREA_INDEX_WRITABLE).bank
    · simp only [cb, true_and]
      split_ifs <;> first | rfl | omega
    · simp only [cb, false_and, if_false]

theorem store_ext (a b : Store) (h1 : a.num_banks = b.num_banks)
    (h2 : a.bank_params = b.bank_params) (h3 : a.area_params = b.area_params)
    (h4 : a.initialized = b.initialized) (h5 : a.big_endian = b.big_endian)
    (h6 : a.free_space_offset = b.free_space_offset) (h7 : a.mem = b.mem)
    (h8 : a.host_big_endian = b.host_big_endian) : a = b := by
  cases a
  cases b
  simp only at h1 h2 h3 h4 h5 h6 h7 h8
  subst h1 h2 h3 h4 h5 h6 h7 h8
  rfl

/-- The header of a record whose header and key have been programmed: the sizes are those
of the record, whatever the data cells hold. -/
theorem torn_header (s : Store) (a : area_index_e) (o : Nat) (key D : List Nat) (flags : Nat)
    (hk2 : strlen key ≤ 16) (hn : D.length ≤ 1024)
    (hcells : ∀ i, i < 8 → acell s a (o + i) = (rec_image s key D flags).getD i 0) :
    hdr_key_size s a o = strlen key ∧ hdr_data_size s a o = D.length := by
  -- compare with a state that holds the whole image
  obtain ⟨c, hc⟩ : ∃ c : Store, c = poke s (s.area_params a).bank (abase s a + o)
      (8 + strlen key + D.length) (rec_image s key D flags) := ⟨_, rfl⟩
  have hcc : same_cfg s c := by rw [hc]; exact same_cfg_poke _ _ _ _ _
  have h1 := rec_image_read c a o key D flags hk2 hn (by
    intro i hi
    rw [hc]
    exact write_record_append_cells s a key D flags o i hi)
  have h2 := hdr_fields_congr hcc a o (by
    intro x hx1 hx2
    rw [hc, acell_poke, if_pos ⟨rfl, by omega, by omega⟩]
    have := hcells (x - o) (by omega)
    rw [show o + (x - o) = x by omega] at this
    rw [this]
    congr 1
    omega)
  exact ⟨h2.1.symm.trans h1.1, h2.2.1.symm.trans h1.2.1⟩

/-- Two states that hold the same log at the same place, with the same byte order, agree on
the cells of the log. -/
theorem log_at_cells_eq {s s' : Store} (h1 : s'.big_endian = s.big_endian)
    (h2 : s'.host_big_endian = s.host_big_endian) (a : area_index_e) :
    ∀ (l : List log_rec) (o : Nat), log_at s a o l → log_at s' a o l →
      ∀ x, o ≤ x → x < o + log_size l → acell s' a x = acell s a x := by
  intro l
  induction l with
  | nil =>
    intro o _ _ x hx1 hx2
    simp only [log_size] at hx2
    omega
  | cons r l ih =>
    intro o h h' x hx1 hx2
    by_cases c : x < o + log_rec_size r
    · have e1 := h.1 (x - o) (by omega)
      have e2 := h'.1 (x - o) (by omega)
      rw [show o + (x - o) = x by omega] at e1 e2
      rw [e1, e2, rec_image_cfg h1 h2]
    · exact ih (o + log_rec_size r) h.2 h'.2 x (by omega) (by
        simp only [log_size] at hx2
        omega)

/-- The cells of the writable area after a `pdbstore_set` without flags that appends a
record are those of `torn_append` with all `n` data bytes programmed. -/
theorem set_append_cells (s : Store) (log : List log_rec) (key data : List Nat) (n : Nat)
    (hs : steady s log) (hi : s.initialized = true) (hk : is_valid_key key = true) (hn : n ≤ 1024)
    (hnf : (find_record s key).ret = PDBSTORE_NOT_FOUND)
    (hfit : s.free_space_offset + 8 + strlen key + n ≤ asize s AREA_INDEX_WRITABLE) :
    (pdbstore_set s key data n 0).1 = PDBSTORE_SUCCESS ∧
    ∀ x, x < asize s AREA_INDEX_WRITABLE →
      acell (pdbstore_set s key data n 0).2 AREA_INDEX_WRITABLE x =
        acell (torn_append s key data n 0 n) AREA_INDEX_WRITABLE x := by
  obtain ⟨D, hD⟩ : ∃ D, D = buf_bytes s (data_buf.buf data) n := ⟨_, rfl⟩
  have hDl : D.length = n := by rw [hD, buf_bytes_length]
  have hfso := hs.fso
  rcases set_new_steady s log key data n 0 hs hi hk hnf hn (Or.inl rfl) with
    ⟨_, s', e, st, fr, _⟩ | ⟨hfull, _⟩
  · rw [e]
    refine ⟨rfl, ?_⟩
    intro x hx
    simp only
    rw [← hD] at st
    have hc : acell (torn_append s key data n 0 n) AREA_INDEX_WRITABLE x =
        if (s.area_params AREA_INDEX_WRITABLE).bank = (s.area_params AREA_INDEX_WRITABLE).bank ∧
            abase s AREA_INDEX_WRITABLE + s.free_space_offset ≤ abase s AREA_INDEX_WRITABLE + x ∧
            abase s AREA_INDEX_WRITABLE + x <
              abase s AREA_INDEX_WRITABLE + s.free_space_offset + (8 + strlen key + n) then
          (rec_image s key D 0).getD
            (abase s AREA_INDEX_WRITABLE + x - (abase s AREA_INDEX_WRITABLE + s.free_space_offset)) 0
        else acell s AREA_INDEX_WRITABLE x := by
      rw [hD]
      exact acell_poke s _ _ _ _ AREA_INDEX_WRITABLE x
    rw [hc]
    have hat := (log_at_append s' AREA_INDEX_WRITABLE 0 log _).mp st.cells
    simp only [Nat.zero_add] at hat
    by_cases c1 : x < log_size log
    · rw [if_neg (by omega)]
      exact log_at_cells_eq fr.2.2.2.2.1 fr.2.2.2.2.2.1 _ log 0 hs.cells hat.1 x (Nat.zero_le _)
        (by omega)
    · by_cases c2 : x < log_size log + (8 + strlen key + n)
      · rw [if_pos ⟨rfl, by omega, by omega⟩]
        have := hat.2.1 (x - log_size log) (by
          unfold log_rec_size
          simp only [strlen_cstr, hDl]
          omega)
        rw [show log_size log + (x - log_size log) = x by omega] at this
        rw [this]
        simp only
        rw [rec_image_cfg fr.2.2.2.2.1 fr.2.2.2.2.2.1, rec_image_norm]
        congr 1
        omega
      · rw [if_neg (by omega)]
        have h1 := st.tail x (by
          rw [log_size_append]
          simp only [log_size, log_rec_size, strlen_cstr, hDl]
          omega) (by rw [frame_asize fr]; exact hx)
        rw [h1, frame_aerase fr]
        exact (hs.tail x (by omega) hx).symm
  · omega

/-- Claim C9 (amended): in an initialized state of a store that was first mounted on a fresh
media, let a `pdbstore_set` without flags of a valid key that is in neither area, with
`n <= 1024` bytes that fit, lose power in its data program after `m <= n` bytes, and let
the record left on the media fail the CRC check. Then the next `pdbstore_init` with the
same bank parameters returns success and restores the state before the call exactly: the
torn record is erased, `free_space_offset` is the offset where it started, and every byte
of the banks, hence every `pdbstore_get`, is as before. (The uninterrupted call returns
success, and the writable area it leaves is `torn_append` with all `n` bytes programmed.) -/
theorem torn_append_truncated (num : Nat) (bp : Nat → pdbstore_bank_params_t) (s0 s : Store)
    (key data : List Nat) (n m : Nat) (hf : fresh num bp s0) (hr : reachable num bp s0 s)
    (hi : s.initialized = true) (hk : is_valid_key key = true) (hn : n ≤ 1024)
    (hnf : (find_record s key).ret = PDBSTORE_NOT_FOUND)
    (hfit : s.free_space_offset + 8 + strlen key + n ≤ asize s AREA_INDEX_WRITABLE)
    (hm : m ≤ n)
    (hcrc : ¬ rec_crc_ok (torn_append s key data n 0 m) AREA_INDEX_WRITABLE s.free_space_offset) :
    (pdbstore_set s key data n 0).1 = PDBSTORE_SUCCESS ∧
    (∀ x, x < asize s AREA_INDEX_WRITABLE →
      acell (pdbstore_set s key data n 0).2 AREA_INDEX_WRITABLE x =
        acell (torn_append s key data n 0 n) AREA_INDEX_WRITABLE x) ∧
    pdbstore_init (torn_append s key data n 0 m) num bp = (PDBSTORE_SUCCESS, s) := by
  obtain ⟨t, o, log, hL, hmt, hs, hfs⟩ := reachable_inv num bp s0 s hf hr
  have hfso := hfs hi
  have e : ({ s with free_space_offset := log_size log } : Store) = s := by
    rw [← hfso]
  rw [e] at hs
  obtain ⟨q1, q2⟩ := set_append_cells s log key data n hs hi hk hn hnf hfit
  refine ⟨q1, q2, ?_⟩
  obtain ⟨hmas, _⟩ := fresh_layout num bp s0 t o hf hL
  obtain ⟨hk1, hk2⟩ := is_valid_key_strlen key hk
  have hl := hs.lay
  have hnw := area_ok_nowrap hl.wr_ok
  obtain ⟨D, hD⟩ : ∃ D, D = buf_bytes s (data_buf.buf data) n := ⟨_, rfl⟩
  have hDl : D.length = n := by rw [hD, buf_bytes_length]
  obtain ⟨T, hT⟩ : ∃ T, T = torn_append s key data n 0 m := ⟨_, rfl⟩
  rw [← hT] at hcrc ⊢
  rw [hfso] at hcrc
  have hTd : T = { poke s (s.area_params AREA_INDEX_WRITABLE).bank
      (abase s AREA_INDEX_WRITABLE + log_size log) (8 + strlen key + m)
      (rec_image s key D 0) with initialized := false } := by
    rw [hT, hD, ← hfso]
    rfl
  have hcell : ∀ a x, acell T a x =
      if (s.area_params a).bank = (s.area_params AREA_INDEX_WRITABLE).bank ∧
          abase s AREA_INDEX_WRITABLE + log_size log ≤ abase s a + x ∧
          abase s a + x < abase s AREA_INDEX_WRITABLE + log_size log + (8 + strlen key + m) then
        (rec_image s key D 0).getD (abase s a + x - (abase s AREA_INDEX_WRITABLE + log_size log)) 0
      else acell s a x := by
    intro a x
    rw [hTd]
    exact acell_poke s _ _ _ _ a x
  have hTb : T.bank_params = s.bank_params := by rw [hTd]; rfl
  have hTa : T.area_params = s.area_params := by rw [hTd]; rfl
  have hTe : T.big_endian = s.big_endian := by rw [hTd]; rfl
  have hTh : T.host_big_endian = s.host_big_endian := by rw [hTd]; rfl
  have hTn : T.num_banks = s.num_banks := by rw [hTd]; rfl
  have hTi : T.initialized = false := by rw [hTd]
  have hTl : layout T := layout_congr hl hTb hTa
  have hTz : ∀ a, asize T a = asize s a := by intro a; unfold asize; rw [hTa]
  have hTab : ∀ a, abase T a = abase s a := by intro a; unfold abase; rw [hTa, hTb]
  have hTer : ∀ a, aerase T a = aerase s a := by intro a; unfold aerase; rw [hTa, hTb]
  -- cells outside the torn record are those of `s`
  have hwr : ∀ x, (x < log_size log ∨ log_size log + (8 + strlen key + m) ≤ x) →
      acell T AREA_INDEX_WRITABLE x = acell s AREA_INDEX_WRITABLE x := by
    intro x hx
    rw [hcell, if_neg (by omega)]
  have hstc : ∀ x, acell T AREA_INDEX_STAGING x = acell s AREA_INDEX_STAGING x := by
    intro x
    rw [← wr_cell_staging T hTl, ← wr_cell_staging s hl, hTz]
    exact hwr _ (Or.inr (by omega))
  have hmt2 : mounted t T := by
    refine ⟨hTn.trans hmt.nb, hTb.trans hmt.bk, hTa.trans hmt.ar, hTe.trans hmt.be,
      hTh.trans hmt.hb, ?_⟩
    intro x hx
    rw [← hmt.ro x hx, hTd]
    exact layout_ro_cell_poke s hl _ _ _ x (by unfold asize at hx ⊢; rw [hmt.ar]; exact hx)
  have hly := init_layout_mounted num bp s0 T t o hf.params hL hmas hmt2
  have e1 : pdbstore_init T num bp = init_recover T o := by
    unfold pdbstore_init
    rw [if_neg (by rw [hTi]; simp)]
    simp only [hly, ne_eq, not_true_eq_false, if_false]
  -- the staging area is blank
  have hst : (read_record T AREA_INDEX_STAGING 0 true record_out_init).1 = PDBSTORE_DATA_CORRUPT := by
    obtain ⟨r, hr⟩ := read_record_blank T AREA_INDEX_STAGING 0 record_out_init
      (area_ok_nowrap hTl.st_ok) (Nat.zero_le _)
      (by rw [hTer, wr_aerase_staging s hl]; exact (mounted_aerase num bp s0 s t o hf.params hL hmt).1)
      (fun x _ h2 => by
        rw [hstc, hTer]
        exact hs.staging x (by rw [hl.st_size]; omega))
    rcases hr with ⟨h, _⟩ | ⟨_, _, h, _⟩
    · rw [h]
    · rw [hTl.st_size] at h; omega
  -- the torn record is corrupt
  have hhd := torn_header T AREA_INDEX_WRITABLE (log_size log) key D 0 hk2 (by omega) (by
    intro i hi
    rw [hcell, if_pos ⟨rfl, by omega, by omega⟩, rec_image_cfg hTe hTh]
    congr 1
    omega)
  have htail : log_size log < asize T AREA_INDEX_WRITABLE →
      (read_record T AREA_INDEX_WRITABLE (log_size log) true record_out_init).1 =
        PDBSTORE_DATA_CORRUPT := by
    intro _
    rw [read_record_eq T _ _ _ (area_ok_nowrap hTl.wr_ok) (by rw [hTz]; omega)]
    unfold rec_next
    rw [hhd.1, hhd.2, hDl, hTz]
    rw [if_neg (by omega), if_neg (by omega), if_neg (by omega), if_neg (by omega),
      if_neg (by omega), if_neg hcrc]
  obtain ⟨F, eF, cF, mF⟩ := init_recover_truncate T log o hTl
    (@log_at_congr s T hTe hTh _ log 0 (fun x _ hx => hwr x (Or.inl (by omega))) hs.cells)
    hs.recs (by rw [hTz]; exact hs.fits) hst htail
  rw [e1, eF]
  congr 1
  obtain ⟨a1, a2, a3, a4, a5, a6, a7⟩ := cF
  simp only at a1 a2 a3 a4 a5 a6 a7
  apply store_ext
  · rw [a1, hTn]
  · rw [a2, hTb]
  · rw [a3, hTa]
  · rw [a4, hi]
  · rw [a5, hTe]
  · rw [a6, hfso]
  · funext b y
    rw [mF b y, hTa, hTab, hTz, hTer]
    have hext := wr_blank_ext s hl (log_size log) hs.tail hs.staging
    by_cases c : b = (s.area_params AREA_INDEX_WRITABLE).bank ∧
        abase s AREA_INDEX_WRITABLE + log_size log ≤ y ∧
        y < abase s AREA_INDEX_WRITABLE + asize s AREA_INDEX_WRITABLE + 1048
    · rw [if_pos c]
      obtain ⟨c1, c2, c3⟩ := c
      have := hext (y - abase s AREA_INDEX_WRITABLE) (by omega) (by omega)
      unfold acell at this
      rw [← this, c1]
      congr 1
      omega
    · rw [if_neg c, hTd]
      simp only
      rw [poke_mem, if_neg (by
        intro ⟨c1, c2, c3⟩
        exact c ⟨c1, c2, by omega⟩)]
  · rw [a7, hTh]

theorem torn_append_truncated_witness :
    (pdbstore_set tight_store [97] [1, 2, 3] 3 0).1 = PDBSTORE_SUCCESS ∧
    (∀ x, x < asize tight_store AREA_INDEX_WRITABLE →
      acell (pdbstore_set tight_store [97] [1, 2, 3] 3 0).2 AREA_INDEX_WRITABLE x =
        acell (torn_append tight_store [97] [1, 2, 3] 3 0 3) AREA_INDEX_WRITABLE x) ∧
    pdbstore_init (torn_append tight_store [97] [1, 2, 3] 3 0 1) 1 (fun _ => tight_bank) =
      (PDBSTORE_SUCCESS, tight_store) := by
  have hf : tight_store.initialized = true ∧
      (find_record tight_store [97]).ret = PDBSTORE_NOT_FOUND ∧
      tight_store.free_space_offset + 8 + strlen [97] + 3 ≤ asize tight_store AREA_INDEX_WRITABLE ∧
      ¬ rec_crc_ok (torn_append tight_store [97] [1, 2, 3] 3 0 1) AREA_INDEX_WRITABLE
        tight_store.free_space_offset := by
    decide!
  obtain ⟨f1, f2, f3, f4⟩ := hf
  exact torn_append_truncated 1 (fun _ => tight_bank) tight_media tight_store [97] [1, 2, 3] 3 1
    tight_fresh tight_reachable f1 (by decide) (by decide) f2 f3
    (by decide) f4

/-- Claim C9 as stated fails for a torn `pdbstore_set` that replaces a record which is not
the last one: in `tight_store_ab` the keys `"a"` (at offset 0, 3 data bytes) and `"b"` are
set; a `pdbstore_set("a", {7, 8, 9}, 3, 0)` that loses power after one data byte leaves a
record at offset 0 that fails the CRC check, the next `pdbstore_init` succeeds and erases
the writable area from offset 0 on, and `pdbstore_get("b")`, which returned success before,
returns not-found. -/
theorem torn_replace_loses_later_key :
    (pdbstore_get tight_store_ab [98]).1 = PDBSTORE_SUCCESS ∧
    (find_record tight_store_ab [97]).ret = PDBSTORE_SUCCESS ∧
    (find_record tight_store_ab [97]).area = some AREA_INDEX_WRITABLE ∧
    (find_record tight_store_ab [97]).offset = 0 ∧
    (find_record tight_store_ab [97]).out.actual_data_size = 3 ∧
    (pdbstore_init (torn_replace tight_store_ab [97] [7, 8, 9] 3 0 0 1) 1 (fun _ => tight_bank)).1 =
      PDBSTORE_SUCCESS ∧
    (pdbstore_init (torn_replace tight_store_ab [97] [7, 8, 9] 3 0 0 1) 1
      (fun _ => tight_bank)).2.free_space_offset = 0 ∧
    (pdbstore_get (pdbstore_init (torn_replace tight_store_ab [97] [7, 8, 9] 3 0 0 1) 1
      (fun _ => tight_bank)).2 [98]).1 = PDBSTORE_NOT_FOUND := by
  decide!

/-- The scan of `pdbstore_init`, with no staged record left to replay, over the records of
`rest` followed by the end of the area or by bytes that `read_record` classifies as
corrupt: the scan ends behind the records and the area is erased from there on. -/
theorem init_scan_truncate (sk : List Nat) (sp : media_ptr) (sn sf : Nat) (rest : List log_rec)
    (o fuel : Nat) (out : record_out) (nx : Nat) (s : Store)
    (hl : layout s) (hat : log_at s AREA_INDEX_WRITABLE o rest)
    (hok : ∀ q, q ∈ rest → log_rec_ok q)
    (hfit : o + log_size rest ≤ asize s AREA_INDEX_WRITABLE)
    (hfso : rest = [] → s.free_space_offset = o)
    (htail : o + log_size rest < asize s AREA_INDEX_WRITABLE →
      (read_record s AREA_INDEX_WRITABLE (o + log_size rest) true record_out_init).1 =
        PDBSTORE_DATA_CORRUPT)
    (hfuel : rest.length < fuel) :
    ∃ s2, same_cfg { s with free_space_offset := o + log_size rest } s2 ∧
      (∀ b y, s2.mem b y =
        if b = (s.area_params AREA_INDEX_WRITABLE).bank ∧
            abase s AREA_INDEX_WRITABLE + (o + log_size rest) ≤ y ∧
            y < abase s AREA_INDEX_WRITABLE + asize s AREA_INDEX_WRITABLE then
          aerase s AREA_INDEX_WRITABLE
        else s.mem b y) ∧
      init_scan sk sp sn sf fuel s o out false nx =
        { ret := PDBSTORE_SUCCESS, s := s2, offset := o + log_size rest, staging_valid := false } := by
  have hnw := area_ok_nowrap hl.wr_ok
  obtain ⟨f, hf⟩ : ∃ f, fuel = (f + 1) + rest.length := ⟨fuel - rest.length - 1, by omega⟩
  obtain ⟨x, out', e, hx1, hx2⟩ := init_scan_over sk sp sn sf rest o (f + 1) out false nx s hl hat hok
    hfit (by simp)
  have hx : x = o + log_size rest := by
    by_cases c : rest = []
    · rw [hx2 c, hfso c, c]
      simp [log_size]
    · exact hx1 c
  subst hx
  rw [hf, e]
  by_cases hp : o + log_size rest < asize s AREA_INDEX_WRITABLE
  · have h1 : (read_record { s with free_space_offset := o + log_size rest } AREA_INDEX_WRITABLE
        (o + log_size rest) true
        { out' with next_offset :=
          ({ s with free_space_offset := o + log_size rest } : Store).free_space_offset }).1 =
        PDBSTORE_DATA_CORRUPT := by
      rw [read_record_fso, read_record_status_out s _ _ record_out_init _ hnw hfit]
      exact htail hp
    obtain ⟨r2, hr2⟩ : ∃ r2, read_record { s with free_space_offset := o + log_size rest }
        AREA_INDEX_WRITABLE (o + log_size rest) true
        { out' with next_offset :=
          ({ s with free_space_offset := o + log_size rest } : Store).free_space_offset } =
        (PDBSTORE_DATA_CORRUPT, r2) := ⟨_, by rw [← h1]⟩
    have hl2 : layout { s with free_space_offset := r2.next_offset } := layout_congr hl rfl rfl
    obtain ⟨s3, e3, c3, m3⟩ := reset_area_mem2 { s with free_space_offset := r2.next_offset }
      AREA_INDEX_WRITABLE (o + log_size rest) hl2.wr_ok hfit
    refine ⟨{ s3 with free_space_offset := o + log_size rest }, ?_, ?_, ?_⟩
    · obtain ⟨a1, a2, a3, a4, a5, a6, a7⟩ := c3
      exact ⟨a1, a2, a3, a4, a5, rfl, a7⟩
    · intro b y
      exact m3 b y
    · have hkk : ¬ ((false : Bool) = true ∧ cstr r2.key = cstr sk ∧ r2.totally_corrupt = false) := by
        simp
      rw [init_scan_corrupt sk sp sn sf f
        { s with free_space_offset := o + log_size rest } (o + log_size rest) out' false nx r2 hp hr2 hkk]
      have e3' : reset_area
          { ({ s with free_space_offset := o + log_size rest } : Store) with free_space_offset := r2.next_offset }
          AREA_INDEX_WRITABLE (o + log_size rest) = (PDBSTORE_SUCCESS, s3) := e3
      rw [e3']
      simp only [ne_eq, not_true_eq_false, if_false]
  · refine ⟨{ s with free_space_offset := o + log_size rest }, same_cfg_refl _, ?_, ?_⟩
    · intro b y
      rw [if_neg (by omega)]
    · rw [init_scan_end sk sp sn sf f
        { s with free_space_offset := o + log_size rest } (o + log_size rest) out' false nx hp]

/-- One turn of the scan of `pdbstore_init` at the record that is replayed from the staging
area: the record is rewritten in place and the scan moves on behind it. -/
theorem init_scan_replay (sk : List Nat) (sp : media_ptr) (sn sf fuel : Nat) (s : Store)
    (offset : Nat) (o : record_out) (nx : Nat) (st : PDBSTORE_status_e) (r : record_out)
    (s5 : Store) (nx5 : Nat)
    (ho : offset < (s.area_params AREA_INDEX_WRITABLE).size)
    (hr : read_record s AREA_INDEX_WRITABLE offset true { o with next_offset := s.free_space_offset } =
      (st, r))
    (hst : st = PDBSTORE_SUCCESS ∨ st = PDBSTORE_DATA_CORRUPT)
    (hk : cstr r.key = cstr sk) (htc : r.totally_corrupt = false)
    (hw : pdbstore_write_record { s with free_space_offset := r.next_offset } AREA_INDEX_WRITABLE
      r.key (data_buf.media sp) sn sf offset nx true = (PDBSTORE_SUCCESS, s5, nx5)) :
    init_scan sk sp sn sf (fuel + 1) s offset o true nx =
      init_scan sk sp sn sf fuel s5 s5.free_space_offset r false nx5 := by
  rw [init_scan]
  rw [if_neg (not_not.mpr ho), hr]
  simp only [hst, hk, htc, and_self, decide_True, if_true, hw, ne_eq, not_true_eq_false, and_false,
    if_false, reduceCtorEq]

theorem poke_fso (s : Store) (v bank addr n : Nat) (buf : List Nat) :
    poke { s with free_space_offset := v } bank addr n buf =
      { poke s bank addr n buf with free_space_offset := v } := rfl

/-- The sizes in the header of a record are given by its first three cells. -/
theorem hdr_sizes_congr {s s' : Store} (h1 : s'.big_endian = s.big_endian)
    (h2 : s'.host_big_endian = s.host_big_endian) (a a' : area_index_e) (o o' : Nat)
    (hag : ∀ i, i < 3 → acell s' a' (o' + i) = acell s a (o + i)) :
    hdr_key_size s' a' o' = hdr_key_size s a o ∧ hdr_data_size s' a' o' = hdr_data_size s a o := by
  have e0 := hag 0 (by omega)
  have e1 := hag 1 (by omega)
  have e2 := hag 2 (by omega)
  simp only [Nat.add_zero] at e0
  unfold hdr_key_size hdr_data_size
  rw [e0, e1, e2, h1, h2]
  exact ⟨rfl, rfl⟩

/-- The key of a record is given by the size in its header and its key cells. -/
theorem rec_key_congr {s s' : Store} (a a' : area_index_e) (o o' : Nat)
    (hk : hdr_key_size s' a' o' = hdr_key_size s a o)
    (hag : ∀ i, i < hdr_key_size s a o → acell s' a' (o' + 8 + i) = acell s a (o + 8 + i)) :
    rec_key s' a' o' = rec_key s a o := by
  unfold rec_key
  rw [hk]
  apply List.map_congr_left
  intro i hi
  exact hag i (by simpa using hi)

/-- The sizes and the key of a record whose first three cells and key cells are those of
the image of `(key, D, flags)`. -/
theorem image_sizes_key (s : Store) (a : area_index_e) (o : Nat) (key D : List Nat) (flags : Nat)
    (hk2 : strlen key ≤ 16) (hn : D.length ≤ 1024)
    (hsz : ∀ i, i < 3 → acell s a (o + i) = (rec_image s key D flags).getD i 0)
    (hkey : ∀ i, 8 ≤ i → i < 8 + strlen key →
      acell s a (o + i) = (rec_image s key D flags).getD i 0) :
    hdr_key_size s a o = strlen key ∧ hdr_data_size s a o = D.length ∧ rec_key s a o = cstr key := by
  obtain ⟨c, hc⟩ : ∃ c : Store, c = poke s (s.area_params a).bank (abase s a + o)
      (8 + strlen key + D.length) (rec_image s key D flags) := ⟨_, rfl⟩
  have hcc : same_cfg s c := by rw [hc]; exact same_cfg_poke _ _ _ _ _
  have hcell : ∀ i, i < 8 + strlen key + D.length →
      acell c a (o + i) = (rec_image s key D flags).getD i 0 := by
    intro i hi
    rw [hc, acell_poke, if_pos ⟨rfl, by omega, by omega⟩]
    congr 1
    omega
  have h1 := rec_image_read c a o key D flags hk2 hn (by
    intro i hi
    rw [hc]
    exact write_record_append_cells s a key D flags o i hi)
  have h2 := hdr_sizes_congr hcc.2.2.2.2.1 hcc.2.2.2.2.2.2 a a o o (by
    intro i hi
    rw [hcell i (by omega), hsz i hi])
  have h3 : rec_key c a o = rec_key s a o := by
    apply rec_key_congr a a o o h2.1
    intro i hi
    rw [Nat.add_assoc, hcell (8 + i) (by rw [← h2.1, h1.1] at hi; omega),
      hkey (8 + i) (by omega) (by rw [← h2.1, h1.1] at hi; omega)]
  exact ⟨h2.1.symm.trans h1.1, h2.2.symm.trans h1.2.1, h3.symm.trans h1.2.2.2.2.1⟩

/-- The data bytes behind the pointer `read_record` returns for a record whose cells are
the image of `(key, D, flags)`, in any state with these cells. -/
theorem image_data_read (s s' : Store) (a : area_index_e) (key D : List Nat) (flags : Nat)
    (hk2 : strlen key ≤ 16) (hn : D.length ≤ 1024)
    (hcells : ∀ i, i < 8 + strlen key + D.length →
      s'.mem (s.area_params a).bank (abase s a + i) = (rec_image s key D flags).getD i 0) :
    mem_read s' (s.area_params a).bank (abase s a + (0 + 8 + strlen key)) D.length = D := by
  obtain ⟨c, hc⟩ : ∃ c : Store, c = { s with mem := s'.mem } := ⟨_, rfl⟩
  have h1 := rec_image_read c a 0 key D flags hk2 hn (by
    intro i hi
    have e : acell c a (0 + i) = s'.mem (s.area_params a).bank (abase s a + i) := by
      rw [hc, Nat.zero_add]
      rfl
    have e2 : rec_image c key D flags = rec_image s key D flags := by
      rw [hc]
      rfl
    rw [e, e2]
    exact hcells i hi)
  have h2 := h1.2.2.2.2.2.1
  unfold rec_data at h2
  rw [h1.1, h1.2.1] at h2
  refine Eq.trans ?_ h2
  unfold mem_read
  apply List.map_congr_left
  intro i _
  have e : acell c a (0 + 8 + strlen key + i) =
      s'.mem (s.area_params a).bank (abase s a + (0 + 8 + strlen key + i)) := by
    rw [hc]
    rfl
  rw [e, Nat.add_assoc]

/-- The second part of `pdbstore_init` on a media whose staging area holds the record `r`
and whose writable area holds the records of `pre` (none for the key of `r`), then a record
with the sizes and the key of `r` (its other bytes are arbitrary), then the records of
`post`, followed by the end of the area or by bytes that `read_record` classifies as
corrupt: the record is rewritten in place from the staging area, the writable area is
erased behind `post`, the staging area is erased, and nothing else changes. -/
theorem init_recover_replay (t : Store) (pre post : List log_rec) (r : log_rec) (o : record_out)
    (hl : layout t) (hrec : log_rec_ok r)
    (hstg : ∀ i, i < log_rec_size r →
      acell t AREA_INDEX_STAGING i = (rec_image t r.key r.data r.flags).getD i 0)
    (hpre : log_at t AREA_INDEX_WRITABLE 0 pre) (hpok : ∀ q, q ∈ pre → log_rec_ok q)
    (hpk : ∀ q, q ∈ pre → q.key ≠ r.key)
    (hsz : ∀ i, i < 3 → acell t AREA_INDEX_WRITABLE (log_size pre + i) =
      (rec_image t r.key r.data r.flags).getD i 0)
    (hkey : ∀ i, 8 ≤ i → i < 8 + strlen r.key → acell t AREA_INDEX_WRITABLE (log_size pre + i) =
      (rec_image t r.key r.data r.flags).getD i 0)
    (hpost : log_at t AREA_INDEX_WRITABLE (log_size pre + log_rec_size r) post)
    (hqok : ∀ q, q ∈ post → log_rec_ok q)
    (hfit : log_size pre + log_rec_size r + log_size post ≤ asize t AREA_INDEX_WRITABLE)
    (htail : log_size pre + log_rec_size r + log_size post < asize t AREA_INDEX_WRITABLE →
      (read_record t AREA_INDEX_WRITABLE (log_size pre + log_rec_size r + log_size post) true
        record_out_init).1 = PDBSTORE_DATA_CORRUPT) :
    ∃ F, init_recover t o = (PDBSTORE_SUCCESS, F) ∧
      same_cfg { t with initialized := true, free_space_offset := log_size pre + log_rec_size r + log_size post } F ∧
      ∀ b y, F.mem b y =
        if b = (t.area_params AREA_INDEX_WRITABLE).bank ∧
            abase t AREA_INDEX_WRITABLE + (log_size pre + log_rec_size r + log_size post) ≤ y ∧
            y < abase t AREA_INDEX_WRITABLE + asize t AREA_INDEX_WRITABLE + 1048 then
          aerase t AREA_INDEX_WRITABLE
        else if b = (t.area_params AREA_INDEX_WRITABLE).bank ∧
            abase t AREA_INDEX_WRITABLE + (log_size pre + 3) ≤ y ∧
            y < abase t AREA_INDEX_WRITABLE + (log_size pre + 3) + (5 + strlen r.key + r.data.length) then
          ((rec_image t r.key r.data r.flags).drop 3).getD
            (y - (abase t AREA_INDEX_WRITABLE + (log_size pre + 3))) 0
        else t.mem b y := by
  have hnw := area_ok_nowrap hl.wr_ok
  have hwz := hl.wr_size
  obtain ⟨hk1, hk2, hck, hd, hfl⟩ := hrec
  have hrec : log_rec_ok r := ⟨hk1, hk2, hck, hd, hfl⟩
  have hz : log_rec_size r = 8 + strlen r.key + r.data.length := rfl
  have hlen1 := log_size_le_length pre
  have hlen2 := log_size_le_length post
  -- the record in the staging area
  have hrs0 := read_record_log t AREA_INDEX_STAGING 0 r record_out_init (area_ok_nowrap hl.st_ok) hrec
    (by rw [hl.st_size, hz]; omega) (by intro i hi; rw [Nat.zero_add]; exact hstg i hi)
  obtain ⟨rs, hrs, hrsk, hrsp, hrsn, hrsf⟩ : ∃ rs : record_out,
      read_record t AREA_INDEX_STAGING 0 true record_out_init = (PDBSTORE_SUCCESS, rs) ∧
      rs.key = r.key ∧ rs.data_ptr = { bank := (t.area_params AREA_INDEX_STAGING).bank, addr := abase t AREA_INDEX_STAGING + (0 + 8 + strlen r.key) } ∧
      rs.actual_data_size = r.data.length ∧ rs.flags = r.flags := ⟨_, hrs0, rfl, rfl, rfl, rfl⟩
  -- the records in front of the replayed one
  obtain ⟨f, hf, hfp⟩ : ∃ f, (t.area_params AREA_INDEX_WRITABLE).size + 1 = (f + 1) + pre.length ∧
      post.length < f :=
    ⟨(t.area_params AREA_INDEX_WRITABLE).size - pre.length, by unfold asize at hfit; omega,
      by unfold asize at hfit; omega⟩
  obtain ⟨x, out', e, _, _⟩ := init_scan_over rs.key rs.data_ptr rs.actual_data_size rs.flags
    pre 0 (f + 1) { o with key := [], totally_corrupt := rs.totally_corrupt } true rs.next_offset
    t hl hpre hpok (by omega) (fun _ q hq => by rw [hrsk, hck]; exact hpk q hq)
  simp only [Nat.zero_add] at e
  -- the record that is replayed
  obtain ⟨ks, ds, ky⟩ := image_sizes_key t AREA_INDEX_WRITABLE (log_size pre) r.key r.data r.flags
    hk2 hd hsz hkey
  have hnx : rec_next t AREA_INDEX_WRITABLE (log_size pre) = log_size pre + log_rec_size r := by
    unfold rec_next
    rw [ks, ds, hz]
    omega
  obtain ⟨st, r2, hst, hr2, hr2k, hr2c, hr2n⟩ : ∃ st r2, (st = PDBSTORE_SUCCESS ∨ st = PDBSTORE_DATA_CORRUPT) ∧
      read_record { t with free_space_offset := x } AREA_INDEX_WRITABLE (log_size pre) true
        { out' with next_offset := ({ t with free_space_offset := x } : Store).free_space_offset } = (st, r2) ∧
      r2.key = r.key ∧ r2.totally_corrupt = false ∧ r2.next_offset = log_size pre + log_rec_size r := by
    rw [read_record_fso, read_record_eq t AREA_INDEX_WRITABLE (log_size pre) _ hnw (by omega),
      if_neg (by omega), if_neg (by omega), if_neg (by rw [ks, ds]; omega),
      if_neg (by rw [hnx]; omega), if_neg (by rw [ks]; omega)]
    refine ⟨_, _, ?_, rfl, ?_, rfl, hnx⟩
    · by_cases c : rec_crc_ok t AREA_INDEX_WRITABLE (log_size pre)
      · rw [if_pos c]; exact Or.inl rfl
      · rw [if_neg c]; exact Or.inr rfl
    · exact ky.trans hck
  have hp : log_size pre <
      (({ t with free_space_offset := x } : Store).area_params AREA_INDEX_WRITABLE).size := by
    show log_size pre < asize t AREA_INDEX_WRITABLE
    omega
  obtain ⟨s5, hs5⟩ : ∃ s5 : Store, s5 = poke t (t.area_params AREA_INDEX_WRITABLE).bank
      (abase t AREA_INDEX_WRITABLE + (log_size pre + 3)) (5 + strlen r.key + r.data.length)
      ((rec_image t r.key r.data r.flags).drop 3) := ⟨_, rfl⟩
  have c5 : same_cfg t s5 := by rw [hs5]; exact same_cfg_poke _ _ _ _ _
  have m5 : ∀ b y, s5.mem b y =
      if b = (t.area_params AREA_INDEX_WRITABLE).bank ∧
          abase t AREA_INDEX_WRITABLE + (log_size pre + 3) ≤ y ∧
          y < abase t AREA_INDEX_WRITABLE + (log_size pre + 3) + (5 + strlen r.key + r.data.length) then
        ((rec_image t r.key r.data r.flags).drop 3).getD
          (y - (abase t AREA_INDEX_WRITABLE + (log_size pre + 3))) 0
      else t.mem b y := by
    intro b y
    rw [hs5]
    exact poke_mem _ _ _ _ _ _ _
  have hl1 : layout { t with free_space_offset := log_size pre + log_rec_size r } := layout_congr hl rfl rfl
  have hw := write_record_replace { t with free_space_offset := log_size pre + log_rec_size r }
    AREA_INDEX_WRITABLE r.key (data_buf.media rs.data_ptr) r.data.length r.flags (log_size pre)
    rs.next_offset r.data hl1.wr_ok hk1 hk2 hd (by
      show log_size pre + 8 + strlen r.key + r.data.length ≤ asize t AREA_INDEX_WRITABLE
      omega) (by
      intro s' hc hm
      rw [hrsp]
      show mem_read s' (t.area_params AREA_INDEX_STAGING).bank
        (abase t AREA_INDEX_STAGING + (0 + 8 + strlen r.key)) r.data.length = r.data
      apply image_data_read t s' AREA_INDEX_STAGING r.key r.data r.flags hk2 hd
      intro i hi
      rw [hm _ _ (by
        show ¬ (_ = (t.area_params AREA_INDEX_WRITABLE).bank ∧
          abase t AREA_INDEX_WRITABLE + log_size pre ≤ _ ∧
          _ < abase t AREA_INDEX_WRITABLE + log_size pre + 8 + strlen r.key)
        rw [hl.st_base]
        omega), wipe_mem, if_neg (by
        show ¬ (_ = (t.area_params AREA_INDEX_WRITABLE).bank ∧
          abase t AREA_INDEX_WRITABLE + (log_size pre + 3) ≤ _ ∧
          _ < abase t AREA_INDEX_WRITABLE + (log_size pre + 3) + (5 + strlen r.key + r.data.length))
        rw [hl.st_base]
        omega)]
      exact hstg i hi)
  have hw5 : pdbstore_write_record
      { ({ t with free_space_offset := x } : Store) with free_space_offset := r2.next_offset }
      AREA_INDEX_WRITABLE r2.key (data_buf.media rs.data_ptr) rs.actual_data_size rs.flags (log_size pre)
      rs.next_offset true =
      (PDBSTORE_SUCCESS, { s5 with free_space_offset := log_size pre + log_rec_size r },
        log_size pre + 8 + strlen r.key + r.data.length) := by
    rw [hr2n, hr2k, hrsn, hrsf, hs5]
    exact hw
  have e5 := init_scan_replay rs.key rs.data_ptr rs.actual_data_size rs.flags f
    { t with free_space_offset := x } (log_size pre) out' rs.next_offset st r2
    { s5 with free_space_offset := log_size pre + log_rec_size r }
    (log_size pre + 8 + strlen r.key + r.data.length) hp hr2 hst (by rw [hr2k, hrsk]) hr2c hw5
  -- the records behind it
  have hcell5 : ∀ x, log_size pre + log_rec_size r ≤ x →
      acell { s5 with free_space_offset := log_size pre + log_rec_size r } AREA_INDEX_WRITABLE x =
        acell t AREA_INDEX_WRITABLE x := by
    intro x hx
    show acell s5 AREA_INDEX_WRITABLE x = _
    rw [hs5, acell_poke, if_neg (by omega)]
  have hl5 : layout { s5 with free_space_offset := log_size pre + log_rec_size r } :=
    layout_congr hl c5.2.1 c5.2.2.1
  have hc5 : same_cfg t { s5 with free_space_offset := t.free_space_offset } :=
    ⟨c5.1, c5.2.1, c5.2.2.1, c5.2.2.2.1, c5.2.2.2.2.1, rfl, c5.2.2.2.2.2.2⟩
  obtain ⟨s6, c6, m6, e6⟩ := init_scan_truncate rs.key rs.data_ptr rs.actual_data_size rs.flags post
    (log_size pre + log_rec_size r) f r2 (log_size pre + 8 + strlen r.key + r.data.length)
    { s5 with free_space_offset := log_size pre + log_rec_size r } hl5
    (@log_at_congr t { s5 with free_space_offset := log_size pre + log_rec_size r } c5.2.2.2.2.1
      c5.2.2.2.2.2.2 AREA_INDEX_WRITABLE post _ (fun x h1 _ => hcell5 x h1) hpost) hqok
    (by
      show _ ≤ asize s5 AREA_INDEX_WRITABLE
      rw [same_cfg_asize c5]
      exact hfit)
    (fun _ => rfl)
    (by
      intro h
      have h' : log_size pre + log_rec_size r + log_size post < asize t AREA_INDEX_WRITABLE := by
        rw [← same_cfg_asize c5]
        exact h
      have e0 : read_record { s5 with free_space_offset := log_size pre + log_rec_size r }
          AREA_INDEX_WRITABLE (log_size pre + log_rec_size r + log_size post) true record_out_init =
          read_record { s5 with free_space_offset := t.free_space_offset }
          AREA_INDEX_WRITABLE (log_size pre + log_rec_size r + log_size post) true record_out_init := by
        exact (read_record_fso s5 _ _ _ _ _).trans (read_record_fso s5 _ _ _ _ _).symm
      rw [e0, read_record_congr hc5 AREA_INDEX_WRITABLE _ record_out_init hnw hfit (by
        intro _ x h1 _
        have := hcell5 x (by omega)
        exact this)]
      exact htail h')
    hfp
  obtain ⟨a1, a2, a3, a4, a5, a6, a7⟩ := c6
  simp only at a1 a2 a3 a4 a5 a6 a7
  have b2 : s6.bank_params = t.bank_params := a2.trans c5.2.1
  have b3 : s6.area_params = t.area_params := a3.trans c5.2.2.1
  have hl7 : layout { s6 with free_space_offset := s6.free_space_offset } := layout_congr hl b2 b3
  obtain ⟨s7, e7, c7, m7⟩ := reset_area_mem2 { s6 with free_space_offset := s6.free_space_offset }
    AREA_INDEX_STAGING 0 hl7.st_ok (Nat.zero_le _)
  obtain ⟨d1, d2, d3, d4, d5, d6, d7⟩ := c7
  simp only at d1 d2 d3 d4 d5 d6 d7
  refine ⟨{ s7 with initialized := true }, ?_, ?_, ?_⟩
  · unfold init_recover
    rw [hrs, if_neg (by simp)]
    have e2 : init_scan (PDBSTORE_SUCCESS, rs).2.key (PDBSTORE_SUCCESS, rs).2.data_ptr
        (PDBSTORE_SUCCESS, rs).2.actual_data_size (PDBSTORE_SUCCESS, rs).2.flags
        ((t.area_params AREA_INDEX_WRITABLE).size + 1) t 0
        { o with key := [], totally_corrupt := (PDBSTORE_SUCCESS, rs).2.totally_corrupt }
        (decide ((PDBSTORE_SUCCESS, rs).1 = PDBSTORE_SUCCESS))
        (PDBSTORE_SUCCESS, rs).2.next_offset =
        { ret := PDBSTORE_SUCCESS, s := s6,
          offset := log_size pre + log_rec_size r + log_size post, staging_valid := false } := by
      rw [hf]
      exact (e.trans e5).trans e6
    rw [e2]
    unfold init_finish
    simp only [ne_eq, not_true_eq_false, if_false, Bool.false_eq_true]
    rw [e7]
    simp only [not_true_eq_false, if_false]
  · exact ⟨d1.trans (a1.trans c5.1), d2.trans b2, d3.trans b3, rfl,
      d5.trans (a5.trans c5.2.2.2.2.1), d6.trans a6, d7.trans (a7.trans c5.2.2.2.2.2.2)⟩
  · intro b y
    simp only
    rw [m7 b y]
    have hb1 : aerase { s6 with free_space_offset := s6.free_space_offset } AREA_INDEX_STAGING =
        aerase t AREA_INDEX_WRITABLE := by
      rw [← wr_aerase_staging t hl]
      unfold aerase
      simp only
      rw [b2, b3]
    have hb2 : abase { s6 with free_space_offset := s6.free_space_offset } AREA_INDEX_STAGING =
        abase t AREA_INDEX_WRITABLE + asize t AREA_INDEX_WRITABLE := by
      rw [← hl.st_base]
      unfold abase
      simp only
      rw [b2, b3]
    have hb3 : asize { s6 with free_space_offset := s6.free_space_offset } AREA_INDEX_STAGING = 1048 := by
      rw [← hl.st_size]
      unfold asize
      simp only
      rw [b3]
    have hb4 : (({ s6 with free_space_offset := s6.free_space_offset } : Store).area_params
        AREA_INDEX_STAGING).bank = (t.area_params AREA_INDEX_WRITABLE).bank := by
      rw [← hl.st_bank]
      simp only
      rw [b3]
    have hb5 : aerase { s5 with free_space_offset := log_size pre + log_rec_size r } AREA_INDEX_WRITABLE =
        aerase t AREA_INDEX_WRITABLE := same_cfg_aerase c5 AREA_INDEX_WRITABLE
    have hb6 : abase { s5 with free_space_offset := log_size pre + log_rec_size r } AREA_INDEX_WRITABLE =
        abase t AREA_INDEX_WRITABLE := same_cfg_abase c5 AREA_INDEX_WRITABLE
    have hb7 : asize { s5 with free_space_offset := log_size pre + log_rec_size r } AREA_INDEX_WRITABLE =
        asize t AREA_INDEX_WRITABLE := same_cfg_asize c5 AREA_INDEX_WRITABLE
    have hb8 : (({ s5 with free_space_offset := log_size pre + log_rec_size r } : Store).area_params
        AREA_INDEX_WRITABLE).bank = (t.area_params AREA_INDEX_WRITABLE).bank := by
      simp only
      rw [c5.2.2.1]
    rw [hb1, hb2, hb3, hb4]
    simp only
    rw [m6 b y, hb5, hb6, hb7, hb8]
    simp only
    rw [m5 b y]
    by_cases cb : b = (t.area_params AREA_INDEX_WRITABLE).bank
    · simp only [cb, true_and]
      clear m5 m6 m7 hw hw5 e5 e6 e7 e hr2 hrs hrs0 hstg hsz hkey hpre hpost htail hcell5
      by_cases c1 : abase t AREA_INDEX_WRITABLE +
          (log_size pre + log_rec_size r + log_size post) ≤ y ∧
          y < abase t AREA_INDEX_WRITABLE + asize t AREA_INDEX_WRITABLE + 1048
      · rw [if_pos c1]
        by_cases c2 : abase t AREA_INDEX_WRITABLE + asize t AREA_INDEX_WRITABLE + 0 ≤ y ∧
            y < abase t AREA_INDEX_WRITABLE + asize t AREA_INDEX_WRITABLE + 1048
        · rw [if_pos c2]
        · rw [if_neg c2, if_pos (by omega)]
      · rw [if_neg c1, if_neg (by omega), if_neg (by omega)]
    · simp only [cb, false_and, if_false]

theorem find_record_loop_initialized (s : Store) (b : Bool) (key : List Nat) (a : area_index_e) :
    ∀ (fuel off : Nat) (out : record_out),
      find_record_loop { s with initialized := b } key a fuel off out =
        find_record_loop s key a fuel off out := by
  intro fuel
  induction fuel with
  | zero => intro off out; rfl
  | succ n ih =>
    intro off out
    rw [find_record_loop, find_record_loop, read_record_initialized]
    simp only [ih]

theorem ro_find_initialized (s : Store) (b : Bool) (key : List Nat) :
    ro_find { s with initialized := b } key = ro_find s key := by
  unfold ro_find
  exact find_record_loop_initialized s b key AREA_INDEX_READONLY _ _ _

/-- The state `init_recover` leaves after a replay from the staging area is steady, with
the staged record in the place of the replayed one, and the read-only area is untouched. -/
theorem init_recover_replay_steady (t : Store) (pre post : List log_rec) (r : log_rec) (o : record_out)
    (hl : layout t) (hrec : log_rec_ok r)
    (hstg : ∀ i, i < log_rec_size r →
      acell t AREA_INDEX_STAGING i = (rec_image t r.key r.data r.flags).getD i 0)
    (hpre : log_at t AREA_INDEX_WRITABLE 0 pre) (hpok : ∀ q, q ∈ pre → log_rec_ok q)
    (hpk : ∀ q, q ∈ pre → q.key ≠ r.key)
    (hsz : ∀ i, i < 3 → acell t AREA_INDEX_WRITABLE (log_size pre + i) =
      (rec_image t r.key r.data r.flags).getD i 0)
    (hkey : ∀ i, 8 ≤ i → i < 8 + strlen r.key → acell t AREA_INDEX_WRITABLE (log_size pre + i) =
      (rec_image t r.key r.data r.flags).getD i 0)
    (hpost : log_at t AREA_INDEX_WRITABLE (log_size pre + log_rec_size r) post)
    (hqok : ∀ q, q ∈ post → log_rec_ok q)
    (hfit : log_size pre + log_rec_size r + log_size post ≤ asize t AREA_INDEX_WRITABLE)
    (htail : log_size pre + log_rec_size r + log_size post < asize t AREA_INDEX_WRITABLE →
      (read_record t AREA_INDEX_WRITABLE (log_size pre + log_rec_size r + log_size post) true
        record_out_init).1 = PDBSTORE_DATA_CORRUPT) :
    ∃ F, init_recover t o = (PDBSTORE_SUCCESS, F) ∧ F.initialized = true ∧
      steady F (pre ++ r :: post) ∧ frame { t with initialized := true } F := by
  obtain ⟨F, e, c, hm⟩ := init_recover_replay t pre post r o hl hrec hstg hpre hpok hpk hsz hkey
    hpost hqok hfit htail
  obtain ⟨c1, c2, c3, c4, c5, c6, c7⟩ := c
  simp only at c1 c2 c3 c4 c5 c6 c7
  have hz : log_rec_size r = 8 + strlen r.key + r.data.length := rfl
  have hk1 := hrec.1
  have hF : ∀ a x, acell F a x = F.mem (t.area_params a).bank (abase t a + x) := by
    intro a x
    unfold acell abase
    rw [c2, c3]
  have hzF : ∀ a, asize F a = asize t a := by intro a; unfold asize; rw [c3]
  have heF : ∀ a, aerase F a = aerase t a := by intro a; unfold aerase; rw [c2, c3]
  have hlF : layout F := layout_congr hl c2 c3
  have hwr : ∀ x, (x < log_size pre + 3 ∨ log_size pre + log_rec_size r ≤ x) →
      x < log_size pre + log_rec_size r + log_size post →
      acell F AREA_INDEX_WRITABLE x = acell t AREA_INDEX_WRITABLE x := by
    intro x h1 h2
    rw [hF, hm, if_neg (by omega), if_neg (by omega)]
    rfl
  refine ⟨F, e, c4, ⟨hlF, ?_, ?_, ?_, ?_, ?_, ?_⟩, ⟨c1, c2, c3, c4, c5, c7, ?_⟩⟩
  · intro q hq
    rcases List.mem_append.mp hq with h | h
    · exact hpok q h
    · rcases List.mem_cons.mp h with h | h
      · rw [h]; exact hrec
      · exact hqok q h
  · rw [log_at_append]
    refine ⟨?_, ?_, ?_⟩
    · apply log_at_congr c5 c7 _ _ _ _ hpre
      intro x _ hx2
      exact hwr x (by omega) (by omega)
    · intro i hi
      rw [Nat.zero_add, rec_image_cfg c5 c7]
      by_cases ci : i < 3
      · rw [hwr _ (by omega) (by omega)]
        exact hsz i ci
      · rw [hF, hm, if_neg (by omega), if_pos ⟨rfl, by omega, by omega⟩,
          List.getD_eq_getElem?_getD, List.getElem?_drop, ← List.getD_eq_getElem?_getD]
        congr 1
        omega
    · rw [Nat.zero_add]
      apply log_at_congr c5 c7 _ _ _ _ hpost
      intro x hx1 hx2
      exact hwr x (by omega) (by omega)
  · rw [c6, log_size_append]
    simp only [log_size]
    omega
  · rw [hzF, log_size_append]
    simp only [log_size]
    omega
  · intro x hx1 hx2
    rw [log_size_append] at hx1
    simp only [log_size] at hx1
    rw [hzF] at hx2
    rw [hF, hm, if_pos ⟨rfl, by omega, by omega⟩, heF]
  · intro x hx
    rw [hzF, hl.st_size] at hx
    rw [hF, hm, hl.st_bank, hl.st_base, if_pos ⟨rfl, by omega, by omega⟩, heF,
      wr_aerase_staging t hl]
  · intro x hx
    have hx' : x < asize t AREA_INDEX_READONLY := hx
    rw [hF, hm]
    rcases hl.ro_disj with hd | hd
    · rw [if_neg (fun h => hd h.1), if_neg (fun h => hd h.1)]
      rfl
    · rw [if_neg (by omega), if_neg (by omega)]
      rfl

/-- Claim C10 (amended): let `pdbstore_init` be called on an uninitialized store whose
media gives the area layout `t` (the first part of `pdbstore_init` succeeds), and let the
staging area hold the bytes of a record `r` for a valid key that is not in the read-only
area, with flags that do not mark a deletion. Let the writable area hold valid records
`pre`, none for this key, then a record whose size fields and key bytes are those of `r`
(its flags, CRC and data bytes are arbitrary, so its CRC check may fail), then valid records
`post`, behind which the area ends or `read_record` reports a corrupt record. Then
`pdbstore_init` returns success, the record is rewritten in place to the bytes of the
staged one, the staging area is fully erased, and `pdbstore_get` of the key returns
success with the staged size and data. -/
theorem staging_replay_on_mount (s0 t : Store) (num : Nat) (bp : Nat → pdbstore_bank_params_t)
    (o : record_out) (key : List Nat) (pre post : List log_rec) (r : log_rec)
    (hu : s0.initialized = false) (hbp : bp_ok num bp)
    (hL : init_layout s0 num bp = (PDBSTORE_SUCCESS, t, o))
    (hvk : is_valid_key key = true) (hrk : r.key = cstr key) (hrec : log_rec_ok r)
    (hnd : r.flags &&& DELETE_FLAG = 0) (hro : (ro_find t key).1 = none)
    (hstg : ∀ i, i < log_rec_size r →
      acell t AREA_INDEX_STAGING i = (rec_image t r.key r.data r.flags).getD i 0)
    (hpre : log_at t AREA_INDEX_WRITABLE 0 pre) (hpok : ∀ q, q ∈ pre → log_rec_ok q)
    (hpk : ∀ q, q ∈ pre → q.key ≠ r.key)
    (hsz : ∀ i, i < 3 → acell t AREA_INDEX_WRITABLE (log_size pre + i) =
      (rec_image t r.key r.data r.flags).getD i 0)
    (hkey : ∀ i, 8 ≤ i → i < 8 + strlen r.key → acell t AREA_INDEX_WRITABLE (log_size pre + i) =
      (rec_image t r.key r.data r.flags).getD i 0)
    (hpost : log_at t AREA_INDEX_WRITABLE (log_size pre + log_rec_size r) post)
    (hqok : ∀ q, q ∈ post → log_rec_ok q)
    (hfit : log_size pre + log_rec_size r + log_size post ≤ asize t AREA_INDEX_WRITABLE)
    (htail : log_size pre + log_rec_size r + log_size post < asize t AREA_INDEX_WRITABLE →
      (read_record t AREA_INDEX_WRITABLE (log_size pre + log_rec_size r + log_size post) true
        record_out_init).1 = PDBSTORE_DATA_CORRUPT) :
    (pdbstore_init s0 num bp).1 = PDBSTORE_SUCCESS ∧
    (∀ i, i < log_rec_size r →
      acell (pdbstore_init s0 num bp).2 AREA_INDEX_WRITABLE (log_size pre + i) =
        (rec_image t r.key r.data r.flags).getD i 0) ∧
    (∀ x, x < asize t AREA_INDEX_STAGING →
      acell (pdbstore_init s0 num bp).2 AREA_INDEX_STAGING x = aerase t AREA_INDEX_STAGING) ∧
    (pdbstore_get (pdbstore_init s0 num bp).2 key).1 = PDBSTORE_SUCCESS ∧
    (pdbstore_get (pdbstore_init s0 num bp).2 key).2.2 = r.data.length ∧
    mem_read (pdbstore_init s0 num bp).2 (pdbstore_get (pdbstore_init s0 num bp).2 key).2.1.bank
      (pdbstore_get (pdbstore_init s0 num bp).2 key).2.1.addr r.data.length = r.data := by
  have hl : layout t := (init_layout_spec s0 num bp t o hbp hL).1
  obtain ⟨F, e, hi, hs, hfr⟩ := init_recover_replay_steady t pre post r o hl hrec hstg hpre hpok hpk
    hsz hkey hpost hqok hfit htail
  have e1 : pdbstore_init s0 num bp = (PDBSTORE_SUCCESS, F) := by
    unfold pdbstore_init
    rw [if_neg (by rw [hu]; simp)]
    simp only [hL, ne_eq, not_true_eq_false, if_false]
    exact e
  have hl1 : layout { t with initialized := true } := layout_congr hl rfl rfl
  have hroF : (ro_find F key).1 = none := by
    rw [ro_find_frame hl1 hfr, ro_find_initialized]
    exact hro
  obtain ⟨g1, g2⟩ := get_found_steady F pre post r key hs hi hvk hroF
    (fun q hq => by rw [← hrk]; exact hpk q hq) hrk
  have hcells := ((log_at_append F AREA_INDEX_WRITABLE 0 pre (r :: post)).mp hs.cells).2.1
  have hzs : asize F AREA_INDEX_STAGING = asize t AREA_INDEX_STAGING := by
    unfold asize
    rw [hfr.2.2.1]
  have hes : aerase F AREA_INDEX_STAGING = aerase t AREA_INDEX_STAGING := by
    unfold aerase
    rw [hfr.2.2.1, hfr.2.1]
  rw [e1]
  refine ⟨rfl, ?_, ?_, ?_, ?_, ?_⟩
  · intro i hi
    have := hcells i hi
    rw [Nat.zero_add, rec_image_cfg hfr.2.2.2.2.1 hfr.2.2.2.2.2.1] at this
    exact this
  · intro x hx
    rw [← hes]
    exact hs.staging x (by rw [hzs]; exact hx)
  · show (pdbstore_get F key).1 = _
    rw [g1, if_neg (by rw [hnd]; simp)]
  · show (pdbstore_get F key).2.2 = _
    rw [g1]
  · show mem_read F (pdbstore_get F key).2.1.bank (pdbstore_get F key).2.1.addr _ = _
    rw [g1]
    exact g2

theorem staging_replay_on_mount_witness :
    ¬ rec_crc_ok (init_layout (replay_media 1) 1 (fun _ => tight_bank)).2.1
      AREA_INDEX_WRITABLE 0 ∧
    (pdbstore_init (replay_media 1) 1 (fun _ => tight_bank)).1 = PDBSTORE_SUCCESS ∧
    (pdbstore_get (pdbstore_init (replay_media 1) 1 (fun _ => tight_bank)).2 [97]).1 =
      PDBSTORE_SUCCESS ∧
    (pdbstore_get (pdbstore_init (replay_media 1) 1 (fun _ => tight_bank)).2 [97]).2.2 = 1 ∧
    mem_read (pdbstore_init (replay_media 1) 1 (fun _ => tight_bank)).2
      (pdbstore_get (pdbstore_init (replay_media 1) 1 (fun _ => tight_bank)).2 [97]).2.1.bank
      (pdbstore_get (pdbstore_init (replay_media 1) 1 (fun _ => tight_bank)).2 [97]).2.1.addr 1 = [5] := by
  have h := staging_replay_on_mount (replay_media 1)
    (init_layout (replay_media 1) 1 (fun _ => tight_bank)).2.1 1 (fun _ => tight_bank)
    (init_layout (replay_media 1) 1 (fun _ => tight_bank)).2.2 [97] [] []
    { key := [97], data := [5], flags := 1 } rfl
    tight_fresh.params
    (Prod.ext (by decide!) Prod.mk.eta.symm) (by decide) rfl
    ⟨by decide, by decide, by decide, by decide, by decide⟩ (by decide) (by decide!)
    (by decide!) trivial (fun _ hq => absurd hq (List.not_mem_nil _))
    (fun _ hq => absurd hq (List.not_mem_nil _)) (by decide!) (by decide!) trivial
    (fun _ hq => absurd hq (List.not_mem_nil _)) (by decide!) (by decide!)
  exact ⟨by decide!, h.1, h.2.2.2.1, h.2.2.2.2.1, h.2.2.2.2.2⟩

/-- Claim C10 as stated fails when the staged record carries the delete flag. On
`replay_media 128` the staging area holds a record for key `"a"` that `read_record` accepts,
and the writable area holds at offset 0 a record with the same key bytes and sizes whose
CRC check fails; `pdbstore_init` returns success and replays the staged record, and
`pdbstore_get("a")` then returns not-found instead of the staged data. -/
theorem staged_delete_flag_hides_key :
    (read_record (init_layout (replay_media 128) 1 (fun _ => tight_bank)).2.1 AREA_INDEX_STAGING 0
      true record_out_init).1 = PDBSTORE_SUCCESS ∧
    rec_key (init_layout (replay_media 128) 1 (fun _ => tight_bank)).2.1 AREA_INDEX_STAGING 0 = [97] ∧
    (read_record (init_layout (replay_media 128) 1 (fun _ => tight_bank)).2.1 AREA_INDEX_WRITABLE 0
      true record_out_init).1 = PDBSTORE_DATA_CORRUPT ∧
    (read_record (init_layout (replay_media 128) 1 (fun _ => tight_bank)).2.1 AREA_INDEX_WRITABLE 0
      true record_out_init).2.totally_corrupt = false ∧
    rec_key (init_layout (replay_media 128) 1 (fun _ => tight_bank)).2.1 AREA_INDEX_WRITABLE 0 = [97] ∧
    hdr_key_size (init_layout (replay_media 128) 1 (fun _ => tight_bank)).2.1 AREA_INDEX_WRITABLE 0 =
      hdr_key_size (init_layout (replay_media 128) 1 (fun _ => tight_bank)).2.1 AREA_INDEX_STAGING 0 ∧
    hdr_data_size (init_layout (replay_media 128) 1 (fun _ => tight_bank)).2.1 AREA_INDEX_WRITABLE 0 =
      hdr_data_size (init_layout (replay_media 128) 1 (fun _ => tight_bank)).2.1 AREA_INDEX_STAGING 0 ∧
    (pdbstore_init (replay_media 128) 1 (fun _ => tight_bank)).1 = PDBSTORE_SUCCESS ∧
    (∀ x, x < 10 → acell (pdbstore_init (replay_media 128) 1 (fun _ => tight_bank)).2
      AREA_INDEX_WRITABLE x = (spec_record_bytes [97] [5] 128).getD x 0) ∧
    (pdbstore_get (pdbstore_init (replay_media 128) 1 (fun _ => tight_bank)).2 [97]).1 =
      PDBSTORE_NOT_FOUND := by
  decide!

/-- Claim C21: `calc_crc` is restartable. For every running value `c` and byte sequences
`a` and `b`, feeding `a` and then `b` gives the CRC of `a ++ b`; hence the CRC that
`pdbstore_write_record` stores, fed with the header without its CRC field, then the key, then
the data, is the CRC of the concatenation of the three. -/
theorem restartable_crc (c : Nat) (a b : List Nat) :
    calc_crc (calc_crc c a) b = calc_crc c (a ++ b) ∧
    ∀ (s : Store) (key D : List Nat) (flags : Nat),
      calc_crc (calc_crc (calc_crc INITIAL_CRC (hdr03 s key D.length flags)) (cstr key)) D =
        calc_crc INITIAL_CRC (hdr03 s key D.length flags ++ cstr key ++ D) := by
  refine ⟨(calc_crc_append c a b).symm, ?_⟩
  intro s key D flags
  rw [calc_crc_append, calc_crc_append]

/-- The data bytes of a record whose cells are the image of `(key, D, flags)`, read through
the pointer `read_record` returns. -/
theorem image_data_at (s : Store) (a : area_index_e) (o : Nat) (key D : List Nat) (flags : Nat)
    (hk2 : strlen key ≤ 16) (hn : D.length ≤ 1024)
    (hcells : ∀ i, i < 8 + strlen key + D.length →
      acell s a (o + i) = (rec_image s key D flags).getD i 0) :
    mem_read s (s.area_params a).bank (abase s a + (o + 8 + strlen key)) D.length = D := by
  have h1 := rec_image_read s a o key D flags hk2 hn hcells
  have h2 := h1.2.2.2.2.2.1
  unfold rec_data at h2
  rw [h1.1, h1.2.1] at h2
  refine Eq.trans ?_ h2
  unfold mem_read
  apply List.map_congr_left
  intro i _
  unfold acell
  rw [Nat.add_assoc]

/-- The part of claim C22 that holds, for data in the caller's buffer:
`pdbstore_write_record` with `replace_current = true`, for a key of 1 to 16 bytes and
`n <= 1024` data bytes in the caller's buffer, at an offset at which the record fits into
an area that lies inside its bank: it returns success and
`next_offset = offset + 8 + key_size + data_size`, no byte outside
`[offset + 3, offset + 8 + key_size + data_size)` changes, in particular the three leading
bytes with `data_size` and `key_size`, the bytes of that range are those of the new record,
and when the three leading bytes on the media are the size fields of the new record,
`read_record` at `offset` afterwards returns success with the new key, flags and data. -/
theorem replace_keeps_size_fields (s : Store) (a : area_index_e) (key data : List Nat)
    (n flags o nx : Nat) (out : record_out)
    (h : area_ok s a) (hk1 : 1 ≤ strlen key) (hk2 : strlen key ≤ 16) (hn : n ≤ 1024)
    (hd : data.length = n) (hfit : o + 8 + strlen key + n ≤ asize s a) :
    (pdbstore_write_record s a key (data_buf.buf data) n flags o nx true).1 = PDBSTORE_SUCCESS ∧
    (pdbstore_write_record s a key (data_buf.buf data) n flags o nx true).2.2 =
      o + 8 + strlen key + n ∧
    same_cfg s (pdbstore_write_record s a key (data_buf.buf data) n flags o nx true).2.1 ∧
    (∀ b y, ¬ (b = (s.area_params a).bank ∧ abase s a + (o + 3) ≤ y ∧
        y < abase s a + (o + 8 + strlen key + n)) →
      (pdbstore_write_record s a key (data_buf.buf data) n flags o nx true).2.1.mem b y = s.mem b y) ∧
    (∀ i, i < 3 →
      acell (pdbstore_write_record s a key (data_buf.buf data) n flags o nx true).2.1 a (o + i) =
        acell s a (o + i)) ∧
    (∀ i, 3 ≤ i → i < 8 + strlen key + n →
      acell (pdbstore_write_record s a key (data_buf.buf data) n flags o nx true).2.1 a (o + i) =
        (rec_image s key data flags).getD i 0) ∧
    ((∀ i, i < 3 → acell s a (o + i) = (rec_image s key data flags).getD i 0) →
      read_record (pdbstore_write_record s a key (data_buf.buf data) n flags o nx true).2.1 a o
          true out =
        (PDBSTORE_SUCCESS,
          { key := cstr key,
            data_ptr := { bank := (s.area_params a).bank, addr := abase s a + (o + 8 + strlen key) },
            actual_data_size := n,
            totally_corrupt := false,
            flags := flags % 256,
            next_offset := o + 8 + strlen key + n }) ∧
      mem_read (pdbstore_write_record s a key (data_buf.buf data) n flags o nx true).2.1
        (s.area_params a).bank (abase s a + (o + 8 + strlen key)) n = data) := by
  have hw := write_record_replace s a key (data_buf.buf data) n flags o nx data h hk1 hk2 hn hfit
    (fun s' _ _ => buf_bytes_buf s' data n hd)
  obtain ⟨P, hP⟩ : ∃ P : Store, P = poke s (s.area_params a).bank (abase s a + (o + 3))
      (5 + strlen key + n) ((rec_image s key data flags).drop 3) := ⟨_, rfl⟩
  rw [← hP] at hw
  rw [hw]
  have hc : same_cfg s P := by rw [hP]; exact same_cfg_poke _ _ _ _ _
  have hcell : ∀ i, acell P a (o + i) =
      if 3 ≤ i ∧ i < 8 + strlen key + n then (rec_image s key data flags).getD i 0
      else acell s a (o + i) := by
    intro i
    rw [hP, acell_poke]
    by_cases c : 3 ≤ i ∧ i < 8 + strlen key + n
    · rw [if_pos c, if_pos ⟨rfl, by omega, by omega⟩, List.getD_eq_getElem?_getD,
        List.getElem?_drop, ← List.getD_eq_getElem?_getD]
      congr 1
      omega
    · rw [if_neg c, if_neg (by omega)]
  refine ⟨rfl, rfl, hc, ?_, ?_, ?_, ?_⟩
  · intro b y hy
    show P.mem b y = s.mem b y
    rw [hP, poke_mem, if_neg (by omega)]
  · intro i hi
    show acell P a (o + i) = _
    rw [hcell, if_neg (by omega)]
  · intro i h1 h2
    show acell P a (o + i) = _
    rw [hcell, if_pos ⟨h1, h2⟩]
  · intro hsz
    show read_record P a o true out = _ ∧ mem_read P _ _ _ = _
    have hcells : ∀ i, i < 8 + strlen key + data.length →
        acell P a (o + i) = (rec_image P key data flags).getD i 0 := by
      intro i hi
      rw [hcell, rec_image_cfg hc.2.2.2.2.1 hc.2.2.2.2.2.2]
      by_cases c : 3 ≤ i
      · rw [if_pos ⟨c, by omega⟩]
      · rw [if_neg (by omega)]
        exact hsz i (by omega)
    have hr := read_record_log P a o { key := cstr key, data := data, flags := flags % 256 } out
      (area_ok_nowrap (same_cfg_area_ok hc a h))
      ⟨by rw [strlen_cstr]; exact hk1, by rw [strlen_cstr]; exact hk2, cstr_cstr key,
        by show data.length ≤ 1024; omega, Nat.mod_lt _ (by norm_num)⟩
      (by
        show o + (8 + strlen (cstr key) + data.length) ≤ asize P a
        rw [strlen_cstr, same_cfg_asize hc]
        omega)
      (by
        intro i hi
        have hi' : i < 8 + strlen key + data.length := by
          have : i < 8 + strlen (cstr key) + data.length := hi
          rw [strlen_cstr] at this
          exact this
        show acell P a (o + i) = (rec_image P (cstr key) data (flags % 256)).getD i 0
        rw [rec_image_norm]
        exact hcells i hi')
    have hdat := image_data_at P a o key data flags hk2 (by omega) hcells
    constructor
    · rw [hr]
      simp only [strlen_cstr, hd, hc.2.2.1, same_cfg_abase hc, log_rec_size]
      have e : o + (8 + strlen key + n) = o + 8 + strlen key + n := by omega
      rw [e]
    · rw [← hc.2.2.1, ← same_cfg_abase hc, ← hd]
      exact hdat

/-- Claim C23 fails on the code: in `tight_store_a` the key `"a"` is live with the data
`{1, 2, 3}` at address 23 of bank 0. `pdbstore_remove("a")` returns success and leaves at
the same offset a record that `read_record` accepts, with the delete flag and
`data_size = 3`, but its data bytes on the media are the erase value `0xFF`, not
`{1, 2, 3}`: the data pointer passed on by `pdbstore_do_set` points into the record that
`pdbstore_write_record` erases before it computes the CRC and programs the data. -/
theorem remove_erases_data :
    (pdbstore_get tight_store_a [97]).1 = PDBSTORE_SUCCESS ∧
    (pdbstore_get tight_store_a [97]).2.1 = { bank := 0, addr := 23 } ∧
    (pdbstore_get tight_store_a [97]).2.2 = 3 ∧
    mem_read tight_store_a 0 23 3 = [1, 2, 3] ∧
    (pdbstore_remove tight_store_a [97]).1 = PDBSTORE_SUCCESS ∧
    (read_record tight_store_removed AREA_INDEX_WRITABLE 0 true record_out_init).1 =
      PDBSTORE_SUCCESS ∧
    (read_record tight_store_removed AREA_INDEX_WRITABLE 0 true record_out_init).2.key = [97] ∧
    (read_record tight_store_removed AREA_INDEX_WRITABLE 0 true record_out_init).2.flags =
      DELETE_FLAG ∧
    (read_record tight_store_removed AREA_INDEX_WRITABLE 0 true record_out_init).2.actual_data_size =
      3 ∧
    (read_record tight_store_removed AREA_INDEX_WRITABLE 0 true record_out_init).2.data_ptr =
      { bank := 0, addr := 23 } ∧
    mem_read tight_store_removed 0 23 3 = [255, 255, 255] := by
  decide!

/-- Claim C24 as stated fails: in `tight_store_removed` the record of `"a"` at offset 0 is a
tombstone with 3 data bytes and `free_space_offset` is 12. `pdbstore_set("a", {7, 8, 9}, 3, 0)`
returns success, and afterwards `free_space_offset` is still 12 and the record of `"a"` is
the one at offset 0, now live with the new data, so nothing was appended;
`pdbstore_set("a", {7, 8}, 2, 0)` is rejected with invalid-argument. -/
theorem set_after_remove_replaces_in_place :
    (find_record tight_store_removed [97]).ret = PDBSTORE_SUCCESS ∧
    (find_record tight_store_removed [97]).offset = 0 ∧
    (find_record tight_store_removed [97]).out.flags &&& DELETE_FLAG ≠ 0 ∧
    (pdbstore_get tight_store_removed [97]).1 = PDBSTORE_NOT_FOUND ∧
    tight_store_removed.free_space_offset = 12 ∧
    (pdbstore_set tight_store_removed [97] [7, 8, 9] 3 0).1 = PDBSTORE_SUCCESS ∧
    (pdbstore_set tight_store_removed [97] [7, 8, 9] 3 0).2.free_space_offset = 12 ∧
    (find_record (pdbstore_set tight_store_removed [97] [7, 8, 9] 3 0).2 [97]).offset = 0 ∧
    (pdbstore_get (pdbstore_set tight_store_removed [97] [7, 8, 9] 3 0).2 [97]).1 =
      PDBSTORE_SUCCESS ∧
    mem_read (pdbstore_set tight_store_removed [97] [7, 8, 9] 3 0).2 0 23 3 = [7, 8, 9] ∧
    (∀ x, 12 ≤ x → x < 24 →
      acell (pdbstore_set tight_store_removed [97] [7, 8, 9] 3 0).2 AREA_INDEX_WRITABLE x = 255) ∧
    (pdbstore_set tight_store_removed [97] [7, 8] 2 0).1 = PDBSTORE_INVALID_ARGUMENT := by
  decide!

/-- What a call of `pdbstore_do_set` does to the log of a store in steady state: it returns
an error and changes nothing, or it appends a record for the key, which was in neither
area, or it replaces the first record for the key by one of the same size. -/
theorem do_set_log (s : Store) (log : List log_rec) (key data : List Nat) (n flags : Nat)
    (hs : steady s log) (hdf : flags = DELETE_FLAG ∨ flags &&& DELETE_FLAG = 0) :
    ((pdbstore_do_set s key (data_buf.buf data) n flags).1 ≠ PDBSTORE_SUCCESS ∧
      (pdbstore_do_set s key (data_buf.buf data) n flags).2 = s) ∨
    ((pdbstore_do_set s key (data_buf.buf data) n flags).1 = PDBSTORE_SUCCESS ∧
      is_valid_key key = true ∧ s.initialized = true ∧ (ro_find s key).1 = none ∧
      frame s (pdbstore_do_set s key (data_buf.buf data) n flags).2 ∧
      flags &&& DELETE_FLAG = 0 ∧ (∀ q, q ∈ log → q.key ≠ cstr key) ∧
      steady (pdbstore_do_set s key (data_buf.buf data) n flags).2
        (log ++ [{ key := cstr key, data := buf_bytes s (data_buf.buf data) n,
                   flags := flags % 256 }]) ∧
      (pdbstore_do_set s key (data_buf.buf data) n flags).2.free_space_offset =
        s.free_space_offset + (8 + strlen key + n)) ∨
    (∃ pre r r' post,
      (pdbstore_do_set s key (data_buf.buf data) n flags).1 = PDBSTORE_SUCCESS ∧
      is_valid_key key = true ∧ s.initialized = true ∧ (ro_find s key).1 = none ∧
      frame s (pdbstore_do_set s key (data_buf.buf data) n flags).2 ∧
      log = pre ++ r :: post ∧ (∀ q, q ∈ pre → q.key ≠ cstr key) ∧ r.key = cstr key ∧
      r'.key = cstr key ∧ r'.data.length = r.data.length ∧
      (flags = DELETE_FLAG → r'.flags = DELETE_FLAG) ∧
      (flags &&& DELETE_FLAG = 0 → n = r.data.length ∧
        r'.data = buf_bytes s (data_buf.buf data) n ∧ r'.flags = flags % 256) ∧
      steady (pdbstore_do_set s key (data_buf.buf data) n flags).2 (pre ++ r' :: post) ∧
      (pdbstore_do_set s key (data_buf.buf data) n flags).2.free_space_offset =
        s.free_space_offset) := by
  have hdd : DELETE_FLAG &&& DELETE_FLAG ≠ 0 := by decide
  by_cases ha : is_valid_key key = false ∨ n > PDBSTORE_MAX_DATA_SIZE
  · left
    unfold pdbstore_do_set
    rw [if_pos ha]
    exact ⟨by simp, rfl⟩
  by_cases hi : s.initialized = false
  · left
    unfold pdbstore_do_set
    rw [if_neg ha, if_pos hi]
    exact ⟨by simp, rfl⟩
  have hk : is_valid_key key = true := by
    cases h : is_valid_key key
    · exact absurd (Or.inl h) ha
    · rfl
  have hn : n ≤ 1024 := by
    unfold PDBSTORE_MAX_DATA_SIZE at ha
    omega
  have hi1 : s.initialized = true := by
    cases h : s.initialized
    · exact absurd h hi
    · rfl
  have early : ∀ ret, ret ≠ PDBSTORE_SUCCESS →
      do_set_target s key (data_buf.buf data) n flags = Except.error ret →
      (pdbstore_do_set s key (data_buf.buf data) n flags).1 ≠ PDBSTORE_SUCCESS ∧
      (pdbstore_do_set s key (data_buf.buf data) n flags).2 = s := by
    intro ret hne ht
    rw [do_set_of_target_error s key _ n flags ret hi1 hk hn ht]
    exact ⟨hne, rfl⟩
  rcases hro : (ro_find s key).1 with _ | ret
  · rcases find_record_steady s log key hs hro with ⟨pre, r, post, hlog, hpre, hr, hfind⟩ | ⟨hnew, out', hfind⟩
    · subst hlog
      rcases hdf with hd | hd
      · subst hd
        obtain ⟨s', e, st, fr, hfs⟩ := do_set_remove_steady s pre post r key (data_buf.buf data) n hs hi1
          hk hn hro hpre hr
        right; right
        rw [e]
        exact ⟨pre, r, ⟨r.key, List.replicate r.data.length (aerase s AREA_INDEX_WRITABLE), DELETE_FLAG⟩,
          post, rfl, hk, hi1, rfl, fr, rfl, hpre, hr, hr,
          List.length_replicate _ _, fun _ => rfl, fun h => absurd h hdd, st, hfs⟩
      · by_cases hsz : n = r.data.length
        · obtain ⟨s', e, st, fr, hfs⟩ := do_set_replace_steady s pre post r key data n flags hs hi1 hk hn
            hd hro hpre hr hsz
          right; right
          rw [e]
          exact ⟨pre, r, ⟨r.key, buf_bytes s (data_buf.buf data) n, flags % 256⟩, post, rfl, hk, hi1, rfl, fr, rfl, hpre, hr, hr,
            (buf_bytes_length s (data_buf.buf data) n).trans hsz,
            fun h => absurd (h ▸ hd) hdd, fun _ => ⟨hsz, rfl, rfl⟩, st, hfs⟩
        · left
          rw [do_set_mismatch_steady s pre post r key _ n flags hs hi1 hk hn hd hro hpre hr hsz]
          exact ⟨by simp, rfl⟩
    · rcases hdf with hd | hd
      · left
        apply early PDBSTORE_NOT_FOUND (by simp)
        unfold do_set_target
        simp only [hfind]
        subst hd
        have hd3 : DELETE_FLAG ≠ 0 := by decide
        simp [hdd, hd3]
      · by_cases hfit : log_size log + (8 + strlen key + n) ≤ asize s AREA_INDEX_WRITABLE
        · obtain ⟨s', e, st, fr⟩ := do_set_append_steady s log key data n flags hs hi1 hk hn hd hro
            hnew hfit
          right; left
          rw [e]
          refine ⟨rfl, hk, hi1, rfl, fr, hd, hnew, st, ?_⟩
          show s'.free_space_offset = _
          rw [st.fso, hs.fso, log_size_append]
          simp only [log_size, log_rec_size, strlen_cstr, buf_bytes_length, Nat.add_zero]
        · left
          rw [do_set_full_steady s log key _ n flags hs hi1 hk hn hd hro hnew hfit]
          exact ⟨by simp, rfl⟩
  · have hf := find_record_ro s key ret hro
    left
    rcases find_record_loop_status s key AREA_INDEX_READONLY _ _ _ ret hro with h | h | h | h
    · apply early PDBSTORE_KEY_IS_READONLY (by simp)
      unfold do_set_target
      simp [hf, h]
    all_goals
      apply early ret (by rw [h]; simp)
      unfold do_set_target
      simp [hf, h]

/-- A successful `pdbstore_set` on a store in steady state leaves a steady state in which
the first record for the key has the size that was set. -/
theorem set_success_log (s : Store) (log : List log_rec) (key data : List Nat) (n f : Nat) (s1 : Store)
    (hs : steady s log) (hf : f = 0 ∨ f = 1)
    (h1 : pdbstore_set s key data n f = (PDBSTORE_SUCCESS, s1)) :
    is_valid_key key = true ∧ n ≤ 1024 ∧ s1.initialized = true ∧ (ro_find s1 key).1 = none ∧
    ∃ pre r post, steady s1 (pre ++ r :: post) ∧ (∀ q, q ∈ pre → q.key ≠ cstr key) ∧
      r.key = cstr key ∧ r.data.length = n ∧ r.data = buf_bytes s (data_buf.buf data) n ∧
      r.flags = f % 256 := by
  rw [set_eq_do_set s key data n f hf] at h1
  obtain ⟨hk, hn, hi⟩ := do_set_success_args s key _ n f (by rw [h1])
  obtain ⟨hf1, hf2⟩ := flags_no_delete f hf
  rcases do_set_log s log key data n f hs (Or.inr hf1) with ⟨e, _⟩ | ⟨_, _, _, hro, fr, _, hnew, st, _⟩ |
    ⟨pre, r, r', post, _, _, _, hro, fr, hlog, hpre, hr, hr', hl, _, hd, st, _⟩
  · rw [h1] at e
    exact absurd rfl e
  · rw [h1] at fr st
    refine ⟨hk, hn, by rw [fr.2.2.2.1]; exact hi, by rw [ro_find_frame hs.lay fr]; exact hro,
      log, _, [], st, hnew, rfl, buf_bytes_length s (data_buf.buf data) n, rfl, rfl⟩
  · rw [h1] at fr st
    obtain ⟨d1, d2, d3⟩ := hd hf1
    refine ⟨hk, hn, by rw [fr.2.2.2.1]; exact hi, by rw [ro_find_frame hs.lay fr]; exact hro,
      pre, r', post, st, hpre, hr', by rw [hl, d1], d2, d3⟩

/-- Claim C25: in a store in steady state let `pdbstore_set(k, d0, n, f0)` and then
`pdbstore_remove(k)` return success. Then `pdbstore_set(k, d, n, f)` with the same size
and `f` 0 or RESILIENT returns success, the record found for `k` is at the offset of the
tombstone, `free_space_offset` is unchanged, and `pdbstore_get(k)` returns success with
size `n` and the bytes `d`. -/
theorem tombstone_replaced_in_place (s : Store) (log : List log_rec) (key d0 d : List Nat)
    (n f0 f : Nat) (s1 s2 : Store)
    (hs : steady s log) (hf0 : f0 = 0 ∨ f0 = 1) (hf : f = 0 ∨ f = 1) (hd : d.length = n)
    (h1 : pdbstore_set s key d0 n f0 = (PDBSTORE_SUCCESS, s1))
    (h2 : pdbstore_remove s1 key = (PDBSTORE_SUCCESS, s2)) :
    (pdbstore_get s2 key).1 = PDBSTORE_NOT_FOUND ∧
    (pdbstore_set s2 key d n f).1 = PDBSTORE_SUCCESS ∧
    (pdbstore_set s2 key d n f).2.free_space_offset = s2.free_space_offset ∧
    (find_record (pdbstore_set s2 key d n f).2 key).offset = (find_record s2 key).offset ∧
    (pdbstore_get (pdbstore_set s2 key d n f).2 key).1 = PDBSTORE_SUCCESS ∧
    (pdbstore_get (pdbstore_set s2 key d n f).2 key).2.2 = n ∧
    mem_read (pdbstore_set s2 key d n f).2
      (pdbstore_get (pdbstore_set s2 key d n f).2 key).2.1.bank
      (pdbstore_get (pdbstore_set s2 key d n f).2 key).2.1.addr n = d := by
  obtain ⟨hk, hn, hi1, hro1, pre, r, post, st1, hpre, hr, hrl, _, _⟩ :=
    set_success_log s log key d0 n f0 s1 hs hf0 h1
  have hdd : DELETE_FLAG &&& DELETE_FLAG ≠ 0 := by decide
  unfold pdbstore_remove at h2
  obtain ⟨hf1, hf2⟩ := flags_no_delete f hf
  rcases do_set_log s1 _ key [] 0 DELETE_FLAG st1 (Or.inl rfl) with ⟨e, _⟩ |
    ⟨_, _, _, _, _, hc, _⟩ |
    ⟨pre', r', t', post', _, _, _, _, fr, hlog, hpre', hr', ht, hl, hfl, _, st2, _⟩
  · rw [h2] at e
    exact absurd rfl e
  · exact absurd hc hdd
  · rw [h2] at fr st2
    obtain ⟨e1, e2, e3⟩ := first_match_unique (fun q : log_rec => q.key = cstr key) pre pre' r r'
      post post' hlog hpre hr hpre' hr'
    subst e1; subst e2; subst e3
    have hi2 : s2.initialized = true := by rw [fr.2.2.2.1]; exact hi1
    have hro2 : (ro_find s2 key).1 = none := by rw [ro_find_frame st1.lay fr]; exact hro1
    have hsz : n = t'.data.length := by rw [hl, hrl]
    obtain ⟨s3, e, st3, fr3, hfs⟩ := do_set_replace_steady s2 pre' post' t' key d n f st2 hi2 hk hn hf1
      hro2 hpre' ht hsz
    have hi3 : s3.initialized = true := by rw [fr3.2.2.2.1]; exact hi2
    have hro3 : (ro_find s3 key).1 = none := by rw [ro_find_frame st2.lay fr3]; exact hro2
    obtain ⟨g0, _⟩ := get_found_steady s2 pre' post' t' key st2 hi2 hk hro2 hpre' ht
    obtain ⟨g1, g2⟩ := get_found_steady s3 pre' post' _ key st3 hi3 hk hro3 hpre' ht
    simp only [] at g1 g2
    rw [if_neg (by rw [hf2]; simp)] at g1
    rw [buf_bytes_length] at g1 g2
    rw [buf_bytes_buf s2 d n hd] at g2
    rw [set_eq_do_set s2 key d n f hf, e]
    simp only []
    rw [find_record_found s3 pre' post' _ key st3 hro3 hpre' ht,
      find_record_found s2 pre' post' t' key st2 hro2 hpre' ht, g1, g0, hfl rfl,
      if_pos (by decide)]
    exact ⟨rfl, trivial, hfs, rfl, rfl, rfl, g2⟩

theorem tight_set_a :
    pdbstore_set tight_store [97] [1, 2, 3] 3 0 = (PDBSTORE_SUCCESS, tight_store_a) := by
  have h : (pdbstore_set tight_store [97] [1, 2, 3] 3 0).1 = PDBSTORE_SUCCESS := by decide!
  unfold tight_store_a
  rw [← h]

theorem tight_remove_a :
    pdbstore_remove tight_store_a [97] = (PDBSTORE_SUCCESS, tight_store_removed) := by
  have h : (pdbstore_remove tight_store_a [97]).1 = PDBSTORE_SUCCESS := by decide!
  unfold tight_store_removed
  rw [← h]

theorem tombstone_replaced_in_place_witness :
    (pdbstore_get tight_store_removed [97]).1 = PDBSTORE_NOT_FOUND ∧
    (pdbstore_set tight_store_removed [97] [7, 8, 9] 3 1).1 = PDBSTORE_SUCCESS ∧
    (pdbstore_set tight_store_removed [97] [7, 8, 9] 3 1).2.free_space_offset =
      tight_store_removed.free_space_offset ∧
    (pdbstore_get (pdbstore_set tight_store_removed [97] [7, 8, 9] 3 1).2 [97]).1 =
      PDBSTORE_SUCCESS := by
  obtain ⟨log, hs⟩ := reachable_steady 1 (fun _ => tight_bank) tight_media tight_store tight_fresh
    tight_reachable (by decide!)
  have h := tombstone_replaced_in_place tight_store log [97] [1, 2, 3] [7, 8, 9] 3 0 1
    tight_store_a tight_store_removed hs (Or.inl rfl) (Or.inr rfl) rfl
    tight_set_a tight_remove_a
  exact ⟨h.1, h.2.1, h.2.2.1, h.2.2.2.2.1⟩

/-- Claim C24 (amended): in a store in steady state let the record found for a valid key
`k` be a tombstone in the writable area, with `m` data bytes. Then `pdbstore_set(k, d, n, f)`
with `f` 0 or RESILIENT returns success exactly when `n = m`; in that case the tombstone is
replaced in place: the record found for `k` afterwards is at the same offset,
`free_space_offset` is unchanged, and `pdbstore_get(k)` returns `d`. When `n` differs from
`m` the call returns invalid-argument and changes nothing. No record is appended. -/
theorem set_on_tombstone (s : Store) (log : List log_rec) (key d : List Nat) (n f : Nat)
    (hs : steady s log) (hi : s.initialized = true) (hk : is_valid_key key = true)
    (hf : f = 0 ∨ f = 1) (hd : d.length = n)
    (h1 : (find_record s key).ret = PDBSTORE_SUCCESS)
    (h2 : (find_record s key).area = some AREA_INDEX_WRITABLE)
    (h3 : (find_record s key).out.flags &&& DELETE_FLAG ≠ 0) :
    (pdbstore_get s key).1 = PDBSTORE_NOT_FOUND ∧
    ((pdbstore_set s key d n f).1 = PDBSTORE_SUCCESS ↔
      n = (find_record s key).out.actual_data_size) ∧
    (n ≠ (find_record s key).out.actual_data_size →
      pdbstore_set s key d n f = (PDBSTORE_INVALID_ARGUMENT, s)) ∧
    (n = (find_record s key).out.actual_data_size →
      (pdbstore_set s key d n f).2.free_space_offset = s.free_space_offset ∧
      (find_record (pdbstore_set s key d n f).2 key).ret = PDBSTORE_SUCCESS ∧
      (find_record (pdbstore_set s key d n f).2 key).offset = (find_record s key).offset ∧
      (pdbstore_get (pdbstore_set s key d n f).2 key).1 = PDBSTORE_SUCCESS ∧
      (pdbstore_get (pdbstore_set s key d n f).2 key).2.2 = n ∧
      mem_read (pdbstore_set s key d n f).2
        (pdbstore_get (pdbstore_set s key d n f).2 key).2.1.bank
        (pdbstore_get (pdbstore_set s key d n f).2 key).2.1.addr n = d) := by
  obtain ⟨hro, pre, r, post, hlog, hpre, hr⟩ := found_wr_steady s log key hs h1 h2
  subst hlog
  obtain ⟨hf1, hf2⟩ := flags_no_delete f hf
  have hfind := find_record_found s pre post r key hs hro hpre hr
  obtain ⟨_, _, _, hrd, _⟩ := hs.recs r (by simp)
  rw [hfind] at h3 ⊢
  simp only [found_out] at h3 ⊢
  obtain ⟨g0, _⟩ := get_found_steady s pre post r key hs hi hk hro hpre hr
  rw [set_eq_do_set s key d n f hf]
  have hmis : n ≠ r.data.length →
      pdbstore_do_set s key (data_buf.buf d) n f = (PDBSTORE_INVALID_ARGUMENT, s) := by
    intro hne
    by_cases hn : n ≤ 1024
    · exact do_set_mismatch_steady s pre post r key _ n f hs hi hk hn hf1 hro hpre hr hne
    · unfold pdbstore_do_set
      rw [if_pos (Or.inr (by unfold PDBSTORE_MAX_DATA_SIZE; omega))]
  have hrep : n = r.data.length →
      (pdbstore_do_set s key (data_buf.buf d) n f).1 = PDBSTORE_SUCCESS ∧
      (pdbstore_do_set s key (data_buf.buf d) n f).2.free_space_offset = s.free_space_offset ∧
      (find_record (pdbstore_do_set s key (data_buf.buf d) n f).2 key).ret = PDBSTORE_SUCCESS ∧
      (find_record (pdbstore_do_set s key (data_buf.buf d) n f).2 key).offset = log_size pre ∧
      (pdbstore_get (pdbstore_do_set s key (data_buf.buf d) n f).2 key).1 = PDBSTORE_SUCCESS ∧
      (pdbstore_get (pdbstore_do_set s key (data_buf.buf d) n f).2 key).2.2 = n ∧
      mem_read (pdbstore_do_set s key (data_buf.buf d) n f).2
        (pdbstore_get (pdbstore_do_set s key (data_buf.buf d) n f).2 key).2.1.bank
        (pdbstore_get (pdbstore_do_set s key (data_buf.buf d) n f).2 key).2.1.addr n = d := by
    intro hsz
    obtain ⟨s3, e, st3, fr3, hfs⟩ := do_set_replace_steady s pre post r key d n f hs hi hk
      (by omega) hf1 hro hpre hr hsz
    have hi3 : s3.initialized = true := by rw [fr3.2.2.2.1]; exact hi
    have hro3 : (ro_find s3 key).1 = none := by rw [ro_find_frame hs.lay fr3]; exact hro
    obtain ⟨g1, g2⟩ := get_found_steady s3 pre post _ key st3 hi3 hk hro3 hpre hr
    simp only [] at g1 g2
    rw [if_neg (by rw [hf2]; simp)] at g1
    rw [buf_bytes_length] at g1 g2
    rw [buf_bytes_buf s d n hd] at g2
    rw [e]
    simp only []
    rw [find_record_found s3 pre post _ key st3 hro3 hpre hr, g1]
    refine ⟨?_, hfs, ?_, ?_, ?_, ?_, g2⟩ <;> first | rfl | trivial
  refine ⟨?_, ?_, hmis, ?_⟩
  · rw [g0, if_pos h3]
  · constructor
    · intro h
      by_contra hne
      rw [hmis hne] at h
      simp at h
    · intro h
      exact (hrep h).1
  · intro h
    exact (hrep h).2

theorem set_on_tombstone_witness :
    (pdbstore_get tight_store_removed [97]).1 = PDBSTORE_NOT_FOUND ∧
    ((pdbstore_set tight_store_removed [97] [7, 8, 9] 3 0).1 = PDBSTORE_SUCCESS ↔
      3 = (find_record tight_store_removed [97]).out.actual_data_size) := by
  have hf : tight_store_removed.initialized = true ∧
      (find_record tight_store_removed [97]).ret = PDBSTORE_SUCCESS ∧
      (find_record tight_store_removed [97]).area = some AREA_INDEX_WRITABLE ∧
      (find_record tight_store_removed [97]).out.flags &&& DELETE_FLAG ≠ 0 := by
    decide!
  obtain ⟨f1, f2, f3, f4⟩ := hf
  obtain ⟨log, hs⟩ := reachable_steady 1 (fun _ => tight_bank) tight_media tight_store_removed
    tight_fresh
    (reachable.step _ _ (reachable.step _ _ tight_reachable (op_step.set tight_store [97] [1, 2, 3] 3 0))
      (op_step.remove tight_store_a [97])) f1
  have h := set_on_tombstone tight_store_removed log [97] [7, 8, 9] 3 0 hs f1 (by decide)
    (Or.inl rfl) rfl f2 f3 f4
  exact ⟨h.1, h.2.1⟩

/-- Replacing one element that does not satisfy `P` by another one that does not satisfy
`P` keeps the first element that satisfies `P`, and the sizes in front of it when the two
elements have the same size. -/
theorem replace_keeps_first_match (P : log_rec → Prop) (r r' : log_rec) (post : List log_rec)
    (h1 : ¬ P r) (h2 : ¬ P r') (hz : log_rec_size r' = log_rec_size r) :
    ∀ (pre pre2 : List log_rec) (r2 : log_rec) (post2 : List log_rec),
      pre ++ r :: post = pre2 ++ r2 :: post2 → P r2 → (∀ q, q ∈ pre2 → ¬ P q) →
      ∃ pre2' post2', pre ++ r' :: post = pre2' ++ r2 :: post2' ∧ (∀ q, q ∈ pre2' → ¬ P q) ∧
        log_size pre2' = log_size pre2 := by
  intro pre
  induction pre with
  | nil =>
    intro pre2 r2 post2 e hp hn
    cases pre2 with
    | nil =>
      simp at e
      exact absurd (e.1 ▸ hp) h1
    | cons a l =>
      simp at e
      refine ⟨r' :: l, post2, ?_, ?_, ?_⟩
      · simp [e.2]
      · intro q hq
        rcases List.mem_cons.mp hq with h | h
        · rw [h]; exact h2
        · exact hn q (List.mem_cons_of_mem _ h)
      · simp only [log_size]
        rw [hz, e.1]
  | cons a l ih =>
    intro pre2 r2 post2 e hp hn
    cases pre2 with
    | nil =>
      simp at e
      exact ⟨[], l ++ r' :: post, by simp [e.1], fun q hq => absurd hq (List.not_mem_nil _), rfl⟩
    | cons a' l' =>
      simp at e
      obtain ⟨p, q, e1, e2, e3⟩ := ih l' r2 post2 e.2 hp (fun q hq => hn q (List.mem_cons_of_mem _ hq))
      refine ⟨a' :: p, q, ?_, ?_, ?_⟩
      · simp [e.1, e1]
      · intro x hx
        rcases List.mem_cons.mp hx with h | h
        · rw [h]; exact hn a' (List.mem_cons_self _ _)
        · exact e2 x h
      · simp only [log_size]
        rw [e3]

/-- A list with an element that satisfies `P` splits at the first such element. -/
theorem first_match_exists (P : log_rec → Prop) :
    ∀ (log : List log_rec), (∃ q, q ∈ log ∧ P q) →
      ∃ p2 r2 q2, log = p2 ++ r2 :: q2 ∧ (∀ q, q ∈ p2 → ¬ P q) ∧ P r2 := by
  intro log
  induction log with
  | nil =>
    rintro ⟨q, hq, _⟩
    exact absurd hq (List.not_mem_nil _)
  | cons a l ih =>
    rintro ⟨q, hq, hqk⟩
    by_cases ca : P a
    · exact ⟨[], a, l, rfl, fun q hq => absurd hq (List.not_mem_nil _), ca⟩
    · rcases List.mem_cons.mp hq with h | h
      · rw [h] at hqk
        exact absurd hqk ca
      · obtain ⟨p2, r2, q2, e1, e2, e3⟩ := ih ⟨q, h, hqk⟩
        refine ⟨a :: p2, r2, q2, by rw [e1]; rfl, ?_, e3⟩
        intro x hx
        rcases List.mem_cons.mp hx with h | h
        · rw [h]; exact ca
        · exact e2 x h

/-- In steady state `pdbstore_get` of a key that is not in the read-only area is given by
the first record of the log for the key. -/
theorem get_same_log (s s' : Store) (log log' : List log_rec) (k2 : List Nat)
    (hs : steady s log) (hs' : steady s' log') (hi : s.initialized = true)
    (hi' : s'.initialized = true) (hk : is_valid_key k2 = true)
    (hro : (ro_find s k2).1 = none) (hro' : (ro_find s' k2).1 = none)
    (h : (∀ q, q ∈ log → q.key ≠ cstr k2) ∧ (∀ q, q ∈ log' → q.key ≠ cstr k2) ∨
      ∃ pre post pre' post' r, log = pre ++ r :: post ∧ log' = pre' ++ r :: post' ∧
        r.key = cstr k2 ∧ (∀ q, q ∈ pre → q.key ≠ cstr k2) ∧ (∀ q, q ∈ pre' → q.key ≠ cstr k2)) :
    (pdbstore_get s' k2).1 = (pdbstore_get s k2).1 ∧
    ((pdbstore_get s k2).1 = PDBSTORE_SUCCESS →
      (pdbstore_get s' k2).2.2 = (pdbstore_get s k2).2.2 ∧
      mem_read s' (pdbstore_get s' k2).2.1.bank (pdbstore_get s' k2).2.1.addr
          (pdbstore_get s' k2).2.2 =
        mem_read s (pdbstore_get s k2).2.1.bank (pdbstore_get s k2).2.1.addr
          (pdbstore_get s k2).2.2) := by
  rcases h with ⟨h1, h2⟩ | ⟨pre, post, pre', post', r, e, e', hr, hp, hp'⟩
  · have g := get_missing_steady s log k2 hs hi hk hro h1
    have g' := get_missing_steady s' log' k2 hs' hi' hk hro' h2
    rw [g, g']
    exact ⟨rfl, fun h => absurd h (by decide)⟩
  · subst e; subst e'
    obtain ⟨g1, g2⟩ := get_found_steady s pre post r k2 hs hi hk hro hp hr
    obtain ⟨g1', g2'⟩ := get_found_steady s' pre' post' r k2 hs' hi' hk hro' hp' hr
    rw [g1, g1']
    exact ⟨rfl, fun _ => ⟨rfl, g2'.trans g2.symm⟩⟩

/-- A call of `pdbstore_do_set` for a key leaves `pdbstore_get` of every other valid key
as it was. -/
theorem do_set_other_key (s : Store) (log : List log_rec) (key data k2 : List Nat) (n flags : Nat)
    (hs : steady s log) (hdf : flags = DELETE_FLAG ∨ flags &&& DELETE_FLAG = 0)
    (hk : is_valid_key k2 = true) (hne : cstr k2 ≠ cstr key) :
    (pdbstore_get (pdbstore_do_set s key (data_buf.buf data) n flags).2 k2).1 =
      (pdbstore_get s k2).1 ∧
    ((pdbstore_get s k2).1 = PDBSTORE_SUCCESS →
      (pdbstore_get (pdbstore_do_set s key (data_buf.buf data) n flags).2 k2).2.2 =
        (pdbstore_get s k2).2.2 ∧
      mem_read (pdbstore_do_set s key (data_buf.buf data) n flags).2
          (pdbstore_get (pdbstore_do_set s key (data_buf.buf data) n flags).2 k2).2.1.bank
          (pdbstore_get (pdbstore_do_set s key (data_buf.buf data) n flags).2 k2).2.1.addr
          (pdbstore_get (pdbstore_do_set s key (data_buf.buf data) n flags).2 k2).2.2 =
        mem_read s (pdbstore_get s k2).2.1.bank (pdbstore_get s k2).2.1.addr
          (pdbstore_get s k2).2.2) := by
  obtain ⟨s', hs'⟩ : ∃ s', s' = (pdbstore_do_set s key (data_buf.buf data) n flags).2 := ⟨_, rfl⟩
  rw [← hs']
  -- the two states have steady logs that agree on the first record for `k2`
  have main : ∀ log', steady s' log' → frame s s' → s.initialized = true →
      ((∀ q, q ∈ log → q.key ≠ cstr k2) ∧ (∀ q, q ∈ log' → q.key ≠ cstr k2) ∨
        ∃ pre post pre' post' r, log = pre ++ r :: post ∧ log' = pre' ++ r :: post' ∧
          r.key = cstr k2 ∧ (∀ q, q ∈ pre → q.key ≠ cstr k2) ∧
          (∀ q, q ∈ pre' → q.key ≠ cstr k2)) →
      (pdbstore_get s' k2).1 = (pdbstore_get s k2).1 ∧
      ((pdbstore_get s k2).1 = PDBSTORE_SUCCESS →
        (pdbstore_get s' k2).2.2 = (pdbstore_get s k2).2.2 ∧
        mem_read s' (pdbstore_get s' k2).2.1.bank (pdbstore_get s' k2).2.1.addr
            (pdbstore_get s' k2).2.2 =
          mem_read s (pdbstore_get s k2).2.1.bank (pdbstore_get s k2).2.1.addr
            (pdbstore_get s k2).2.2) := by
    intro log' st fr hi hlg
    have hi' : s'.initialized = true := by rw [fr.2.2.2.1]; exact hi
    rcases hro : (ro_find s k2).1 with _ | ret
    · exact get_same_log s s' log log' k2 hs st hi hi' hk hro
        (by rw [ro_find_frame hs.lay fr]; exact hro) hlg
    · have hf := find_record_ro s k2 ret hro
      have hro' : (ro_find s' k2).1 = some ret := by rw [ro_find_frame hs.lay fr]; exact hro
      have hf' := find_record_ro s' k2 ret hro'
      rw [ro_find_frame hs.lay fr] at hf'
      have e : pdbstore_get s' k2 = pdbstore_get s k2 := by
        rw [get_eq_find s' k2 hk hi', get_eq_find s k2 hk hi, hf, hf']
      rw [e]
      refine ⟨rfl, fun hsucc => ⟨rfl, ?_⟩⟩
      have hret : ret = PDBSTORE_SUCCESS := by
        rw [get_eq_find s k2 hk hi, hf] at hsucc
        simp only at hsucc
        by_contra c
        rw [if_pos c] at hsucc
        exact c hsucc
      subst hret
      have g := (get_ro_frame hs.lay fr k2 hro).2.2
      rw [get_eq_find s k2 hk hi]
      exact g
  rcases do_set_log s log key data n flags hs hdf with ⟨_, e⟩ |
    ⟨_, _, hi, _, fr, _, _, st, _⟩ |
    ⟨pre, r, r', post, _, _, hi, _, fr, hlog, hpre, hr, hr', hl, _, _, st, _⟩
  · rw [hs', e]
    exact ⟨rfl, fun _ => ⟨rfl, rfl⟩⟩
  · rw [← hs'] at fr st
    apply main _ st fr hi
    by_cases c : ∀ q, q ∈ log → q.key ≠ cstr k2
    · left
      refine ⟨c, ?_⟩
      intro q hq
      rcases List.mem_append.mp hq with h | h
      · exact c q h
      · rw [List.mem_singleton.mp h]
        exact fun h => hne h.symm
    · right
      push_neg at c
      obtain ⟨p2, r2, q2, e1, e2, e3⟩ := first_match_exists (fun q => q.key = cstr k2) log c
      refine ⟨p2, q2, p2, q2 ++ [⟨cstr key, buf_bytes s (data_buf.buf data) n, flags % 256⟩], r2,
        e1, ?_, e3, e2, e2⟩
      rw [e1, List.append_assoc]
      rfl
  · rw [← hs'] at fr st
    apply main _ st fr hi
    by_cases c : ∀ q, q ∈ log → q.key ≠ cstr k2
    · left
      refine ⟨c, ?_⟩
      intro q hq
      rw [hlog] at c
      rcases List.mem_append.mp hq with h | h
      · exact c q (List.mem_append_left _ h)
      · rcases List.mem_cons.mp h with h | h
        · rw [h, hr']
          exact fun h => hne h.symm
        · exact c q (List.mem_append_right _ (List.mem_cons_of_mem _ h))
    · right
      push_neg at c
      obtain ⟨p2, r2, q2, e1, e2, e3⟩ := first_match_exists (fun q => q.key = cstr k2) log c
      have n1 : ¬ (r.key = cstr k2) := by rw [hr]; exact fun h => hne h.symm
      have n2 : ¬ (r'.key = cstr k2) := by rw [hr']; exact fun h => hne h.symm
      obtain ⟨p2', q2', e1', e2', _⟩ := replace_keeps_first_match (fun q => q.key = cstr k2) r r' post
        n1 n2 (by unfold log_rec_size; rw [hl, hr, hr']) pre p2 r2 q2 (hlog.symm.trans e1) e3 e2
      exact ⟨p2, q2, p2', q2', r2, e1, e1', e3, e2, e2'⟩

/-- Claim C30: in a store in steady state (initialized, the writable area free of corrupt
records), a completed `pdbstore_set(k, ...)` with any flags, or `pdbstore_remove(k)`,
whatever status it returns, leaves `pdbstore_get(k2)` of every valid key `k2` other than
`k` as it was: the same status and, when that status is success, the same size and the
same data bytes. -/
theorem other_keys_undisturbed (s : Store) (log : List log_rec) (key data k2 : List Nat)
    (n flags : Nat) (hs : steady s log) (hk : is_valid_key k2 = true)
    (hne : cstr k2 ≠ cstr key) :
    ((pdbstore_get (pdbstore_set s key data n flags).2 k2).1 = (pdbstore_get s k2).1 ∧
      ((pdbstore_get s k2).1 = PDBSTORE_SUCCESS →
        (pdbstore_get (pdbstore_set s key data n flags).2 k2).2.2 = (pdbstore_get s k2).2.2 ∧
        mem_read (pdbstore_set s key data n flags).2
            (pdbstore_get (pdbstore_set s key data n flags).2 k2).2.1.bank
            (pdbstore_get (pdbstore_set s key data n flags).2 k2).2.1.addr
            (pdbstore_get (pdbstore_set s key data n flags).2 k2).2.2 =
          mem_read s (pdbstore_get s k2).2.1.bank (pdbstore_get s k2).2.1.addr
            (pdbstore_get s k2).2.2)) ∧
    ((pdbstore_get (pdbstore_remove s key).2 k2).1 = (pdbstore_get s k2).1 ∧
      ((pdbstore_get s k2).1 = PDBSTORE_SUCCESS →
        (pdbstore_get (pdbstore_remove s key).2 k2).2.2 = (pdbstore_get s k2).2.2 ∧
        mem_read (pdbstore_remove s key).2
            (pdbstore_get (pdbstore_remove s key).2 k2).2.1.bank
            (pdbstore_get (pdbstore_remove s key).2 k2).2.1.addr
            (pdbstore_get (pdbstore_remove s key).2 k2).2.2 =
          mem_read s (pdbstore_get s k2).2.1.bank (pdbstore_get s k2).2.1.addr
            (pdbstore_get s k2).2.2)) := by
  constructor
  · unfold pdbstore_set
    by_cases c : flags &&& (0xFFFFFFFF ^^^ SUPPORTED_USER_FLAGS) ≠ 0
    · rw [if_pos c]
      exact ⟨rfl, fun _ => ⟨rfl, rfl⟩⟩
    · rw [if_neg c]
      exact do_set_other_key s log key data k2 n flags hs (Or.inr (user_flags_no_delete flags c)) hk
        hne
  · unfold pdbstore_remove
    exact do_set_other_key s log key [] k2 0 DELETE_FLAG hs (Or.inl rfl) hk hne

theorem other_keys_undisturbed_witness :
    (pdbstore_get tight_store_a [97]).1 = PDBSTORE_SUCCESS ∧
    (pdbstore_get (pdbstore_set tight_store_a [98] [4, 5, 6] 3 0).2 [97]).1 =
      (pdbstore_get tight_store_a [97]).1 ∧
    (pdbstore_get (pdbstore_remove tight_store_a [98]).2 [97]).1 =
      (pdbstore_get tight_store_a [97]).1 := by
  obtain ⟨log, hs⟩ := reachable_steady 1 (fun _ => tight_bank) tight_media tight_store_a
    tight_fresh (reachable.step _ _ tight_reachable (op_step.set tight_store [97] [1, 2, 3] 3 0))
    (by decide!)
  have h := other_keys_undisturbed tight_store_a log [98] [4, 5, 6] [97] 3 0 hs (by decide)
    (by decide)
  exact ⟨by decide!, h.1.1, h.2.1⟩

/-- The functions `write_area` and `erase_area` change nothing but the contents of a bank. -/
theorem write_area_cfg (s : Store) (a : area_index_e) (o n : Nat) (buf : List Nat) :
    same_cfg s (write_area s a o n buf).2 := by
  rcases write_area_cases s a o n buf with h | h <;> rw [h]
  · exact same_cfg_refl s
  · exact same_cfg_poke _ _ _ _ _

theorem erase_area_cfg (s : Store) (a : area_index_e) (o n : Nat) :
    same_cfg s (erase_area s a o n).2 := by
  unfold erase_area
  simp only []
  split
  · exact same_cfg_refl s
  · exact ⟨rfl, rfl, rfl, rfl, rfl, rfl, rfl⟩

theorem reset_area_cfg (s : Store) (a : area_index_e) (o : Nat) :
    same_cfg s (reset_area s a o).2 := by
  unfold reset_area
  simp only []
  split_ifs
  · exact same_cfg_refl s
  · exact same_cfg_refl s
  · exact erase_area_cfg _ _ _ _

/-- The function `pdbstore_write_record` changes nothing but the contents of a bank. -/
theorem write_record_cfg (s : Store) (a : area_index_e) (key : List Nat) (data : data_buf)
    (n flags o nx : Nat) (rc : Bool) :
    same_cfg s (pdbstore_write_record s a key data n flags o nx rc).2.1 := by
  have step : ∀ (s1 : Store) (x y : Nat) (buf : List Nat), same_cfg s s1 →
      same_cfg s (write_area s1 a x y buf).2 :=
    fun s1 x y buf h => same_cfg_trans h (write_area_cfg s1 a x y buf)
  unfold pdbstore_write_record
  simp only []
  by_cases c0 : u32 (o + record_size key n) > (s.area_params a).size
  · rw [if_pos c0]
    exact same_cfg_refl s
  rw [if_neg c0]
  obtain ⟨re, hre⟩ : ∃ re, re = (if rc = true then
      erase_area s a (if rc = true then u32 (o + if rc = true then offsetof_flags else 0) else o)
        (u32 (record_size key n + 4294967296 - if rc = true then offsetof_flags else 0))
      else (PDBSTORE_SUCCESS, s)) := ⟨_, rfl⟩
  have he : same_cfg s re.2 := by
    rw [hre]
    split_ifs
    · exact erase_area_cfg _ _ _ _
    · exact same_cfg_refl s
  rw [← hre]
  clear hre
  by_cases c1 : re.1 ≠ PDBSTORE_SUCCESS
  · rw [if_pos c1]
    exact he
  rw [if_neg c1]
  split_ifs
  all_goals first
    | exact step _ _ _ _ he
    | exact step _ _ _ _ (step _ _ _ _ he)
    | exact step _ _ _ _ (step _ _ _ _ (step _ _ _ _ he))

/-- The scan of the writable area in `pdbstore_init` keeps the banks and the areas. -/
theorem init_scan_areas (sk : List Nat) (sp : media_ptr) (sn sf : Nat) :
    ∀ (fuel : Nat) (s : Store) (off : Nat) (o : record_out) (sv : Bool) (nx : Nat),
      (init_scan sk sp sn sf fuel s off o sv nx).s.num_banks = s.num_banks ∧
      (init_scan sk sp sn sf fuel s off o sv nx).s.bank_params = s.bank_params ∧
      (init_scan sk sp sn sf fuel s off o sv nx).s.area_params = s.area_params := by
  intro fuel
  induction fuel with
  | zero => intro s off o sv nx; exact ⟨rfl, rfl, rfl⟩
  | succ k ih =>
    intro s off o sv nx
    rw [init_scan]
    by_cases c0 : ¬ off < (s.area_params AREA_INDEX_WRITABLE).size
    · rw [if_pos c0]
      exact ⟨rfl, rfl, rfl⟩
    rw [if_neg c0]
    simp only []
    generalize read_record s AREA_INDEX_WRITABLE off true { o with next_offset := s.free_space_offset } = r
    generalize decide ((r.1 = PDBSTORE_SUCCESS ∨ r.1 = PDBSTORE_DATA_CORRUPT) ∧
        sv = true ∧ cstr r.2.key = cstr sk ∧ r.2.totally_corrupt = false) = b
    obtain ⟨w, hw⟩ : ∃ w, w = (if b = true then
        pdbstore_write_record { s with free_space_offset := r.2.next_offset } AREA_INDEX_WRITABLE
          r.2.key (data_buf.media sp) sn sf off nx true
        else (r.1, { s with free_space_offset := r.2.next_offset }, nx)) := ⟨_, rfl⟩
    have hwc : w.2.1.num_banks = s.num_banks ∧ w.2.1.bank_params = s.bank_params ∧
        w.2.1.area_params = s.area_params := by
      rw [hw]
      split_ifs
      · have h := write_record_cfg { s with free_space_offset := r.2.next_offset }
          AREA_INDEX_WRITABLE r.2.key (data_buf.media sp) sn sf off nx true
        exact ⟨h.1, h.2.1, h.2.2.1⟩
      · exact ⟨rfl, rfl, rfl⟩
    rw [← hw]
    clear hw
    have hra := reset_area_cfg w.2.1 AREA_INDEX_WRITABLE off
    by_cases c1 : b = true ∧ w.1 ≠ PDBSTORE_SUCCESS
    · rw [if_pos c1]
      exact hwc
    rw [if_neg c1]
    by_cases c2 : w.1 = PDBSTORE_DATA_CORRUPT
    · rw [if_pos c2]
      by_cases c3 : (reset_area w.2.1 AREA_INDEX_WRITABLE off).1 ≠ PDBSTORE_SUCCESS
      · rw [if_pos c3]
        exact ⟨hra.1.trans hwc.1, hra.2.1.trans hwc.2.1, hra.2.2.1.trans hwc.2.2⟩
      · rw [if_neg c3]
        exact ⟨hra.1.trans hwc.1, hra.2.1.trans hwc.2.1, hra.2.2.1.trans hwc.2.2⟩
    rw [if_neg c2]
    by_cases c4 : w.1 ≠ PDBSTORE_SUCCESS
    · rw [if_pos c4]
      exact hwc
    rw [if_neg c4]
    obtain ⟨i1, i2, i3⟩ := ih w.2.1 w.2.1.free_space_offset r.2 (if b = true then false else sv) w.2.2
    exact ⟨i1.trans hwc.1, i2.trans hwc.2.1, i3.trans hwc.2.2⟩
/-- The end of `pdbstore_init` keeps the banks and the areas. -/
theorem init_finish_areas (rs : record_out) (sc : init_scan_out) :
    (init_finish rs sc).2.num_banks = sc.s.num_banks ∧
    (init_finish rs sc).2.bank_params = sc.s.bank_params ∧
    (init_finish rs sc).2.area_params = sc.s.area_params := by
  unfold init_finish
  simp only []
  by_cases c1 : sc.ret ≠ PDBSTORE_SUCCESS
  · rw [if_pos c1]
    exact ⟨rfl, rfl, rfl⟩
  rw [if_neg c1]
  obtain ⟨wa, hwa⟩ : ∃ wa, wa = (if sc.staging_valid = true then
      pdbstore_write_record sc.s AREA_INDEX_WRITABLE rs.key (data_buf.media rs.data_ptr)
        rs.actual_data_size rs.flags sc.offset sc.s.free_space_offset false
      else (PDBSTORE_SUCCESS, sc.s, sc.s.free_space_offset)) := ⟨_, rfl⟩
  have hwc : same_cfg sc.s wa.2.1 := by
    rw [hwa]
    split_ifs
    · exact write_record_cfg sc.s AREA_INDEX_WRITABLE rs.key (data_buf.media rs.data_ptr)
        rs.actual_data_size rs.flags sc.offset sc.s.free_space_offset false
    · exact same_cfg_refl _
  rw [← hwa]
  clear hwa
  by_cases c2 : wa.1 ≠ PDBSTORE_SUCCESS
  · rw [if_pos c2]
    exact ⟨hwc.1, hwc.2.1, hwc.2.2.1⟩
  rw [if_neg c2]
  have hrz := reset_area_cfg { wa.2.1 with free_space_offset := wa.2.2 } AREA_INDEX_STAGING 0
  obtain ⟨rz, hz⟩ : ∃ rz, rz = reset_area { wa.2.1 with free_space_offset := wa.2.2 }
      AREA_INDEX_STAGING 0 := ⟨_, rfl⟩
  rw [← hz] at hrz ⊢
  clear hz
  obtain ⟨h1, h2, h3, _⟩ := hrz
  obtain ⟨g1, g2, g3, _⟩ := hwc
  by_cases c3 : rz.1 ≠ PDBSTORE_SUCCESS
  · rw [if_pos c3]
    exact ⟨h1.trans g1, h2.trans g2, h3.trans g3⟩
  · rw [if_neg c3]
    exact ⟨h1.trans g1, h2.trans g2, h3.trans g3⟩
/-- The second part of `pdbstore_init` keeps the banks and the areas that the first part
has computed, whatever the media holds. -/
theorem init_recover_areas (t : Store) (o : record_out) :
    (init_recover t o).2.num_banks = t.num_banks ∧
    (init_recover t o).2.bank_params = t.bank_params ∧
    (init_recover t o).2.area_params = t.area_params := by
  unfold init_recover
  simp only []
  generalize read_record t AREA_INDEX_STAGING 0 true record_out_init = rs
  by_cases c0 : rs.1 ≠ PDBSTORE_SUCCESS ∧ rs.1 ≠ PDBSTORE_DATA_CORRUPT
  · rw [if_pos c0]
    exact ⟨rfl, rfl, rfl⟩
  rw [if_neg c0]
  have i := init_scan_areas rs.2.key rs.2.data_ptr rs.2.actual_data_size rs.2.flags
    ((t.area_params AREA_INDEX_WRITABLE).size + 1) t 0
    { o with key := [], totally_corrupt := rs.2.totally_corrupt }
    (decide (rs.1 = PDBSTORE_SUCCESS)) rs.2.next_offset
  have j := init_finish_areas rs.2 (init_scan rs.2.key rs.2.data_ptr rs.2.actual_data_size rs.2.flags
    ((t.area_params AREA_INDEX_WRITABLE).size + 1) t 0
    { o with key := [], totally_corrupt := rs.2.totally_corrupt }
    (decide (rs.1 = PDBSTORE_SUCCESS)) rs.2.next_offset)
  exact ⟨j.1.trans i.1, j.2.1.trans i.2.1, j.2.2.trans i.2.2⟩

/-- The writable and the staging area that `init_areas` computes for one bank, and its
refusal of a bank that is too small. -/
theorem init_areas_one_bank (u : Store) (ro : Nat) (h1 : u.num_banks = 1)
    (hb : (u.bank_params 0).start_offset ≤ (u.bank_params 0).bank_size ∧
      (u.bank_params 0).bank_size ≤ 1073741824)
    (hro : ro ≤ (u.bank_params 0).bank_size) :
    ((u.bank_params 0).bank_size - (u.bank_params 0).start_offset < 2 * 1048 + ro →
      (init_areas u ro).1 = PDBSTORE_INVALID_ARGUMENT ∧
      (init_areas u ro).2.initialized = u.initialized) ∧
    (¬ (u.bank_params 0).bank_size - (u.bank_params 0).start_offset < 2 * 1048 + ro →
      (init_areas u ro).1 = PDBSTORE_SUCCESS ∧
      (init_areas u ro).2.area_params AREA_INDEX_WRITABLE =
        { address := ro,
          size := (u.bank_params 0).bank_size - (u.bank_params 0).start_offset - ro - 1048,
          bank := 0 } ∧
      (init_areas u ro).2.area_params AREA_INDEX_STAGING =
        { address := ro +
            ((u.bank_params 0).bank_size - (u.bank_params 0).start_offset - ro - 1048),
          size := 1048, bank := 0 }) := by
  obtain ⟨b1, b2⟩ := hb
  have e1 : u32 ((u.bank_params 0).bank_size + 4294967296 - (u.bank_params 0).start_offset) =
      (u.bank_params 0).bank_size - (u.bank_params 0).start_offset := by
    unfold u32; omega
  have e2 : u32 (u32 (2 * (8 + 16 + 1024)) + ro) = 2096 + ro := by unfold u32; omega
  have e3 : u32 (8 + 16 + 1024 + ro) = 1048 + ro := by unfold u32; omega
  unfold init_areas
  simp only [set_area, sizeof_header, PDBSTORE_MAX_KEY_SIZE, PDBSTORE_MAX_DATA_SIZE, reduceCtorEq,
    if_false, if_true, h1, e1, e2, e3]
  constructor
  · intro c
    have c' : (u.bank_params 0).bank_size - (u.bank_params 0).start_offset < 2096 + ro := by omega
    simp [c']
  · intro c
    have c' : ¬ (u.bank_params 0).bank_size - (u.bank_params 0).start_offset < 2096 + ro := by omega
    have e4 : u32 ((u.bank_params 0).bank_size - (u.bank_params 0).start_offset + 4294967296 -
        (1048 + ro)) = (u.bank_params 0).bank_size - (u.bank_params 0).start_offset - ro - 1048 := by
      unfold u32; omega
    have e5 : u32 (ro + ((u.bank_params 0).bank_size - (u.bank_params 0).start_offset - ro - 1048)) =
        ro + ((u.bank_params 0).bank_size - (u.bank_params 0).start_offset - ro - 1048) := by
      unfold u32; omega
    simp [c', e4, e5]

/-- The writable and the staging area that `init_areas` computes for two banks, and its
refusal of a second bank that is too small. -/
theorem init_areas_two_banks (u : Store) (ro : Nat) (h2 : u.num_banks = 2)
    (hb : (u.bank_params 1).start_offset ≤ (u.bank_params 1).bank_size ∧
      (u.bank_params 1).bank_size ≤ 1073741824) :
    ((u.bank_params 1).bank_size - (u.bank_params 1).start_offset < 2 * 1048 →
      (init_areas u ro).1 = PDBSTORE_INVALID_ARGUMENT ∧
      (init_areas u ro).2.initialized = u.initialized) ∧
    (¬ (u.bank_params 1).bank_size - (u.bank_params 1).start_offset < 2 * 1048 →
      (init_areas u ro).1 = PDBSTORE_SUCCESS ∧
      (init_areas u ro).2.area_params AREA_INDEX_WRITABLE =
        { address := 0,
          size := (u.bank_params 1).bank_size - (u.bank_params 1).start_offset - 1048,
          bank := 1 } ∧
      (init_areas u ro).2.area_params AREA_INDEX_STAGING =
        { address := 0 + ((u.bank_params 1).bank_size - (u.bank_params 1).start_offset - 1048),
          size := 1048, bank := 1 }) := by
  obtain ⟨b1, b2⟩ := hb
  have e1 : u32 ((u.bank_params 1).bank_size + 4294967296 - (u.bank_params 1).start_offset) =
      (u.bank_params 1).bank_size - (u.bank_params 1).start_offset := by
    unfold u32; omega
  have e2 : u32 (2 * (8 + 16 + 1024)) = 2096 := by unfold u32; omega
  unfold init_areas
  simp only [set_area, sizeof_header, PDBSTORE_MAX_KEY_SIZE, PDBSTORE_MAX_DATA_SIZE, reduceCtorEq,
    if_false, if_true, h2, OfNat.ofNat_ne_one, e1, e2]
  constructor
  · intro c
    have c' : (u.bank_params 1).bank_size - (u.bank_params 1).start_offset < 2096 := by omega
    simp [c']
  · intro c
    have c' : ¬ (u.bank_params 1).bank_size - (u.bank_params 1).start_offset < 2096 := by omega
    have e4 : u32 ((u.bank_params 1).bank_size - (u.bank_params 1).start_offset + 4294967296 -
        (8 + 16 + 1024)) = (u.bank_params 1).bank_size - (u.bank_params 1).start_offset - 1048 := by
      unfold u32; omega
    have e5 : u32 (0 + ((u.bank_params 1).bank_size - (u.bank_params 1).start_offset - 1048)) =
        (u.bank_params 1).bank_size - (u.bank_params 1).start_offset - 1048 := by
      unfold u32; omega
    have e6 : u32 ((u.bank_params 1).bank_size - (u.bank_params 1).start_offset + 4294966248) =
        (u.bank_params 1).bank_size - (u.bank_params 1).start_offset - 1048 := by
      unfold u32; omega
    simp [c', e6]
    unfold u32
    omega

/-- Claim C29: the area layout that `pdbstore_init` computes on an uninitialized store, for
bank parameters in range. When it returns success, the staging area has
`8 + 16 + 1024 = 1048` bytes; with one bank the writable area starts in bank 0 at the size
of the read-only area and has `bank_size - start_offset - readonly.size - staging.size`
bytes; with two banks it starts at address 0 of bank 1 and has
`bank_size - start_offset - staging.size` bytes of bank 1; the staging area lies in the
bank of the writable area right behind it; the writable area is at least as large as the
staging area; the read-only area starts at address 0 of bank 0, so the three areas do not
overlap. When the scan of the read-only area succeeds and the bank is too small for a
writable area of the size of the staging area, `pdbstore_init` returns invalid-argument and
the store stays uninitialized. -/
theorem area_layout_at_mount (s0 : Store) (num : Nat) (bp : Nat → pdbstore_bank_params_t)
    (hu : s0.initialized = false) (hbp : bp_ok num bp) :
    ((pdbstore_init s0 num bp).1 = PDBSTORE_SUCCESS →
      ((pdbstore_init s0 num bp).2.area_params AREA_INDEX_STAGING).size =
        sizeof_header + PDBSTORE_MAX_KEY_SIZE + PDBSTORE_MAX_DATA_SIZE ∧
      ((pdbstore_init s0 num bp).2.area_params AREA_INDEX_STAGING).size = 1048 ∧
      (num = 1 →
        ((pdbstore_init s0 num bp).2.area_params AREA_INDEX_WRITABLE).bank = 0 ∧
        ((pdbstore_init s0 num bp).2.area_params AREA_INDEX_WRITABLE).address =
          ((pdbstore_init s0 num bp).2.area_params AREA_INDEX_READONLY).size ∧
        ((pdbstore_init s0 num bp).2.area_params AREA_INDEX_WRITABLE).size =
          (bp 0).bank_size - (bp 0).start_offset -
            ((pdbstore_init s0 num bp).2.area_params AREA_INDEX_READONLY).size -
            ((pdbstore_init s0 num bp).2.area_params AREA_INDEX_STAGING).size ∧
        ((pdbstore_init s0 num bp).2.area_params AREA_INDEX_STAGING).address +
          ((pdbstore_init s0 num bp).2.area_params AREA_INDEX_STAGING).size =
          (bp 0).bank_size - (bp 0).start_offset) ∧
      (num = 2 →
        ((pdbstore_init s0 num bp).2.area_params AREA_INDEX_WRITABLE).bank = 1 ∧
        ((pdbstore_init s0 num bp).2.area_params AREA_INDEX_WRITABLE).address = 0 ∧
        ((pdbstore_init s0 num bp).2.area_params AREA_INDEX_WRITABLE).size =
          (bp 1).bank_size - (bp 1).start_offset -
            ((pdbstore_init s0 num bp).2.area_params AREA_INDEX_STAGING).size ∧
        ((pdbstore_init s0 num bp).2.area_params AREA_INDEX_STAGING).address +
          ((pdbstore_init s0 num bp).2.area_params AREA_INDEX_STAGING).size =
          (bp 1).bank_size - (bp 1).start_offset) ∧
      ((pdbstore_init s0 num bp).2.area_params AREA_INDEX_STAGING).bank =
        ((pdbstore_init s0 num bp).2.area_params AREA_INDEX_WRITABLE).bank ∧
      ((pdbstore_init s0 num bp).2.area_params AREA_INDEX_STAGING).address =
        ((pdbstore_init s0 num bp).2.area_params AREA_INDEX_WRITABLE).address +
          ((pdbstore_init s0 num bp).2.area_params AREA_INDEX_WRITABLE).size ∧
      ((pdbstore_init s0 num bp).2.area_params AREA_INDEX_STAGING).size ≤
        ((pdbstore_init s0 num bp).2.area_params AREA_INDEX_WRITABLE).size ∧
      ((pdbstore_init s0 num bp).2.area_params AREA_INDEX_READONLY).bank = 0 ∧
      ((pdbstore_init s0 num bp).2.area_params AREA_INDEX_READONLY).address = 0 ∧
      (pdbstore_init s0 num bp).2.num_banks = num ∧
      (∀ i, i < num → (pdbstore_init s0 num bp).2.bank_params i = bp i)) ∧
    (∀ u o, pdbstore_init_readonly_area s0 num bp = (PDBSTORE_SUCCESS, u) →
      init_readonly_scan u = (PDBSTORE_SUCCESS, o) →
      (num = 1 ∧ (bp 0).bank_size - (bp 0).start_offset < 2 * 1048 + o.next_offset) ∨
        (num = 2 ∧ (bp 1).bank_size - (bp 1).start_offset < 2 * 1048) →
      (pdbstore_init s0 num bp).1 = PDBSTORE_INVALID_ARGUMENT ∧
      (pdbstore_init s0 num bp).2.initialized = false) := by
  have h0 : (0 : Nat) < num := by have := hbp.1; omega
  obtain ⟨b1, b2, b3⟩ := hbp.2 0 h0
  obtain ⟨u, hr, u1, u2, u3, u4, u5, u6, u7, u8⟩ := init_readonly_area_spec s0 num bp hbp.1
  have hnw : area_nowrap u AREA_INDEX_READONLY := by
    unfold area_nowrap abase asize
    rw [u3, u2]
    simp only [h0, if_true]
    omega
  have hb0 : u.bank_params 0 = bp 0 := by rw [u2]; simp only [h0, if_true]
  have hb1 : num = 2 → u.bank_params 1 = bp 1 := by
    intro h
    rw [u2]
    simp only [h, Nat.one_lt_ofNat, if_true]
  have hpi : pdbstore_init s0 num bp =
      if (init_layout s0 num bp).1 ≠ PDBSTORE_SUCCESS then
        ((init_layout s0 num bp).1, (init_layout s0 num bp).2.1)
      else init_recover (init_layout s0 num bp).2.1 (init_layout s0 num bp).2.2 := by
    unfold pdbstore_init
    rw [if_neg (by rw [hu]; simp)]
  constructor
  · intro hsucc
    have hl1 : (init_layout s0 num bp).1 = PDBSTORE_SUCCESS := by
      by_contra c
      rw [hpi, if_pos c] at hsucc
      exact c hsucc
    obtain ⟨t, o, hL⟩ : ∃ t o, init_layout s0 num bp = (PDBSTORE_SUCCESS, t, o) :=
      ⟨_, _, by rw [← hl1]⟩
    have hF : pdbstore_init s0 num bp = init_recover t o := by
      rw [hpi, hL]
      simp only [ne_eq, not_true_eq_false, if_false]
    obtain ⟨hsc, ha⟩ := init_layout_parts s0 num bp t u o hr hL
    obtain ⟨_, hbound, _⟩ := init_readonly_scan_congr (same_cfg_refl u) hnw (by rw [u3]) o hsc
      (Or.inr rfl) (fun _ _ => rfl)
    have hro : o.next_offset ≤ (u.bank_params 0).bank_size := by
      unfold asize at hbound
      rw [u3] at hbound
      rw [hb0]
      exact hbound
    obtain ⟨_, _, _, _, _, _, _, _, tro, _⟩ := init_layout_spec s0 num bp t o hbp hL
    obtain ⟨f1, f2, f3⟩ := init_recover_areas t o
    have hst : t.num_banks = num ∧ t.bank_params = u.bank_params := by
      have := init_layout_spec s0 num bp t o hbp hL
      exact ⟨this.2.2.2.2.2.2.1, this.2.2.2.2.2.2.2.1.trans u2.symm⟩
    rw [hF, f3, f1, f2, tro]
    rcases hbp.1 with h1 | h2
    · obtain ⟨k1, k2⟩ := init_areas_one_bank u o.next_offset (u1.trans h1)
        (by rw [hb0]; exact ⟨b1, b2⟩) hro
      by_cases c : (u.bank_params 0).bank_size - (u.bank_params 0).start_offset <
          2 * 1048 + o.next_offset
      · have := (k1 c).1
        rw [ha] at this
        simp at this
      · obtain ⟨_, w1, w2⟩ := k2 c
        rw [ha] at w1 w2
        simp only [] at w1 w2
        rw [w1, w2, hst.1]
        rw [hb0] at c ⊢
        refine ⟨rfl, rfl, fun _ => ⟨rfl, rfl, rfl, ?_⟩, fun h => by omega, rfl, rfl,
          ?_, rfl, rfl, rfl, ?_⟩
        · simp only []
          omega
        · simp only []
          omega
        intro i hi
        rw [hst.2, u2]
        simp only [hi, if_true]
    · obtain ⟨c1, c2, c3⟩ := hbp.2 1 (by omega)
      obtain ⟨k1, k2⟩ := init_areas_two_banks u o.next_offset (u1.trans h2)
        (by rw [hb1 h2]; exact ⟨c1, c2⟩)
      by_cases c : (u.bank_params 1).bank_size - (u.bank_params 1).start_offset < 2 * 1048
      · have := (k1 c).1
        rw [ha] at this
        simp at this
      · obtain ⟨_, w1, w2⟩ := k2 c
        rw [ha] at w1 w2
        simp only [] at w1 w2
        rw [w1, w2, hst.1]
        rw [hb1 h2] at c ⊢
        refine ⟨rfl, rfl, fun h => by omega, fun _ => ⟨rfl, rfl, rfl, ?_⟩, rfl, rfl,
          ?_, rfl, rfl, rfl, ?_⟩
        · simp only []
          omega
        · simp only []
          omega
        intro i hi
        rw [hst.2, u2]
        simp only [hi, if_true]
  · intro u' o hr' hsc hsmall
    rw [hr] at hr'
    have hu' : u' = u := ((Prod.mk.inj hr').2).symm
    subst hu'
    obtain ⟨_, hbound, _⟩ := init_readonly_scan_congr (same_cfg_refl u') hnw (by rw [u3]) o hsc
      (Or.inr rfl) (fun _ _ => rfl)
    have hro : o.next_offset ≤ (u'.bank_params 0).bank_size := by
      unfold asize at hbound
      rw [u3] at hbound
      rw [hb0]
      exact hbound
    have hly : init_layout s0 num bp =
        ((init_areas u' o.next_offset).1, (init_areas u' o.next_offset).2, o) := by
      unfold init_layout
      rw [hr]
      simp only [ne_eq, not_true_eq_false, if_false]
      rw [hsc]
      simp only [ne_eq, not_true_eq_false, if_false]
    have key : (init_areas u' o.next_offset).1 = PDBSTORE_INVALID_ARGUMENT ∧
        (init_areas u' o.next_offset).2.initialized = u'.initialized := by
      rcases hsmall with ⟨h1, c⟩ | ⟨h2, c⟩
      · exact (init_areas_one_bank u' o.next_offset (u1.trans h1)
          (by rw [hb0]; exact ⟨b1, b2⟩) hro).1 (by rw [hb0]; exact c)
      · obtain ⟨c1, c2, c3⟩ := hbp.2 1 (by omega)
        exact (init_areas_two_banks u' o.next_offset (u1.trans h2)
          (by rw [hb1 h2]; exact ⟨c1, c2⟩)).1 (by rw [hb1 h2]; exact c)
    rw [hpi, hly]
    simp only []
    rw [key.1, if_pos (by decide)]
    exact ⟨rfl, key.2.trans (u8.trans hu)⟩

/-- The layout of `tight_media` in one bank of 2110 bytes: mount succeeds, the staging area
has 1048 bytes and ends at the end of the bank; in one bank of 2000 bytes mount returns
invalid-argument. -/
theorem area_layout_at_mount_witness :
    tight_media.initialized = false ∧ bp_ok 1 (fun _ => tight_bank) ∧
    (pdbstore_init tight_media 1 (fun _ => tight_bank)).1 = PDBSTORE_SUCCESS ∧
    ((pdbstore_init tight_media 1 (fun _ => tight_bank)).2.area_params AREA_INDEX_STAGING).size =
      1048 ∧
    ((pdbstore_init tight_media 1 (fun _ => tight_bank)).2.area_params AREA_INDEX_WRITABLE).address =
      ((pdbstore_init tight_media 1 (fun _ => tight_bank)).2.area_params AREA_INDEX_READONLY).size ∧
    ((pdbstore_init tight_media 1 (fun _ => tight_bank)).2.area_params AREA_INDEX_STAGING).address +
      ((pdbstore_init tight_media 1 (fun _ => tight_bank)).2.area_params AREA_INDEX_STAGING).size =
      2110 ∧
    (pdbstore_init tight_media 1 (fun _ => small_bank)).1 = PDBSTORE_INVALID_ARGUMENT ∧
    (pdbstore_init tight_media 1 (fun _ => small_bank)).2.initialized = false := by
  have h := (area_layout_at_mount tight_media 1 (fun _ => tight_bank) rfl tight_fresh.params).1
    (by decide!)
  have hs : bp_ok 1 (fun _ => small_bank) := by
    refine ⟨Or.inl rfl, ?_⟩
    intro i _
    simp [small_bank]
  have e1 : (pdbstore_init_readonly_area tight_media 1 (fun _ => small_bank)).1 =
      PDBSTORE_SUCCESS := by decide!
  have e2 : (init_readonly_scan
      (pdbstore_init_readonly_area tight_media 1 (fun _ => small_bank)).2).1 =
      PDBSTORE_SUCCESS := by decide!
  have e3 : (init_readonly_scan
      (pdbstore_init_readonly_area tight_media 1 (fun _ => small_bank)).2).2.next_offset = 14 := by
    decide!
  have k := (area_layout_at_mount tight_media 1 (fun _ => small_bank) rfl hs).2
    (pdbstore_init_readonly_area tight_media 1 (fun _ => small_bank)).2
    (init_readonly_scan (pdbstore_init_readonly_area tight_media 1 (fun _ => small_bank)).2).2
    (by rw [← e1]) (by rw [← e2]) (Or.inl ⟨rfl, by rw [e3]; decide⟩)
  exact ⟨rfl, tight_fresh.params, by decide!, h.2.1, (h.2.2.1 rfl).2.1, (h.2.2.1 rfl).2.2.2,
    k.1, k.2⟩

/-- Claim C26 fails on the code when the interruption comes before the key bytes are
programmed again. In `tight_store_ab` the keys `"a"` (offset 0, 3 data bytes) and `"b"` are
set. A resilient `pdbstore_set("a", {7, 8, 9}, 3, 1)` replaces the record of `"a"` in
place; `pdbstore_write_record` erases it from the `flags` field on, key bytes included. After
a power loss with 2 bytes programmed again the staging area holds a record that
`read_record` accepts, the record at offset 0 is length-readable (not totally corrupt) with
a failing CRC, but its key bytes are blank and differ from the staged key: `pdbstore_init`
returns success, erases the writable area from offset 0 on and appends the staged record
there, and `pdbstore_get("b")`, success before, returns not-found. With 7 bytes programmed
again (the key is back) the record is replaced from staging and `"b"` is kept. -/
theorem interrupted_replace_loses_later_key :
    (pdbstore_get tight_store_ab [98]).1 = PDBSTORE_SUCCESS ∧
    (find_record tight_store_ab [97]).ret = PDBSTORE_SUCCESS ∧
    (find_record tight_store_ab [97]).area = some AREA_INDEX_WRITABLE ∧
    (find_record tight_store_ab [97]).offset = 0 ∧
    (find_record tight_store_ab [98]).offset = 12 ∧
    (read_record (torn_staged_replace tight_store_ab [97] [7, 8, 9] 3 1 0 2) AREA_INDEX_STAGING 0
      true record_out_init).1 = PDBSTORE_SUCCESS ∧
    cstr (read_record (torn_staged_replace tight_store_ab [97] [7, 8, 9] 3 1 0 2)
      AREA_INDEX_STAGING 0 true record_out_init).2.key = [97] ∧
    (read_record (torn_staged_replace tight_store_ab [97] [7, 8, 9] 3 1 0 2) AREA_INDEX_WRITABLE 0
      true record_out_init).1 = PDBSTORE_DATA_CORRUPT ∧
    (read_record (torn_staged_replace tight_store_ab [97] [7, 8, 9] 3 1 0 2) AREA_INDEX_WRITABLE 0
      true record_out_init).2.totally_corrupt = false ∧
    (read_record (torn_staged_replace tight_store_ab [97] [7, 8, 9] 3 1 0 2) AREA_INDEX_WRITABLE 0
      true record_out_init).2.next_offset = 12 ∧
    cstr (read_record (torn_staged_replace tight_store_ab [97] [7, 8, 9] 3 1 0 2)
      AREA_INDEX_WRITABLE 0 true record_out_init).2.key = [255] ∧
    (pdbstore_init (torn_staged_replace tight_store_ab [97] [7, 8, 9] 3 1 0 2) 1
      (fun _ => tight_bank)).1 = PDBSTORE_SUCCESS ∧
    (pdbstore_init (torn_staged_replace tight_store_ab [97] [7, 8, 9] 3 1 0 2) 1
      (fun _ => tight_bank)).2.free_space_offset = 12 ∧
    (pdbstore_get (pdbstore_init (torn_staged_replace tight_store_ab [97] [7, 8, 9] 3 1 0 2) 1
      (fun _ => tight_bank)).2 [97]).1 = PDBSTORE_SUCCESS ∧
    (pdbstore_get (pdbstore_init (torn_staged_replace tight_store_ab [97] [7, 8, 9] 3 1 0 2) 1
      (fun _ => tight_bank)).2 [98]).1 = PDBSTORE_NOT_FOUND ∧
    (pdbstore_init (torn_staged_replace tight_store_ab [97] [7, 8, 9] 3 1 0 7) 1
      (fun _ => tight_bank)).1 = PDBSTORE_SUCCESS ∧
    (pdbstore_init (torn_staged_replace tight_store_ab [97] [7, 8, 9] 3 1 0 7) 1
      (fun _ => tight_bank)).2.free_space_offset = 24 ∧
    (pdbstore_get (pdbstore_init (torn_staged_replace tight_store_ab [97] [7, 8, 9] 3 1 0 7) 1
      (fun _ => tight_bank)).2 [98]).1 = PDBSTORE_SUCCESS := by
  decide!

/-- Claim C27 (amended): let `pdbstore_init` be called on an uninitialized store whose
media gives the area layout `t` (the first part of `pdbstore_init` succeeds), and let the
staging area hold the bytes of a record `r` for a valid key that is not in the read-only
area, with flags that do not mark a deletion. Let the writable area hold valid records
`pre`, none for this key, then the same bytes of `r`, then valid records `post`, then
blank bytes, where behind `post` the area ends or `read_record` reports a corrupt record.
Then `pdbstore_init` returns success, every byte of the writable area is as before,
`free_space_offset` is the end of the records, the staging area is fully erased, and
`pdbstore_get` of the key returns success with the staged size and data. -/
theorem replay_of_identical_record (s0 t : Store) (num : Nat) (bp : Nat → pdbstore_bank_params_t)
    (o : record_out) (key : List Nat) (pre post : List log_rec) (r : log_rec)
    (hu : s0.initialized = false) (hbp : bp_ok num bp)
    (hL : init_layout s0 num bp = (PDBSTORE_SUCCESS, t, o))
    (hvk : is_valid_key key = true) (hrk : r.key = cstr key) (hrec : log_rec_ok r)
    (hnd : r.flags &&& DELETE_FLAG = 0) (hro : (ro_find t key).1 = none)
    (hstg : ∀ i, i < log_rec_size r →
      acell t AREA_INDEX_STAGING i = (rec_image t r.key r.data r.flags).getD i 0)
    (hpre : log_at t AREA_INDEX_WRITABLE 0 pre) (hpok : ∀ q, q ∈ pre → log_rec_ok q)
    (hpk : ∀ q, q ∈ pre → q.key ≠ r.key)
    (hcur : ∀ i, i < log_rec_size r → acell t AREA_INDEX_WRITABLE (log_size pre + i) =
      (rec_image t r.key r.data r.flags).getD i 0)
    (hpost : log_at t AREA_INDEX_WRITABLE (log_size pre + log_rec_size r) post)
    (hqok : ∀ q, q ∈ post → log_rec_ok q)
    (hfit : log_size pre + log_rec_size r + log_size post ≤ asize t AREA_INDEX_WRITABLE)
    (hblank : ∀ x, x < asize t AREA_INDEX_WRITABLE →
      log_size pre + log_rec_size r + log_size post ≤ x →
      acell t AREA_INDEX_WRITABLE x = aerase t AREA_INDEX_WRITABLE)
    (htail : log_size pre + log_rec_size r + log_size post < asize t AREA_INDEX_WRITABLE →
      (read_record t AREA_INDEX_WRITABLE (log_size pre + log_rec_size r + log_size post) true
        record_out_init).1 = PDBSTORE_DATA_CORRUPT) :
    (pdbstore_init s0 num bp).1 = PDBSTORE_SUCCESS ∧
    (∀ x, x < asize t AREA_INDEX_WRITABLE →
      acell (pdbstore_init s0 num bp).2 AREA_INDEX_WRITABLE x = acell t AREA_INDEX_WRITABLE x) ∧
    (pdbstore_init s0 num bp).2.free_space_offset =
      log_size pre + log_rec_size r + log_size post ∧
    (∀ x, x < asize t AREA_INDEX_STAGING →
      acell (pdbstore_init s0 num bp).2 AREA_INDEX_STAGING x = aerase t AREA_INDEX_STAGING) ∧
    (pdbstore_get (pdbstore_init s0 num bp).2 key).1 = PDBSTORE_SUCCESS ∧
    (pdbstore_get (pdbstore_init s0 num bp).2 key).2.2 = r.data.length ∧
    mem_read (pdbstore_init s0 num bp).2 (pdbstore_get (pdbstore_init s0 num bp).2 key).2.1.bank
      (pdbstore_get (pdbstore_init s0 num bp).2 key).2.1.addr r.data.length = r.data := by
  have hl : layout t := (init_layout_spec s0 num bp t o hbp hL).1
  obtain ⟨F, e, hi, hs, hfr⟩ := init_recover_replay_steady t pre post r o hl hrec hstg hpre hpok hpk
    (fun i hi => hcur i (by unfold log_rec_size; have := hrec.1; omega))
    (fun i _ hi => hcur i (by unfold log_rec_size; omega)) hpost hqok hfit htail
  have e1 : pdbstore_init s0 num bp = (PDBSTORE_SUCCESS, F) := by
    unfold pdbstore_init
    rw [if_neg (by rw [hu]; simp)]
    simp only [hL, ne_eq, not_true_eq_false, if_false]
    exact e
  have hl1 : layout { t with initialized := true } := layout_congr hl rfl rfl
  have hroF : (ro_find F key).1 = none := by
    rw [ro_find_frame hl1 hfr, ro_find_initialized]
    exact hro
  obtain ⟨g1, g2⟩ := get_found_steady F pre post r key hs hi hvk hroF
    (fun q hq => by rw [← hrk]; exact hpk q hq) hrk
  have hzw : asize F AREA_INDEX_WRITABLE = asize t AREA_INDEX_WRITABLE := by
    unfold asize
    rw [hfr.2.2.1]
  have hew : aerase F AREA_INDEX_WRITABLE = aerase t AREA_INDEX_WRITABLE := by
    unfold aerase
    rw [hfr.2.2.1, hfr.2.1]
  have hzs : asize F AREA_INDEX_STAGING = asize t AREA_INDEX_STAGING := by
    unfold asize
    rw [hfr.2.2.1]
  have hes : aerase F AREA_INDEX_STAGING = aerase t AREA_INDEX_STAGING := by
    unfold aerase
    rw [hfr.2.2.1, hfr.2.1]
  have hsz : log_size (pre ++ r :: post) = log_size pre + log_rec_size r + log_size post := by
    rw [log_size_append]
    simp only [log_size]
    omega
  have hat : log_at t AREA_INDEX_WRITABLE 0 (pre ++ r :: post) := by
    rw [log_at_append]
    refine ⟨hpre, ?_, ?_⟩
    · intro i hi
      rw [Nat.zero_add]
      exact hcur i hi
    · rw [Nat.zero_add]
      exact hpost
  rw [e1]
  refine ⟨rfl, ?_, ?_, ?_, ?_, ?_, ?_⟩
  · intro x hx
    show acell F AREA_INDEX_WRITABLE x = _
    by_cases c : x < log_size (pre ++ r :: post)
    · exact @log_at_cells_eq t F hfr.2.2.2.2.1 hfr.2.2.2.2.2.1 AREA_INDEX_WRITABLE _ 0 hat hs.cells x
        (Nat.zero_le _) (by omega)
    · rw [hs.tail x (by omega) (by rw [hzw]; exact hx), hew]
      exact (hblank x hx (by omega)).symm
  · show F.free_space_offset = _
    rw [hs.fso, hsz]
  · intro x hx
    rw [← hes]
    exact hs.staging x (by rw [hzs]; exact hx)
  · show (pdbstore_get F key).1 = _
    rw [g1, if_neg (by rw [hnd]; simp)]
  · show (pdbstore_get F key).2.2 = _
    rw [g1]
  · show mem_read F (pdbstore_get F key).2.1.bank (pdbstore_get F key).2.1.addr _ = _
    rw [g1]
    exact g2

/-- On `replayed_media 1` the staged record of `"a"` and the record at offset 0 of the
writable area are the same: the mount succeeds, leaves the writable area as it is and
`pdbstore_get("a")` returns the data byte 5. -/
theorem replay_of_identical_record_witness :
    (pdbstore_init (replayed_media 1) 1 (fun _ => tight_bank)).1 = PDBSTORE_SUCCESS ∧
    (∀ x, x < asize (init_layout (replayed_media 1) 1 (fun _ => tight_bank)).2.1
        AREA_INDEX_WRITABLE →
      acell (pdbstore_init (replayed_media 1) 1 (fun _ => tight_bank)).2 AREA_INDEX_WRITABLE x =
        acell (init_layout (replayed_media 1) 1 (fun _ => tight_bank)).2.1 AREA_INDEX_WRITABLE x) ∧
    (pdbstore_init (replayed_media 1) 1 (fun _ => tight_bank)).2.free_space_offset = 20 ∧
    (pdbstore_get (pdbstore_init (replayed_media 1) 1 (fun _ => tight_bank)).2 [97]).1 =
      PDBSTORE_SUCCESS ∧
    (pdbstore_get (pdbstore_init (replayed_media 1) 1 (fun _ => tight_bank)).2 [97]).2.2 = 1 ∧
    mem_read (pdbstore_init (replayed_media 1) 1 (fun _ => tight_bank)).2
      (pdbstore_get (pdbstore_init (replayed_media 1) 1 (fun _ => tight_bank)).2 [97]).2.1.bank
      (pdbstore_get (pdbstore_init (replayed_media 1) 1 (fun _ => tight_bank)).2 [97]).2.1.addr 1 = [5] := by
  have h := replay_of_identical_record (replayed_media 1)
    (init_layout (replayed_media 1) 1 (fun _ => tight_bank)).2.1 1 (fun _ => tight_bank)
    (init_layout (replayed_media 1) 1 (fun _ => tight_bank)).2.2 [97] []
    [{ key := [98], data := [6], flags := 0 }]
    { key := [97], data := [5], flags := 1 } rfl
    tight_fresh.params
    (Prod.ext (by decide!) Prod.mk.eta.symm) (by decide) rfl
    ⟨by decide, by decide, by decide, by decide, by decide⟩ (by decide) (by decide!)
    (by decide!) trivial (fun _ hq => absurd hq (List.not_mem_nil _))
    (fun _ hq => absurd hq (List.not_mem_nil _)) (by decide!) ⟨by decide!, trivial⟩
    (fun q hq => by
      rw [List.mem_singleton] at hq
      rw [hq]
      exact ⟨by decide, by decide, by decide, by decide, by decide⟩)
    (by decide!) (by decide!) (by decide!)
  exact ⟨h.1, h.2.1, h.2.2.1, h.2.2.2.2.1, h.2.2.2.2.2.1, h.2.2.2.2.2.2⟩

/-- Claim C27 as stated fails when the staged record carries the delete flag. On
`replayed_media 129` the staging area holds a record for key `"a"` that `read_record`
accepts, and the writable area holds at offset 0 the identical record, which `read_record`
accepts as well; `pdbstore_init` returns success, leaves the writable area unchanged with
`free_space_offset` behind the two records and erases the staging area, and
`pdbstore_get("a")` then returns not-found instead of the staged value. -/
theorem replay_of_staged_tombstone :
    (read_record (init_layout (replayed_media 129) 1 (fun _ => tight_bank)).2.1 AREA_INDEX_STAGING 0
      true record_out_init).1 = PDBSTORE_SUCCESS ∧
    rec_key (init_layout (replayed_media 129) 1 (fun _ => tight_bank)).2.1 AREA_INDEX_STAGING 0 =
      [97] ∧
    rec_data (init_layout (replayed_media 129) 1 (fun _ => tight_bank)).2.1 AREA_INDEX_STAGING 0 =
      [5] ∧
    (read_record (init_layout (replayed_media 129) 1 (fun _ => tight_bank)).2.1 AREA_INDEX_WRITABLE 0
      true record_out_init).1 = PDBSTORE_SUCCESS ∧
    (∀ i, i < 10 →
      acell (init_layout (replayed_media 129) 1 (fun _ => tight_bank)).2.1 AREA_INDEX_WRITABLE i =
        acell (init_layout (replayed_media 129) 1 (fun _ => tight_bank)).2.1 AREA_INDEX_STAGING i) ∧
    (pdbstore_init (replayed_media 129) 1 (fun _ => tight_bank)).1 = PDBSTORE_SUCCESS ∧
    (pdbstore_init (replayed_media 129) 1 (fun _ => tight_bank)).2.free_space_offset = 20 ∧
    (∀ x, x < 40 →
      acell (pdbstore_init (replayed_media 129) 1 (fun _ => tight_bank)).2 AREA_INDEX_WRITABLE x =
        (replayed_media 129).mem 0 (14 + x)) ∧
    (∀ x, x < 12 →
      acell (pdbstore_init (replayed_media 129) 1 (fun _ => tight_bank)).2 AREA_INDEX_STAGING x =
        255) ∧
    (pdbstore_get (pdbstore_init (replayed_media 129) 1 (fun _ => tight_bank)).2 [97]).1 =
      PDBSTORE_NOT_FOUND := by
  decide!

/-- The fields of the record at `o` are the same in two states with the same byte order that
agree on the cells of the record, whatever the sizes of their areas. -/
theorem rec_fields_cells {s s' : Store} (hbe : s'.big_endian = s.big_endian)
    (hhb : s'.host_big_endian = s.host_big_endian) (a : area_index_e) (o : Nat)
    (hag : ∀ x, o ≤ x → x < rec_next s a o → acell s' a x = acell s a x) :
    hdr_key_size s' a o = hdr_key_size s a o ∧ hdr_data_size s' a o = hdr_data_size s a o ∧
    hdr_flags s' a o = hdr_flags s a o ∧ rec_next s' a o = rec_next s a o ∧
    rec_key s' a o = rec_key s a o ∧ rec_data s' a o = rec_data s a o ∧
    (rec_crc_ok s' a o ↔ rec_crc_ok s a o) := by
  have hn : o + 8 ≤ rec_next s a o := by unfold rec_next; omega
  have c0 := hag o (by omega) (by omega)
  have c1 := hag (o + 1) (by omega) (by omega)
  have c2 := hag (o + 2) (by omega) (by omega)
  have c3 := hag (o + 3) (by omega) (by omega)
  have c4 := hag (o + 4) (by omega) (by omega)
  have c5 := hag (o + 5) (by omega) (by omega)
  have c6 := hag (o + 6) (by omega) (by omega)
  have c7 := hag (o + 7) (by omega) (by omega)
  have k : hdr_key_size s' a o = hdr_key_size s a o := by unfold hdr_key_size; rw [c2]
  have d : hdr_data_size s' a o = hdr_data_size s a o := by
    unfold hdr_data_size; rw [c0, c1, hbe, hhb]
  have f : hdr_flags s' a o = hdr_flags s a o := by unfold hdr_flags; rw [c3]
  have n : rec_next s' a o = rec_next s a o := by unfold rec_next; rw [k, d]
  have ky : rec_key s' a o = rec_key s a o := by
    unfold rec_key; rw [k]
    apply List.map_congr_left
    intro i hi
    rw [List.mem_range] at hi
    exact hag _ (by omega) (by unfold rec_next; omega)
  have dt : rec_data s' a o = rec_data s a o := by
    unfold rec_data; rw [k, d]
    apply List.map_congr_left
    intro i hi
    rw [List.mem_range] at hi
    exact hag _ (by omega) (by unfold rec_next; omega)
  refine ⟨k, d, f, n, ky, dt, ?_⟩
  unfold rec_crc_ok rec_crc
  rw [ky, dt, c0, c1, c2, c3, c4, c5, c6, c7, hbe, hhb]

/-- The records that the scan of the read-only area in `pdbstore_init` has accepted are
accepted by `find_record` once the area ends behind them: its loop over the read-only area
either finds the key in a record that `read_record` accepts or leaves the area. -/
theorem ro_loop_status {u s : Store} (key : List Nat) (N : Nat)
    (hu : area_nowrap u AREA_INDEX_READONLY)
    (hua : (u.area_params AREA_INDEX_READONLY).address = 0)
    (hs : area_nowrap s AREA_INDEX_READONLY)
    (hsa : (s.area_params AREA_INDEX_READONLY).address = 0)
    (hN : asize s AREA_INDEX_READONLY = N)
    (hbe : s.big_endian = u.big_endian) (hhb : s.host_big_endian = u.host_big_endian)
    (hcell : ∀ x, x < N → acell s AREA_INDEX_READONLY x = acell u AREA_INDEX_READONLY x) :
    ∀ (i p : Nat) (o res : record_out) (fuel : Nat) (out : record_out), o.next_offset = p →
      p ≤ asize u AREA_INDEX_READONLY →
      init_readonly_loop u i p o = (PDBSTORE_SUCCESS, res) → res.next_offset = N →
      N < fuel + p →
      (find_record_loop s key AREA_INDEX_READONLY fuel p out).1 = none ∨
      (find_record_loop s key AREA_INDEX_READONLY fuel p out).1 = some PDBSTORE_SUCCESS := by
  intro i
  induction i with
  | zero =>
    intro p o res fuel out ho hle hl hres hfuel
    unfold init_readonly_loop at hl
    have e := (Prod.mk.inj hl).2
    subst e
    obtain ⟨f, rfl⟩ : ∃ f, fuel = f + 1 := ⟨fuel - 1, by omega⟩
    rw [find_record_loop_succ]
    unfold asize at hN
    rw [if_pos (by rw [hN]; omega)]
    exact Or.inl rfl
  | succ i ih =>
    intro p o res fuel out ho hle hl hres hfuel
    have hl0 := hl
    unfold init_readonly_loop at hl
    simp only at hl
    by_cases c : (read_record u AREA_INDEX_READONLY p false o).1 = PDBSTORE_SUCCESS
    · rw [if_neg (by simpa using c)] at hl
      obtain ⟨c1, c2, c3, c4, _, c6⟩ :=
        read_record_success_conds u AREA_INDEX_READONLY p false o hu hle c
      have hn : (read_record u AREA_INDEX_READONLY p false o).2.next_offset =
          rec_next u AREA_INDEX_READONLY p := by
        rw [read_record_eq_nokey u _ p o hu hle, if_neg c1, if_neg c2, if_neg c3, if_neg c4]
      have hb : rec_next u AREA_INDEX_READONLY p ≤ asize u AREA_INDEX_READONLY := by
        rw [hua] at c4; omega
      obtain ⟨_, i2, _⟩ := init_readonly_loop_congr (same_cfg_refl u) hu hua i _ _ res rfl
        (by rw [hn]; exact hb) hl (fun _ _ => rfl)
      rw [hn, hres] at i2
      have hq : p + 8 < rec_next u AREA_INDEX_READONLY p := by
        unfold rec_next
        have : hdr_key_size u AREA_INDEX_READONLY p ≠ 0 := fun h => c3 (Or.inl h)
        omega
      obtain ⟨k, d, f, n, ky, dt, cr⟩ := @rec_fields_cells u s hbe hhb AREA_INDEX_READONLY p
        (fun x _ hx => hcell x (by omega))
      obtain ⟨g, rfl⟩ : ∃ g, fuel = g + 1 := ⟨fuel - 1, by omega⟩
      have hrr : (read_record s AREA_INDEX_READONLY p true out).1 = PDBSTORE_SUCCESS ∧
          (read_record s AREA_INDEX_READONLY p true out).2.next_offset =
            rec_next u AREA_INDEX_READONLY p := by
        rw [read_record_eq s _ p out hs (by rw [hN]; omega), hsa, hN, k, d, n,
          if_neg (by omega), if_neg (by omega), if_neg c3, if_neg (by omega),
          if_neg (by
            unfold rec_next at i2
            omega), if_pos (cr.mpr c6)]
        exact ⟨rfl, rfl⟩
      rw [find_record_loop_succ]
      unfold asize at hN
      rw [if_neg (by rw [hN]; omega), if_neg (by
        intro hh
        exact absurd hh.1 (by decide)), if_neg (by rw [hrr.1]; simp)]
      by_cases ck : cstr (read_record s AREA_INDEX_READONLY p true out).2.key = cstr key
      · rw [if_pos ck]
        exact Or.inr rfl
      · rw [if_neg ck, hrr.2]
        rw [hn] at hl
        exact ih _ _ res g _ hn hb hl hres (by omega)
    · rw [if_pos (by simpa using c)] at hl
      exact absurd (Prod.mk.inj hl).1 c

/-- In a state with the configuration of a successful first mount whose read-only cells are
those the mount found, the search of `find_record` in the read-only area never ends with an
error: it finds the key or leaves the area. -/
theorem ro_find_status (num : Nat) (bp : Nat → pdbstore_bank_params_t) (s0 s t : Store)
    (o : record_out) (key : List Nat) (hbp : bp_ok num bp)
    (hL : init_layout s0 num bp = (PDBSTORE_SUCCESS, t, o)) (hm : mounted t s) :
    (ro_find s key).1 = none ∨ (ro_find s key).1 = some PDBSTORE_SUCCESS := by
  have h0 : (0 : Nat) < num := by have := hbp.1; omega
  obtain ⟨b1, b2, b3⟩ := hbp.2 0 h0
  obtain ⟨u, hr, u1, u2, u3, u4, u5, u6, u7, u8⟩ := init_readonly_area_spec s0 num bp hbp.1
  obtain ⟨hsc, ha⟩ := init_layout_parts s0 num bp t u o hr hL
  obtain ⟨hl, t1, t2, t3, t4, t5, t6, t7, t8, _⟩ := init_layout_spec s0 num bp t o hbp hL
  have hnw : area_nowrap u AREA_INDEX_READONLY := by
    unfold area_nowrap abase asize
    rw [u3, u2]
    simp only [h0, if_true]
    omega
  have hua : (u.area_params AREA_INDEX_READONLY).address = 0 := by rw [u3]
  have hsnw : area_nowrap s AREA_INDEX_READONLY := by
    have := hl.ro_nowrap
    unfold area_nowrap abase asize at this ⊢
    rw [hm.ar, hm.bk]
    exact this
  have hsa : (s.area_params AREA_INDEX_READONLY).address = 0 := by rw [hm.ar, t8]
  have hN : asize s AREA_INDEX_READONLY = o.next_offset := by
    unfold asize
    rw [hm.ar, t8]
  have hcell : ∀ x, x < o.next_offset →
      acell s AREA_INDEX_READONLY x = acell u AREA_INDEX_READONLY x := by
    intro x hx
    rw [hm.ro x (by unfold asize; rw [t8]; exact hx)]
    unfold acell abase
    rw [t8, u3, t1, u4, t7, u2]
  have hloop : ∃ nk, init_readonly_loop u (nk + 1) 0 record_out_init = (PDBSTORE_SUCCESS, o) := by
    refine ⟨conv_ton16 u.big_endian (load16 u.host_big_endian
      (u.mem (read_record u AREA_INDEX_READONLY 0 false record_out_init).2.data_ptr.bank
        (read_record u AREA_INDEX_READONLY 0 false record_out_init).2.data_ptr.addr)
      (u.mem (read_record u AREA_INDEX_READONLY 0 false record_out_init).2.data_ptr.bank
        ((read_record u AREA_INDEX_READONLY 0 false record_out_init).2.data_ptr.addr + 1))), ?_⟩
    rw [← hsc]
    unfold init_readonly_scan
    rw [init_readonly_loop]
  obtain ⟨nk, hloop⟩ := hloop
  unfold ro_find
  have hsz : (s.area_params AREA_INDEX_READONLY).size = o.next_offset := hN
  rw [hsz]
  exact ro_loop_status key o.next_offset hnw hua hsnw hsa hN (by rw [hm.be, t3, u5])
    (by rw [hm.hb, t2, u6]) hcell (nk + 1) 0 record_out_init o (o.next_offset + 1) record_out_init
    rfl (Nat.zero_le _) hloop rfl (by omega)

/-- Claim C28 (amended): in every initialized state of a store that was first mounted with
success on a media with a valid master record and erased writable and staging areas, and
then used through `pdbstore_set`, `pdbstore_remove`, `pdbstore_reset`, `pdbstore_deinit` and
`pdbstore_init` with the same bank parameters: `free_space_offset` is at most the size of
the writable area; there are records that tile the offsets from 0 to `free_space_offset`
exactly, each of which `read_record` accepts with success, returning the offset of the next
one; every byte of the writable area from `free_space_offset` on and every byte of the
staging area holds the erase value; and `pdbstore_get` returns data-corrupt for no key. -/
theorem steady_state_invariant (num : Nat) (bp : Nat → pdbstore_bank_params_t) (s0 s : Store)
    (hf : fresh num bp s0) (hr : reachable num bp s0 s) (hi : s.initialized = true) :
    s.free_space_offset ≤ asize s AREA_INDEX_WRITABLE ∧
    (∃ log : List log_rec, log_size log = s.free_space_offset ∧
      log_at s AREA_INDEX_WRITABLE 0 log ∧
      ∀ pre r post, log = pre ++ r :: post →
        (read_record s AREA_INDEX_WRITABLE (log_size pre) true record_out_init).1 =
          PDBSTORE_SUCCESS ∧
        (read_record s AREA_INDEX_WRITABLE (log_size pre) true record_out_init).2.next_offset =
          log_size pre + log_rec_size r ∧
        (read_record s AREA_INDEX_WRITABLE (log_size pre) true record_out_init).2.actual_data_size =
          r.data.length) ∧
    (∀ x, s.free_space_offset ≤ x → x < asize s AREA_INDEX_WRITABLE →
      acell s AREA_INDEX_WRITABLE x = aerase s AREA_INDEX_WRITABLE) ∧
    (∀ x, x < asize s AREA_INDEX_STAGING →
      acell s AREA_INDEX_STAGING x = aerase s AREA_INDEX_STAGING) ∧
    (∀ key, (pdbstore_get s key).1 ≠ PDBSTORE_DATA_CORRUPT) := by
  obtain ⟨t, o, log, hL, hmt, hs, hfs⟩ := reachable_inv num bp s0 s hf hr
  have hfso := hfs hi
  have e : ({ s with free_space_offset := log_size log } : Store) = s := by
    rw [← hfso]
  rw [e] at hs
  refine ⟨by rw [hfso]; exact hs.fits, ⟨log, hfso.symm, hs.cells, ?_⟩, ?_, hs.staging, ?_⟩
  · intro pre r post hlog
    have hcells := hs.cells
    rw [hlog, log_at_append] at hcells
    have hfit := hs.fits
    rw [hlog, log_size_append] at hfit
    simp only [log_size] at hfit
    have hrr := read_record_log s AREA_INDEX_WRITABLE (log_size pre) r record_out_init
      (area_ok_nowrap hs.lay.wr_ok) (hs.recs r (by rw [hlog]; simp)) (by omega)
      (fun i hi => by
        have := hcells.2.1 i hi
        rw [Nat.zero_add] at this
        exact this)
    rw [hrr]
    exact ⟨rfl, rfl, rfl⟩
  · intro x h1 h2
    exact hs.tail x (by rw [← hfso]; exact h1) h2
  · intro key
    by_cases hk : is_valid_key key = true
    · rcases ro_find_status num bp s0 s t o key hf.params hL hmt with hro | hro
      · rcases find_record_steady s log key hs hro with ⟨pre, r, post, hlog, hpre, hrk, _⟩ | ⟨hnew, _⟩
        · rw [hlog] at hs
          rw [(get_found_steady s pre post r key hs hi hk hro hpre hrk).1]
          simp only
          split <;> simp
        · rw [get_missing_steady s log key hs hi hk hro hnew]
          simp
      · have hfr := find_record_ro s key PDBSTORE_SUCCESS hro
        unfold pdbstore_get
        rw [if_neg (by rw [hk]; simp), if_neg (by rw [hi]; simp)]
        simp only [hfr, ne_eq, not_true_eq_false, if_false]
        split <;> simp
    · unfold pdbstore_get
      rw [if_pos (by simpa using hk)]
      simp

/-- The store `tight_store_ab` (keys `"a"` and `"b"` set after the first mount of a blank
media) is in the steady state: `free_space_offset` is 24 of 1048 bytes, and `pdbstore_get`
returns data-corrupt for no key. -/
theorem steady_state_invariant_witness :
    tight_store_ab.initialized = true ∧
    tight_store_ab.free_space_offset ≤ asize tight_store_ab AREA_INDEX_WRITABLE ∧
    (∀ x, x < asize tight_store_ab AREA_INDEX_STAGING →
      acell tight_store_ab AREA_INDEX_STAGING x = aerase tight_store_ab AREA_INDEX_STAGING) ∧
    (∀ key, (pdbstore_get tight_store_ab key).1 ≠ PDBSTORE_DATA_CORRUPT) := by
  have hi : tight_store_ab.initialized = true := by decide!
  have h := steady_state_invariant 1 (fun _ => tight_bank) tight_media tight_store_ab tight_fresh
    (reachable.step _ _
      (reachable.step _ _ tight_reachable (op_step.set tight_store [97] [1, 2, 3] 3 0))
      (op_step.set _ [98] [4, 5, 6] 3 0)) hi
  exact ⟨hi, h.1, h.2.2.2.1, h.2.2.2.2⟩

/-- Claim C28 as stated fails for a mount on a media whose staging area holds a valid
record for a key that the writable area holds with another data size. On `mismatch_media`
`read_record` accepts the staged record (key `"a"`, 1 data byte) and the record at offset 0
of the writable area (key `"a"`, 3 data bytes); `pdbstore_init` returns success and rewrites
the record at offset 0 from staging, from the `flags` field on, under the old size fields.
In the initialized state `free_space_offset` is 12, the record at offset 0, which lies
below it, fails the CRC check, and `pdbstore_get("a")` returns data-corrupt. -/
theorem replay_leaves_corrupt_record :
    (read_record (init_layout mismatch_media 1 (fun _ => tight_bank)).2.1 AREA_INDEX_STAGING 0
      true record_out_init).1 = PDBSTORE_SUCCESS ∧
    (read_record (init_layout mismatch_media 1 (fun _ => tight_bank)).2.1 AREA_INDEX_WRITABLE 0
      true record_out_init).1 = PDBSTORE_SUCCESS ∧
    (pdbstore_init mismatch_media 1 (fun _ => tight_bank)).1 = PDBSTORE_SUCCESS ∧
    (pdbstore_init mismatch_media 1 (fun _ => tight_bank)).2.initialized = true ∧
    (pdbstore_init mismatch_media 1 (fun _ => tight_bank)).2.free_space_offset = 12 ∧
    (read_record (pdbstore_init mismatch_media 1 (fun _ => tight_bank)).2 AREA_INDEX_WRITABLE 0
      true record_out_init).1 = PDBSTORE_DATA_CORRUPT ∧
    is_valid_key [97] = true ∧
    (pdbstore_get (pdbstore_init mismatch_media 1 (fun _ => tight_bank)).2 [97]).1 =
      PDBSTORE_DATA_CORRUPT := by
  decide!

/-- What `read_record` returns does not depend on the locals passed in, as far as the
status, `totally_corrupt` and, for a record whose header is accepted, the key go. -/
theorem read_record_out_shape (s : Store) (a : area_index_e) (o : Nat) (out out2 : record_out)
    (h : area_nowrap s a) (ho : o ≤ asize s a) :
    (read_record s a o true out2).1 = (read_record s a o true out).1 ∧
    (read_record s a o true out2).2.totally_corrupt = (read_record s a o true out).2.totally_corrupt ∧
    ((read_record s a o true out).1 = PDBSTORE_DATA_CORRUPT →
      (read_record s a o true out).2.totally_corrupt = false →
      (read_record s a o true out2).2.key = rec_key s a o) := by
  rw [read_record_eq s a o out h ho, read_record_eq s a o out2 h ho]
  split_ifs <;> simp

/-- The second part of `pdbstore_init` on a media whose staging area holds the record `r`
and whose writable area holds the records of `pre` (none for the key of `r`), followed by
bytes that `read_record` classifies as corrupt and that are not replayed (the header is
rejected or the key differs): the writable area is erased from there on, the staged record
is appended there, the staging area is erased, and nothing else changes. -/
theorem init_recover_restage (t : Store) (pre : List log_rec) (r : log_rec) (o : record_out)
    (hl : layout t) (hrec : log_rec_ok r)
    (hstg : ∀ i, i < log_rec_size r →
      acell t AREA_INDEX_STAGING i = (rec_image t r.key r.data r.flags).getD i 0)
    (hpre : log_at t AREA_INDEX_WRITABLE 0 pre) (hpok : ∀ q, q ∈ pre → log_rec_ok q)
    (hpk : ∀ q, q ∈ pre → q.key ≠ r.key)
    (hfit : log_size pre + log_rec_size r ≤ asize t AREA_INDEX_WRITABLE)
    (hdc : (read_record t AREA_INDEX_WRITABLE (log_size pre) true record_out_init).1 =
      PDBSTORE_DATA_CORRUPT)
    (hnr : (read_record t AREA_INDEX_WRITABLE (log_size pre) true record_out_init).2.totally_corrupt =
        true ∨ cstr (rec_key t AREA_INDEX_WRITABLE (log_size pre)) ≠ r.key) :
    ∃ F, init_recover t o = (PDBSTORE_SUCCESS, F) ∧
      same_cfg { t with initialized := true, free_space_offset := log_size pre + log_rec_size r } F ∧
      ∀ b y, F.mem b y =
        if b = (t.area_params AREA_INDEX_WRITABLE).bank ∧
            abase t AREA_INDEX_WRITABLE + (log_size pre + log_rec_size r) ≤ y ∧
            y < abase t AREA_INDEX_WRITABLE + asize t AREA_INDEX_WRITABLE + 1048 then
          aerase t AREA_INDEX_WRITABLE
        else if b = (t.area_params AREA_INDEX_WRITABLE).bank ∧
            abase t AREA_INDEX_WRITABLE + log_size pre ≤ y ∧
            y < abase t AREA_INDEX_WRITABLE + log_size pre + (8 + strlen r.key + r.data.length) then
          (rec_image t r.key r.data r.flags).getD (y - (abase t AREA_INDEX_WRITABLE + log_size pre)) 0
        else t.mem b y := by
  have hnw := area_ok_nowrap hl.wr_ok
  have hwz := hl.wr_size
  obtain ⟨hk1, hk2, hck, hd, hfl⟩ := hrec
  have hrec : log_rec_ok r := ⟨hk1, hk2, hck, hd, hfl⟩
  have hz : log_rec_size r = 8 + strlen r.key + r.data.length := rfl
  have hlen1 := log_size_le_length pre
  -- the record in the staging area
  have hrs0 := read_record_log t AREA_INDEX_STAGING 0 r record_out_init (area_ok_nowrap hl.st_ok) hrec
    (by rw [hl.st_size, hz]; omega) (by intro i hi; rw [Nat.zero_add]; exact hstg i hi)
  obtain ⟨rs, hrs, hrsk, hrsp, hrsn, hrsf⟩ : ∃ rs : record_out,
      read_record t AREA_INDEX_STAGING 0 true record_out_init = (PDBSTORE_SUCCESS, rs) ∧
      rs.key = r.key ∧ rs.data_ptr = { bank := (t.area_params AREA_INDEX_STAGING).bank, addr := abase t AREA_INDEX_STAGING + (0 + 8 + strlen r.key) } ∧
      rs.actual_data_size = r.data.length ∧ rs.flags = r.flags := ⟨_, hrs0, rfl, rfl, rfl, rfl⟩
  -- the records in front of the corrupt one
  obtain ⟨f, hf⟩ : ∃ f, (t.area_params AREA_INDEX_WRITABLE).size + 1 = (f + 1) + pre.length :=
    ⟨(t.area_params AREA_INDEX_WRITABLE).size - pre.length, by unfold asize at hfit; omega⟩
  obtain ⟨x, out', e, _, _⟩ := init_scan_over rs.key rs.data_ptr rs.actual_data_size rs.flags
    pre 0 (f + 1) { o with key := [], totally_corrupt := rs.totally_corrupt } true rs.next_offset
    t hl hpre hpok (by omega) (fun _ q hq => by rw [hrsk, hck]; exact hpk q hq)
  simp only [Nat.zero_add] at e
  -- the corrupt record
  obtain ⟨q1, q2, q3⟩ := read_record_out_shape t AREA_INDEX_WRITABLE (log_size pre) record_out_init
    { out' with next_offset := x } hnw (by omega)
  obtain ⟨r2, hr2, hr2k⟩ : ∃ r2,
      read_record { t with free_space_offset := x } AREA_INDEX_WRITABLE (log_size pre) true
        { out' with next_offset := ({ t with free_space_offset := x } : Store).free_space_offset } =
        (PDBSTORE_DATA_CORRUPT, r2) ∧
      ¬ ((true : Bool) = true ∧ cstr r2.key = cstr rs.key ∧ r2.totally_corrupt = false) := by
    refine ⟨(read_record t AREA_INDEX_WRITABLE (log_size pre) true { out' with next_offset := x }).2, ?_, ?_⟩
    · rw [read_record_fso]
      exact Prod.ext (q1.trans hdc) rfl
    · rintro ⟨_, h1, h2⟩
      rw [q2] at h2
      rcases hnr with h | h
      · rw [h] at h2
        exact absurd h2 (by decide)
      · rw [q3 hdc h2, hrsk, hck] at h1
        exact h h1
  have hp : log_size pre <
      (({ t with free_space_offset := x } : Store).area_params AREA_INDEX_WRITABLE).size := by
    show log_size pre < asize t AREA_INDEX_WRITABLE
    omega
  have hl2 : layout { t with free_space_offset := r2.next_offset } := layout_congr hl rfl rfl
  obtain ⟨s3, e3, c3, m3⟩ := reset_area_mem2 { t with free_space_offset := r2.next_offset }
    AREA_INDEX_WRITABLE (log_size pre) hl2.wr_ok (by
      show log_size pre ≤ asize t AREA_INDEX_WRITABLE
      omega)
  obtain ⟨a1, a2, a3, a4, a5, a6, a7⟩ := c3
  simp only at a1 a2 a3 a4 a5 a6 a7
  have hm3 : ∀ b y, s3.mem b y =
      if b = (t.area_params AREA_INDEX_WRITABLE).bank ∧ abase t AREA_INDEX_WRITABLE + log_size pre ≤ y ∧
          y < abase t AREA_INDEX_WRITABLE + asize t AREA_INDEX_WRITABLE then
        aerase t AREA_INDEX_WRITABLE
      else t.mem b y := m3
  have esc : init_scan rs.key rs.data_ptr rs.actual_data_size rs.flags (f + 1)
      { t with free_space_offset := x } (log_size pre) out' true rs.next_offset =
      { ret := PDBSTORE_SUCCESS, s := { s3 with free_space_offset := log_size pre },
        offset := log_size pre, staging_valid := true } := by
    rw [init_scan_corrupt rs.key rs.data_ptr rs.actual_data_size rs.flags f
      { t with free_space_offset := x } (log_size pre) out' true rs.next_offset r2 hp hr2 hr2k]
    have e3' : reset_area
        { ({ t with free_space_offset := x } : Store) with free_space_offset := r2.next_offset }
        AREA_INDEX_WRITABLE (log_size pre) = (PDBSTORE_SUCCESS, s3) := e3
    rw [e3']
    simp only [ne_eq, not_true_eq_false, if_false]
  -- the record is appended from the staging area
  have c3' : same_cfg t { s3 with free_space_offset := t.free_space_offset } :=
    ⟨a1, a2, a3, a4, a5, rfl, a7⟩
  have hl3 : layout { s3 with free_space_offset := log_size pre } := layout_congr hl a2 a3
  have hB3 : abase { s3 with free_space_offset := log_size pre } AREA_INDEX_WRITABLE =
      abase t AREA_INDEX_WRITABLE := by unfold abase; simp only; rw [a2, a3]
  have hA3 : asize { s3 with free_space_offset := log_size pre } AREA_INDEX_WRITABLE =
      asize t AREA_INDEX_WRITABLE := by unfold asize; simp only; rw [a3]
  have hE3 : aerase { s3 with free_space_offset := log_size pre } AREA_INDEX_WRITABLE =
      aerase t AREA_INDEX_WRITABLE := by unfold aerase; simp only; rw [a2, a3]
  have hK3 : (({ s3 with free_space_offset := log_size pre } : Store).area_params
      AREA_INDEX_WRITABLE).bank = (t.area_params AREA_INDEX_WRITABLE).bank := by
    simp only; rw [a3]
  have hI3 : rec_image { s3 with free_space_offset := log_size pre } r.key r.data r.flags =
      rec_image t r.key r.data r.flags :=
    @rec_image_cfg t { s3 with free_space_offset := log_size pre } a5 a7 r.key r.data r.flags
  have hw := write_record_append { s3 with free_space_offset := log_size pre }
    AREA_INDEX_WRITABLE r.key (data_buf.media rs.data_ptr) r.data.length r.flags (log_size pre)
    (log_size pre) r.data hl3.wr_ok hk1 hk2 hd (by rw [hA3]; omega) (by
      intro y h1 h2
      rw [hE3]
      show s3.mem (s3.area_params AREA_INDEX_WRITABLE).bank
        ((s3.bank_params (s3.area_params AREA_INDEX_WRITABLE).bank).start_offset +
          (s3.area_params AREA_INDEX_WRITABLE).address + y) = _
      rw [a2, a3, hm3]
      rw [if_pos ⟨rfl, by unfold abase; omega, by unfold abase; omega⟩]) (by
      intro s' hc hm
      rw [hrsp]
      show mem_read s' (t.area_params AREA_INDEX_STAGING).bank
        (abase t AREA_INDEX_STAGING + (0 + 8 + strlen r.key)) r.data.length = r.data
      apply image_data_read t s' AREA_INDEX_STAGING r.key r.data r.flags hk2 hd
      intro i hi
      rw [hm _ _ (by
        rw [hK3, hB3, hl.st_bank, hl.st_base]
        omega)]
      show s3.mem _ _ = _
      rw [hm3, hl.st_bank, hl.st_base, if_neg (by omega)]
      have := hstg i hi
      unfold acell at this
      rw [hl.st_bank] at this
      rw [← hl.st_base]
      exact this)
  rw [hK3, hB3, hI3] at hw
  obtain ⟨s4, hs4⟩ : ∃ s4 : Store, s4 = poke { s3 with free_space_offset := log_size pre }
      (t.area_params AREA_INDEX_WRITABLE).bank (abase t AREA_INDEX_WRITABLE + log_size pre)
      (8 + strlen r.key + r.data.length) (rec_image t r.key r.data r.flags) := ⟨_, rfl⟩
  rw [← hs4] at hw
  have b1 : s4.num_banks = t.num_banks := by rw [hs4]; exact a1
  have b2 : s4.bank_params = t.bank_params := by rw [hs4]; exact a2
  have b3 : s4.area_params = t.area_params := by rw [hs4]; exact a3
  have b5 : s4.big_endian = t.big_endian := by rw [hs4]; exact a5
  have b7 : s4.host_big_endian = t.host_big_endian := by rw [hs4]; exact a7
  have m4 : ∀ b y, s4.mem b y =
      if b = (t.area_params AREA_INDEX_WRITABLE).bank ∧ abase t AREA_INDEX_WRITABLE + log_size pre ≤ y ∧
          y < abase t AREA_INDEX_WRITABLE + log_size pre + (8 + strlen r.key + r.data.length) then
        (rec_image t r.key r.data r.flags).getD (y - (abase t AREA_INDEX_WRITABLE + log_size pre)) 0
      else s3.mem b y := by
    intro b y
    rw [hs4]
    exact poke_mem _ _ _ _ _ _ _
  have hl5 : layout { s4 with free_space_offset := log_size pre + 8 + strlen r.key + r.data.length } :=
    layout_congr hl b2 b3
  obtain ⟨s5, e5, c5, m5⟩ := reset_area_mem2
    { s4 with free_space_offset := log_size pre + 8 + strlen r.key + r.data.length }
    AREA_INDEX_STAGING 0 hl5.st_ok (Nat.zero_le _)
  obtain ⟨d1, d2, d3, d4, d5, d6, d7⟩ := c5
  simp only at d1 d2 d3 d4 d5 d6 d7
  refine ⟨{ s5 with initialized := true }, ?_, ?_, ?_⟩
  · unfold init_recover
    rw [hrs, if_neg (by simp)]
    have e2 : init_scan (PDBSTORE_SUCCESS, rs).2.key (PDBSTORE_SUCCESS, rs).2.data_ptr
        (PDBSTORE_SUCCESS, rs).2.actual_data_size (PDBSTORE_SUCCESS, rs).2.flags
        ((t.area_params AREA_INDEX_WRITABLE).size + 1) t 0
        { o with key := [], totally_corrupt := (PDBSTORE_SUCCESS, rs).2.totally_corrupt }
        (decide ((PDBSTORE_SUCCESS, rs).1 = PDBSTORE_SUCCESS))
        (PDBSTORE_SUCCESS, rs).2.next_offset =
        { ret := PDBSTORE_SUCCESS, s := { s3 with free_space_offset := log_size pre },
          offset := log_size pre, staging_valid := true } := by
      rw [hf]
      exact e.trans esc
    rw [e2]
    unfold init_finish
    simp only [ne_eq, not_true_eq_false, if_false, if_true]
    rw [hrsk, hrsn, hrsf]
    rw [hw]
    simp only [not_true_eq_false, if_false]
    rw [e5]
    simp only [not_true_eq_false, if_false]
  · refine ⟨d1.trans b1, d2.trans b2, d3.trans b3, rfl, d5.trans b5, ?_, d7.trans b7⟩
    show s5.free_space_offset = log_size pre + log_rec_size r
    rw [d6, hz]
    omega
  · intro b y
    simp only
    rw [m5 b y]
    have hb1 : aerase { s4 with free_space_offset := log_size pre + 8 + strlen r.key + r.data.length }
        AREA_INDEX_STAGING = aerase t AREA_INDEX_WRITABLE := by
      rw [← wr_aerase_staging t hl]
      unfold aerase
      simp only
      rw [b2, b3]
    have hb2 : abase { s4 with free_space_offset := log_size pre + 8 + strlen r.key + r.data.length }
        AREA_INDEX_STAGING = abase t AREA_INDEX_WRITABLE + asize t AREA_INDEX_WRITABLE := by
      rw [← hl.st_base]
      unfold abase
      simp only
      rw [b2, b3]
    have hb3 : asize { s4 with free_space_offset := log_size pre + 8 + strlen r.key + r.data.length }
        AREA_INDEX_STAGING = 1048 := by
      rw [← hl.st_size]
      unfold asize
      simp only
      rw [b3]
    have hb4 : (({ s4 with free_space_offset := log_size pre + 8 + strlen r.key + r.data.length } :
        Store).area_params AREA_INDEX_STAGING).bank = (t.area_params AREA_INDEX_WRITABLE).bank := by
      rw [← hl.st_bank]
      simp only
      rw [b3]
    rw [hb1, hb2, hb3, hb4]
    simp only
    rw [m4 b y, hm3 b y]
    by_cases cb : b = (t.area_params AREA_INDEX_WRITABLE).bank
    · simp only [cb, true_and]
      clear m5 m4 m3 hm3 hw e5 e3 e esc hr2 hrs hrs0 hstg hpre hdc hnr q1 q2 q3 hr2k
      by_cases c1 : abase t AREA_INDEX_WRITABLE + (log_size pre + log_rec_size r) ≤ y ∧
          y < abase t AREA_INDEX_WRITABLE + asize t AREA_INDEX_WRITABLE + 1048
      · rw [if_pos c1]
        by_cases c2 : abase t AREA_INDEX_WRITABLE + asize t AREA_INDEX_WRITABLE + 0 ≤ y ∧
            y < abase t AREA_INDEX_WRITABLE + asize t AREA_INDEX_WRITABLE + 1048
        · rw [if_pos c2]
        · rw [if_neg c2, if_neg (by omega), if_pos (by omega)]
      · rw [if_neg c1, if_neg (by omega)]
        by_cases c3 : abase t AREA_INDEX_WRITABLE + log_size pre ≤ y ∧
            y < abase t AREA_INDEX_WRITABLE + log_size pre + (8 + strlen r.key + r.data.length)
        · rw [if_pos c3, if_pos c3]
        · rw [if_neg c3, if_neg c3, if_neg (by omega)]
    · simp only [cb, false_and, if_false]

/-- A header whose `key_size` is 0 or more than 16 makes `read_record` report a totally
corrupt record. -/
theorem read_record_bad_key_size (s : Store) (a : area_index_e) (o : Nat) (out : record_out)
    (h : area_nowrap s a) (ho : o + 8 ≤ asize s a)
    (hk : hdr_key_size s a o = 0 ∨ 16 < hdr_key_size s a o) :
    (read_record s a o true out).1 = PDBSTORE_DATA_CORRUPT ∧
    (read_record s a o true out).2.totally_corrupt = true := by
  rw [read_record_eq s a o out h (by omega)]
  by_cases c1 : o + 8 ≥ (s.area_params a).address + asize s a
  · rw [if_pos c1]
    exact ⟨rfl, rfl⟩
  rw [if_neg c1, if_neg (by omega), if_pos (by
    rcases hk with hk | hk
    · exact Or.inl hk
    · exact Or.inr (Or.inl hk))]
  exact ⟨rfl, rfl⟩

/-- A record with sizes in range that lies inside its area and fails the CRC check makes
`read_record` report a corrupt record that is not totally corrupt. -/
theorem read_record_crc_fail (s : Store) (a : area_index_e) (o : Nat) (out : record_out)
    (h : area_nowrap s a) (hk1 : hdr_key_size s a o ≠ 0) (hk2 : hdr_key_size s a o ≤ 16)
    (hd : hdr_data_size s a o ≤ 1024) (hfit : rec_next s a o ≤ asize s a)
    (hcrc : ¬ rec_crc_ok s a o) :
    (read_record s a o true out).1 = PDBSTORE_DATA_CORRUPT ∧
    (read_record s a o true out).2.totally_corrupt = false := by
  have hn : o + 8 + hdr_key_size s a o + hdr_data_size s a o ≤ asize s a := hfit
  rw [read_record_eq s a o out h (by omega)]
  by_cases c1 : o + 8 ≥ (s.area_params a).address + asize s a
  · exfalso
    omega
  rw [if_neg c1, if_neg (by omega), if_neg (by omega), if_neg (by unfold rec_next; omega),
    if_neg (by omega), if_neg hcrc]
  exact ⟨rfl, rfl⟩

/-- The state `init_recover` leaves after a truncation is steady with the records in front
of the truncation, and the read-only area is untouched. -/
theorem init_recover_truncate_steady (t : Store) (pre : List log_rec) (o : record_out)
    (hl : layout t) (hat : log_at t AREA_INDEX_WRITABLE 0 pre)
    (hok : ∀ q, q ∈ pre → log_rec_ok q) (hfit : log_size pre ≤ asize t AREA_INDEX_WRITABLE)
    (hst : (read_record t AREA_INDEX_STAGING 0 true record_out_init).1 = PDBSTORE_DATA_CORRUPT)
    (htail : log_size pre < asize t AREA_INDEX_WRITABLE →
      (read_record t AREA_INDEX_WRITABLE (log_size pre) true record_out_init).1 =
        PDBSTORE_DATA_CORRUPT) :
    ∃ F, init_recover t o = (PDBSTORE_SUCCESS, F) ∧ F.initialized = true ∧
      steady F pre ∧ frame { t with initialized := true } F := by
  obtain ⟨F, e, c, hm⟩ := init_recover_truncate t pre o hl hat hok hfit hst htail
  obtain ⟨c1, c2, c3, c4, c5, c6, c7⟩ := c
  simp only at c1 c2 c3 c4 c5 c6 c7
  have hF : ∀ a x, acell F a x = F.mem (t.area_params a).bank (abase t a + x) := by
    intro a x
    unfold acell abase
    rw [c2, c3]
  have hzF : ∀ a, asize F a = asize t a := by intro a; unfold asize; rw [c3]
  have heF : ∀ a, aerase F a = aerase t a := by intro a; unfold aerase; rw [c2, c3]
  have hlF : layout F := layout_congr hl c2 c3
  refine ⟨F, e, c4, ⟨hlF, hok, ?_, c6, by rw [hzF]; exact hfit, ?_, ?_⟩,
    ⟨c1, c2, c3, c4, c5, c7, ?_⟩⟩
  · apply log_at_congr c5 c7 _ _ _ _ hat
    intro x _ hx2
    rw [hF, hm, if_neg (by omega)]
    rfl
  · intro x hx1 hx2
    rw [hzF] at hx2
    rw [hF, hm, if_pos ⟨rfl, by omega, by omega⟩, heF]
  · intro x hx
    rw [hzF, hl.st_size] at hx
    rw [hF, hm, hl.st_bank, hl.st_base, if_pos ⟨rfl, by omega, by omega⟩, heF,
      wr_aerase_staging t hl]
  · intro x hx
    have hx' : x < asize t AREA_INDEX_READONLY := hx
    rw [hF, hm]
    rcases hl.ro_disj with hd | hd
    · rw [if_neg (fun h => hd h.1)]
      rfl
    · rw [if_neg (by omega)]
      rfl

/-- The state `init_recover` leaves after it has truncated the writable area at a corrupt
record and appended the staged record there is steady, and the read-only area is
untouched. -/
theorem init_recover_restage_steady (t : Store) (pre : List log_rec) (r : log_rec) (o : record_out)
    (hl : layout t) (hrec : log_rec_ok r)
    (hstg : ∀ i, i < log_rec_size r →
      acell t AREA_INDEX_STAGING i = (rec_image t r.key r.data r.flags).getD i 0)
    (hpre : log_at t AREA_INDEX_WRITABLE 0 pre) (hpok : ∀ q, q ∈ pre → log_rec_ok q)
    (hpk : ∀ q, q ∈ pre → q.key ≠ r.key)
    (hfit : log_size pre + log_rec_size r ≤ asize t AREA_INDEX_WRITABLE)
    (hdc : (read_record t AREA_INDEX_WRITABLE (log_size pre) true record_out_init).1 =
      PDBSTORE_DATA_CORRUPT)
    (hnr : (read_record t AREA_INDEX_WRITABLE (log_size pre) true record_out_init).2.totally_corrupt =
        true ∨ cstr (rec_key t AREA_INDEX_WRITABLE (log_size pre)) ≠ r.key) :
    ∃ F, init_recover t o = (PDBSTORE_SUCCESS, F) ∧ F.initialized = true ∧
      steady F (pre ++ [r]) ∧ frame { t with initialized := true } F := by
  obtain ⟨F, e, c, hm⟩ := init_recover_restage t pre r o hl hrec hstg hpre hpok hpk hfit hdc hnr
  obtain ⟨c1, c2, c3, c4, c5, c6, c7⟩ := c
  simp only at c1 c2 c3 c4 c5 c6 c7
  have hz : log_rec_size r = 8 + strlen r.key + r.data.length := rfl
  have hF : ∀ a x, acell F a x = F.mem (t.area_params a).bank (abase t a + x) := by
    intro a x
    unfold acell abase
    rw [c2, c3]
  have hzF : ∀ a, asize F a = asize t a := by intro a; unfold asize; rw [c3]
  have heF : ∀ a, aerase F a = aerase t a := by intro a; unfold aerase; rw [c2, c3]
  have hlF : layout F := layout_congr hl c2 c3
  have hsz : log_size (pre ++ [r]) = log_size pre + log_rec_size r := by
    rw [log_size_append]
    simp only [log_size]
    omega
  refine ⟨F, e, c4, ⟨hlF, ?_, ?_, ?_, ?_, ?_, ?_⟩, ⟨c1, c2, c3, c4, c5, c7, ?_⟩⟩
  · intro q hq
    rcases List.mem_append.mp hq with h | h
    · exact hpok q h
    · rw [List.mem_singleton] at h
      rw [h]
      exact hrec
  · rw [log_at_append]
    refine ⟨?_, ?_, trivial⟩
    · apply log_at_congr c5 c7 _ _ _ _ hpre
      intro x _ hx2
      rw [hF, hm, if_neg (by omega), if_neg (by omega)]
      rfl
    · intro i hi
      rw [Nat.zero_add, rec_image_cfg c5 c7, hF, hm, if_neg (by omega),
        if_pos ⟨rfl, by omega, by omega⟩]
      congr 1
      omega
  · rw [c6, hsz]
  · rw [hzF, hsz]
    exact hfit
  · intro x hx1 hx2
    rw [hsz] at hx1
    rw [hzF] at hx2
    rw [hF, hm, if_pos ⟨rfl, by omega, by omega⟩, heF]
  · intro x hx
    rw [hzF, hl.st_size] at hx
    rw [hF, hm, hl.st_bank, hl.st_base, if_pos ⟨rfl, by omega, by omega⟩, heF,
      wr_aerase_staging t hl]
  · intro x hx
    have hx' : x < asize t AREA_INDEX_READONLY := hx
    rw [hF, hm]
    rcases hl.ro_disj with hd | hd
    · rw [if_neg (fun h => hd h.1), if_neg (fun h => hd h.1)]
      rfl
    · rw [if_neg (by omega), if_neg (by omega)]
      rfl

/-- The sizes in the header of a record whose first three cells are those of the image of
`(key, D, flags)`. -/
theorem image_sizes (s : Store) (a : area_index_e) (o : Nat) (key D : List Nat) (flags : Nat)
    (hk2 : strlen key ≤ 16) (hn : D.length ≤ 1024)
    (hsz : ∀ i, i < 3 → acell s a (o + i) = (rec_image s key D flags).getD i 0) :
    hdr_key_size s a o = strlen key ∧ hdr_data_size s a o = D.length := by
  obtain ⟨c, hc⟩ : ∃ c : Store, c = poke s (s.area_params a).bank (abase s a + o)
      (8 + strlen key + D.length) (rec_image s key D flags) := ⟨_, rfl⟩
  have hcc : same_cfg s c := by rw [hc]; exact same_cfg_poke _ _ _ _ _
  have h1 := rec_image_read c a o key D flags hk2 hn (by
    intro i hi
    rw [hc]
    exact write_record_append_cells s a key D flags o i hi)
  have h2 := @hdr_sizes_congr c s hcc.2.2.2.2.1.symm hcc.2.2.2.2.2.2.symm a a o o (by
    intro i hi
    rw [hsz i hi, hc, acell_poke, if_pos ⟨rfl, by omega, by omega⟩]
    congr 1
    omega)
  exact ⟨h2.1.trans h1.1, h2.2.trans h1.2.1⟩

/-- The key bytes in the image of a record. -/
theorem image_key_byte (s : Store) (key D : List Nat) (flags : Nat) (i : Nat)
    (hi : i < strlen key) :
    (rec_image s key D flags).getD (8 + i) 0 = (cstr key).getD i 0 := by
  have hcl : (cstr key).length = strlen key := rfl
  unfold rec_image
  rw [List.getD_append _ _ _ _ (by
    simp only [List.length_append, hdr03_length, store32_length]
    omega)]
  rw [List.getD_append_right _ _ _ _ (by
    simp only [List.length_append, hdr03_length, store32_length]
    omega)]
  simp only [List.length_append, hdr03_length, store32_length]
  congr 1
  omega

/-- A record whose header holds the key size of `key` and whose key reads as `key` has the
key cells of the image of `key`. -/
theorem key_cells_of_cstr (s : Store) (a : area_index_e) (o : Nat) (key D : List Nat)
    (flags : Nat) (hks : hdr_key_size s a o = strlen key)
    (hck : cstr (rec_key s a o) = cstr key) :
    ∀ i, 8 ≤ i → i < 8 + strlen key → acell s a (o + i) = (rec_image s key D flags).getD i 0 := by
  have hlen : (rec_key s a o).length = strlen key := by
    unfold rec_key
    rw [List.length_map, List.length_range, hks]
  have hpre : cstr (rec_key s a o) <+: rec_key s a o := List.takeWhile_prefix _
  have heq : cstr (rec_key s a o) = rec_key s a o :=
    hpre.eq_of_length (by rw [hck, hlen]; rfl)
  rw [hck] at heq
  intro i h1 h2
  obtain ⟨k, rfl⟩ : ∃ k, i = 8 + k := ⟨i - 8, by omega⟩
  rw [image_key_byte s key D flags k (by omega), heq]
  unfold rec_key
  rw [hks, getD_range_map _ _ _ (by omega), Nat.add_assoc]

/-- The second part of `pdbstore_init` on a media whose staging area holds the record `r`
and whose writable area holds the records `pre` (none for the key of `r`), then, where the
record of the key belongs, either a header with the sizes of `r` or a header with a key
size out of range, where a record that passes the CRC check has the key of `r`: the
staged record is written to that place, in front of the records `post` when it replaces a
record with its key and as the last record otherwise, and the state is steady. -/
theorem recover_new (T : Store) (pre post : List log_rec) (r : log_rec) (o : record_out)
    (hl : layout T) (hrec : log_rec_ok r)
    (hstg : ∀ i, i < log_rec_size r →
      acell T AREA_INDEX_STAGING i = (rec_image T r.key r.data r.flags).getD i 0)
    (hpre : log_at T AREA_INDEX_WRITABLE 0 pre) (hpok : ∀ q, q ∈ pre → log_rec_ok q)
    (hpk : ∀ q, q ∈ pre → q.key ≠ r.key)
    (hfit : log_size pre + log_rec_size r + log_size post ≤ asize T AREA_INDEX_WRITABLE)
    (hreg : (∀ i, i < 3 → acell T AREA_INDEX_WRITABLE (log_size pre + i) =
        (rec_image T r.key r.data r.flags).getD i 0) ∨
      hdr_key_size T AREA_INDEX_WRITABLE (log_size pre) = 0 ∨
      16 < hdr_key_size T AREA_INDEX_WRITABLE (log_size pre))
    (hW : rec_crc_ok T AREA_INDEX_WRITABLE (log_size pre) →
      ∀ i, 8 ≤ i → i < 8 + strlen r.key → acell T AREA_INDEX_WRITABLE (log_size pre + i) =
        (rec_image T r.key r.data r.flags).getD i 0)
    (hpost : log_at T AREA_INDEX_WRITABLE (log_size pre + log_rec_size r) post)
    (hqok : ∀ q, q ∈ post → log_rec_ok q)
    (htail : log_size pre + log_rec_size r + log_size post < asize T AREA_INDEX_WRITABLE →
      (read_record T AREA_INDEX_WRITABLE (log_size pre + log_rec_size r + log_size post) true
        record_out_init).1 = PDBSTORE_DATA_CORRUPT) :
    ∃ F post', init_recover T o = (PDBSTORE_SUCCESS, F) ∧ F.initialized = true ∧
      steady F (pre ++ r :: post') ∧ frame { T with initialized := true } F := by
  have hz : log_rec_size r = 8 + strlen r.key + r.data.length := rfl
  have hnw := area_ok_nowrap hl.wr_ok
  obtain ⟨hk1, hk2, hck, hd, hfl⟩ := hrec
  have hrec : log_rec_ok r := ⟨hk1, hk2, hck, hd, hfl⟩
  have hB2 : (read_record T AREA_INDEX_WRITABLE (log_size pre) true record_out_init).1 =
        PDBSTORE_DATA_CORRUPT →
      ((read_record T AREA_INDEX_WRITABLE (log_size pre) true record_out_init).2.totally_corrupt =
        true ∨ cstr (rec_key T AREA_INDEX_WRITABLE (log_size pre)) ≠ r.key) →
      ∃ F post', init_recover T o = (PDBSTORE_SUCCESS, F) ∧ F.initialized = true ∧
        steady F (pre ++ r :: post') ∧ frame { T with initialized := true } F := by
    intro hdc hnr
    obtain ⟨F, e, hi, hs, hfr⟩ := init_recover_restage_steady T pre r o hl hrec hstg hpre hpok hpk
      (by omega) hdc hnr
    exact ⟨F, [], e, hi, hs, hfr⟩
  rcases hreg with hsz | hbad
  · by_cases hkey : ∀ i, 8 ≤ i → i < 8 + strlen r.key →
        acell T AREA_INDEX_WRITABLE (log_size pre + i) = (rec_image T r.key r.data r.flags).getD i 0
    · obtain ⟨F, e, hi, hs, hfr⟩ := init_recover_replay_steady T pre post r o hl hrec hstg hpre
        hpok hpk hsz hkey hpost hqok hfit htail
      exact ⟨F, post, e, hi, hs, hfr⟩
    · obtain ⟨s1, s2⟩ := image_sizes T AREA_INDEX_WRITABLE (log_size pre) r.key r.data r.flags hk2 hd hsz
      have hcrc : ¬ rec_crc_ok T AREA_INDEX_WRITABLE (log_size pre) := fun h => hkey (hW h)
      obtain ⟨d1, d2⟩ := read_record_crc_fail T AREA_INDEX_WRITABLE (log_size pre) record_out_init hnw
        (by rw [s1]; omega) (by rw [s1]; exact hk2) (by rw [s2]; exact hd)
        (by unfold rec_next; rw [s1, s2]; omega) hcrc
      apply hB2 d1
      right
      intro hh
      apply hkey
      exact key_cells_of_cstr T AREA_INDEX_WRITABLE (log_size pre) r.key r.data r.flags s1
        (by rw [hh, hck])
  · obtain ⟨d1, d2⟩ := read_record_bad_key_size T AREA_INDEX_WRITABLE (log_size pre) record_out_init
      hnw (by omega) hbad
    exact hB2 d1 (Or.inl d2)

/-- The cells of the writable and the staging area of a state after a power loss, as
offsets from the start of the writable area. -/
theorem crash_cell {s T : Store} (hc : crash_of s T) (hl : layout s) :
    (∀ x, acell T AREA_INDEX_WRITABLE x =
      T.mem (s.area_params AREA_INDEX_WRITABLE).bank (abase s AREA_INDEX_WRITABLE + x)) ∧
    (∀ x, acell T AREA_INDEX_STAGING x =
      T.mem (s.area_params AREA_INDEX_WRITABLE).bank
        (abase s AREA_INDEX_WRITABLE + (asize s AREA_INDEX_WRITABLE + x))) := by
  constructor
  · intro x
    unfold acell abase
    rw [hc.ar, hc.bk]
  · intro x
    have h1 : acell T AREA_INDEX_STAGING x =
        T.mem (s.area_params AREA_INDEX_STAGING).bank (abase s AREA_INDEX_STAGING + x) := by
      unfold acell abase
      rw [hc.ar, hc.bk]
    rw [h1, hl.st_bank, hl.st_base, Nat.add_assoc]

/-- A state after a power loss has the layout and the read-only cells of the state
before, and `pdbstore_init` goes on to its second part with them. -/
theorem crash_init (num : Nat) (bp : Nat → pdbstore_bank_params_t) (s0 s T t : Store)
    (o : record_out) (hf : fresh num bp s0)
    (hL : init_layout s0 num bp = (PDBSTORE_SUCCESS, t, o)) (hm : mounted t s) (hl : layout s)
    (hc : crash_of s T) :
    layout T ∧ mounted t T ∧ pdbstore_init T num bp = init_recover T o ∧
    frame { s with initialized := true } { T with initialized := true } := by
  obtain ⟨hmas, _⟩ := fresh_layout num bp s0 t o hf hL
  have hTl : layout T := layout_congr hl hc.bk hc.ar
  have hro : ∀ x, x < asize s AREA_INDEX_READONLY →
      acell T AREA_INDEX_READONLY x = acell s AREA_INDEX_READONLY x := by
    intro x hx
    unfold acell abase
    rw [hc.ar, hc.bk]
    apply hc.out
    rintro ⟨h1, h2, h3⟩
    rcases hl.ro_disj with hd | hd
    · exact hd h1
    · unfold abase at hd h2
      omega
  have hmt : mounted t T := by
    refine ⟨hc.nb.trans hm.nb, hc.bk.trans hm.bk, hc.ar.trans hm.ar, hc.be.trans hm.be,
      hc.hb.trans hm.hb, ?_⟩
    intro x hx
    rw [← hm.ro x hx]
    exact hro x (by unfold asize at hx ⊢; rw [hm.ar]; exact hx)
  have hly := init_layout_mounted num bp s0 T t o hf.params hL hmas hmt
  refine ⟨hTl, hmt, ?_, ⟨hc.nb, hc.bk, hc.ar, rfl, hc.be, hc.hb, hro⟩⟩
  unfold pdbstore_init
  rw [if_neg (by rw [hc.ini]; simp)]
  simp only [hly, ne_eq, not_true_eq_false, if_false]

/-- A record at the start of the staging area that fails the CRC check is reported as
corrupt. -/
theorem read_staging_crc_fail (T : Store) (out : record_out) (hl : layout T)
    (hcrc : ¬ rec_crc_ok T AREA_INDEX_STAGING 0) :
    (read_record T AREA_INDEX_STAGING 0 true out).1 = PDBSTORE_DATA_CORRUPT := by
  have hz := hl.st_size
  rw [read_record_eq T _ 0 out (area_ok_nowrap hl.st_ok) (Nat.zero_le _)]
  by_cases c1 : 0 + 8 ≥ (T.area_params AREA_INDEX_STAGING).address + asize T AREA_INDEX_STAGING
  · rw [if_pos c1]
  rw [if_neg c1, if_neg (by omega)]
  by_cases c3 : hdr_key_size T AREA_INDEX_STAGING 0 = 0 ∨ hdr_key_size T AREA_INDEX_STAGING 0 > 16 ∨
      hdr_data_size T AREA_INDEX_STAGING 0 > 1024
  · rw [if_pos c3]
  rw [if_neg c3]
  by_cases c4 : rec_next T AREA_INDEX_STAGING 0 >
      (T.area_params AREA_INDEX_STAGING).address + asize T AREA_INDEX_STAGING
  · rw [if_pos c4]
  rw [if_neg c4, if_neg (by omega), if_neg hcrc]

/-- Behind the records of a steady state, where the header cells hold an erase value of 0 or
above 16, `read_record` reports a corrupt record when a header fits. -/
theorem read_blank_tail (T : Store) (e : Nat) (out : record_out) (hl : layout T)
    (hev : aerase T AREA_INDEX_WRITABLE = 0 ∨ 16 < aerase T AREA_INDEX_WRITABLE)
    (hev2 : aerase T AREA_INDEX_WRITABLE < 256)
    (hroom : e = asize T AREA_INDEX_WRITABLE ∨ e + 8 ≤ asize T AREA_INDEX_WRITABLE)
    (hcell : e + 8 ≤ asize T AREA_INDEX_WRITABLE →
      acell T AREA_INDEX_WRITABLE (e + 2) = aerase T AREA_INDEX_WRITABLE) :
    e < asize T AREA_INDEX_WRITABLE →
      (read_record T AREA_INDEX_WRITABLE e true out).1 = PDBSTORE_DATA_CORRUPT := by
  intro hlt
  have h8 : e + 8 ≤ asize T AREA_INDEX_WRITABLE := by omega
  have hk : hdr_key_size T AREA_INDEX_WRITABLE e = aerase T AREA_INDEX_WRITABLE := by
    unfold hdr_key_size
    rw [hcell h8]
    exact Nat.mod_eq_of_lt hev2
  exact (read_record_bad_key_size T AREA_INDEX_WRITABLE e out (area_ok_nowrap hl.wr_ok) h8
    (by rw [hk]; exact hev)).1

theorem poke_cell (X : Store) (B A p n : Nat) (img : List Nat) (x : Nat) :
    (poke X B (A + p) n img).mem B (A + x) =
      if p ≤ x ∧ x < p + n then img.getD (x - p) 0 else X.mem B (A + x) := by
  rw [poke_mem]
  by_cases c : p ≤ x ∧ x < p + n
  · rw [if_pos c, if_pos ⟨rfl, by omega, by omega⟩]
    congr 1
    omega
  · rw [if_neg c, if_neg (fun h => c ⟨by omega, by omega⟩)]

theorem wipe_cell (X : Store) (B A p n : Nat) (x : Nat) :
    (wipe X B (A + p) n).mem B (A + x) =
      if p ≤ x ∧ x < p + n then (X.bank_params B).erase_val else X.mem B (A + x) := by
  rw [wipe_mem]
  by_cases c : p ≤ x ∧ x < p + n
  · rw [if_pos c, if_pos ⟨rfl, by omega, by omega⟩]
  · rw [if_neg c, if_neg (fun h => c ⟨by omega, by omega⟩)]

/-- Programming inside the writable and staging areas leaves the rest of the media alone. -/
theorem out_poke (s X : Store) (p n : Nat) (img : List Nat)
    (hp : p + n ≤ asize s AREA_INDEX_WRITABLE + 1048)
    (hX : ∀ b y, ¬ (b = (s.area_params AREA_INDEX_WRITABLE).bank ∧ abase s AREA_INDEX_WRITABLE ≤ y ∧
      y < abase s AREA_INDEX_WRITABLE + asize s AREA_INDEX_WRITABLE + 1048) → X.mem b y = s.mem b y) :
    ∀ b y, ¬ (b = (s.area_params AREA_INDEX_WRITABLE).bank ∧ abase s AREA_INDEX_WRITABLE ≤ y ∧
      y < abase s AREA_INDEX_WRITABLE + asize s AREA_INDEX_WRITABLE + 1048) →
      (poke X (s.area_params AREA_INDEX_WRITABLE).bank (abase s AREA_INDEX_WRITABLE + p) n img).mem b y =
        s.mem b y := by
  intro b y h
  rw [poke_mem, if_neg (fun c => h ⟨c.1, by omega, by omega⟩)]
  exact hX b y h

/-- Erasing inside the writable and staging areas leaves the rest of the media alone. -/
theorem out_wipe (s X : Store) (p n : Nat)
    (hp : p + n ≤ asize s AREA_INDEX_WRITABLE + 1048)
    (hX : ∀ b y, ¬ (b = (s.area_params AREA_INDEX_WRITABLE).bank ∧ abase s AREA_INDEX_WRITABLE ≤ y ∧
      y < abase s AREA_INDEX_WRITABLE + asize s AREA_INDEX_WRITABLE + 1048) → X.mem b y = s.mem b y) :
    ∀ b y, ¬ (b = (s.area_params AREA_INDEX_WRITABLE).bank ∧ abase s AREA_INDEX_WRITABLE ≤ y ∧
      y < abase s AREA_INDEX_WRITABLE + asize s AREA_INDEX_WRITABLE + 1048) →
      (wipe X (s.area_params AREA_INDEX_WRITABLE).bank (abase s AREA_INDEX_WRITABLE + p) n).mem b y =
        s.mem b y := by
  intro b y h
  rw [wipe_mem, if_neg (fun c => h ⟨c.1, by omega, by omega⟩)]
  exact hX b y h

/-- The cut state of the first step and its cells. -/
theorem cut_stage_spec (s : Store) (key data : List Nat) (n flags j : Nat) (hl : layout s)
    (hj : j ≤ 1048) :
    crash_of s (cut_stage s key data n flags j) ∧
    ∀ x, (cut_stage s key data n flags j).mem (s.area_params AREA_INDEX_WRITABLE).bank
        (abase s AREA_INDEX_WRITABLE + x) =
      if asize s AREA_INDEX_WRITABLE ≤ x ∧ x < asize s AREA_INDEX_WRITABLE + j then
        (set_image s key data n flags).getD (x - asize s AREA_INDEX_WRITABLE) 0
      else s.mem (s.area_params AREA_INDEX_WRITABLE).bank (abase s AREA_INDEX_WRITABLE + x) := by
  have e : (cut_stage s key data n flags j).mem =
      (poke s (s.area_params AREA_INDEX_WRITABLE).bank
        (abase s AREA_INDEX_WRITABLE + asize s AREA_INDEX_WRITABLE) j
        (set_image s key data n flags)).mem := by
    unfold cut_stage
    rw [hl.st_bank, hl.st_base]
  refine ⟨⟨rfl, rfl, rfl, rfl, rfl, rfl, ?_⟩, ?_⟩
  · rw [e]
    exact out_poke s s _ _ _ (by omega) (fun _ _ _ => rfl)
  · intro x
    rw [e, poke_cell]

/-- The cut states of the second step of an append and their cells. -/
theorem cut_append_spec (s : Store) (key data : List Nat) (n flags j : Nat) (hl : layout s)
    (hk : strlen key ≤ 16) (hn : n ≤ 1024)
    (hj : s.free_space_offset + j ≤ asize s AREA_INDEX_WRITABLE + 1048) :
    crash_of s (cut_append s key data n flags j) ∧
    ∀ x, (cut_append s key data n flags j).mem (s.area_params AREA_INDEX_WRITABLE).bank
        (abase s AREA_INDEX_WRITABLE + x) =
      if s.free_space_offset ≤ x ∧ x < s.free_space_offset + j then
        (set_image s key data n flags).getD (x - s.free_space_offset) 0
      else if asize s AREA_INDEX_WRITABLE ≤ x ∧
          x < asize s AREA_INDEX_WRITABLE + (8 + strlen key + n) then
        (set_image s key data n flags).getD (x - asize s AREA_INDEX_WRITABLE) 0
      else s.mem (s.area_params AREA_INDEX_WRITABLE).bank (abase s AREA_INDEX_WRITABLE + x) := by
  have e : (cut_append s key data n flags j).mem =
      (poke (poke s (s.area_params AREA_INDEX_WRITABLE).bank
        (abase s AREA_INDEX_WRITABLE + asize s AREA_INDEX_WRITABLE) (8 + strlen key + n)
        (set_image s key data n flags)) (s.area_params AREA_INDEX_WRITABLE).bank
        (abase s AREA_INDEX_WRITABLE + s.free_space_offset) j (set_image s key data n flags)).mem := by
    unfold cut_append staged
    rw [hl.st_bank, hl.st_base]
  refine ⟨⟨rfl, rfl, rfl, rfl, rfl, rfl, ?_⟩, ?_⟩
  · rw [e]
    exact out_poke s _ _ _ _ hj (out_poke s s _ _ _ (by omega) (fun _ _ _ => rfl))
  · intro x
    rw [e, poke_cell, poke_cell]

/-- The cut states of the erase in the second step of a replacement and their cells. -/
theorem cut_erase_spec (s : Store) (key data : List Nat) (n flags off j : Nat) (hl : layout s)
    (hk : strlen key ≤ 16) (hn : n ≤ 1024)
    (hj : off + 3 + j ≤ asize s AREA_INDEX_WRITABLE + 1048) :
    crash_of s (cut_erase s key data n flags off j) ∧
    ∀ x, (cut_erase s key data n flags off j).mem (s.area_params AREA_INDEX_WRITABLE).bank
        (abase s AREA_INDEX_WRITABLE + x) =
      if off + 3 ≤ x ∧ x < off + 3 + j then aerase s AREA_INDEX_WRITABLE
      else if asize s AREA_INDEX_WRITABLE ≤ x ∧
          x < asize s AREA_INDEX_WRITABLE + (8 + strlen key + n) then
        (set_image s key data n flags).getD (x - asize s AREA_INDEX_WRITABLE) 0
      else s.mem (s.area_params AREA_INDEX_WRITABLE).bank (abase s AREA_INDEX_WRITABLE + x) := by
  have e : (cut_erase s key data n flags off j).mem =
      (wipe (poke s (s.area_params AREA_INDEX_WRITABLE).bank
        (abase s AREA_INDEX_WRITABLE + asize s AREA_INDEX_WRITABLE) (8 + strlen key + n)
        (set_image s key data n flags)) (s.area_params AREA_INDEX_WRITABLE).bank
        (abase s AREA_INDEX_WRITABLE + (off + 3)) j).mem := by
    unfold cut_erase staged
    rw [hl.st_bank, hl.st_base]
  refine ⟨⟨rfl, rfl, rfl, rfl, rfl, rfl, ?_⟩, ?_⟩
  · rw [e]
    exact out_wipe s _ _ _ (by omega) (out_poke s s _ _ _ (by omega) (fun _ _ _ => rfl))
  · intro x
    rw [e, wipe_cell, poke_cell]
    rfl

/-- The cut states of the programming in the second step of a replacement and their
cells. -/
theorem cut_program_spec (s : Store) (key data : List Nat) (n flags off j : Nat) (hl : layout s)
    (hk : strlen key ≤ 16) (hn : n ≤ 1024)
    (hoff : off + 3 + (5 + strlen key + n) ≤ asize s AREA_INDEX_WRITABLE + 1048)
    (hj : j ≤ 5 + strlen key + n) :
    crash_of s (cut_program s key data n flags off j) ∧
    ∀ x, (cut_program s key data n flags off j).mem (s.area_params AREA_INDEX_WRITABLE).bank
        (abase s AREA_INDEX_WRITABLE + x) =
      if off + 3 ≤ x ∧ x < off + 3 + j then
        ((set_image s key data n flags).drop 3).getD (x - (off + 3)) 0
      else if off + 3 ≤ x ∧ x < off + 3 + (5 + strlen key + n) then aerase s AREA_INDEX_WRITABLE
      else if asize s AREA_INDEX_WRITABLE ≤ x ∧
          x < asize s AREA_INDEX_WRITABLE + (8 + strlen key + n) then
        (set_image s key data n flags).getD (x - asize s AREA_INDEX_WRITABLE) 0
      else s.mem (s.area_params AREA_INDEX_WRITABLE).bank (abase s AREA_INDEX_WRITABLE + x) := by
  have e : (cut_program s key data n flags off j).mem =
      (poke (wipe (poke s (s.area_params AREA_INDEX_WRITABLE).bank
        (abase s AREA_INDEX_WRITABLE + asize s AREA_INDEX_WRITABLE) (8 + strlen key + n)
        (set_image s key data n flags)) (s.area_params AREA_INDEX_WRITABLE).bank
        (abase s AREA_INDEX_WRITABLE + (off + 3)) (5 + strlen key + n))
        (s.area_params AREA_INDEX_WRITABLE).bank (abase s AREA_INDEX_WRITABLE + (off + 3)) j
        ((set_image s key data n flags).drop 3)).mem := by
    unfold cut_program staged
    rw [hl.st_bank, hl.st_base]
  refine ⟨⟨rfl, rfl, rfl, rfl, rfl, rfl, ?_⟩, ?_⟩
  · rw [e]
    exact out_poke s _ _ _ _ (by omega) (out_wipe s _ _ _ (by omega)
      (out_poke s s _ _ _ (by omega) (fun _ _ _ => rfl)))
  · intro x
    rw [e, poke_cell, wipe_cell, poke_cell]
    rfl

/-- The cut states of the third step and their cells, over a state `W` after a power
loss. -/
theorem cut_clear_spec (s W : Store) (j : Nat) (hl : layout s) (hW : crash_of s W)
    (hj : j ≤ 1048) :
    crash_of s (cut_clear W j) ∧
    ∀ x, (cut_clear W j).mem (s.area_params AREA_INDEX_WRITABLE).bank
        (abase s AREA_INDEX_WRITABLE + x) =
      if asize s AREA_INDEX_WRITABLE ≤ x ∧ x < asize s AREA_INDEX_WRITABLE + j then
        aerase s AREA_INDEX_WRITABLE
      else W.mem (s.area_params AREA_INDEX_WRITABLE).bank (abase s AREA_INDEX_WRITABLE + x) := by
  have e1 : (W.area_params AREA_INDEX_STAGING).bank = (s.area_params AREA_INDEX_WRITABLE).bank := by
    rw [hW.ar, hl.st_bank]
  have e2 : abase W AREA_INDEX_STAGING =
      abase s AREA_INDEX_WRITABLE + asize s AREA_INDEX_WRITABLE := by
    rw [← hl.st_base]
    unfold abase
    rw [hW.ar, hW.bk]
  have e : (cut_clear W j).mem =
      (wipe W (s.area_params AREA_INDEX_WRITABLE).bank
        (abase s AREA_INDEX_WRITABLE + asize s AREA_INDEX_WRITABLE) j).mem := by
    unfold cut_clear
    rw [e1, e2]
  refine ⟨⟨hW.nb, hW.bk, hW.ar, hW.be, hW.hb, rfl, ?_⟩, ?_⟩
  · rw [e]
    exact out_wipe s _ _ _ (by omega) hW.out
  · intro x
    rw [e, wipe_cell, hW.bk]
    rfl

/-- What `pdbstore_do_set` has found when it goes on to write, for a resilient
`pdbstore_set` in the steady state: the key is not in the read-only area, and either no
record has the key and the new record fits at `free_space_offset`, or the first record with
the key has data of the same size and is replaced in place. -/
theorem set_target_cases (s : Store) (log : List log_rec) (key data : List Nat) (n : Nat)
    (rc : Bool) (d : data_buf) (m off : Nat) (hs : steady s log) (hk : is_valid_key key = true)
    (hn : n ≤ 1024)
    (hro : (ro_find s key).1 = none ∨ (ro_find s key).1 = some PDBSTORE_SUCCESS)
    (h : do_set_target s key (data_buf.buf data) n PDBSTORE_RESILIENT_FLAG =
      Except.ok (rc, d, m, off)) :
    (ro_find s key).1 = none ∧ off = (find_record s key).offset ∧
    ((rc = false ∧ (∀ q, q ∈ log → q.key ≠ cstr key) ∧ off = log_size log ∧
        log_size log + (8 + strlen key + n) ≤ asize s AREA_INDEX_WRITABLE) ∨
      (rc = true ∧ ∃ pre r post, log = pre ++ r :: post ∧ (∀ q, q ∈ pre → q.key ≠ cstr key) ∧
        r.key = cstr key ∧ r.data.length = n ∧ off = log_size pre)) := by
  obtain ⟨hk1, hk2⟩ := is_valid_key_strlen key hk
  have hnd : ¬ (PDBSTORE_RESILIENT_FLAG &&& DELETE_FLAG ≠ 0) := by decide
  unfold do_set_target at h
  simp only [] at h
  rcases hro with hro | hro
  · refine ⟨hro, ?_⟩
    rcases find_record_steady s log key hs hro with ⟨pre, r, post, e1, e2, e3, e4⟩ | ⟨e1, out', e4⟩
    · rw [e4] at h ⊢
      simp only [if_true] at h
      rw [if_neg (by simp), if_neg hnd] at h
      by_cases c : n ≠ (found_out s pre r).actual_data_size
      · rw [if_pos c] at h
        exact absurd h (by simp)
      · rw [if_neg c] at h
        have hh := Except.ok.inj h
        have h1 : true = rc := (Prod.mk.inj hh).1
        have h4 : log_size pre = off := (Prod.mk.inj (Prod.mk.inj (Prod.mk.inj hh).2).2).2
        refine ⟨h4.symm, Or.inr ⟨h1.symm, pre, r, post, e1, e2, e3, ?_, h4.symm⟩⟩
        have : n = r.data.length := by
          by_contra cc
          exact c cc
        exact this.symm
    · rw [e4] at h ⊢
      simp only [] at h
      rw [if_neg (show ¬ (PDBSTORE_NOT_FOUND = PDBSTORE_SUCCESS) by decide), if_pos trivial, if_neg hnd,
        record_size_eq key n hk2 hn, hs.fso] at h
      have hz : asize s AREA_INDEX_WRITABLE ≤ 1073741824 := by
        have := hs.lay.wr_ok
        unfold area_ok at this
        omega
      have hfit := hs.fits
      rw [u32_of_lt (by omega)] at h
      by_cases c : log_size log + (8 + strlen key + n) > (s.area_params AREA_INDEX_WRITABLE).size
      · rw [if_pos c] at h
        exact absurd h (by simp)
      · rw [if_neg c] at h
        have hh := Except.ok.inj h
        have h1 : false = rc := (Prod.mk.inj hh).1
        have h4 : log_size log = off := (Prod.mk.inj (Prod.mk.inj (Prod.mk.inj hh).2).2).2
        refine ⟨h4.symm, Or.inl ⟨h1.symm, e1, h4.symm, ?_⟩⟩
        unfold asize
        omega
  · exfalso
    rw [find_record_ro s key PDBSTORE_SUCCESS hro] at h
    simp only [if_true] at h
    exact absurd h (by simp)

/-- Recovery without a staged record: on a state after a power loss whose staged record
fails the CRC check and whose writable area holds the records of `log2` followed by a
header that `read_record` rejects, `pdbstore_init` succeeds and leaves the steady state with
these records. -/
theorem crash_keep (num : Nat) (bp : Nat → pdbstore_bank_params_t) (s0 s T t : Store)
    (o : record_out) (log2 : List log_rec) (hf : fresh num bp s0)
    (hL : init_layout s0 num bp = (PDBSTORE_SUCCESS, t, o)) (hm : mounted t s) (hl : layout s)
    (hc : crash_of s T) (hcrc : ¬ rec_crc_ok T AREA_INDEX_STAGING 0)
    (hat : log_at T AREA_INDEX_WRITABLE 0 log2) (hok : ∀ q, q ∈ log2 → log_rec_ok q)
    (hfit : log_size log2 ≤ asize s AREA_INDEX_WRITABLE)
    (htail : log_size log2 < asize s AREA_INDEX_WRITABLE →
      (read_record T AREA_INDEX_WRITABLE (log_size log2) true record_out_init).1 =
        PDBSTORE_DATA_CORRUPT) :
    ∃ F, pdbstore_init T num bp = (PDBSTORE_SUCCESS, F) ∧ F.initialized = true ∧
      steady F log2 ∧ ∀ key, ro_find F key = ro_find s key := by
  obtain ⟨hTl, _, hinit, hfr⟩ := crash_init num bp s0 s T t o hf hL hm hl hc
  have hz : asize T AREA_INDEX_WRITABLE = asize s AREA_INDEX_WRITABLE := by
    unfold asize
    rw [hc.ar]
  obtain ⟨F, e, hi, hs, hfr2⟩ := init_recover_truncate_steady T log2 o hTl hat hok
    (by rw [hz]; exact hfit) (read_staging_crc_fail T record_out_init hTl hcrc)
    (by rw [hz]; exact htail)
  refine ⟨F, hinit.trans e, hi, hs, ?_⟩
  intro key
  have hl1 : layout { s with initialized := true } := layout_congr hl rfl rfl
  rw [ro_find_frame hl1 (frame_trans hfr hfr2), ro_find_initialized]

/-- Recovery from the staged record: on a state after a power loss whose staging area holds
the whole record of `(key, D)` and whose writable area is as `recover_new` takes it,
`pdbstore_init` succeeds and `pdbstore_get` returns the new value. -/
theorem crash_new (num : Nat) (bp : Nat → pdbstore_bank_params_t) (s0 s T t : Store)
    (o : record_out) (key D : List Nat) (pre post : List log_rec) (hf : fresh num bp s0)
    (hL : init_layout s0 num bp = (PDBSTORE_SUCCESS, t, o)) (hm : mounted t s) (hl : layout s)
    (hc : crash_of s T) (hk : is_valid_key key = true) (hD : D.length ≤ 1024)
    (hro : (ro_find s key).1 = none)
    (hstg : ∀ i, i < 8 + strlen key + D.length →
      acell T AREA_INDEX_STAGING i = (rec_image s key D 1).getD i 0)
    (hpre : log_at T AREA_INDEX_WRITABLE 0 pre) (hpok : ∀ q, q ∈ pre → log_rec_ok q)
    (hpk : ∀ q, q ∈ pre → q.key ≠ cstr key)
    (hfit : log_size pre + (8 + strlen key + D.length) + log_size post ≤
      asize s AREA_INDEX_WRITABLE)
    (hreg : (∀ i, i < 3 → acell T AREA_INDEX_WRITABLE (log_size pre + i) =
        (rec_image s key D 1).getD i 0) ∨
      hdr_key_size T AREA_INDEX_WRITABLE (log_size pre) = 0 ∨
      16 < hdr_key_size T AREA_INDEX_WRITABLE (log_size pre))
    (hW : rec_crc_ok T AREA_INDEX_WRITABLE (log_size pre) →
      ∀ i, 8 ≤ i → i < 8 + strlen key → acell T AREA_INDEX_WRITABLE (log_size pre + i) =
        (rec_image s key D 1).getD i 0)
    (hpost : log_at T AREA_INDEX_WRITABLE (log_size pre + (8 + strlen key + D.length)) post)
    (hqok : ∀ q, q ∈ post → log_rec_ok q)
    (htail : log_size pre + (8 + strlen key + D.length) + log_size post <
        asize s AREA_INDEX_WRITABLE →
      (read_record T AREA_INDEX_WRITABLE
        (log_size pre + (8 + strlen key + D.length) + log_size post) true record_out_init).1 =
        PDBSTORE_DATA_CORRUPT) :
    (pdbstore_init T num bp).1 = PDBSTORE_SUCCESS ∧ recovered_new num bp T key D := by
  obtain ⟨hTl, _, hinit, hfr⟩ := crash_init num bp s0 s T t o hf hL hm hl hc
  obtain ⟨hk1, hk2⟩ := is_valid_key_strlen key hk
  have hz : asize T AREA_INDEX_WRITABLE = asize s AREA_INDEX_WRITABLE := by
    unfold asize
    rw [hc.ar]
  obtain ⟨r, hr⟩ : ∃ r : log_rec, r = { key := cstr key, data := D, flags := 1 } := ⟨_, rfl⟩
  have hrk : r.key = cstr key := by rw [hr]
  have hrd : r.data = D := by rw [hr]
  have hrs : strlen r.key = strlen key := by rw [hrk, strlen_cstr]
  have hrz : log_rec_size r = 8 + strlen key + D.length := by
    unfold log_rec_size
    rw [hrs, hrd]
  have himg : rec_image T r.key r.data r.flags = rec_image s key D 1 := by
    rw [hr]
    exact (rec_image_norm T key D 1).trans (rec_image_cfg hc.be hc.hb key D 1)
  have hrec : log_rec_ok r := by
    rw [hr]
    exact ⟨by rw [strlen_cstr]; exact hk1, by rw [strlen_cstr]; exact hk2, cstr_cstr key, hD,
      by show 1 < 256; omega⟩
  obtain ⟨F, post2, e, hi, hs, hfr2⟩ := recover_new T pre post r o hTl hrec
    (by rw [hrz, himg]; exact hstg) hpre hpok (by rw [hrk]; exact hpk)
    (by rw [hrz, hz]; exact hfit) (by rw [himg]; exact hreg) (by rw [himg, hrs]; exact hW)
    (by rw [hrz]; exact hpost) hqok (by rw [hrz, hz]; exact htail)
  have e1 : pdbstore_init T num bp = (PDBSTORE_SUCCESS, F) := hinit.trans e
  have hl1 : layout { s with initialized := true } := layout_congr hl rfl rfl
  have hroF : (ro_find F key).1 = none := by
    rw [ro_find_frame hl1 (frame_trans hfr hfr2), ro_find_initialized]
    exact hro
  obtain ⟨g1, g2⟩ := get_found_steady F pre post2 r key hs hi hk hroF hpk hrk
  have hnd : ¬ (r.flags &&& DELETE_FLAG ≠ 0) := by
    rw [hr]
    show ¬ (1 &&& DELETE_FLAG ≠ 0)
    decide
  unfold recovered_new
  rw [e1]
  refine ⟨rfl, ?_, ?_, ?_⟩
  · show (pdbstore_get F key).1 = _
    rw [g1, if_neg hnd]
  · show (pdbstore_get F key).2.2 = _
    rw [g1, hrd]
  · show mem_read F (pdbstore_get F key).2.1.bank (pdbstore_get F key).2.1.addr _ = _
    rw [g1]
    rw [hrd] at g2
    exact g2

/-- A cut in the first step that leaves no staged record which passes the CRC check: the
writable area is untouched, `pdbstore_init` succeeds and the key has its old value. -/
theorem crash_old (num : Nat) (bp : Nat → pdbstore_bank_params_t) (s0 s T t : Store)
    (o : record_out) (log : List log_rec) (key : List Nat) (hf : fresh num bp s0)
    (hL : init_layout s0 num bp = (PDBSTORE_SUCCESS, t, o)) (hm : mounted t s)
    (hs : steady s log) (hi : s.initialized = true) (hk : is_valid_key key = true)
    (hro : (ro_find s key).1 = none)
    (hev : aerase s AREA_INDEX_WRITABLE = 0 ∨ 16 < aerase s AREA_INDEX_WRITABLE)
    (hc : crash_of s T) (hcrc : ¬ rec_crc_ok T AREA_INDEX_STAGING 0)
    (hsame : ∀ x, x < asize s AREA_INDEX_WRITABLE →
      acell T AREA_INDEX_WRITABLE x = acell s AREA_INDEX_WRITABLE x)
    (hroom : log_size log = asize s AREA_INDEX_WRITABLE ∨
      log_size log + 8 ≤ asize s AREA_INDEX_WRITABLE) :
    (pdbstore_init T num bp).1 = PDBSTORE_SUCCESS ∧ recovered_old num bp s T key := by
  have hl := hs.lay
  have hTl : layout T := layout_congr hl hc.bk hc.ar
  have hz : asize T AREA_INDEX_WRITABLE = asize s AREA_INDEX_WRITABLE := by
    unfold asize
    rw [hc.ar]
  have he : aerase T AREA_INDEX_WRITABLE = aerase s AREA_INDEX_WRITABLE := by
    unfold aerase
    rw [hc.ar, hc.bk]
  have hev2 := (mounted_aerase num bp s0 s t o hf.params hL hm).1
  have hfit := hs.fits
  obtain ⟨F, e, hiF, hsF, hroF⟩ := crash_keep num bp s0 s T t o log hf hL hm hl hc hcrc
    (@log_at_congr s T hc.be hc.hb _ log 0 (fun x _ hx => hsame x (by omega)) hs.cells)
    hs.recs hfit (by
      intro hlt
      have := read_blank_tail T (log_size log) record_out_init hTl (by rw [he]; exact hev)
        (by rw [he]; exact hev2) (by rw [hz]; exact hroom) (by
          intro h8
          rw [hz] at h8
          rw [hsame _ (by omega), he]
          exact hs.tail _ (by omega) (by omega))
      exact this (by rw [hz]; exact hlt))
  have hro2 : (ro_find F key).1 = none := by rw [hroF key]; exact hro
  have hg := get_same_log s F log log key hs hsF hi hiF hk hro hro2 (by
    rcases find_record_steady s log key hs hro with ⟨pre, r, post, e1, e2, e3, _⟩ | ⟨e1, _⟩
    · exact Or.inr ⟨pre, post, pre, post, r, e1, e1, e3, e2, e2⟩
    · exact Or.inl ⟨e1, e1⟩)
  unfold recovered_old
  rw [e]
  exact ⟨rfl, hg⟩

/-- Recovery of an appended record from the staging area: the staging area holds the whole
record, the writable area is untouched outside the place of the new record, where the size
fields are either programmed or still blank. -/
theorem crash_new_append (num : Nat) (bp : Nat → pdbstore_bank_params_t) (s0 s T t : Store)
    (o : record_out) (log : List log_rec) (key D : List Nat) (hf : fresh num bp s0)
    (hL : init_layout s0 num bp = (PDBSTORE_SUCCESS, t, o)) (hm : mounted t s)
    (hs : steady s log) (hk : is_valid_key key = true) (hD : D.length ≤ 1024)
    (hro : (ro_find s key).1 = none)
    (hev : aerase s AREA_INDEX_WRITABLE = 0 ∨ 16 < aerase s AREA_INDEX_WRITABLE)
    (hc : crash_of s T) (hnew : ∀ q, q ∈ log → q.key ≠ cstr key)
    (hfit : log_size log + (8 + strlen key + D.length) ≤ asize s AREA_INDEX_WRITABLE)
    (hroom : log_size log + (8 + strlen key + D.length) = asize s AREA_INDEX_WRITABLE ∨
      log_size log + (8 + strlen key + D.length) + 8 ≤ asize s AREA_INDEX_WRITABLE)
    (hstg : ∀ i, i < 8 + strlen key + D.length →
      acell T AREA_INDEX_STAGING i = (rec_image s key D 1).getD i 0)
    (hsame : ∀ x, x < asize s AREA_INDEX_WRITABLE →
      (x < log_size log ∨ log_size log + (8 + strlen key + D.length) ≤ x) →
      acell T AREA_INDEX_WRITABLE x = acell s AREA_INDEX_WRITABLE x)
    (hreg : (∀ i, i < 3 → acell T AREA_INDEX_WRITABLE (log_size log + i) =
        (rec_image s key D 1).getD i 0) ∨
      acell T AREA_INDEX_WRITABLE (log_size log + 2) = aerase s AREA_INDEX_WRITABLE)
    (hW : rec_crc_ok T AREA_INDEX_WRITABLE (log_size log) →
      ∀ i, 8 ≤ i → i < 8 + strlen key → acell T AREA_INDEX_WRITABLE (log_size log + i) =
        (rec_image s key D 1).getD i 0) :
    (pdbstore_init T num bp).1 = PDBSTORE_SUCCESS ∧ recovered_new num bp T key D := by
  have hl := hs.lay
  have hTl : layout T := layout_congr hl hc.bk hc.ar
  have hz : asize T AREA_INDEX_WRITABLE = asize s AREA_INDEX_WRITABLE := by
    unfold asize
    rw [hc.ar]
  have he : aerase T AREA_INDEX_WRITABLE = aerase s AREA_INDEX_WRITABLE := by
    unfold aerase
    rw [hc.ar, hc.bk]
  have hev2 := (mounted_aerase num bp s0 s t o hf.params hL hm).1
  refine crash_new num bp s0 s T t o key D log [] hf hL hm hl hc hk hD hro hstg
    (@log_at_congr s T hc.be hc.hb _ log 0 (fun x _ hx => hsame x (by omega) (Or.inl (by omega)))
      hs.cells)
    hs.recs hnew (by simp only [log_size]; omega) ?_ hW trivial
    (fun _ hq => absurd hq (List.not_mem_nil _)) ?_
  · rcases hreg with h | h
    · exact Or.inl h
    · right
      have hk : hdr_key_size T AREA_INDEX_WRITABLE (log_size log) = aerase s AREA_INDEX_WRITABLE := by
        unfold hdr_key_size
        rw [h]
        exact Nat.mod_eq_of_lt hev2
      rw [hk]
      exact hev
  · simp only [log_size, Nat.add_zero]
    intro hlt
    have := read_blank_tail T (log_size log + (8 + strlen key + D.length)) record_out_init hTl
      (by rw [he]; exact hev) (by rw [he]; exact hev2) (by rw [hz]; exact hroom) (by
        intro h8
        rw [hz] at h8
        rw [hsame _ (by omega) (Or.inr (by omega)), he]
        exact hs.tail _ (by omega) (by omega))
    exact this (by rw [hz]; exact hlt)

/-- Recovery of a replaced record from the staging area: the staging area holds the whole
record, and the writable area is untouched outside the record of the key from its `flags`
field on. -/
theorem crash_new_replace (num : Nat) (bp : Nat → pdbstore_bank_params_t) (s0 s T t : Store)
    (o : record_out) (key D : List Nat) (pre post : List log_rec) (r0 : log_rec)
    (hf : fresh num bp s0)
    (hL : init_layout s0 num bp = (PDBSTORE_SUCCESS, t, o)) (hm : mounted t s)
    (hs : steady s (pre ++ r0 :: post)) (hk : is_valid_key key = true) (hD : D.length ≤ 1024)
    (hro : (ro_find s key).1 = none)
    (hev : aerase s AREA_INDEX_WRITABLE = 0 ∨ 16 < aerase s AREA_INDEX_WRITABLE)
    (hc : crash_of s T) (hpk : ∀ q, q ∈ pre → q.key ≠ cstr key) (hrk : r0.key = cstr key)
    (hrl : r0.data.length = D.length)
    (hroom : log_size (pre ++ r0 :: post) = asize s AREA_INDEX_WRITABLE ∨
      log_size (pre ++ r0 :: post) + 8 ≤ asize s AREA_INDEX_WRITABLE)
    (hstg : ∀ i, i < 8 + strlen key + D.length →
      acell T AREA_INDEX_STAGING i = (rec_image s key D 1).getD i 0)
    (hsame : ∀ x, x < asize s AREA_INDEX_WRITABLE →
      (x < log_size pre + 3 ∨ log_size pre + (8 + strlen key + D.length) ≤ x) →
      acell T AREA_INDEX_WRITABLE x = acell s AREA_INDEX_WRITABLE x)
    (hW : rec_crc_ok T AREA_INDEX_WRITABLE (log_size pre) →
      ∀ i, 8 ≤ i → i < 8 + strlen key → acell T AREA_INDEX_WRITABLE (log_size pre + i) =
        (rec_image s key D 1).getD i 0) :
    (pdbstore_init T num bp).1 = PDBSTORE_SUCCESS ∧ recovered_new num bp T key D := by
  have hl := hs.lay
  have hTl : layout T := layout_congr hl hc.bk hc.ar
  have hz : asize T AREA_INDEX_WRITABLE = asize s AREA_INDEX_WRITABLE := by
    unfold asize
    rw [hc.ar]
  have he : aerase T AREA_INDEX_WRITABLE = aerase s AREA_INDEX_WRITABLE := by
    unfold aerase
    rw [hc.ar, hc.bk]
  have hev2 := (mounted_aerase num bp s0 s t o hf.params hL hm).1
  have hrs : strlen r0.key = strlen key := by rw [hrk, strlen_cstr]
  have hrz : log_rec_size r0 = 8 + strlen key + D.length := by
    unfold log_rec_size
    rw [hrs, hrl]
  have hsz : log_size (pre ++ r0 :: post) =
      log_size pre + (8 + strlen key + D.length) + log_size post := by
    rw [log_size_append]
    simp only [log_size]
    omega
  have hfit := hs.fits
  rw [hsz] at hfit hroom
  have hcells := hs.cells
  rw [log_at_append] at hcells
  obtain ⟨c1, c2, c3⟩ := hcells
  rw [Nat.zero_add] at c2 c3
  rw [hrz] at c3
  refine crash_new num bp s0 s T t o key D pre post hf hL hm hl hc hk hD hro hstg
    (@log_at_congr s T hc.be hc.hb _ pre 0 (fun x _ hx => hsame x (by omega) (Or.inl (by omega)))
      c1)
    (fun q hq => hs.recs q (by simp [hq])) hpk hfit ?_ hW
    (@log_at_congr s T hc.be hc.hb _ post _
      (fun x hx1 hx2 => hsame x (by omega) (Or.inr (by omega))) c3)
    (fun q hq => hs.recs q (by simp [hq])) ?_
  · left
    intro i hi
    rw [hsame _ (by omega) (Or.inl (by omega)), c2 i (by rw [hrz]; omega)]
    exact rec_image_hdr3 s key r0.key D r0.data 1 r0.flags hrs hrl i hi
  · intro hlt
    have := read_blank_tail T (log_size pre + (8 + strlen key + D.length) + log_size post)
      record_out_init hTl (by rw [he]; exact hev) (by rw [he]; exact hev2)
      (by rw [hz]; exact hroom) (by
        intro h8
        rw [hz] at h8
        rw [hsame _ (by omega) (Or.inr (by omega)), he]
        exact hs.tail _ (by rw [hsz]; omega) (by omega))
    exact this (by rw [hz]; exact hlt)

/-- A cut in the third step: the writable area holds the new record in its place, and the
staged record is either whole or fails the CRC check; `pdbstore_init` succeeds and the key
has its new value. -/
theorem crash_complete (num : Nat) (bp : Nat → pdbstore_bank_params_t) (s0 s T t : Store)
    (o : record_out) (key D : List Nat) (pre post : List log_rec) (hf : fresh num bp s0)
    (hL : init_layout s0 num bp = (PDBSTORE_SUCCESS, t, o)) (hm : mounted t s) (hl : layout s)
    (hc : crash_of s T) (hk : is_valid_key key = true) (hD : D.length ≤ 1024)
    (hro : (ro_find s key).1 = none)
    (hS : rec_crc_ok T AREA_INDEX_STAGING 0 → ∀ i, i < 8 + strlen key + D.length →
      acell T AREA_INDEX_STAGING i = (rec_image s key D 1).getD i 0)
    (hpre : log_at T AREA_INDEX_WRITABLE 0 pre) (hpok : ∀ q, q ∈ pre → log_rec_ok q)
    (hpk : ∀ q, q ∈ pre → q.key ≠ cstr key)
    (hfit : log_size pre + (8 + strlen key + D.length) + log_size post ≤
      asize s AREA_INDEX_WRITABLE)
    (hrec : ∀ i, i < 8 + strlen key + D.length →
      acell T AREA_INDEX_WRITABLE (log_size pre + i) = (rec_image s key D 1).getD i 0)
    (hpost : log_at T AREA_INDEX_WRITABLE (log_size pre + (8 + strlen key + D.length)) post)
    (hqok : ∀ q, q ∈ post → log_rec_ok q)
    (htail : log_size pre + (8 + strlen key + D.length) + log_size post <
        asize s AREA_INDEX_WRITABLE →
      (read_record T AREA_INDEX_WRITABLE
        (log_size pre + (8 + strlen key + D.length) + log_size post) true record_out_init).1 =
        PDBSTORE_DATA_CORRUPT) :
    (pdbstore_init T num bp).1 = PDBSTORE_SUCCESS ∧ recovered_new num bp T key D := by
  obtain ⟨hk1, hk2⟩ := is_valid_key_strlen key hk
  by_cases hcrc : rec_crc_ok T AREA_INDEX_STAGING 0
  · exact crash_new num bp s0 s T t o key D pre post hf hL hm hl hc hk hD hro (hS hcrc) hpre hpok
      hpk hfit (Or.inl (fun i hi => hrec i (by omega))) (fun _ i _ hi => hrec i (by omega)) hpost
      hqok htail
  · obtain ⟨r, hr⟩ : ∃ r : log_rec, r = { key := cstr key, data := D, flags := 1 } := ⟨_, rfl⟩
    have hrk : r.key = cstr key := by rw [hr]
    have hrd : r.data = D := by rw [hr]
    have hrs : strlen r.key = strlen key := by rw [hrk, strlen_cstr]
    have hrz : log_rec_size r = 8 + strlen key + D.length := by
      unfold log_rec_size
      rw [hrs, hrd]
    have himg : rec_image T r.key r.data r.flags = rec_image s key D 1 := by
      rw [hr]
      exact (rec_image_norm T key D 1).trans (rec_image_cfg hc.be hc.hb key D 1)
    have hrec2 : log_rec_ok r := by
      rw [hr]
      exact ⟨by rw [strlen_cstr]; exact hk1, by rw [strlen_cstr]; exact hk2, cstr_cstr key, hD,
        by show 1 < 256; omega⟩
    have hsz : log_size (pre ++ r :: post) =
        log_size pre + (8 + strlen key + D.length) + log_size post := by
      rw [log_size_append]
      simp only [log_size]
      omega
    obtain ⟨F, e, hiF, hsF, hroF⟩ := crash_keep num bp s0 s T t o (pre ++ r :: post) hf hL hm hl hc
      hcrc (by
        rw [log_at_append]
        refine ⟨hpre, ?_, ?_⟩
        · intro i hi
          rw [Nat.zero_add, himg]
          exact hrec i (by rw [← hrz]; exact hi)
        · rw [Nat.zero_add, hrz]
          exact hpost)
      (by
        intro q hq
        rcases List.mem_append.mp hq with h | h
        · exact hpok q h
        · rcases List.mem_cons.mp h with h | h
          · rw [h]; exact hrec2
          · exact hqok q h)
      (by rw [hsz]; exact hfit) (by rw [hsz]; exact htail)
    have hro2 : (ro_find F key).1 = none := by rw [hroF key]; exact hro
    obtain ⟨g1, g2⟩ := get_found_steady F pre post r key hsF hiF hk hro2 hpk hrk
    have hnd : ¬ (r.flags &&& DELETE_FLAG ≠ 0) := by
      rw [hr]
      show ¬ (1 &&& DELETE_FLAG ≠ 0)
      decide
    unfold recovered_new
    rw [e]
    refine ⟨rfl, ?_, ?_, ?_⟩
    · show (pdbstore_get F key).1 = _
      rw [g1, if_neg hnd]
    · show (pdbstore_get F key).2.2 = _
      rw [g1, hrd]
    · show mem_read F (pdbstore_get F key).2.1.bank (pdbstore_get F key).2.1.addr _ = _
      rw [g1]
      rw [hrd] at g2
      exact g2

/-- The cells of the writable and the staging area in the state before the power loss, as
offsets from the start of the writable area. -/
theorem steady_cell (s : Store) (hl : layout s) :
    (∀ x, acell s AREA_INDEX_WRITABLE x =
      s.mem (s.area_params AREA_INDEX_WRITABLE).bank (abase s AREA_INDEX_WRITABLE + x)) ∧
    (∀ x, acell s AREA_INDEX_STAGING x =
      s.mem (s.area_params AREA_INDEX_WRITABLE).bank
        (abase s AREA_INDEX_WRITABLE + (asize s AREA_INDEX_WRITABLE + x))) := by
  constructor
  · intro x
    rfl
  · intro x
    rw [← wr_cell_staging s hl]
    rfl

/-- A cut in the first step, the programming of the staging area. -/
theorem crash_stage (num : Nat) (bp : Nat → pdbstore_bank_params_t) (s0 s t : Store)
    (o : record_out) (log : List log_rec) (key data D : List Nat) (n j : Nat)
    (hf : fresh num bp s0) (hL : init_layout s0 num bp = (PDBSTORE_SUCCESS, t, o))
    (hm : mounted t s) (hs : steady s log) (hi : s.initialized = true)
    (hk : is_valid_key key = true) (hn : n ≤ 1024)
    (hD : D = buf_bytes s (data_buf.buf data) n) (hro : (ro_find s key).1 = none)
    (hev : aerase s AREA_INDEX_WRITABLE = 0 ∨ 16 < aerase s AREA_INDEX_WRITABLE)
    (hj : j ≤ 8 + strlen key + n)
    (hroom1 : log_size log = asize s AREA_INDEX_WRITABLE ∨
      log_size log + 8 ≤ asize s AREA_INDEX_WRITABLE)
    (hcase : ((∀ q, q ∈ log → q.key ≠ cstr key) ∧
        log_size log + (8 + strlen key + n) ≤ asize s AREA_INDEX_WRITABLE ∧
        (log_size log + (8 + strlen key + n) = asize s AREA_INDEX_WRITABLE ∨
          log_size log + (8 + strlen key + n) + 8 ≤ asize s AREA_INDEX_WRITABLE) ∧
        (rec_crc_ok (cut_stage s key data n 1 j) AREA_INDEX_WRITABLE (log_size log) →
          ∀ i, 8 ≤ i → i < 8 + strlen key →
            acell (cut_stage s key data n 1 j) AREA_INDEX_WRITABLE (log_size log + i) =
              (rec_image s key D 1).getD i 0)) ∨
      (∃ pre r0 post, log = pre ++ r0 :: post ∧ (∀ q, q ∈ pre → q.key ≠ cstr key) ∧
        r0.key = cstr key ∧ r0.data.length = n ∧
        (rec_crc_ok (cut_stage s key data n 1 j) AREA_INDEX_WRITABLE (log_size pre) →
          ∀ i, 8 ≤ i → i < 8 + strlen key →
            acell (cut_stage s key data n 1 j) AREA_INDEX_WRITABLE (log_size pre + i) =
              (rec_image s key D 1).getD i 0)))
    (hS : rec_crc_ok (cut_stage s key data n 1 j) AREA_INDEX_STAGING 0 →
      ∀ i, i < 8 + strlen key + n →
        acell (cut_stage s key data n 1 j) AREA_INDEX_STAGING i =
          (rec_image s key D 1).getD i 0) :
    (pdbstore_init (cut_stage s key data n 1 j) num bp).1 = PDBSTORE_SUCCESS ∧
    (recovered_old num bp s (cut_stage s key data n 1 j) key ∨
      recovered_new num bp (cut_stage s key data n 1 j) key D) := by
  have hl := hs.lay
  obtain ⟨hk1, hk2⟩ := is_valid_key_strlen key hk
  have hDl : D.length = n := by rw [hD, buf_bytes_length]
  have hz := hl.st_size
  obtain ⟨hc, hcell⟩ := cut_stage_spec s key data n 1 j hl (by omega)
  obtain ⟨w1, w2⟩ := crash_cell hc hl
  obtain ⟨v1, v2⟩ := steady_cell s hl
  have hsame : ∀ x, x < asize s AREA_INDEX_WRITABLE →
      acell (cut_stage s key data n 1 j) AREA_INDEX_WRITABLE x = acell s AREA_INDEX_WRITABLE x := by
    intro x hx
    rw [w1, hcell, if_neg (by omega), v1]
  by_cases hcrc : rec_crc_ok (cut_stage s key data n 1 j) AREA_INDEX_STAGING 0
  · have hstg : ∀ i, i < 8 + strlen key + D.length →
        acell (cut_stage s key data n 1 j) AREA_INDEX_STAGING i =
          (rec_image s key D 1).getD i 0 := fun i hi => hS hcrc i (by omega)
    rcases hcase with ⟨hnew, hfit, hroom2, hW⟩ | ⟨pre, r0, post, hlog, hpk, hrk, hrl, hW⟩
    · obtain ⟨a1, a2⟩ := crash_new_append num bp s0 s _ t o log key D hf hL hm hs hk
        (by omega) hro hev hc hnew (by rw [hDl]; exact hfit) (by rw [hDl]; exact hroom2) hstg (fun x hx _ => hsame x hx)
        (Or.inr (by
          rw [hsame _ (by omega)]
          exact hs.tail _ (by omega) (by omega))) hW
      exact ⟨a1, Or.inr a2⟩
    · rw [hlog] at hs hroom1
      obtain ⟨a1, a2⟩ := crash_new_replace num bp s0 s _ t o key D pre post r0 hf hL hm hs hk
        (by omega) hro hev hc hpk hrk (by rw [hrl, hDl]) hroom1 hstg (fun x hx _ => hsame x hx) hW
      exact ⟨a1, Or.inr a2⟩
  · obtain ⟨a1, a2⟩ := crash_old num bp s0 s _ t o log key hf hL hm hs hi hk hro hev hc hcrc hsame
      hroom1
    exact ⟨a1, Or.inl a2⟩

/-- A cut in the second step of a set that appends its record. -/
theorem crash_append (num : Nat) (bp : Nat → pdbstore_bank_params_t) (s0 s t : Store)
    (o : record_out) (log : List log_rec) (key data D : List Nat) (n j : Nat)
    (hf : fresh num bp s0) (hL : init_layout s0 num bp = (PDBSTORE_SUCCESS, t, o))
    (hm : mounted t s) (hs : steady s log)
    (hk : is_valid_key key = true) (hn : n ≤ 1024)
    (hD : D = buf_bytes s (data_buf.buf data) n) (hro : (ro_find s key).1 = none)
    (hev : aerase s AREA_INDEX_WRITABLE = 0 ∨ 16 < aerase s AREA_INDEX_WRITABLE)
    (hj : j ≤ 8 + strlen key + n) (hnew : ∀ q, q ∈ log → q.key ≠ cstr key)
    (hfit : log_size log + (8 + strlen key + n) ≤ asize s AREA_INDEX_WRITABLE)
    (hroom2 : log_size log + (8 + strlen key + n) = asize s AREA_INDEX_WRITABLE ∨
      log_size log + (8 + strlen key + n) + 8 ≤ asize s AREA_INDEX_WRITABLE)
    (hW : rec_crc_ok (cut_append s key data n 1 j) AREA_INDEX_WRITABLE (log_size log) →
      ∀ i, 8 ≤ i → i < 8 + strlen key →
        acell (cut_append s key data n 1 j) AREA_INDEX_WRITABLE (log_size log + i) =
          (rec_image s key D 1).getD i 0) :
    (pdbstore_init (cut_append s key data n 1 j) num bp).1 = PDBSTORE_SUCCESS ∧
    recovered_new num bp (cut_append s key data n 1 j) key D := by
  have hl := hs.lay
  obtain ⟨hk1, hk2⟩ := is_valid_key_strlen key hk
  have hDl : D.length = n := by rw [hD, buf_bytes_length]
  have hset : set_image s key data n 1 = rec_image s key D 1 := by unfold set_image; rw [hD]
  have hz := hl.st_size
  have hfso := hs.fso
  obtain ⟨hc, hcell⟩ := cut_append_spec s key data n 1 j hl hk2 hn (by omega)
  rw [hfso, hset] at hcell
  obtain ⟨w1, w2⟩ := crash_cell hc hl
  obtain ⟨v1, v2⟩ := steady_cell s hl
  refine crash_new_append num bp s0 s _ t o log key D hf hL hm hs hk (by omega) hro hev hc hnew
    (by rw [hDl]; exact hfit) (by rw [hDl]; exact hroom2) ?_ ?_ ?_ hW
  · intro i hi
    rw [w2, hcell, if_neg (by omega), if_pos ⟨by omega, by omega⟩]
    congr 1
    omega
  · intro x hx hout
    rw [w1, hcell, if_neg (by omega), if_neg (by omega), v1]
  · by_cases c : 3 ≤ j
    · left
      intro i hi
      rw [w1, hcell, if_pos ⟨by omega, by omega⟩]
      congr 1
      omega
    · right
      rw [w1, hcell, if_neg (by omega), if_neg (by omega), ← v1]
      exact hs.tail _ (by omega) (by omega)

/-- A cut in the erase of the second step of a set that replaces the record of the key. -/
theorem crash_erase (num : Nat) (bp : Nat → pdbstore_bank_params_t) (s0 s t : Store)
    (o : record_out) (key data D : List Nat) (pre post : List log_rec) (r0 : log_rec) (n j : Nat)
    (hf : fresh num bp s0) (hL : init_layout s0 num bp = (PDBSTORE_SUCCESS, t, o))
    (hm : mounted t s) (hs : steady s (pre ++ r0 :: post))
    (hk : is_valid_key key = true) (hn : n ≤ 1024)
    (hD : D = buf_bytes s (data_buf.buf data) n) (hro : (ro_find s key).1 = none)
    (hev : aerase s AREA_INDEX_WRITABLE = 0 ∨ 16 < aerase s AREA_INDEX_WRITABLE)
    (hj : j ≤ 5 + strlen key + n) (hpk : ∀ q, q ∈ pre → q.key ≠ cstr key)
    (hrk : r0.key = cstr key) (hrl : r0.data.length = n)
    (hroom1 : log_size (pre ++ r0 :: post) = asize s AREA_INDEX_WRITABLE ∨
      log_size (pre ++ r0 :: post) + 8 ≤ asize s AREA_INDEX_WRITABLE)
    (hW : rec_crc_ok (cut_erase s key data n 1 (log_size pre) j) AREA_INDEX_WRITABLE (log_size pre) →
      ∀ i, 8 ≤ i → i < 8 + strlen key →
        acell (cut_erase s key data n 1 (log_size pre) j) AREA_INDEX_WRITABLE (log_size pre + i) =
          (rec_image s key D 1).getD i 0) :
    (pdbstore_init (cut_erase s key data n 1 (log_size pre) j) num bp).1 = PDBSTORE_SUCCESS ∧
    recovered_new num bp (cut_erase s key data n 1 (log_size pre) j) key D := by
  have hl := hs.lay
  obtain ⟨hk1, hk2⟩ := is_valid_key_strlen key hk
  have hDl : D.length = n := by rw [hD, buf_bytes_length]
  have hset : set_image s key data n 1 = rec_image s key D 1 := by unfold set_image; rw [hD]
  have hz := hl.st_size
  have hrs : strlen r0.key = strlen key := by rw [hrk, strlen_cstr]
  have hfit := steady_rec_fits s pre post r0 hs
  unfold log_rec_size at hfit
  rw [hrs, hrl] at hfit
  obtain ⟨hc, hcell⟩ := cut_erase_spec s key data n 1 (log_size pre) j hl hk2 hn (by omega)
  rw [hset] at hcell
  obtain ⟨w1, w2⟩ := crash_cell hc hl
  obtain ⟨v1, v2⟩ := steady_cell s hl
  refine crash_new_replace num bp s0 s _ t o key D pre post r0 hf hL hm hs hk (by omega) hro hev
    hc hpk hrk (by rw [hrl, hDl]) hroom1 ?_ ?_ hW
  · intro i hi
    rw [w2, hcell, if_neg (by omega), if_pos ⟨by omega, by omega⟩]
    congr 1
    omega
  · intro x hx hout
    rw [w1, hcell, if_neg (by omega), if_neg (by omega), v1]

/-- A cut in the programming of the second step of a set that replaces the record of the
key. -/
theorem crash_program (num : Nat) (bp : Nat → pdbstore_bank_params_t) (s0 s t : Store)
    (o : record_out) (key data D : List Nat) (pre post : List log_rec) (r0 : log_rec) (n j : Nat)
    (hf : fresh num bp s0) (hL : init_layout s0 num bp = (PDBSTORE_SUCCESS, t, o))
    (hm : mounted t s) (hs : steady s (pre ++ r0 :: post))
    (hk : is_valid_key key = true) (hn : n ≤ 1024)
    (hD : D = buf_bytes s (data_buf.buf data) n) (hro : (ro_find s key).1 = none)
    (hev : aerase s AREA_INDEX_WRITABLE = 0 ∨ 16 < aerase s AREA_INDEX_WRITABLE)
    (hj : j ≤ 5 + strlen key + n) (hpk : ∀ q, q ∈ pre → q.key ≠ cstr key)
    (hrk : r0.key = cstr key) (hrl : r0.data.length = n)
    (hroom1 : log_size (pre ++ r0 :: post) = asize s AREA_INDEX_WRITABLE ∨
      log_size (pre ++ r0 :: post) + 8 ≤ asize s AREA_INDEX_WRITABLE)
    (hW : rec_crc_ok (cut_program s key data n 1 (log_size pre) j) AREA_INDEX_WRITABLE
        (log_size pre) →
      ∀ i, 8 ≤ i → i < 8 + strlen key →
        acell (cut_program s key data n 1 (log_size pre) j) AREA_INDEX_WRITABLE (log_size pre + i) =
          (rec_image s key D 1).getD i 0) :
    (pdbstore_init (cut_program s key data n 1 (log_size pre) j) num bp).1 = PDBSTORE_SUCCESS ∧
    recovered_new num bp (cut_program s key data n 1 (log_size pre) j) key D := by
  have hl := hs.lay
  obtain ⟨hk1, hk2⟩ := is_valid_key_strlen key hk
  have hDl : D.length = n := by rw [hD, buf_bytes_length]
  have hset : set_image s key data n 1 = rec_image s key D 1 := by unfold set_image; rw [hD]
  have hz := hl.st_size
  have hrs : strlen r0.key = strlen key := by rw [hrk, strlen_cstr]
  have hfit := steady_rec_fits s pre post r0 hs
  unfold log_rec_size at hfit
  rw [hrs, hrl] at hfit
  obtain ⟨hc, hcell⟩ := cut_program_spec s key data n 1 (log_size pre) j hl hk2 hn (by omega) hj
  rw [hset] at hcell
  obtain ⟨w1, w2⟩ := crash_cell hc hl
  obtain ⟨v1, v2⟩ := steady_cell s hl
  refine crash_new_replace num bp s0 s _ t o key D pre post r0 hf hL hm hs hk (by omega) hro hev
    hc hpk hrk (by rw [hrl, hDl]) hroom1 ?_ ?_ hW
  · intro i hi
    rw [w2, hcell, if_neg (by omega), if_neg (by omega), if_pos ⟨by omega, by omega⟩]
    congr 1
    omega
  · intro x hx hout
    rw [w1, hcell, if_neg (by omega), if_neg (by omega), if_neg (by omega), v1]

/-- A cut in the third step of a set that has appended its record. -/
theorem crash_clear_append (num : Nat) (bp : Nat → pdbstore_bank_params_t) (s0 s t : Store)
    (o : record_out) (log : List log_rec) (key data D : List Nat) (n j : Nat)
    (hf : fresh num bp s0) (hL : init_layout s0 num bp = (PDBSTORE_SUCCESS, t, o))
    (hm : mounted t s) (hs : steady s log)
    (hk : is_valid_key key = true) (hn : n ≤ 1024)
    (hD : D = buf_bytes s (data_buf.buf data) n) (hro : (ro_find s key).1 = none)
    (hev : aerase s AREA_INDEX_WRITABLE = 0 ∨ 16 < aerase s AREA_INDEX_WRITABLE)
    (hj : j ≤ 1048) (hnew : ∀ q, q ∈ log → q.key ≠ cstr key)
    (hfit : log_size log + (8 + strlen key + n) ≤ asize s AREA_INDEX_WRITABLE)
    (hroom2 : log_size log + (8 + strlen key + n) = asize s AREA_INDEX_WRITABLE ∨
      log_size log + (8 + strlen key + n) + 8 ≤ asize s AREA_INDEX_WRITABLE)
    (hS : rec_crc_ok (cut_clear (cut_append s key data n 1 (8 + strlen key + n)) j)
        AREA_INDEX_STAGING 0 →
      ∀ i, i < 8 + strlen key + n →
        acell (cut_clear (cut_append s key data n 1 (8 + strlen key + n)) j) AREA_INDEX_STAGING i =
          (rec_image s key D 1).getD i 0) :
    (pdbstore_init (cut_clear (cut_append s key data n 1 (8 + strlen key + n)) j) num bp).1 =
      PDBSTORE_SUCCESS ∧
    recovered_new num bp (cut_clear (cut_append s key data n 1 (8 + strlen key + n)) j) key D := by
  have hl := hs.lay
  obtain ⟨hk1, hk2⟩ := is_valid_key_strlen key hk
  have hDl : D.length = n := by rw [hD, buf_bytes_length]
  have hset : set_image s key data n 1 = rec_image s key D 1 := by unfold set_image; rw [hD]
  have hz := hl.st_size
  have hfso := hs.fso
  obtain ⟨hcW, hcellW⟩ := cut_append_spec s key data n 1 (8 + strlen key + n) hl hk2 hn (by omega)
  rw [hfso, hset] at hcellW
  obtain ⟨hc, hcell⟩ := cut_clear_spec s _ j hl hcW hj
  obtain ⟨T, hT⟩ : ∃ T, T = cut_clear (cut_append s key data n 1 (8 + strlen key + n)) j :=
    ⟨_, rfl⟩
  rw [← hT] at hc hcell hS ⊢
  obtain ⟨w1, w2⟩ := crash_cell hc hl
  obtain ⟨v1, v2⟩ := steady_cell s hl
  have hTl : layout T := layout_congr hl hc.bk hc.ar
  have hzT : asize T AREA_INDEX_WRITABLE = asize s AREA_INDEX_WRITABLE := by
    unfold asize
    rw [hc.ar]
  have he : aerase T AREA_INDEX_WRITABLE = aerase s AREA_INDEX_WRITABLE := by
    unfold aerase
    rw [hc.ar, hc.bk]
  have hev2 := (mounted_aerase num bp s0 s t o hf.params hL hm).1
  have hsame : ∀ x, x < asize s AREA_INDEX_WRITABLE →
      (x < log_size log ∨ log_size log + (8 + strlen key + n) ≤ x) →
      acell T AREA_INDEX_WRITABLE x = acell s AREA_INDEX_WRITABLE x := by
    intro x hx hout
    rw [w1, hcell, if_neg (by omega), hcellW, if_neg (by omega), if_neg (by omega), v1]
  refine crash_complete num bp s0 s T t o key D log [] hf hL hm hl hc hk (by omega) hro
    (fun h i hi => hS h i (by omega))
    (@log_at_congr s T hc.be hc.hb _ log 0 (fun x _ hx => hsame x (by omega) (Or.inl (by omega)))
      hs.cells)
    hs.recs hnew (by simp only [log_size]; omega) ?_ trivial
    (fun _ hq => absurd hq (List.not_mem_nil _)) ?_
  · intro i hi
    rw [w1, hcell, if_neg (by omega), hcellW, if_pos ⟨by omega, by omega⟩]
    congr 1
    omega
  · simp only [log_size, Nat.add_zero]
    intro hlt
    have := read_blank_tail T (log_size log + (8 + strlen key + D.length)) record_out_init hTl
      (by rw [he]; exact hev) (by rw [he]; exact hev2) (by rw [hzT, hDl]; exact hroom2) (by
        intro h8
        rw [hzT] at h8
        rw [hsame _ (by omega) (Or.inr (by omega)), he]
        exact hs.tail _ (by omega) (by omega))
    exact this (by rw [hzT]; exact hlt)

/-- A cut in the third step of a set that has replaced the record of the key. -/
theorem crash_clear_replace (num : Nat) (bp : Nat → pdbstore_bank_params_t) (s0 s t : Store)
    (o : record_out) (key data D : List Nat) (pre post : List log_rec) (r0 : log_rec) (n j : Nat)
    (hf : fresh num bp s0) (hL : init_layout s0 num bp = (PDBSTORE_SUCCESS, t, o))
    (hm : mounted t s) (hs : steady s (pre ++ r0 :: post))
    (hk : is_valid_key key = true) (hn : n ≤ 1024)
    (hD : D = buf_bytes s (data_buf.buf data) n) (hro : (ro_find s key).1 = none)
    (hev : aerase s AREA_INDEX_WRITABLE = 0 ∨ 16 < aerase s AREA_INDEX_WRITABLE)
    (hj : j ≤ 1048) (hpk : ∀ q, q ∈ pre → q.key ≠ cstr key)
    (hrk : r0.key = cstr key) (hrl : r0.data.length = n)
    (hroom1 : log_size (pre ++ r0 :: post) = asize s AREA_INDEX_WRITABLE ∨
      log_size (pre ++ r0 :: post) + 8 ≤ asize s AREA_INDEX_WRITABLE)
    (hS : rec_crc_ok (cut_clear (cut_program s key data n 1 (log_size pre) (5 + strlen key + n)) j)
        AREA_INDEX_STAGING 0 →
      ∀ i, i < 8 + strlen key + n →
        acell (cut_clear (cut_program s key data n 1 (log_size pre) (5 + strlen key + n)) j)
          AREA_INDEX_STAGING i = (rec_image s key D 1).getD i 0) :
    (pdbstore_init (cut_clear (cut_program s key data n 1 (log_size pre) (5 + strlen key + n)) j)
      num bp).1 = PDBSTORE_SUCCESS ∧
    recovered_new num bp
      (cut_clear (cut_program s key data n 1 (log_size pre) (5 + strlen key + n)) j) key D := by
  have hl := hs.lay
  obtain ⟨hk1, hk2⟩ := is_valid_key_strlen key hk
  have hDl : D.length = n := by rw [hD, buf_bytes_length]
  have hset : set_image s key data n 1 = rec_image s key D 1 := by unfold set_image; rw [hD]
  have hz := hl.st_size
  have hrs : strlen r0.key = strlen key := by rw [hrk, strlen_cstr]
  have hfit0 := steady_rec_fits s pre post r0 hs
  unfold log_rec_size at hfit0
  rw [hrs, hrl] at hfit0
  have hrz : log_rec_size r0 = 8 + strlen key + n := by
    unfold log_rec_size
    rw [hrs, hrl]
  have hsz : log_size (pre ++ r0 :: post) =
      log_size pre + (8 + strlen key + n) + log_size post := by
    rw [log_size_append]
    simp only [log_size]
    omega
  have hfit := hs.fits
  rw [hsz] at hfit hroom1
  have hcells := hs.cells
  rw [log_at_append] at hcells
  obtain ⟨c1, c2, c3⟩ := hcells
  rw [Nat.zero_add] at c2 c3
  rw [hrz] at c3
  obtain ⟨hcW, hcellW⟩ := cut_program_spec s key data n 1 (log_size pre) (5 + strlen key + n) hl
    hk2 hn (by omega) (le_refl _)
  rw [hset] at hcellW
  obtain ⟨hc, hcell⟩ := cut_clear_spec s _ j hl hcW hj
  obtain ⟨T, hT⟩ : ∃ T,
      T = cut_clear (cut_program s key data n 1 (log_size pre) (5 + strlen key + n)) j :=
    ⟨_, rfl⟩
  rw [← hT] at hc hcell hS ⊢
  obtain ⟨w1, w2⟩ := crash_cell hc hl
  obtain ⟨v1, v2⟩ := steady_cell s hl
  have hTl : layout T := layout_congr hl hc.bk hc.ar
  have hzT : asize T AREA_INDEX_WRITABLE = asize s AREA_INDEX_WRITABLE := by
    unfold asize
    rw [hc.ar]
  have he : aerase T AREA_INDEX_WRITABLE = aerase s AREA_INDEX_WRITABLE := by
    unfold aerase
    rw [hc.ar, hc.bk]
  have hev2 := (mounted_aerase num bp s0 s t o hf.params hL hm).1
  have hsame : ∀ x, x < asize s AREA_INDEX_WRITABLE →
      (x < log_size pre + 3 ∨ log_size pre + (8 + strlen key + n) ≤ x) →
      acell T AREA_INDEX_WRITABLE x = acell s AREA_INDEX_WRITABLE x := by
    intro x hx hout
    rw [w1, hcell, if_neg (by omega), hcellW, if_neg (by omega), if_neg (by omega),
      if_neg (by omega), v1]
  refine crash_complete num bp s0 s T t o key D pre post hf hL hm hl hc hk (by omega) hro
    (fun h i hi => hS h i (by omega))
    (@log_at_congr s T hc.be hc.hb _ pre 0 (fun x _ hx => hsame x (by omega) (Or.inl (by omega)))
      c1)
    (fun q hq => hs.recs q (by simp [hq])) hpk (by rw [hDl]; exact hfit) ?_
    (by
      rw [hDl]
      exact @log_at_congr s T hc.be hc.hb _ post _
        (fun x hx1 hx2 => hsame x (by omega) (Or.inr (by omega))) c3)
    (fun q hq => hs.recs q (by simp [hq])) ?_
  · intro i hi
    by_cases c : i < 3
    · rw [hsame _ (by omega) (Or.inl (by omega)), c2 i (by rw [hrz]; omega)]
      exact rec_image_hdr3 s key r0.key D r0.data 1 r0.flags hrs (by rw [hrl, hDl]) i c
    · rw [w1, hcell, if_neg (by omega), hcellW, if_pos ⟨by omega, by omega⟩,
        List.getD_eq_getElem?_getD, List.getElem?_drop, ← List.getD_eq_getElem?_getD]
      congr 1
      omega
  · rw [hDl]
    intro hlt
    have := read_blank_tail T (log_size pre + (8 + strlen key + n) + log_size post)
      record_out_init hTl (by rw [he]; exact hev) (by rw [he]; exact hev2)
      (by rw [hzT]; exact hroom1) (by
        intro h8
        rw [hzT] at h8
        rw [hsame _ (by omega) (Or.inr (by omega)), he]
        exact hs.tail _ (by rw [hsz]; omega) (by omega))
    exact this (by rw [hzT]; exact hlt)

/-- Claim C8 (amended): in an initialized state `s` of a store that was first mounted on a
fresh media, let a `pdbstore_set(key, data, n, RESILIENT)` with a valid key and `n <= 1024`
bytes lose power at any byte of its three steps (programming the staging area, writing the
writable area, erasing the staging area), leaving the state `T`. Let the erase value be 0 or
above 16, let the records not end 1 to 7 bytes before the end of the writable area (before
the call, and with the new record when it is appended), and let no torn record pass the CRC
check by accident: a record at the start of the staging area that passes it is the whole new
record, and a record at the offset of the key in the writable area that passes it has the
key bytes of the new record. Then `pdbstore_init` with the same bank parameters returns
success, and `pdbstore_get` of the key returns either what it returned before the call
(status and, with success, size and bytes) or success with the new size and bytes. -/
theorem resilient_set_crash (num : Nat) (bp : Nat → pdbstore_bank_params_t) (s0 s T : Store)
    (key data : List Nat) (n : Nat)
    (hf : fresh num bp s0) (hr : reachable num bp s0 s) (hi : s.initialized = true)
    (hk : is_valid_key key = true) (hn : n ≤ 1024) (hd : data.length = n)
    (hcut : set_cut s key data n PDBSTORE_RESILIENT_FLAG T)
    (hev : aerase s AREA_INDEX_WRITABLE = 0 ∨ 16 < aerase s AREA_INDEX_WRITABLE)
    (hroom1 : s.free_space_offset = asize s AREA_INDEX_WRITABLE ∨
      s.free_space_offset + 8 ≤ asize s AREA_INDEX_WRITABLE)
    (hroom2 : (find_record s key).ret = PDBSTORE_NOT_FOUND →
      s.free_space_offset + (8 + strlen key + n) = asize s AREA_INDEX_WRITABLE ∨
      s.free_space_offset + (8 + strlen key + n) + 8 ≤ asize s AREA_INDEX_WRITABLE)
    (hS : rec_crc_ok T AREA_INDEX_STAGING 0 → ∀ i, i < 8 + strlen key + n →
      acell T AREA_INDEX_STAGING i =
        (set_image s key data n PDBSTORE_RESILIENT_FLAG).getD i 0)
    (hW : rec_crc_ok T AREA_INDEX_WRITABLE (find_record s key).offset →
      ∀ i, 8 ≤ i → i < 8 + strlen key →
        acell T AREA_INDEX_WRITABLE ((find_record s key).offset + i) =
          (set_image s key data n PDBSTORE_RESILIENT_FLAG).getD i 0) :
    (pdbstore_init T num bp).1 = PDBSTORE_SUCCESS ∧
    (((pdbstore_get (pdbstore_init T num bp).2 key).1 = (pdbstore_get s key).1 ∧
        ((pdbstore_get s key).1 = PDBSTORE_SUCCESS →
          (pdbstore_get (pdbstore_init T num bp).2 key).2.2 = (pdbstore_get s key).2.2 ∧
          mem_read (pdbstore_init T num bp).2
              (pdbstore_get (pdbstore_init T num bp).2 key).2.1.bank
              (pdbstore_get (pdbstore_init T num bp).2 key).2.1.addr
              (pdbstore_get (pdbstore_init T num bp).2 key).2.2 =
            mem_read s (pdbstore_get s key).2.1.bank (pdbstore_get s key).2.1.addr
              (pdbstore_get s key).2.2)) ∨
      ((pdbstore_get (pdbstore_init T num bp).2 key).1 = PDBSTORE_SUCCESS ∧
        (pdbstore_get (pdbstore_init T num bp).2 key).2.2 = n ∧
        mem_read (pdbstore_init T num bp).2
          (pdbstore_get (pdbstore_init T num bp).2 key).2.1.bank
          (pdbstore_get (pdbstore_init T num bp).2 key).2.1.addr n = data)) := by
  obtain ⟨t, o, log, hL, hm, hs, hfs⟩ := reachable_inv num bp s0 s hf hr
  have hfso := hfs hi
  have e : ({ s with free_space_offset := log_size log } : Store) = s := by
    rw [← hfso]
  rw [e] at hs
  have hD : data = buf_bytes s (data_buf.buf data) n := (buf_bytes_buf s data n hd).symm
  have hset : set_image s key data n PDBSTORE_RESILIENT_FLAG = rec_image s key data 1 := by
    unfold set_image
    rw [← hD]
    rfl
  rw [hset] at hS hW
  rw [hfso] at hroom1 hroom2
  have hrost := ro_find_status num bp s0 s t o key hf.params hL hm
  have key_new : ∀ X : Store, (pdbstore_init X num bp).1 = PDBSTORE_SUCCESS ∧
      recovered_new num bp X key data →
      (pdbstore_init X num bp).1 = PDBSTORE_SUCCESS ∧
      (recovered_old num bp s X key ∨ recovered_new num bp X key data) :=
    fun X h => ⟨h.1, Or.inr h.2⟩
  have fin : (pdbstore_init T num bp).1 = PDBSTORE_SUCCESS ∧
      (recovered_old num bp s T key ∨ recovered_new num bp T key data) := by
    unfold set_cut at hcut
    cases htg : do_set_target s key (data_buf.buf data) n PDBSTORE_RESILIENT_FLAG with
    | error err =>
      rw [htg] at hcut
      exact hcut.elim
    | ok v =>
      obtain ⟨rc, d, m, off⟩ := v
      rw [htg] at hcut
      simp only [] at hcut
      obtain ⟨hro, hoff, hcase⟩ := set_target_cases s log key data n rc d m off hs hk hn hrost htg
      rw [← hoff] at hW
      rcases hcase with ⟨hrc, hnew, hoffl, hfit⟩ | ⟨hrc, pre, r0, post, hlog, hpk, hrk, hrl, hoffp⟩
      · -- the record is appended
        have hnf : (find_record s key).ret = PDBSTORE_NOT_FOUND := by
          rcases find_record_steady s log key hs hro with ⟨p1, r1, q1, e1, _, e3, _⟩ | ⟨_, out', e4⟩
          · exact absurd e3 (hnew r1 (by rw [e1]; simp))
          · rw [e4]
        have hroom2 := hroom2 hnf
        subst hrc
        rw [hoffl] at hW
        rcases hcut with ⟨j, hj, hT⟩ | ⟨_, j, hj, hT⟩ | ⟨hh, _⟩ | ⟨hh, _⟩ | ⟨_, j, hj, hT⟩ | ⟨hh, _⟩
        · subst hT
          exact crash_stage num bp s0 s t o log key data data n j hf hL hm hs hi hk hn hD hro hev hj
            hroom1 (Or.inl ⟨hnew, hfit, hroom2, hW⟩) hS
        · subst hT
          exact key_new _ (crash_append num bp s0 s t o log key data data n j hf hL hm hs hk hn hD
            hro hev hj hnew hfit hroom2 hW)
        · exact absurd hh (by decide)
        · exact absurd hh (by decide)
        · subst hT
          exact key_new _ (crash_clear_append num bp s0 s t o log key data data n j hf hL hm hs hk
            hn hD hro hev hj hnew hfit hroom2 hS)
        · exact absurd hh (by decide)
      · -- the record of the key is replaced
        subst hrc
        subst hlog
        rw [hoffp] at hW hcut
        rcases hcut with ⟨j, hj, hT⟩ | ⟨hh, _⟩ | ⟨_, j, hj, hT⟩ | ⟨_, j, hj, hT⟩ | ⟨hh, _⟩ |
          ⟨_, j, hj, hT⟩
        · subst hT
          exact crash_stage num bp s0 s t o _ key data data n j hf hL hm hs hi hk hn hD hro hev hj
            hroom1 (Or.inr ⟨pre, r0, post, rfl, hpk, hrk, hrl, hW⟩) hS
        · exact absurd hh (by decide)
        · subst hT
          exact key_new _ (crash_erase num bp s0 s t o key data data pre post r0 n j hf hL hm hs hk
            hn hD hro hev hj hpk hrk hrl hroom1 hW)
        · subst hT
          exact key_new _ (crash_program num bp s0 s t o key data data pre post r0 n j hf hL hm hs
            hk hn hD hro hev hj hpk hrk hrl hroom1 hW)
        · exact absurd hh (by decide)
        · subst hT
          exact key_new _ (crash_clear_replace num bp s0 s t o key data data pre post r0 n j hf hL
            hm hs hk hn hD hro hev hj hpk hrk hrl hroom1 hS)
  unfold recovered_old recovered_new at fin
  rw [hd] at fin
  exact fin

/-- In `tight_store_ab` a resilient `pdbstore_set("a", {7, 8, 9}, 3, RESILIENT)` that loses
power in the second step, after the erase of the old record and with 2 bytes programmed
again, is recovered: `pdbstore_init` returns success and `pdbstore_get("a")` returns the old
or the new value. -/
theorem resilient_set_crash_witness :
    (pdbstore_init (cut_program tight_store_ab [97] [7, 8, 9] 3 1 0 2) 1
      (fun _ => tight_bank)).1 = PDBSTORE_SUCCESS ∧
    (((pdbstore_get (pdbstore_init (cut_program tight_store_ab [97] [7, 8, 9] 3 1 0 2) 1
          (fun _ => tight_bank)).2 [97]).1 = (pdbstore_get tight_store_ab [97]).1 ∧
        ((pdbstore_get tight_store_ab [97]).1 = PDBSTORE_SUCCESS →
          (pdbstore_get (pdbstore_init (cut_program tight_store_ab [97] [7, 8, 9] 3 1 0 2) 1
            (fun _ => tight_bank)).2 [97]).2.2 = (pdbstore_get tight_store_ab [97]).2.2 ∧
          mem_read (pdbstore_init (cut_program tight_store_ab [97] [7, 8, 9] 3 1 0 2) 1
              (fun _ => tight_bank)).2
              (pdbstore_get (pdbstore_init (cut_program tight_store_ab [97] [7, 8, 9] 3 1 0 2) 1
                (fun _ => tight_bank)).2 [97]).2.1.bank
              (pdbstore_get (pdbstore_init (cut_program tight_store_ab [97] [7, 8, 9] 3 1 0 2) 1
                (fun _ => tight_bank)).2 [97]).2.1.addr
              (pdbstore_get (pdbstore_init (cut_program tight_store_ab [97] [7, 8, 9] 3 1 0 2) 1
                (fun _ => tight_bank)).2 [97]).2.2 =
            mem_read tight_store_ab (pdbstore_get tight_store_ab [97]).2.1.bank
              (pdbstore_get tight_store_ab [97]).2.1.addr (pdbstore_get tight_store_ab [97]).2.2)) ∨
      ((pdbstore_get (pdbstore_init (cut_program tight_store_ab [97] [7, 8, 9] 3 1 0 2) 1
          (fun _ => tight_bank)).2 [97]).1 = PDBSTORE_SUCCESS ∧
        (pdbstore_get (pdbstore_init (cut_program tight_store_ab [97] [7, 8, 9] 3 1 0 2) 1
          (fun _ => tight_bank)).2 [97]).2.2 = 3 ∧
        mem_read (pdbstore_init (cut_program tight_store_ab [97] [7, 8, 9] 3 1 0 2) 1
          (fun _ => tight_bank)).2
          (pdbstore_get (pdbstore_init (cut_program tight_store_ab [97] [7, 8, 9] 3 1 0 2) 1
            (fun _ => tight_bank)).2 [97]).2.1.bank
          (pdbstore_get (pdbstore_init (cut_program tight_store_ab [97] [7, 8, 9] 3 1 0 2) 1
            (fun _ => tight_bank)).2 [97]).2.1.addr 3 = [7, 8, 9])) := by
  have hf : ((find_record tight_store_ab [97]).ret = PDBSTORE_SUCCESS ∧
      (find_record tight_store_ab [97]).area = some AREA_INDEX_WRITABLE ∧
      (find_record tight_store_ab [97]).out.actual_data_size = 3 ∧
      (find_record tight_store_ab [97]).offset = 0) ∧
      tight_store_ab.initialized = true ∧
      16 < aerase tight_store_ab AREA_INDEX_WRITABLE ∧
      tight_store_ab.free_space_offset + 8 ≤ asize tight_store_ab AREA_INDEX_WRITABLE ∧
      ¬ (find_record tight_store_ab [97]).ret = PDBSTORE_NOT_FOUND ∧
      (∀ i, i < 8 + strlen [97] + 3 →
        acell (cut_program tight_store_ab [97] [7, 8, 9] 3 1 0 2) AREA_INDEX_STAGING i =
          (set_image tight_store_ab [97] [7, 8, 9] 3 PDBSTORE_RESILIENT_FLAG).getD i 0) ∧
      ¬ rec_crc_ok (cut_program tight_store_ab [97] [7, 8, 9] 3 1 0 2) AREA_INDEX_WRITABLE
        (find_record tight_store_ab [97]).offset := by
    decide!
  obtain ⟨⟨h1, h2, h3, h4⟩, f1, f2, f3, f4, f5, f6⟩ := hf
  have htg : do_set_target tight_store_ab [97] (data_buf.buf [7, 8, 9]) 3 PDBSTORE_RESILIENT_FLAG =
      Except.ok (true, data_buf.buf [7, 8, 9], 3, 0) := by
    unfold do_set_target
    simp only []
    rw [if_pos h1, h2, h3, h4, if_neg (by decide), if_neg (by decide), if_neg (by decide)]
  exact resilient_set_crash 1 (fun _ => tight_bank) tight_media tight_store_ab
    (cut_program tight_store_ab [97] [7, 8, 9] 3 1 0 2) [97] [7, 8, 9] 3 tight_fresh
    (reachable.step _ _
      (reachable.step _ _ tight_reachable (op_step.set tight_store [97] [1, 2, 3] 3 0))
      (op_step.set _ [98] [4, 5, 6] 3 0))
    f1 (by decide) (by decide) rfl
    (by
      unfold set_cut
      rw [htg]
      exact Or.inr (Or.inr (Or.inr (Or.inl ⟨rfl, 2, by decide, rfl⟩))))
    (Or.inr f2) (Or.inr f3) (fun h => absurd h f4)
    (fun _ => f5) (fun h => absurd h f6)

/-- Claim C8 as stated fails when a torn staged record passes the CRC check. In `tight_store`
the key `"a"` is not set. A `pdbstore_set("a", d, 8, RESILIENT)` with
`d = {0xFF, 0xFF, 0xFF, 0xBE, 0xF9, 0x8E, 0x24, 0xFE}` that loses power in the first step
after 12 of the 17 bytes of the record leaves the header, the key and three data bytes in
the staging area, the other five data bytes blank; these 17 bytes have the CRC of the whole
record. `pdbstore_init` returns success and takes the staged record over, and
`pdbstore_get("a")` returns success with the 8 bytes `0xFF`: neither not-found, the old
state, nor the new value `d`. -/
theorem torn_staging_third_state :
    set_cut tight_store [97] [255, 255, 255, 190, 249, 142, 36, 254] 8 PDBSTORE_RESILIENT_FLAG
      (cut_stage tight_store [97] [255, 255, 255, 190, 249, 142, 36, 254] 8 1 12) ∧
    (pdbstore_get tight_store [97]).1 = PDBSTORE_NOT_FOUND ∧
    (pdbstore_init (cut_stage tight_store [97] [255, 255, 255, 190, 249, 142, 36, 254] 8 1 12) 1
      (fun _ => tight_bank)).1 = PDBSTORE_SUCCESS ∧
    (pdbstore_get (pdbstore_init (cut_stage tight_store [97] [255, 255, 255, 190, 249, 142, 36, 254]
      8 1 12) 1 (fun _ => tight_bank)).2 [97]).1 = PDBSTORE_SUCCESS ∧
    (pdbstore_get (pdbstore_init (cut_stage tight_store [97] [255, 255, 255, 190, 249, 142, 36, 254]
      8 1 12) 1 (fun _ => tight_bank)).2 [97]).2.2 = 8 ∧
    mem_read (pdbstore_init (cut_stage tight_store [97] [255, 255, 255, 190, 249, 142, 36, 254]
        8 1 12) 1 (fun _ => tight_bank)).2
      (pdbstore_get (pdbstore_init (cut_stage tight_store [97]
        [255, 255, 255, 190, 249, 142, 36, 254] 8 1 12) 1 (fun _ => tight_bank)).2 [97]).2.1.bank
      (pdbstore_get (pdbstore_init (cut_stage tight_store [97]
        [255, 255, 255, 190, 249, 142, 36, 254] 8 1 12) 1 (fun _ => tight_bank)).2 [97]).2.1.addr
      8 = [255, 255, 255, 255, 255, 255, 255, 255] := by
  have htg : do_set_target tight_store [97]
      (data_buf.buf [255, 255, 255, 190, 249, 142, 36, 254]) 8 PDBSTORE_RESILIENT_FLAG =
      Except.ok (false, data_buf.buf [255, 255, 255, 190, 249, 142, 36, 254], 8, 0) := by
    have hf : (find_record tight_store [97]).ret = PDBSTORE_NOT_FOUND ∧
        tight_store.free_space_offset = 0 ∧
        (tight_store.area_params AREA_INDEX_WRITABLE).size = 1048 := by
      decide!
    obtain ⟨h1, h2, h3⟩ := hf
    unfold do_set_target
    simp only []
    rw [h1, h2, h3, if_neg (by decide), if_pos rfl, if_neg (by decide), if_neg (by decide)]
  refine ⟨?_, by decide!⟩
  unfold set_cut
  rw [htg]
  exact Or.inl ⟨12, by decide, rfl⟩

/-- The key buffer of `read_record`: no index above `PDBSTORE_MAX_KEY_SIZE` is assigned. -/
theorem read_record_key_writes_le (s : Store) (area : area_index_e) (offset : Nat) (ck : Bool)
    (i : Nat) (h : i ∈ read_record_key_writes s area offset ck) : i ≤ PDBSTORE_MAX_KEY_SIZE := by
  unfold read_record_key_writes at h
  simp only [] at h
  split_ifs at h with h1 h2 h3 h4 h5 h6
  all_goals first
    | (simp at h; done)
    | (simp only [List.mem_append, List.mem_range, List.mem_singleton] at h
       push_neg at h3
       omega)

/-- The key buffer of `read_record`: when the function returns success with `copy_key`, it
has assigned the indices `0` to `key_size`, the last one with the NUL, where `key_size` is
the length of the key it read. -/
theorem read_record_key_writes_success (s : Store) (area : area_index_e) (offset : Nat)
    (o : record_out) (h : (read_record s area offset true o).1 = PDBSTORE_SUCCESS) :
    read_record_key_writes s area offset true =
      List.range ((read_record s area offset true o).2.key.length + 1) := by
  unfold read_record at h
  unfold read_record read_record_key_writes
  simp only [] at h ⊢
  split_ifs at h ⊢ with h1 h2 h3 h4 h5 h6
  · exact absurd h h2
  · have hl : ∀ n, (read_area s area (u32 (offset + sizeof_header)) n).1 = PDBSTORE_SUCCESS →
        (read_area s area (u32 (offset + sizeof_header)) n).2.length = n := by
      intro n hn
      unfold read_area at hn ⊢
      split_ifs at hn ⊢ with hc
      simp [mem_read]
    rw [hl _ (not_not.mp h5), List.range_succ]

/-- Claim C33, refuted on the code: the key of sixteen bytes `max_key` is valid, and
`pdbstore_set(max_key, {1}, 1, 0)` on the freshly mounted `tight_store` succeeds. A
following `pdbstore_get(max_key)` succeeds, `find_record` finding the record at offset 0 of
the writable area, through `read_record` with `copy_key`, which returns success there. The
record passes the size validation with `key_size = 16`, and `read_record` assigns the
indices 0 to 16 of the caller's key buffer: the terminating NUL goes to index
16 = `PDBSTORE_MAX_KEY_SIZE`, which is not below the 16 elements the buffer has. -/
theorem max_key_nul_past_buffer :
    is_valid_key max_key = true ∧
    (pdbstore_set tight_store max_key [1] 1 0).1 = PDBSTORE_SUCCESS ∧
    (pdbstore_get max_key_store max_key).1 = PDBSTORE_SUCCESS ∧
    (find_record max_key_store max_key).area = some AREA_INDEX_WRITABLE ∧
    (find_record max_key_store max_key).offset = 0 ∧
    (read_record max_key_store AREA_INDEX_WRITABLE 0 true record_out_init).1 = PDBSTORE_SUCCESS ∧
    hdr_key_size max_key_store AREA_INDEX_WRITABLE 0 = 16 ∧
    read_record_key_writes max_key_store AREA_INDEX_WRITABLE 0 true = List.range 17 ∧
    key_buffer_size = 16 ∧
    ¬ (∀ i, i ∈ read_record_key_writes max_key_store AREA_INDEX_WRITABLE 0 true →
      i < key_buffer_size) := by
  decide!

/-- The master record in a state with the layout of the first mount: `find_record` looks at
it first, `read_record` accepts it, and a key that compares equal to its key is found at
offset 0 of the read-only area. -/
theorem ro_find_master (num : Nat) (bp : Nat → pdbstore_bank_params_t) (s0 s t : Store)
    (o : record_out) (key : List Nat) (hbp : bp_ok num bp)
    (hL : init_layout s0 num bp = (PDBSTORE_SUCCESS, t, o)) (hm : mounted t s)
    (hk : cstr (rec_key s AREA_INDEX_READONLY 0) = cstr key) :
    ro_find s key = (some PDBSTORE_SUCCESS,
      { key := rec_key s AREA_INDEX_READONLY 0,
        data_ptr := { bank := (s.area_params AREA_INDEX_READONLY).bank, addr := abase s AREA_INDEX_READONLY + (0 + 8 + hdr_key_size s AREA_INDEX_READONLY 0) },
        actual_data_size := hdr_data_size s AREA_INDEX_READONLY 0,
        totally_corrupt := false,
        flags := hdr_flags s AREA_INDEX_READONLY 0,
        next_offset := rec_next s AREA_INDEX_READONLY 0 }, 0) := by
  have h0 : (0 : Nat) < num := by have := hbp.1; omega
  obtain ⟨b1, b2, b3⟩ := hbp.2 0 h0
  obtain ⟨u, hr, u1, u2, u3, u4, u5, u6, u7, u8⟩ := init_readonly_area_spec s0 num bp hbp.1
  obtain ⟨hsc, ha⟩ := init_layout_parts s0 num bp t u o hr hL
  obtain ⟨hl, t1, t2, t3, t4, t5, t6, t7, t8, _⟩ := init_layout_spec s0 num bp t o hbp hL
  have hnw : area_nowrap u AREA_INDEX_READONLY := by
    unfold area_nowrap abase asize
    rw [u3, u2]
    simp only [h0, if_true]
    omega
  have hua : (u.area_params AREA_INDEX_READONLY).address = 0 := by rw [u3]
  have hsnw : area_nowrap s AREA_INDEX_READONLY := by
    have := hl.ro_nowrap
    unfold area_nowrap abase asize at this ⊢
    rw [hm.ar, hm.bk]
    exact this
  have hsa : (s.area_params AREA_INDEX_READONLY).address = 0 := by rw [hm.ar, t8]
  have hN : asize s AREA_INDEX_READONLY = o.next_offset := by
    unfold asize
    rw [hm.ar, t8]
  have hcell : ∀ x, x < o.next_offset →
      acell s AREA_INDEX_READONLY x = acell u AREA_INDEX_READONLY x := by
    intro x hx
    rw [hm.ro x (by unfold asize; rw [t8]; exact hx)]
    unfold acell abase
    rw [t8, u3, t1, u4, t7, u2]
  have hsc0 := hsc
  unfold init_readonly_scan at hsc
  simp only at hsc
  have c : (read_record u AREA_INDEX_READONLY 0 false record_out_init).1 = PDBSTORE_SUCCESS := by
    by_contra c
    rw [if_pos c] at hsc
    exact c (Prod.mk.inj hsc).1
  rw [if_neg (by simpa using c)] at hsc
  obtain ⟨c1, c2, c3, c4, _, c6⟩ :=
    read_record_success_conds u AREA_INDEX_READONLY 0 false record_out_init hnw (Nat.zero_le _) c
  have hn : (read_record u AREA_INDEX_READONLY 0 false record_out_init).2.next_offset =
      rec_next u AREA_INDEX_READONLY 0 := by
    rw [read_record_eq_nokey u _ 0 record_out_init hnw (Nat.zero_le _), if_neg c1, if_neg c2,
      if_neg c3, if_neg c4]
  have hb : rec_next u AREA_INDEX_READONLY 0 ≤ asize u AREA_INDEX_READONLY := by
    rw [hua] at c4; omega
  obtain ⟨_, i2, _⟩ := init_readonly_loop_congr (same_cfg_refl u) hnw hua _ _ _ o rfl
    (by rw [hn]; exact hb) hsc (fun _ _ => rfl)
  rw [hn] at i2
  have hq : 0 + 8 < rec_next u AREA_INDEX_READONLY 0 := by
    unfold rec_next
    have : hdr_key_size u AREA_INDEX_READONLY 0 ≠ 0 := fun h => c3 (Or.inl h)
    omega
  obtain ⟨k, d, f, n, ky, dt, cr⟩ := @rec_fields_cells u s (by rw [hm.be, t3, u5])
    (by rw [hm.hb, t2, u6]) AREA_INDEX_READONLY 0 (fun x _ hx => hcell x (by omega))
  have hrr : read_record s AREA_INDEX_READONLY 0 true record_out_init = (PDBSTORE_SUCCESS,
      { key := rec_key s AREA_INDEX_READONLY 0,
        data_ptr := { bank := (s.area_params AREA_INDEX_READONLY).bank, addr := abase s AREA_INDEX_READONLY + (0 + 8 + hdr_key_size s AREA_INDEX_READONLY 0) },
        actual_data_size := hdr_data_size s AREA_INDEX_READONLY 0,
        totally_corrupt := false,
        flags := hdr_flags s AREA_INDEX_READONLY 0,
        next_offset := rec_next s AREA_INDEX_READONLY 0 }) := by
    rw [read_record_eq s _ 0 record_out_init hsnw (Nat.zero_le _), hsa, hN,
      if_neg (by omega), if_neg (by omega), if_neg (by rw [k, d]; exact c3),
      if_neg (by rw [n]; omega),
      if_neg (by
        unfold rec_next at i2
        rw [k]
        omega), if_pos (cr.mpr c6)]
  unfold ro_find
  rw [find_record_loop_succ, if_neg (by
    have : (s.area_params AREA_INDEX_READONLY).size = o.next_offset := hN
    rw [this]
    omega), if_neg (by simp), hrr, if_neg (by simp), if_pos hk]

/-- Claim C32 (amended): in an initialized state of a store that was first mounted on a
fresh media and whose read-only area starts with a master record of key `"PDBS"`,
`find_record("PDBS")` returns success for the master record at offset 0 of the read-only
area; `pdbstore_get("PDBS")` returns the pointer to the data of the master record behind
its 12 bytes of header and key, its data size, which is at least 2, and its data bytes, with
success unless the master record carries the delete flag (then not-found);
`pdbstore_set("PDBS", d, n, f)` returns key-is-readonly for `n <= 1024` and `f` in
`{0, RESILIENT}` and invalid-argument for `n > 1024`, `pdbstore_remove("PDBS")` returns
key-is-readonly, and each of them leaves the whole state as it was. -/
theorem master_record_is_readonly_key (num : Nat) (bp : Nat → pdbstore_bank_params_t)
    (s0 s : Store) (hf : fresh num bp s0) (hr : reachable num bp s0 s)
    (hi : s.initialized = true)
    (hk : rec_key s AREA_INDEX_READONLY 0 = demo_master_key) :
    (find_record s demo_master_key).ret = PDBSTORE_SUCCESS ∧
    (find_record s demo_master_key).area = some AREA_INDEX_READONLY ∧
    (find_record s demo_master_key).offset = 0 ∧
    (pdbstore_get s demo_master_key).1 =
      (if hdr_flags s AREA_INDEX_READONLY 0 &&& DELETE_FLAG ≠ 0 then PDBSTORE_NOT_FOUND
        else PDBSTORE_SUCCESS) ∧
    (pdbstore_get s demo_master_key).2.1 = { bank := 0, addr := (bp 0).start_offset + 12 } ∧
    (pdbstore_get s demo_master_key).2.2 = hdr_data_size s AREA_INDEX_READONLY 0 ∧
    2 ≤ hdr_data_size s AREA_INDEX_READONLY 0 ∧
    mem_read s 0 ((bp 0).start_offset + 12) (hdr_data_size s AREA_INDEX_READONLY 0) =
      rec_data s AREA_INDEX_READONLY 0 ∧
    (∀ data n f, n ≤ 1024 → f = 0 ∨ f = 1 →
      pdbstore_set s demo_master_key data n f = (PDBSTORE_KEY_IS_READONLY, s)) ∧
    (∀ data n f, 1024 < n →
      pdbstore_set s demo_master_key data n f = (PDBSTORE_INVALID_ARGUMENT, s)) ∧
    pdbstore_remove s demo_master_key = (PDBSTORE_KEY_IS_READONLY, s) := by
  obtain ⟨t, o, log, hL, hm, hs, hfs⟩ := reachable_inv num bp s0 s hf hr
  have hbp := hf.params
  have h0 : (0 : Nat) < num := by have := hbp.1; omega
  obtain ⟨hl, t1, t2, t3, t4, t5, t6, t7, t8, _, _, _, t12⟩ :=
    init_layout_spec s0 num bp t o hbp hL
  have hvk : is_valid_key demo_master_key = true := by decide
  have hro := ro_find_master num bp s0 s t o demo_master_key hbp hL hm (by rw [hk])
  have hro1 : (ro_find s demo_master_key).1 = some PDBSTORE_SUCCESS := by rw [hro]
  have e1 := find_record_ro s demo_master_key _ hro1
  rw [hro] at e1
  simp only at e1
  have hks : hdr_key_size s AREA_INDEX_READONLY 0 = 4 := by
    have := congrArg List.length hk
    unfold rec_key at this
    simpa [demo_master_key] using this
  have hbank : (s.area_params AREA_INDEX_READONLY).bank = 0 := by rw [hm.ar, t8]
  have hbase : abase s AREA_INDEX_READONLY = (bp 0).start_offset := by
    unfold abase
    rw [hm.ar, t8, hm.bk, t7]
    simp only [h0, if_true, Nat.add_zero]
  have hg := get_eq_find s demo_master_key hvk hi
  have hds : 2 ≤ hdr_data_size s AREA_INDEX_READONLY 0 := by
    have h1 := hf.master
    rw [hL] at h1
    have c0 := hm.ro 0 (by unfold asize; rw [t8]; show 0 < o.next_offset; omega)
    have c1 := hm.ro 1 (by unfold asize; rw [t8]; show 1 < o.next_offset; omega)
    unfold hdr_data_size at h1 ⊢
    rw [Nat.zero_add] at h1 ⊢
    rw [c0, c1, hm.be, hm.hb]
    exact h1
  refine ⟨by rw [e1], by rw [e1], by rw [e1], ?_, ?_, ?_, hds, ?_, ?_, ?_, ?_⟩
  · rw [hg, e1]
    simp only [ne_eq, not_true_eq_false, if_false]
  · rw [hg, e1]
    simp only
    rw [hbank, hbase, hks]
  · rw [hg, e1]
  · unfold mem_read rec_data acell
    rw [hks, hbank, hbase]
    apply List.map_congr_left
    intro i _
    rw [Nat.add_assoc]
  · intro data n f hn hfl
    rw [set_eq_do_set s demo_master_key data n f hfl,
      do_set_ro s demo_master_key _ n f _ hi hvk hn hro1]
    simp
  · intro data n f hn
    unfold pdbstore_set
    by_cases c : f &&& (0xFFFFFFFF ^^^ SUPPORTED_USER_FLAGS) ≠ 0
    · rw [if_pos c]
    · rw [if_neg c]
      unfold pdbstore_do_set
      rw [if_pos (Or.inr (by unfold PDBSTORE_MAX_DATA_SIZE; omega))]
  · unfold pdbstore_remove
    rw [do_set_ro s demo_master_key _ 0 DELETE_FLAG _ hi hvk (by omega) hro1]
    simp

theorem master_record_is_readonly_key_witness :
    tight_store.initialized = true ∧
    rec_key tight_store AREA_INDEX_READONLY 0 = demo_master_key ∧
    (pdbstore_get tight_store demo_master_key).1 =
      (if hdr_flags tight_store AREA_INDEX_READONLY 0 &&& DELETE_FLAG ≠ 0 then PDBSTORE_NOT_FOUND
        else PDBSTORE_SUCCESS) ∧
    (pdbstore_get tight_store demo_master_key).2.2 = hdr_data_size tight_store AREA_INDEX_READONLY 0 ∧
    (∀ data n f, n ≤ 1024 → f = 0 ∨ f = 1 →
      pdbstore_set tight_store demo_master_key data n f = (PDBSTORE_KEY_IS_READONLY, tight_store)) ∧
    pdbstore_remove tight_store demo_master_key = (PDBSTORE_KEY_IS_READONLY, tight_store) := by
  have hf : tight_store.initialized = true ∧
      rec_key tight_store AREA_INDEX_READONLY 0 = demo_master_key := by
    decide!
  obtain ⟨hi, hk⟩ := hf
  have h := master_record_is_readonly_key 1 (fun _ => tight_bank) tight_media tight_store tight_fresh
    tight_reachable hi hk
  exact ⟨hi, hk, h.2.2.2.1, h.2.2.2.2.2.1, h.2.2.2.2.2.2.2.2.1, h.2.2.2.2.2.2.2.2.2.2⟩

/-- Claim C32 as stated fails in two ways. On `deleted_master_media` the master record has
the key `"PDBS"` and the delete flag; `pdbstore_init` succeeds, and `pdbstore_get("PDBS")`
returns not-found, not success. On the freshly mounted `tight_store`
`pdbstore_set("PDBS", d, 1025, 0)` returns invalid-argument, not key-is-readonly: the size
is checked before the lookup. -/
theorem deleted_master_not_found :
    rec_key (pdbstore_init deleted_master_media 1 (fun _ => tight_bank)).2 AREA_INDEX_READONLY 0 =
      demo_master_key ∧
    (pdbstore_init deleted_master_media 1 (fun _ => tight_bank)).1 = PDBSTORE_SUCCESS ∧
    (pdbstore_init deleted_master_media 1 (fun _ => tight_bank)).2.initialized = true ∧
    (pdbstore_get (pdbstore_init deleted_master_media 1 (fun _ => tight_bank)).2
      demo_master_key).1 = PDBSTORE_NOT_FOUND ∧
    (pdbstore_init tight_media 1 (fun _ => tight_bank)).1 = PDBSTORE_SUCCESS ∧
    rec_key tight_store AREA_INDEX_READONLY 0 = demo_master_key ∧
    (pdbstore_set tight_store demo_master_key (List.replicate 1025 0) 1025 0).1 =
      PDBSTORE_INVALID_ARGUMENT := by
  decide!

/-- The store `straddle_store`: the mount of `straddle_media` succeeds, the record at offset
1033 is accepted although it ends behind the writable area, and `free_space_offset` is set
behind it; `pdbstore_get("a")` returns the record; the resilient `pdbstore_set` of `"a"`
returns media-full with the record programmed into the staging area; afterwards the key is
corrupt, because the first byte of the staging area was the last byte of its record. -/
theorem straddle_facts :
    ((pdbstore_init straddle_media 1 (fun _ => tight_bank)).1 = PDBSTORE_SUCCESS ∧
      straddle_store.initialized = true ∧
      asize straddle_store AREA_INDEX_WRITABLE = 1048 ∧
      abase straddle_store AREA_INDEX_WRITABLE = 14 ∧
      abase straddle_store AREA_INDEX_STAGING = 1062 ∧
      straddle_store.free_space_offset = 1049 ∧
      (∀ x, x < 16 → acell straddle_store AREA_INDEX_STAGING x = 255)) ∧
    (is_valid_key [97] = true ∧
      (pdbstore_get straddle_store [97]).1 = PDBSTORE_SUCCESS ∧
      (find_record straddle_store [97]).area = some AREA_INDEX_WRITABLE ∧
      (find_record straddle_store [97]).offset = 1033 ∧
      (find_record straddle_store [97]).out.actual_data_size = 7) ∧
    ((pdbstore_set straddle_store [97] [9, 9, 9, 9, 9, 9, 9] 7 PDBSTORE_RESILIENT_FLAG).1 =
        PDBSTORE_MEDIA_FULL ∧
      (List.range 16).map (acell
        (pdbstore_set straddle_store [97] [9, 9, 9, 9, 9, 9, 9] 7 PDBSTORE_RESILIENT_FLAG).2
        AREA_INDEX_STAGING) = rec_image straddle_store [97] [9, 9, 9, 9, 9, 9, 9] 1) ∧
    ((pdbstore_get
        (pdbstore_set straddle_store [97] [9, 9, 9, 9, 9, 9, 9] 7 PDBSTORE_RESILIENT_FLAG).2
        [97]).1 = PDBSTORE_DATA_CORRUPT ∧
      acell (pdbstore_set straddle_store [97] [9, 9, 9, 9, 9, 9, 9] 7 PDBSTORE_RESILIENT_FLAG).2
        AREA_INDEX_STAGING 2 = 1) := by
  decide!

/-- Claim C31, refuted on the code: on `straddle_media`, whose last record ends one byte
behind the writable area with the byte 255 in the blank staging area, `pdbstore_init`
succeeds, with the writable area of 1048 bytes at address 14, the staging area at address
1062 and `free_space_offset = 1049`; the first 16 bytes of the staging area are blank, and
`pdbstore_get("a")` returns success from the record at offset 1033. Then
`pdbstore_set("a", {9, 9, 9, 9, 9, 9, 9}, 7, RESILIENT)` returns media-full, and it has
programmed the 16 bytes of the new record into the staging area: the state is not the one
before the call, and `pdbstore_get("a")` now returns data-corrupt. -/
theorem media_full_after_staging_write :
    (pdbstore_init straddle_media 1 (fun _ => tight_bank)).1 = PDBSTORE_SUCCESS ∧
    straddle_store.initialized = true ∧
    asize straddle_store AREA_INDEX_WRITABLE = 1048 ∧
    abase straddle_store AREA_INDEX_WRITABLE = 14 ∧
    abase straddle_store AREA_INDEX_STAGING = 1062 ∧
    straddle_store.free_space_offset = 1049 ∧
    (∀ x, x < 16 → acell straddle_store AREA_INDEX_STAGING x = 255) ∧
    is_valid_key [97] = true ∧
    (pdbstore_get straddle_store [97]).1 = PDBSTORE_SUCCESS ∧
    (find_record straddle_store [97]).area = some AREA_INDEX_WRITABLE ∧
    (find_record straddle_store [97]).offset = 1033 ∧
    (find_record straddle_store [97]).out.actual_data_size = 7 ∧
    (pdbstore_set straddle_store [97] [9, 9, 9, 9, 9, 9, 9] 7 PDBSTORE_RESILIENT_FLAG).1 =
      PDBSTORE_MEDIA_FULL ∧
    (List.range 16).map (acell
      (pdbstore_set straddle_store [97] [9, 9, 9, 9, 9, 9, 9] 7 PDBSTORE_RESILIENT_FLAG).2
      AREA_INDEX_STAGING) = rec_image straddle_store [97] [9, 9, 9, 9, 9, 9, 9] 1 ∧
    (pdbstore_set straddle_store [97] [9, 9, 9, 9, 9, 9, 9] 7 PDBSTORE_RESILIENT_FLAG).2 ≠
      straddle_store ∧
    (pdbstore_get
      (pdbstore_set straddle_store [97] [9, 9, 9, 9, 9, 9, 9] 7 PDBSTORE_RESILIENT_FLAG).2
      [97]).1 = PDBSTORE_DATA_CORRUPT := by
  obtain ⟨⟨m1, m2, m3, m4, m5, m6, m7⟩, ⟨l1, l2, l3, l4, l5⟩, ⟨s1, s2⟩, a1, a2⟩ :=
    straddle_facts
  refine ⟨m1, m2, m3, m4, m5, m6, m7, l1, l2, l3, l4, l5, s1, s2, ?_, a1⟩
  intro h
  rw [h, m7 2 (by omega)] at a2
  exact absurd a2 (by decide)

theorem erase_area_status (s : Store) (a : area_index_e) (o n : Nat) :
    erase_area s a o n = (PDBSTORE_WRITE_ERROR, s) ∨ (erase_area s a o n).1 = PDBSTORE_SUCCESS := by
  unfold erase_area
  simp only []
  split
  · exact Or.inl rfl
  · exact Or.inr rfl

theorem reset_area_status (s : Store) (a : area_index_e) (o : Nat) :
    (reset_area s a o).1 = PDBSTORE_SUCCESS ∨ (reset_area s a o).1 = PDBSTORE_READ_ERROR ∨
    (reset_area s a o).1 = PDBSTORE_WRITE_ERROR := by
  have hra : ∀ x n, (read_area s a x n).1 = PDBSTORE_SUCCESS ∨
      (read_area s a x n).1 = PDBSTORE_READ_ERROR := by
    intro x n; unfold read_area; split <;> simp
  have hsc : ∀ (fuel x n : Nat), (reset_area_scan s a fuel x n).1 = PDBSTORE_SUCCESS ∨
      (reset_area_scan s a fuel x n).1 = PDBSTORE_READ_ERROR := by
    intro fuel
    induction fuel with
    | zero => intro x n; left; rfl
    | succ f ih =>
      intro x n
      rw [reset_area_scan]
      simp only []
      split_ifs with h1 h2 h3
      · left; rfl
      · exact (hra _ _).elim (fun h => absurd h h2) Or.inr
      · left; rfl
      · exact ih _ _
  unfold reset_area
  simp only []
  split_ifs with h1 h2
  · exact (hsc _ _ _).elim (fun h => absurd h h1) (fun h => Or.inr (Or.inl h))
  · left; rfl
  · rcases erase_area_status s a o (u32 ((s.area_params a).size + 4294967296 - o)) with h | h
    · rw [h]; right; right; rfl
    · left; exact h

/-- The statuses of `pdbstore_write_record`: success, write-error, or media-full; with
media-full the record does not fit at the offset and nothing was written. -/
theorem write_record_status (s : Store) (a : area_index_e) (key : List Nat) (data : data_buf)
    (n flags o nx : Nat) (rc : Bool) :
    (pdbstore_write_record s a key data n flags o nx rc).1 = PDBSTORE_SUCCESS ∨
    (pdbstore_write_record s a key data n flags o nx rc).1 = PDBSTORE_WRITE_ERROR ∨
    ((pdbstore_write_record s a key data n flags o nx rc).1 = PDBSTORE_MEDIA_FULL ∧
      (pdbstore_write_record s a key data n flags o nx rc).2.1 = s ∧
      u32 (o + record_size key n) > (s.area_params a).size) := by
  unfold pdbstore_write_record
  simp only []
  by_cases c0 : u32 (o + record_size key n) > (s.area_params a).size
  · rw [if_pos c0]
    exact Or.inr (Or.inr ⟨rfl, rfl, c0⟩)
  rw [if_neg c0]
  have hw : ∀ (s1 : Store) (x y : Nat) (buf : List Nat),
      (write_area s1 a x y buf).1 = PDBSTORE_SUCCESS ∨
      (write_area s1 a x y buf).1 = PDBSTORE_WRITE_ERROR := by
    intro s1 x y buf
    rcases write_area_cases s1 a x y buf with h | h <;> rw [h] <;> simp
  obtain ⟨re, hre⟩ : ∃ re, re = (if rc = true then
      erase_area s a (if rc = true then u32 (o + if rc = true then offsetof_flags else 0) else o)
        (u32 (record_size key n + 4294967296 - if rc = true then offsetof_flags else 0))
      else (PDBSTORE_SUCCESS, s)) := ⟨_, rfl⟩
  have he : re.1 = PDBSTORE_SUCCESS ∨ re.1 = PDBSTORE_WRITE_ERROR := by
    rw [hre]
    split_ifs
    · rcases erase_area_status s a (u32 (o + offsetof_flags))
        (u32 (record_size key n + 4294967296 - offsetof_flags)) with h | h
      · rw [h]; right; rfl
      · left; exact h
    · left; rfl
  rw [← hre]
  clear hre
  by_cases c1 : re.1 ≠ PDBSTORE_SUCCESS
  · rw [if_pos c1]
    exact Or.inr (Or.inl (he.resolve_left c1))
  rw [if_neg c1]
  split_ifs with h1 h2 h3
  all_goals first
    | exact Or.inl rfl
    | exact (hw _ _ _ _).elim Or.inl (fun h => Or.inr (Or.inl h))

/-- The last step of the writing part of `pdbstore_do_set`, the clearing of the staging area,
does not return media-full. -/
theorem commit_tail_status (R : PDBSTORE_status_e × Store) (Q : Store → Prop)
    (hst : R.1 = PDBSTORE_SUCCESS ∨ R.1 = PDBSTORE_READ_ERROR ∨ R.1 = PDBSTORE_WRITE_ERROR) :
    (if R.1 ≠ PDBSTORE_SUCCESS then (R.1, R.2) else (PDBSTORE_SUCCESS, R.2)).1 = PDBSTORE_SUCCESS ∨
    (if R.1 ≠ PDBSTORE_SUCCESS then (R.1, R.2) else (PDBSTORE_SUCCESS, R.2)).1 = PDBSTORE_WRITE_ERROR ∨
    (if R.1 ≠ PDBSTORE_SUCCESS then (R.1, R.2) else (PDBSTORE_SUCCESS, R.2)).1 = PDBSTORE_READ_ERROR ∨
    ((if R.1 ≠ PDBSTORE_SUCCESS then (R.1, R.2) else (PDBSTORE_SUCCESS, R.2)).1 = PDBSTORE_MEDIA_FULL ∧
      Q (if R.1 ≠ PDBSTORE_SUCCESS then (R.1, R.2) else (PDBSTORE_SUCCESS, R.2)).2) := by
  by_cases hz : R.1 ≠ PDBSTORE_SUCCESS
  · rw [if_pos hz]
    rcases hst with r | r | r
    · exact absurd r hz
    · exact Or.inr (Or.inr (Or.inl r))
    · exact Or.inr (Or.inl r)
  · rw [if_neg hz]
    exact Or.inl rfl

/-- The statuses of the writing part of `pdbstore_do_set`: success, write-error,
read-error, or media-full. With media-full either nothing was written, or the resilient
flag is set, the staging area was written, and the record does not fit at its offset in the
writable area. -/
theorem do_set_commit_status (s : Store) (key : List Nat) (d : data_buf) (m flags off : Nat)
    (rc : Bool) :
    (do_set_commit s key d m flags off rc).1 = PDBSTORE_SUCCESS ∨
    (do_set_commit s key d m flags off rc).1 = PDBSTORE_WRITE_ERROR ∨
    (do_set_commit s key d m flags off rc).1 = PDBSTORE_READ_ERROR ∨
    ((do_set_commit s key d m flags off rc).1 = PDBSTORE_MEDIA_FULL ∧
      ((do_set_commit s key d m flags off rc).2 = s ∨
        (flags &&& PDBSTORE_RESILIENT_FLAG ≠ 0 ∧
          u32 (off + record_size key m) > (s.area_params AREA_INDEX_WRITABLE).size))) := by
  unfold do_set_commit
  simp only []
  obtain ⟨r1, hr1⟩ : ∃ r1, r1 = (if flags &&& PDBSTORE_RESILIENT_FLAG ≠ 0 then
      pdbstore_write_record s AREA_INDEX_STAGING key d m flags 0 0 false
    else (PDBSTORE_SUCCESS, s, 0)) := ⟨_, rfl⟩
  have f1 : r1.2.1.area_params = s.area_params ∧
      (¬ flags &&& PDBSTORE_RESILIENT_FLAG ≠ 0 → r1.2.1 = s) ∧
      (r1.1 = PDBSTORE_SUCCESS ∨ r1.1 = PDBSTORE_WRITE_ERROR ∨
        (r1.1 = PDBSTORE_MEDIA_FULL ∧ r1.2.1 = s)) := by
    rw [hr1]
    by_cases cf : flags &&& PDBSTORE_RESILIENT_FLAG ≠ 0
    · rw [if_pos cf]
      refine ⟨(write_record_cfg s AREA_INDEX_STAGING key d m flags 0 0 false).2.2.1,
        fun h => absurd cf h, ?_⟩
      rcases write_record_status s AREA_INDEX_STAGING key d m flags 0 0 false with
        h | h | ⟨h1, h2, _⟩
      · exact Or.inl h
      · exact Or.inr (Or.inl h)
      · exact Or.inr (Or.inr ⟨h1, h2⟩)
    · rw [if_neg cf]
      exact ⟨rfl, fun _ => rfl, Or.inl rfl⟩
  rw [← hr1]
  clear hr1
  obtain ⟨r2, hr2⟩ : ∃ r2, r2 = pdbstore_write_record r1.2.1 AREA_INDEX_WRITABLE key d m flags off
      r1.2.2 rc := ⟨_, rfl⟩
  have f2 : r2.1 = PDBSTORE_SUCCESS ∨ r2.1 = PDBSTORE_WRITE_ERROR ∨
      (r2.1 = PDBSTORE_MEDIA_FULL ∧ r2.2.1 = r1.2.1 ∧
        u32 (off + record_size key m) > (s.area_params AREA_INDEX_WRITABLE).size) := by
    rw [hr2, ← f1.1]
    exact write_record_status r1.2.1 AREA_INDEX_WRITABLE key d m flags off r1.2.2 rc
  rw [← hr2]
  clear hr2
  generalize hR : reset_area _ AREA_INDEX_STAGING 0 = R
  have hst : R.1 = PDBSTORE_SUCCESS ∨ R.1 = PDBSTORE_READ_ERROR ∨
      R.1 = PDBSTORE_WRITE_ERROR := by
    rw [← hR]
    exact reset_area_status _ _ _
  clear hR
  obtain ⟨g1, g2, g3⟩ := f1
  by_cases c1 : r1.1 ≠ PDBSTORE_SUCCESS
  · rw [if_pos c1]
    rcases g3 with h | h | ⟨h1, h2⟩
    · exact absurd h c1
    · exact Or.inr (Or.inl h)
    · exact Or.inr (Or.inr (Or.inr ⟨h1, Or.inl h2⟩))
  rw [if_neg c1]
  by_cases c2 : r2.1 ≠ PDBSTORE_SUCCESS
  · rw [if_pos c2]
    rcases f2 with h | h | ⟨h1, h2, h3⟩
    · exact absurd h c2
    · exact Or.inr (Or.inl h)
    · refine Or.inr (Or.inr (Or.inr ⟨h1, ?_⟩))
      by_cases cf : flags &&& PDBSTORE_RESILIENT_FLAG ≠ 0
      · exact Or.inr ⟨cf, h3⟩
      · exact Or.inl (h2.trans (g2 cf))
  rw [if_neg c2]
  by_cases cf : flags &&& PDBSTORE_RESILIENT_FLAG ≠ 0
  · rw [if_pos cf]
    exact commit_tail_status R (fun x => x = s ∨ (flags &&& PDBSTORE_RESILIENT_FLAG ≠ 0 ∧
      u32 (off + record_size key m) > (s.area_params AREA_INDEX_WRITABLE).size)) hst
  · rw [if_neg cf]
    exact Or.inl rfl

/-- A failed `pdbstore_do_set`: with invalid-argument, not-initialized, key-is-readonly or
not-found the state is the one before the call. With media-full it is so too, unless the
resilient flag is set and the record to write does not fit at the offset that was found for
it in the writable area. -/
theorem do_set_failed (s : Store) (key : List Nat) (data : data_buf) (n flags : Nat) :
    ((pdbstore_do_set s key data n flags).1 = PDBSTORE_INVALID_ARGUMENT ∨
      (pdbstore_do_set s key data n flags).1 = PDBSTORE_NOT_INITIALIZED ∨
      (pdbstore_do_set s key data n flags).1 = PDBSTORE_KEY_IS_READONLY ∨
      (pdbstore_do_set s key data n flags).1 = PDBSTORE_NOT_FOUND →
      (pdbstore_do_set s key data n flags).2 = s) ∧
    ((pdbstore_do_set s key data n flags).1 = PDBSTORE_MEDIA_FULL →
      (pdbstore_do_set s key data n flags).2 = s ∨
      (flags &&& PDBSTORE_RESILIENT_FLAG ≠ 0 ∧ is_valid_key key = true ∧ n ≤ 1024 ∧
        ∃ rc d m off, do_set_target s key data n flags = Except.ok (rc, d, m, off) ∧
          u32 (off + record_size key m) > (s.area_params AREA_INDEX_WRITABLE).size)) := by
  by_cases ca : is_valid_key key = false ∨ n > PDBSTORE_MAX_DATA_SIZE
  · have e : pdbstore_do_set s key data n flags = (PDBSTORE_INVALID_ARGUMENT, s) := by
      unfold pdbstore_do_set
      rw [if_pos ca]
    rw [e]
    exact ⟨fun _ => rfl, fun _ => Or.inl rfl⟩
  by_cases ci : s.initialized = false
  · have e : pdbstore_do_set s key data n flags = (PDBSTORE_NOT_INITIALIZED, s) := by
      unfold pdbstore_do_set
      rw [if_neg ca, if_pos ci]
    rw [e]
    exact ⟨fun _ => rfl, fun _ => Or.inl rfl⟩
  have hk : is_valid_key key = true := by
    cases h : is_valid_key key
    · exact absurd (Or.inl h) ca
    · rfl
  have hn : n ≤ 1024 := by
    unfold PDBSTORE_MAX_DATA_SIZE at ca
    by_contra c
    exact ca (Or.inr (by omega))
  have hi : s.initialized = true := by
    cases h : s.initialized
    · exact absurd h ci
    · rfl
  cases ht : do_set_target s key data n flags with
  | error ret =>
    rw [do_set_of_target_error s key data n flags ret hi hk hn ht]
    exact ⟨fun _ => rfl, fun _ => Or.inl rfl⟩
  | ok v =>
    obtain ⟨rc, d, m, off⟩ := v
    rw [do_set_of_target_ok s key data n flags rc d m off hi hk hn ht]
    rcases do_set_commit_status s key d m flags off rc with h | h | h | ⟨h1, h2⟩
    · refine ⟨fun c => ?_, fun c => ?_⟩
      · rw [h] at c
        simp at c
      · rw [h] at c
        simp at c
    · refine ⟨fun c => ?_, fun c => ?_⟩
      · rw [h] at c
        simp at c
      · rw [h] at c
        simp at c
    · refine ⟨fun c => ?_, fun c => ?_⟩
      · rw [h] at c
        simp at c
      · rw [h] at c
        simp at c
    · refine ⟨fun c => ?_, fun _ => ?_⟩
      · rw [h1] at c
        simp at c
      · rcases h2 with h2 | ⟨h2, h3⟩
        · exact Or.inl h2
        · exact Or.inr ⟨h2, hk, hn, rc, d, m, off, rfl, h3⟩

/-- In the steady state the record that `pdbstore_do_set` goes on to write fits at its
offset in the writable area: an appended record by the test against `free_space_offset`,
a replaced record because the record it replaces has a key and data of the same size. -/
theorem set_target_fits (s : Store) (log : List log_rec) (key : List Nat) (data : data_buf)
    (n flags : Nat) (rc : Bool) (d : data_buf) (m off : Nat) (hs : steady s log)
    (hk : is_valid_key key = true)
    (h : do_set_target s key data n flags = Except.ok (rc, d, m, off)) :
    ¬ u32 (off + record_size key m) > (s.area_params AREA_INDEX_WRITABLE).size := by
  obtain ⟨hk1, hk2⟩ := is_valid_key_strlen key hk
  have hz : asize s AREA_INDEX_WRITABLE ≤ 1073741824 := by
    have := hs.lay.wr_ok
    unfold area_ok at this
    omega
  unfold do_set_target at h
  simp only [] at h
  cases hro : (ro_find s key).1 with
  | some ret =>
    exfalso
    rw [find_record_ro s key ret hro] at h
    simp only at h
    rcases find_record_loop_status s key AREA_INDEX_READONLY _ _ _ ret hro with c | c | c | c
    all_goals
      subst c
      simp at h
  | none =>
    rcases find_record_steady s log key hs hro with ⟨pre, r, post, e1, e2, e3, e4⟩ | ⟨e1, out', e4⟩
    · rw [e4] at h
      simp only [if_true] at h
      rw [if_neg (by simp)] at h
      have hm : m = r.data.length ∧ off = log_size pre := by
        by_cases cd : flags &&& DELETE_FLAG ≠ 0
        · rw [if_pos cd] at h
          have hh := Except.ok.inj h
          exact ⟨(Prod.mk.inj (Prod.mk.inj (Prod.mk.inj hh).2).2).1.symm,
            (Prod.mk.inj (Prod.mk.inj (Prod.mk.inj hh).2).2).2.symm⟩
        · rw [if_neg cd] at h
          by_cases c : n ≠ (found_out s pre r).actual_data_size
          · rw [if_pos c] at h
            exact absurd h (by simp)
          · rw [if_neg c] at h
            have hh := Except.ok.inj h
            have h3 : n = m := (Prod.mk.inj (Prod.mk.inj (Prod.mk.inj hh).2).2).1
            have h4 : log_size pre = off := (Prod.mk.inj (Prod.mk.inj (Prod.mk.inj hh).2).2).2
            have h5 : n = r.data.length := by
              by_contra cc
              exact c cc
            exact ⟨by rw [← h3, h5], h4.symm⟩
      have hf := steady_rec_fits s pre post r (by rw [← e1]; exact hs)
      have hr := hs.recs r (by rw [e1]; simp)
      unfold log_rec_size at hf
      rw [e3, strlen_cstr] at hf
      unfold asize at hf hz
      rw [hm.1, hm.2, record_size_eq key _ hk2 hr.2.2.2.1, u32_of_lt (by omega)]
      omega
    · rw [e4] at h
      simp only [] at h
      rw [if_neg (show ¬ (PDBSTORE_NOT_FOUND = PDBSTORE_SUCCESS) by decide), if_pos trivial] at h
      by_cases cd : flags &&& DELETE_FLAG ≠ 0
      · rw [if_pos cd] at h
        exact absurd h (by simp)
      · rw [if_neg cd] at h
        by_cases c : u32 (s.free_space_offset + record_size key n) >
            (s.area_params AREA_INDEX_WRITABLE).size
        · rw [if_pos c] at h
          exact absurd h (by simp)
        · rw [if_neg c] at h
          have hh := Except.ok.inj h
          have h3 : n = m := (Prod.mk.inj (Prod.mk.inj (Prod.mk.inj hh).2).2).1
          have h4 : s.free_space_offset = off :=
            (Prod.mk.inj (Prod.mk.inj (Prod.mk.inj hh).2).2).2
          rw [← h3, ← h4]
          exact c

/-- The part of claim C31 that holds in every state: a `pdbstore_set` that returns
invalid-argument, not-initialized, key-is-readonly or not-found leaves the whole state, so
every byte of every bank, `free_space_offset` and the initialized flag, as it was, and so
does one that returns media-full when the resilient flag is not set or the store is in the
steady state; a `pdbstore_remove` that returns one of the five statuses leaves the state as
it was. -/
theorem failed_mutation_leaves_state (s : Store) (key data : List Nat) (n flags : Nat) :
    ((pdbstore_set s key data n flags).1 = PDBSTORE_INVALID_ARGUMENT ∨
      (pdbstore_set s key data n flags).1 = PDBSTORE_NOT_INITIALIZED ∨
      (pdbstore_set s key data n flags).1 = PDBSTORE_KEY_IS_READONLY ∨
      (pdbstore_set s key data n flags).1 = PDBSTORE_NOT_FOUND →
      (pdbstore_set s key data n flags).2 = s) ∧
    ((pdbstore_set s key data n flags).1 = PDBSTORE_MEDIA_FULL →
      (¬ flags &&& PDBSTORE_RESILIENT_FLAG ≠ 0 ∨ ∃ log, steady s log) →
      (pdbstore_set s key data n flags).2 = s) ∧
    ((pdbstore_remove s key).1 = PDBSTORE_INVALID_ARGUMENT ∨
      (pdbstore_remove s key).1 = PDBSTORE_NOT_INITIALIZED ∨
      (pdbstore_remove s key).1 = PDBSTORE_KEY_IS_READONLY ∨
      (pdbstore_remove s key).1 = PDBSTORE_NOT_FOUND ∨
      (pdbstore_remove s key).1 = PDBSTORE_MEDIA_FULL →
      (pdbstore_remove s key).2 = s) := by
  refine ⟨?_, ?_, ?_⟩
  · unfold pdbstore_set
    by_cases cf : flags &&& (0xFFFFFFFF ^^^ SUPPORTED_USER_FLAGS) ≠ 0
    · rw [if_pos cf]
      exact fun _ => rfl
    · rw [if_neg cf]
      exact (do_set_failed s key (data_buf.buf data) n flags).1
  · unfold pdbstore_set
    by_cases cf : flags &&& (0xFFFFFFFF ^^^ SUPPORTED_USER_FLAGS) ≠ 0
    · rw [if_pos cf]
      exact fun _ _ => rfl
    · rw [if_neg cf]
      intro hmf hcase
      rcases (do_set_failed s key (data_buf.buf data) n flags).2 hmf with
        h | ⟨h1, hk, _, rc, d, m, off, ht, hgt⟩
      · exact h
      · rcases hcase with hc | ⟨log, hs⟩
        · exact absurd h1 hc
        · exact absurd hgt (set_target_fits s log key _ n flags rc d m off hs hk ht)
  · unfold pdbstore_remove
    intro hst
    rcases hst with h | h | h | h | h
    · exact (do_set_failed s key (data_buf.buf []) 0 DELETE_FLAG).1 (Or.inl h)
    · exact (do_set_failed s key (data_buf.buf []) 0 DELETE_FLAG).1 (Or.inr (Or.inl h))
    · exact (do_set_failed s key (data_buf.buf []) 0 DELETE_FLAG).1 (Or.inr (Or.inr (Or.inl h)))
    · exact (do_set_failed s key (data_buf.buf []) 0 DELETE_FLAG).1 (Or.inr (Or.inr (Or.inr h)))
    · rcases (do_set_failed s key (data_buf.buf []) 0 DELETE_FLAG).2 h with h2 | ⟨h1, _⟩
      · exact h2
      · exact absurd h1 (by decide)

/-- The replacement of a record with data that lies in a bank, outside the record:
`pdbstore_write_record` with `replace_current = true`, for a key of 1 to 16 bytes and a
pointer to `n <= 1024` bytes of a bank that do not overlap the record at the offset, behaves
as with data in the caller's buffer: the size fields and every byte outside
`[offset + 3, offset + 8 + key_size + data_size)` are unchanged, the bytes of that range are
those of the new record, and when the size fields on the media are those of the new record,
`read_record` at the offset returns success with the key, the flags and the data passed. -/
theorem replace_with_media_data (s : Store) (a : area_index_e) (key data : List Nat)
    (p : media_ptr) (n flags o nx : Nat) (out : record_out)
    (h : area_ok s a) (hk1 : 1 ≤ strlen key) (hk2 : strlen key ≤ 16) (hn : n ≤ 1024)
    (hfit : o + 8 + strlen key + n ≤ asize s a)
    (hdata : mem_read s p.bank p.addr n = data)
    (hout : p.bank ≠ (s.area_params a).bank ∨ p.addr + n ≤ abase s a + o ∨
      abase s a + (o + 8 + strlen key + n) ≤ p.addr) :
    (pdbstore_write_record s a key (data_buf.media p) n flags o nx true).1 = PDBSTORE_SUCCESS ∧
    (pdbstore_write_record s a key (data_buf.media p) n flags o nx true).2.2 =
      o + 8 + strlen key + n ∧
    same_cfg s (pdbstore_write_record s a key (data_buf.media p) n flags o nx true).2.1 ∧
    (∀ b y, ¬ (b = (s.area_params a).bank ∧ abase s a + (o + 3) ≤ y ∧
        y < abase s a + (o + 8 + strlen key + n)) →
      (pdbstore_write_record s a key (data_buf.media p) n flags o nx true).2.1.mem b y = s.mem b y) ∧
    (∀ i, i < 3 →
      acell (pdbstore_write_record s a key (data_buf.media p) n flags o nx true).2.1 a (o + i) =
        acell s a (o + i)) ∧
    (∀ i, 3 ≤ i → i < 8 + strlen key + n →
      acell (pdbstore_write_record s a key (data_buf.media p) n flags o nx true).2.1 a (o + i) =
        (rec_image s key data flags).getD i 0) ∧
    ((∀ i, i < 3 → acell s a (o + i) = (rec_image s key data flags).getD i 0) →
      read_record (pdbstore_write_record s a key (data_buf.media p) n flags o nx true).2.1 a o
          true out =
        (PDBSTORE_SUCCESS,
          { key := cstr key,
            data_ptr := { bank := (s.area_params a).bank, addr := abase s a + (o + 8 + strlen key) },
            actual_data_size := n,
            totally_corrupt := false,
            flags := flags % 256,
            next_offset := o + 8 + strlen key + n }) ∧
      mem_read (pdbstore_write_record s a key (data_buf.media p) n flags o nx true).2.1
        (s.area_params a).bank (abase s a + (o + 8 + strlen key)) n = data) := by
  have hd : data.length = n := by rw [← hdata]; simp [mem_read]
  have hw := write_record_replace s a key (data_buf.media p) n flags o nx data h hk1 hk2 hn hfit
    (fun s' _ hm => by
      rw [← hdata]
      show mem_read s' p.bank p.addr n = mem_read s p.bank p.addr n
      unfold mem_read
      apply List.map_congr_left
      intro i hi
      have hi2 : i < n := by simpa using hi
      rw [hm p.bank (p.addr + i) (by omega), wipe_mem, if_neg (by omega)])
  obtain ⟨P, hP⟩ : ∃ P : Store, P = poke s (s.area_params a).bank (abase s a + (o + 3))
      (5 + strlen key + n) ((rec_image s key data flags).drop 3) := ⟨_, rfl⟩
  rw [← hP] at hw
  rw [hw]
  have hc : same_cfg s P := by rw [hP]; exact same_cfg_poke _ _ _ _ _
  have hcell : ∀ i, acell P a (o + i) =
      if 3 ≤ i ∧ i < 8 + strlen key + n then (rec_image s key data flags).getD i 0
      else acell s a (o + i) := by
    intro i
    rw [hP, acell_poke]
    by_cases c : 3 ≤ i ∧ i < 8 + strlen key + n
    · rw [if_pos c, if_pos ⟨rfl, by omega, by omega⟩, List.getD_eq_getElem?_getD,
        List.getElem?_drop, ← List.getD_eq_getElem?_getD]
      congr 1
      omega
    · rw [if_neg c, if_neg (by omega)]
  refine ⟨rfl, rfl, hc, ?_, ?_, ?_, ?_⟩
  · intro b y hy
    show P.mem b y = s.mem b y
    rw [hP, poke_mem, if_neg (by omega)]
  · intro i hi
    show acell P a (o + i) = _
    rw [hcell, if_neg (by omega)]
  · intro i h1 h2
    show acell P a (o + i) = _
    rw [hcell, if_pos ⟨h1, h2⟩]
  · intro hsz
    show read_record P a o true out = _ ∧ mem_read P _ _ _ = _
    have hcells : ∀ i, i < 8 + strlen key + data.length →
        acell P a (o + i) = (rec_image P key data flags).getD i 0 := by
      intro i hi
      rw [hcell, rec_image_cfg hc.2.2.2.2.1 hc.2.2.2.2.2.2]
      by_cases c : 3 ≤ i
      · rw [if_pos ⟨c, by omega⟩]
      · rw [if_neg (by omega)]
        exact hsz i (by omega)
    have hr := read_record_log P a o { key := cstr key, data := data, flags := flags % 256 } out
      (area_ok_nowrap (same_cfg_area_ok hc a h))
      ⟨by rw [strlen_cstr]; exact hk1, by rw [strlen_cstr]; exact hk2, cstr_cstr key,
        by show data.length ≤ 1024; omega, Nat.mod_lt _ (by norm_num)⟩
      (by
        show o + (8 + strlen (cstr key) + data.length) ≤ asize P a
        rw [strlen_cstr, same_cfg_asize hc]
        omega)
      (by
        intro i hi
        have hi' : i < 8 + strlen key + data.length := by
          have : i < 8 + strlen (cstr key) + data.length := hi
          rw [strlen_cstr] at this
          exact this
        show acell P a (o + i) = (rec_image P (cstr key) data (flags % 256)).getD i 0
        rw [rec_image_norm]
        exact hcells i hi')
    have hdat := image_data_at P a o key data flags hk2 (by omega) hcells
    constructor
    · rw [hr]
      simp only [strlen_cstr, hd, hc.2.2.1, same_cfg_abase hc, log_rec_size]
      have e : o + (8 + strlen key + n) = o + 8 + strlen key + n := by omega
      rw [e]
    · rw [← hc.2.2.1, ← same_cfg_abase hc, ← hd]
      exact hdat

/-- The call of `pdbstore_write_record` that `pdbstore_remove("a")` makes in `tight_store_a`
and its result: the record of `"a"` is found at offset 0 of the writable area, and its data,
the 3 bytes `{1, 2, 3}` at address 23 of bank 0, is what `pdbstore_do_set` passes as `data`;
the size fields on the media are those of the record to write, which fits. The record that
the call leaves is valid, with the new flags and the erase value as data. -/
theorem replace_alias_facts :
    ((find_record tight_store_a [97]).ret = PDBSTORE_SUCCESS ∧
      (find_record tight_store_a [97]).area = some AREA_INDEX_WRITABLE ∧
      (find_record tight_store_a [97]).offset = 0 ∧
      (find_record tight_store_a [97]).out.data_ptr = { bank := 0, addr := 23 } ∧
      (find_record tight_store_a [97]).out.actual_data_size = 3 ∧
      buf_bytes tight_store_a (data_buf.media { bank := 0, addr := 23 }) 3 = [1, 2, 3] ∧
      (∀ i, i < 3 → acell tight_store_a AREA_INDEX_WRITABLE (0 + i) =
        (rec_image tight_store_a [97] [1, 2, 3] DELETE_FLAG).getD i 0) ∧
      0 + 8 + strlen [97] + 3 ≤ asize tight_store_a AREA_INDEX_WRITABLE) ∧
    (pdbstore_write_record tight_store_a AREA_INDEX_WRITABLE [97]
      (data_buf.media { bank := 0, addr := 23 }) 3 DELETE_FLAG 0 0 true).1 = PDBSTORE_SUCCESS ∧
    (pdbstore_write_record tight_store_a AREA_INDEX_WRITABLE [97]
      (data_buf.media { bank := 0, addr := 23 }) 3 DELETE_FLAG 0 0 true).2.2 = 12 ∧
    (read_record (pdbstore_write_record tight_store_a AREA_INDEX_WRITABLE [97]
      (data_buf.media { bank := 0, addr := 23 }) 3 DELETE_FLAG 0 0 true).2.1
      AREA_INDEX_WRITABLE 0 true record_out_init).1 = PDBSTORE_SUCCESS ∧
    (read_record (pdbstore_write_record tight_store_a AREA_INDEX_WRITABLE [97]
      (data_buf.media { bank := 0, addr := 23 }) 3 DELETE_FLAG 0 0 true).2.1
      AREA_INDEX_WRITABLE 0 true record_out_init).2.flags = DELETE_FLAG ∧
    (read_record (pdbstore_write_record tight_store_a AREA_INDEX_WRITABLE [97]
      (data_buf.media { bank := 0, addr := 23 }) 3 DELETE_FLAG 0 0 true).2.1
      AREA_INDEX_WRITABLE 0 true record_out_init).2.actual_data_size = 3 ∧
    (read_record (pdbstore_write_record tight_store_a AREA_INDEX_WRITABLE [97]
      (data_buf.media { bank := 0, addr := 23 }) 3 DELETE_FLAG 0 0 true).2.1
      AREA_INDEX_WRITABLE 0 true record_out_init).2.data_ptr = { bank := 0, addr := 23 } ∧
    mem_read (pdbstore_write_record tight_store_a AREA_INDEX_WRITABLE [97]
      (data_buf.media { bank := 0, addr := 23 }) 3 DELETE_FLAG 0 0 true).2.1 0 23 3 =
      [255, 255, 255] := by
  decide!

/-- Claim C22, refuted on the code for data that lies in the record to replace. In
`tight_store_a` the record of `"a"` lies at offset 0 of the writable area with the data
`{1, 2, 3}` at address 23 of bank 0, and `pdbstore_remove("a")` calls
`pdbstore_write_record(AREA_INDEX_WRITABLE, "a", data, 3, DELETE_FLAG, 0, ..., TRUE)` with
`data` pointing at address 23. The data passed is `{1, 2, 3}`, the size fields on the media
equal the new key and data sizes, and the record fits. The call returns success and
`next_offset = 12`, and `read_record` at offset 0 afterwards returns success with the new
flags and `data_size = 3`, but the data it returns, the bytes at address 23, is
`{255, 255, 255}` and not the data passed: the record is erased from the `flags` field on
before the CRC is computed over the data and before the data is programmed. -/
theorem replace_from_own_record_loses_data :
    (find_record tight_store_a [97]).ret = PDBSTORE_SUCCESS ∧
    (find_record tight_store_a [97]).area = some AREA_INDEX_WRITABLE ∧
    (find_record tight_store_a [97]).offset = 0 ∧
    (find_record tight_store_a [97]).out.data_ptr = { bank := 0, addr := 23 } ∧
    (find_record tight_store_a [97]).out.actual_data_size = 3 ∧
    buf_bytes tight_store_a (data_buf.media { bank := 0, addr := 23 }) 3 = [1, 2, 3] ∧
    (∀ i, i < 3 → acell tight_store_a AREA_INDEX_WRITABLE (0 + i) =
      (rec_image tight_store_a [97] [1, 2, 3] DELETE_FLAG).getD i 0) ∧
    0 + 8 + strlen [97] + 3 ≤ asize tight_store_a AREA_INDEX_WRITABLE ∧
    (pdbstore_write_record tight_store_a AREA_INDEX_WRITABLE [97]
      (data_buf.media { bank := 0, addr := 23 }) 3 DELETE_FLAG 0 0 true).1 = PDBSTORE_SUCCESS ∧
    (pdbstore_write_record tight_store_a AREA_INDEX_WRITABLE [97]
      (data_buf.media { bank := 0, addr := 23 }) 3 DELETE_FLAG 0 0 true).2.2 = 12 ∧
    (read_record (pdbstore_write_record tight_store_a AREA_INDEX_WRITABLE [97]
      (data_buf.media { bank := 0, addr := 23 }) 3 DELETE_FLAG 0 0 true).2.1
      AREA_INDEX_WRITABLE 0 true record_out_init).1 = PDBSTORE_SUCCESS ∧
    (read_record (pdbstore_write_record tight_store_a AREA_INDEX_WRITABLE [97]
      (data_buf.media { bank := 0, addr := 23 }) 3 DELETE_FLAG 0 0 true).2.1
      AREA_INDEX_WRITABLE 0 true record_out_init).2.flags = DELETE_FLAG ∧
    (read_record (pdbstore_write_record tight_store_a AREA_INDEX_WRITABLE [97]
      (data_buf.media { bank := 0, addr := 23 }) 3 DELETE_FLAG 0 0 true).2.1
      AREA_INDEX_WRITABLE 0 true record_out_init).2.actual_data_size = 3 ∧
    (read_record (pdbstore_write_record tight_store_a AREA_INDEX_WRITABLE [97]
      (data_buf.media { bank := 0, addr := 23 }) 3 DELETE_FLAG 0 0 true).2.1
      AREA_INDEX_WRITABLE 0 true record_out_init).2.data_ptr = { bank := 0, addr := 23 } ∧
    mem_read (pdbstore_write_record tight_store_a AREA_INDEX_WRITABLE [97]
      (data_buf.media { bank := 0, addr := 23 }) 3 DELETE_FLAG 0 0 true).2.1 0 23 3 =
      [255, 255, 255] ∧
    mem_read (pdbstore_write_record tight_store_a AREA_INDEX_WRITABLE [97]
      (data_buf.media { bank := 0, addr := 23 }) 3 DELETE_FLAG 0 0 true).2.1 0 23 3 ≠
      buf_bytes tight_store_a (data_buf.media { bank := 0, addr := 23 }) 3 := by
  obtain ⟨⟨c1, c2, c3, c4, c5, c6, c7, c8⟩, r1, r2, r3, r4, r5, r6, r7⟩ := replace_alias_facts
  refine ⟨c1, c2, c3, c4, c5, c6, c7, c8, r1, r2, r3, r4, r5, r6, r7, ?_⟩
  rw [r7, c6]
  decide

end PDBStore
